import Mathlib

/-!
# gdb C expression front end: scanners, lexers and parser

A shallow embedding of `src/gdb/c-exp.c`: the hand-written scanners
(`parse_number`, `c_parse_escape`, `parse_string_or_char`), the inner lexer
`lex_one_token` with its tables, the classification of names
(`classify_name`, `classify_inner_name`), the outer lexer `yylex`, the tables
and the driver of the generated parser `yyparse` with the actions of the
grammar rules, and `c_parse`; together with the properties the specification
states about them.

Conventions of the embedding

* A C string is a `List Char`, one character for each `char`; the terminating
  NUL is implicit, so reading the character at the end of the list yields the
  code 0.  A pointer into the string is the list of the characters from it on.
* `LONGEST`/`ULONGEST` are the host's 64-bit integers.  A `LONGEST` variable is
  kept as its 64-bit pattern (a natural number below `2 ^ 64`); `to_signed`
  gives the value a signed comparison sees.  Arithmetic wraps modulo `2 ^ 64`,
  which is what the overflow tests of `parse_number` rely on.
* `error (...)` unwinds the parse; it is the `Failure.error` outcome.
* The floating branch of `parse_number` depends on the external
  `parse_c_float` and `decimal_from_string`; only the token it returns is kept.
* The globals of the lexers and the parser are the fields of `State`, passed
  from call to call; the functions defined outside the file (symbol tables,
  macro expander, type constructors) are the fields of `Env`.
* A token is its number: a member of `enum yytokentype`, or the code of a
  single character, or 0 at the end of the input.
* The loops that `goto retry`, the loop of `yylex` and the loop of `yyparse`
  take a budget of iterations; `Failure.out_of_fuel` says that the budget was
  too small, never that the C code returned.
* The expression under construction is the list of the elements handed to the
  writers of `parse.c`, in the order of the calls.
-/

namespace Gdb

/-! ## Outcomes -/

/-- Ways a scanner can fail to return to its caller. -/
inductive Failure where
  /-- A call of `error (msg)`: the parse is unwound with this message. -/
  | error (msg : String)
  /-- The C code dereferences a pointer that has moved beyond the NUL terminator. -/
  | out_of_bounds
  /-- The iteration budget of a bounded loop of the embedding is used up. -/
  | out_of_fuel
  /-- The C code uses a value that is not defined: a null pointer it
  dereferences, an uninitialised variable, or the bytes of the union `YYSTYPE`
  read as a pointer to a type where a pointer to a symbol is stored (or the
  other way round). -/
  | undefined_value
deriving DecidableEq, Repr

/-- The message of `error (_("Numeric constant too large."))`. -/
def msg_too_large : String := "Numeric constant too large."

/-! ## Target configuration and types -/

/-- The types of `parse_type` that `parse_number` can attach to a literal. -/
inductive CType where
  | builtin_int
  | builtin_unsigned_int
  | builtin_long
  | builtin_unsigned_long
  | builtin_long_long
  | builtin_unsigned_long_long
  | builtin_decfloat
  | builtin_decdouble
  | builtin_declong
deriving DecidableEq, Repr

/-- The configuration `parse_number` consults: the ambient `input_radix`, the
target widths `gdbarch_int_bit`, `gdbarch_long_bit`, `gdbarch_long_long_bit`,
and the outcome of the external `parse_c_float` on a token text. -/
structure Config where
  input_radix : Nat
  int_bit : Nat
  long_bit : Nat
  long_long_bit : Nat
  parse_c_float : List Char → Bool

/-- Number of bits of the host types `LONGEST` and `ULONGEST`
(`sizeof (ULONGEST) * HOST_CHAR_BIT`). -/
def LONGEST_BIT : Nat := 64

/-- Value of a 64-bit pattern read as the signed type `LONGEST`. -/
def to_signed (x : Nat) : Int :=
  if x < 2 ^ 63 then (x : Int) else (x : Int) - 2 ^ 64

/-- Tokens `parse_number` returns, with the part of `yylval` it fills in.
`INT` carries `typed_val_int.val` (a signed `LONGEST`) and `typed_val_int.type`. -/
inductive NumToken where
  | INT (val : Int) (type : CType)
  | FLOAT
  | DECFLOAT (type : CType)
  | ERROR
deriving DecidableEq, Repr

/-! ## `parse_number` -/

/-- The character code at `p[k]`; the NUL terminator is read at the end. -/
def char_at (p : List Char) (k : Nat) : Nat :=
  (p.getD k (Char.ofNat 0)).toNat

/-- The local variables of the digit loop of `parse_number`. -/
structure NumState where
  n : Nat
  prevn : Nat
  i : Nat
  unsigned_p : Bool
  long_p : Nat
  found_suffix : Bool
deriving DecidableEq, Repr

/-- The locals as initialised at function entry. -/
def NumState.init : NumState :=
  { n := 0, prevn := 0, i := 0, unsigned_p := false, long_p := 0, found_suffix := false }

/-- Outcome of one iteration (or of the whole run) of the digit loop. -/
inductive Scan where
  /-- The loop goes on (or has finished) with these locals. -/
  | go (st : NumState)
  /-- The statement `return ERROR;` was reached. -/
  | ERROR
  /-- The call `error (msg)` was reached. -/
  | error (msg : String)
deriving DecidableEq, Repr

/-- The end of the loop body, from `if (i >= base)` to `prevn = n`; `c` is the
lower-cased character and `st` holds the updated `n`, `i` and suffix flags. -/
def scan_check (base c : Nat) (st : NumState) : Scan :=
  if st.i ≥ base then Scan.ERROR
  else
    let is_digit : Bool := decide (c ≠ 'l'.toNat ∧ c ≠ 'u'.toNat)
    let unsigned_p : Bool :=
      if is_digit ∧ to_signed st.prevn ≥ to_signed st.n ∧ st.n ≠ 0 then true
      else st.unsigned_p
    if is_digit ∧ st.n ≠ 0 ∧ unsigned_p = true ∧ st.prevn ≥ st.n then
      Scan.error msg_too_large
    else
      Scan.go { st with unsigned_p := unsigned_p, prevn := st.n }

/-- One iteration of `while (len-- > 0)` on the character code `c0 = *p++`. -/
def scan_step (base c0 : Nat) (st : NumState) : Scan :=
  let c := if 'A'.toNat ≤ c0 ∧ c0 ≤ 'Z'.toNat then c0 + ('a'.toNat - 'A'.toNat) else c0
  let n1 := if c ≠ 'l'.toNat ∧ c ≠ 'u'.toNat then (st.n * base) % 2 ^ 64 else st.n
  if '0'.toNat ≤ c ∧ c ≤ '9'.toNat then
    if st.found_suffix then Scan.ERROR
    else scan_check base c
      { st with n := (n1 + (c - '0'.toNat)) % 2 ^ 64, i := c - '0'.toNat }
  else if base > 10 ∧ 'a'.toNat ≤ c ∧ c ≤ 'f'.toNat then
    if st.found_suffix then Scan.ERROR
    else scan_check base c
      { st with n := (n1 + (c - 'a'.toNat + 10)) % 2 ^ 64, i := c - 'a'.toNat + 10 }
  else if c = 'l'.toNat then
    scan_check base c { st with n := n1, long_p := st.long_p + 1, found_suffix := true }
  else if c = 'u'.toNat then
    scan_check base c { st with n := n1, unsigned_p := true, found_suffix := true }
  else Scan.ERROR

/-- The loop `while (len-- > 0)` over the characters at `p`. -/
def scan_loop (base : Nat) : Nat → List Char → NumState → Scan
  | 0, _, st => Scan.go st
  | len + 1, p, st =>
    match scan_step base (char_at p 0) st with
    | Scan.go st1 => scan_loop base len p.tail st1
    | Scan.ERROR => Scan.ERROR
    | Scan.error msg => Scan.error msg

/-- The base-switching prefixes `0x`, `0b`, `0t`, `0d`, `0`: the new `p`,
`base` and `len`. -/
def radix_switch (input_radix : Nat) (p : List Char) (len : Nat) : List Char × Nat × Nat :=
  if char_at p 0 = '0'.toNat then
    let c1 := char_at p 1
    if c1 = 'x'.toNat ∨ c1 = 'X'.toNat then
      if len ≥ 3 then (p.drop 2, 16, len - 2) else (p, input_radix, len)
    else if c1 = 'b'.toNat ∨ c1 = 'B'.toNat then
      if len ≥ 3 then (p.drop 2, 2, len - 2) else (p, input_radix, len)
    else if c1 = 't'.toNat ∨ c1 = 'T'.toNat ∨ c1 = 'd'.toNat ∨ c1 = 'D'.toNat then
      if len ≥ 3 then (p.drop 2, 10, len - 2) else (p, input_radix, len)
    else (p, 8, len)
  else (p, input_radix, len)

/-- The type selection after the loop, from the final `n`, `long_p` and
`unsigned_p`: the pair of types whose width the value fits, then the signed or
the unsigned member of the pair.  The shift counts are those of the source;
C defines them for counts from 0 to 63, which `Config.c_widths` ensures for
`int` and `long`. -/
def select_type (cfg : Config) (n long_p : Nat) (unsigned_p : Bool) : CType :=
  let un := n >>> 2
  let sel : Nat × CType × CType :=
    if long_p = 0 ∧ un >>> (cfg.int_bit - 2) = 0 then
      ((1 <<< (cfg.int_bit - 1)) % 2 ^ 64, CType.builtin_unsigned_int, CType.builtin_int)
    else if long_p ≤ 1 ∧ un >>> (cfg.long_bit - 2) = 0 then
      ((1 <<< (cfg.long_bit - 1)) % 2 ^ 64, CType.builtin_unsigned_long, CType.builtin_long)
    else
      let shift := if LONGEST_BIT < cfg.long_long_bit then LONGEST_BIT - 1
                   else cfg.long_long_bit - 1
      ((1 <<< shift) % 2 ^ 64, CType.builtin_unsigned_long_long, CType.builtin_long_long)
  if unsigned_p = true ∨ n &&& sel.1 ≠ 0 then sel.2.1 else sel.2.2

/-- The floating branch of `parse_number` (`parsed_float` nonzero): the decimal
floating suffixes `df`, `dd`, `dl`, else the external `parse_c_float`. -/
def parse_number_float (cfg : Config) (p : List Char) (len : Nat) : NumToken :=
  if len ≥ 2 ∧ char_at p (len - 2) = 'd'.toNat ∧ char_at p (len - 1) = 'f'.toNat then
    NumToken.DECFLOAT CType.builtin_decfloat
  else if len ≥ 2 ∧ char_at p (len - 2) = 'd'.toNat ∧ char_at p (len - 1) = 'd'.toNat then
    NumToken.DECFLOAT CType.builtin_decdouble
  else if len ≥ 2 ∧ char_at p (len - 2) = 'd'.toNat ∧ char_at p (len - 1) = 'l'.toNat then
    NumToken.DECFLOAT CType.builtin_declong
  else if cfg.parse_c_float (p.take len) then NumToken.FLOAT
  else NumToken.ERROR

/-- The function `parse_number (p, len, parsed_float, putithere)`: the token
returned with the value stored through `putithere`, or the `error` raised. -/
def parse_number (cfg : Config) (p : List Char) (len : Nat) (parsed_float : Bool) :
    Except Failure NumToken :=
  if parsed_float then Except.ok (parse_number_float cfg p len)
  else
    let sw := radix_switch cfg.input_radix p len
    match scan_loop sw.2.1 sw.2.2 sw.1 NumState.init with
    | Scan.ERROR => Except.ok NumToken.ERROR
    | Scan.error msg => Except.error (Failure.error msg)
    | Scan.go st =>
      Except.ok (NumToken.INT (to_signed st.n) (select_type cfg st.n st.long_p st.unsigned_p))

/-- A configuration with 32-bit `int` and `long` and 64-bit `long long`. -/
def cfg32 (radix : Nat) : Config :=
  { input_radix := radix, int_bit := 32, long_bit := 32, long_long_bit := 64,
    parse_c_float := fun _ => false }

/-- A configuration with 32-bit `int` and 64-bit `long` and `long long`. -/
def cfg64 (radix : Nat) : Config :=
  { input_radix := radix, int_bit := 32, long_bit := 64, long_long_bit := 64,
    parse_c_float := fun _ => false }

deriving instance DecidableEq for Except

/-! ## Vocabulary of the specification for integer literals -/

/-- The value of a digit character code: `0`-`9`, then `a`-`f` or `A`-`F` for
10 to 15; `none` for any other character. -/
def digit_value (c : Nat) : Option Nat :=
  if '0'.toNat ≤ c ∧ c ≤ '9'.toNat then some (c - '0'.toNat)
  else if 'a'.toNat ≤ c ∧ c ≤ 'f'.toNat then some (c - 'a'.toNat + 10)
  else if 'A'.toNat ≤ c ∧ c ≤ 'F'.toNat then some (c - 'A'.toNat + 10)
  else none

/-- The value of a digit character, 0 for a character that is no digit. -/
def digit_of (ch : Char) : Nat := (digit_value ch.toNat).getD 0

/-- The character is a digit whose value is below the base `r`. -/
def valid_digit (r : Nat) (ch : Char) : Bool :=
  match digit_value ch.toNat with
  | some d => decide (d < r)
  | none => false

/-- Every character of `ds` is a digit valid in base `r`. -/
def ValidDigits (r : Nat) (ds : List Char) : Prop := ∀ ch ∈ ds, valid_digit r ch = true

instance (r : Nat) (ds : List Char) : Decidable (ValidDigits r ds) := by
  unfold ValidDigits; infer_instance

/-- Left-to-right accumulation `acc * r + digit` over a digit string. -/
def digits_from (r acc : Nat) (ds : List Char) : Nat :=
  ds.foldl (fun a ch => a * r + digit_of ch) acc

/-- The mathematical value of the digit string `ds` in base `r`. -/
def digits_value (r : Nat) (ds : List Char) : Nat := digits_from r 0 ds

/-- The suffix letters `l`, `L`. -/
def is_long_suffix (ch : Char) : Bool :=
  decide (ch.toNat = 'l'.toNat ∨ ch.toNat = 'L'.toNat)

/-- The suffix letters `u`, `U`. -/
def is_unsigned_suffix (ch : Char) : Bool :=
  decide (ch.toNat = 'u'.toNat ∨ ch.toNat = 'U'.toNat)

/-- The suffix letters `l`, `L`, `u`, `U`. -/
def is_suffix (ch : Char) : Bool := is_long_suffix ch || is_unsigned_suffix ch

/-- The spellings of a literal `pre ++ ds` and the radix `r` the specification
gives each: `0x`/`0X` and hex digits, `0b`/`0B` and binary digits,
`0t`/`0T`/`0d`/`0D` and decimal digits, a bare leading `0` and octal digits, or
digits that do not begin with `0` in the ambient radix. -/
def LiteralForm (radix : Nat) (pre ds : List Char) (r : Nat) : Prop :=
  ((pre = ['0', 'x'] ∨ pre = ['0', 'X']) ∧ r = 16 ∧ ds ≠ []) ∨
  ((pre = ['0', 'b'] ∨ pre = ['0', 'B']) ∧ r = 2 ∧ ds ≠ []) ∨
  ((pre = ['0', 't'] ∨ pre = ['0', 'T'] ∨ pre = ['0', 'd'] ∨ pre = ['0', 'D'])
      ∧ r = 10 ∧ ds ≠ []) ∨
  (pre = ['0'] ∧ r = 8) ∨
  (pre = [] ∧ r = radix ∧ ds ≠ [] ∧ char_at ds 0 ≠ '0'.toNat)

/-- Number of `l`/`L` letters of a suffix. -/
def long_count (sfx : List Char) : Nat := sfx.countP is_long_suffix

/-- The suffix holds a `u` or `U`. -/
def has_unsigned (sfx : List Char) : Bool := sfx.any is_unsigned_suffix

instance (radix : Nat) (pre ds : List Char) (r : Nat) :
    Decidable (LiteralForm radix pre ds r) := by
  unfold LiteralForm; infer_instance

/-- The widths of a C target that the shifts of the type selection are defined
for: `int` has at least 2 bits, `int`, `long` and `long long` do not get
narrower in this order, and `long` is no wider than the host's `LONGEST`. -/
def Config.c_widths (cfg : Config) : Prop :=
  2 ≤ cfg.int_bit ∧ cfg.int_bit ≤ cfg.long_bit ∧ cfg.long_bit ≤ cfg.long_long_bit ∧
    cfg.long_bit ≤ 64

instance (cfg : Config) : Decidable cfg.c_widths := by
  unfold Config.c_widths; infer_instance

/-- The type the specification gives a literal whose value fits `int`, from its
suffix: `u` alone, one `l`, two `l`, or `u` with two `l`. -/
def suffix_type (sfx : List Char) : Option CType :=
  match long_count sfx, has_unsigned sfx with
  | 0, true => some CType.builtin_unsigned_int
  | 1, false => some CType.builtin_long
  | 2, false => some CType.builtin_long_long
  | 2, true => some CType.builtin_unsigned_long_long
  | _, _ => none

/-- The type the specification gives a literal of value `v` without `u`
suffix and with `longs` letters `l`: the narrowest pair that holds `v` among
those the suffix leaves, and in it the signed type exactly when `v` is below
`2 ^ (width - 1)`. -/
def narrowest_type (cfg : Config) (v longs : Nat) : CType :=
  if longs = 0 ∧ v < 2 ^ cfg.int_bit then
    if v < 2 ^ (cfg.int_bit - 1) then CType.builtin_int else CType.builtin_unsigned_int
  else if longs ≤ 1 ∧ v < 2 ^ cfg.long_bit then
    if v < 2 ^ (cfg.long_bit - 1) then CType.builtin_long else CType.builtin_unsigned_long
  else
    if v < 2 ^ (cfg.long_long_bit - 1) then CType.builtin_long_long
    else CType.builtin_unsigned_long_long

/-- The unsigned type of the narrowest of `int`, `long`, `long long` that is
64 bits wide. -/
def unsigned_64_type (cfg : Config) : CType :=
  if cfg.int_bit = 64 then CType.builtin_unsigned_int
  else if cfg.long_bit = 64 then CType.builtin_unsigned_long
  else CType.builtin_unsigned_long_long

/-- Some suffix letter of the literal is followed, somewhere later, by a digit
valid in the base. -/
def digit_after_suffix (base : Nat) : List Char → Bool
  | [] => false
  | ch :: rest => (is_suffix ch && rest.any (valid_digit base)) || digit_after_suffix base rest

/-- The literal holds a character that is neither a suffix letter nor a digit
valid in the base. -/
def has_invalid_char (base : Nat) (body : List Char) : Bool :=
  body.any (fun ch => !is_suffix ch && !valid_digit base ch)

/-- The literals C5 is about: a digit follows a suffix, or some character is
neither a suffix nor a valid digit. -/
def malformed (base : Nat) (body : List Char) : Bool :=
  digit_after_suffix base body || has_invalid_char base body

/-- The characters `x X b B t T d D` that select a radix after a leading `0`. -/
def is_radix_letter (c : Nat) : Bool :=
  decide (c = 'x'.toNat ∨ c = 'X'.toNat ∨ c = 'b'.toNat ∨ c = 'B'.toNat ∨
    c = 't'.toNat ∨ c = 'T'.toNat ∨ c = 'd'.toNat ∨ c = 'D'.toNat)

/-! ## `c_parse_escape` and `parse_string_or_char` -/

/-- The backslash character. -/
def BACKSLASH : Char := Char.ofNat 92

/-- The double quote character. -/
def DQUOTE : Char := Char.ofNat 34

/-- The single quote character. -/
def SQUOTE : Char := Char.ofNat 39

/-- The newline character. -/
def NEWLINE : Char := Char.ofNat 10

/-- The NUL character that terminates a C string. -/
def NUL : Char := Char.ofNat 0

/-- Modelled from the spec: the macro `HOST_ESCAPE_CHAR` is defined outside
`src/`; the specification maps the escape `e` to its control character, ESC. -/
def HOST_ESCAPE_CHAR : Char := Char.ofNat 27

/-- The message of `error (_("\\x escape without a following hex digit"))`. -/
def msg_hex_escape : String := "\\x escape without a following hex digit"

/-- The message of `error (_("\\%c escape without a following hex digit"), c)`. -/
def msg_ucn_escape (c : Char) : String :=
  "\\" ++ String.singleton c ++ " escape without a following hex digit"

/-- The message of `error (_("Unterminated string in expression."))`. -/
def msg_unterminated : String := "Unterminated string in expression."

/-- The message of `error (_("Unmatched single quote."))`. -/
def msg_unmatched : String := "Unmatched single quote."

/-- The C library predicate `isxdigit` in the C locale. -/
def isxdigit (c : Char) : Bool :=
  decide (('0'.toNat ≤ c.toNat ∧ c.toNat ≤ '9'.toNat) ∨
    ('a'.toNat ≤ c.toNat ∧ c.toNat ≤ 'f'.toNat) ∨
    ('A'.toNat ≤ c.toNat ∧ c.toNat ≤ 'F'.toNat))

/-- The test `isdigit (c) && c != '8' && c != '9'` of the octal loop; it also
describes the labels `case '0'` to `case '7'`. -/
def is_octal (c : Char) : Bool :=
  decide ('0'.toNat ≤ c.toNat ∧ c.toNat ≤ '9'.toNat) && decide (c.toNat ≠ '8'.toNat) &&
    decide (c.toNat ≠ '9'.toNat)

/-- The character `*tokptr` at the head of the text; the terminator NUL at its
end. -/
def deref (tokptr : List Char) : Char :=
  match tokptr with
  | [] => NUL
  | c :: _ => c

/-- A pointer into a NUL-terminated buffer: `ptr rest` points at the first
character of `rest` (at the terminator when `rest` is empty); `past_nul`
points beyond the terminator, where nothing may be read. -/
inductive Cursor where
  | ptr (rest : List Char)
  | past_nul
deriving DecidableEq, Repr

/-- The contents of an obstack after `obstack_1grow`/`obstack_grow_str`; a
NULL `output` stays NULL. -/
def grow (output : Option (List Char)) (cs : List Char) : Option (List Char) :=
  output.map (fun buf => buf ++ cs)

/-- What `c_parse_escape` leaves behind: its return value, the updated `*ptr`
and the obstack. -/
structure EscapeOut where
  result : Nat
  tokptr : Cursor
  output : Option (List Char)
deriving DecidableEq, Repr

/-- One character written to the output and one step of the pointer: the
cases of the switch that end in `++tokptr; break;`. -/
def emit_one (rest : List Char) (output : Option (List Char)) (c : Char) : EscapeOut :=
  { result := 1, tokptr := Cursor.ptr rest, output := grow output [c] }

/-- The function `c_parse_escape (ptr, output)`; `tokptr` is the text at
`*ptr`, just after the backslash.  The loop `while (isxdigit (*tokptr))` copies
the longest run of hex digits; the `for` loops copy the run of digits met
within their first 3, 4 or 8 iterations. -/
def c_parse_escape (tokptr : List Char) (output : Option (List Char)) :
    Except Failure EscapeOut :=
  match tokptr with
  | [] =>
    -- the terminator falls in the `default` case and is stepped over
    Except.ok { result := 1, tokptr := Cursor.past_nul, output := grow output [NUL] }
  | c :: rest =>
    if c = NUL then
      Except.ok { result := 1, tokptr := Cursor.past_nul, output := grow output [NUL] }
    else if c = 'x' then
      if !isxdigit (deref rest) then Except.error (Failure.error msg_hex_escape)
      else
        Except.ok { result := 1, tokptr := Cursor.ptr (rest.dropWhile isxdigit),
                    output := grow (grow output [BACKSLASH, 'x']) (rest.takeWhile isxdigit) }
    else if is_octal c then
      let run := ((c :: rest).take 3).takeWhile is_octal
      Except.ok { result := 1, tokptr := Cursor.ptr ((c :: rest).drop run.length),
                  output := grow (grow output [BACKSLASH]) run }
    else if c = 'u' ∨ c = 'U' then
      let len := if c = 'U' then 8 else 4
      if !isxdigit (deref rest) then Except.error (Failure.error (msg_ucn_escape c))
      else
        let run := (rest.take len).takeWhile isxdigit
        Except.ok { result := 1, tokptr := Cursor.ptr (rest.drop run.length),
                    output := grow (grow output [BACKSLASH, c]) run }
    else if c = BACKSLASH then
      Except.ok { result := 1, tokptr := Cursor.ptr rest,
                  output := grow output [BACKSLASH, BACKSLASH] }
    else if c = 'a' then Except.ok (emit_one rest output (Char.ofNat 7))
    else if c = 'b' then Except.ok (emit_one rest output (Char.ofNat 8))
    else if c = 'f' then Except.ok (emit_one rest output (Char.ofNat 12))
    else if c = 'n' then Except.ok (emit_one rest output (Char.ofNat 10))
    else if c = 'r' then Except.ok (emit_one rest output (Char.ofNat 13))
    else if c = 't' then Except.ok (emit_one rest output (Char.ofNat 9))
    else if c = 'v' then Except.ok (emit_one rest output (Char.ofNat 11))
    else if c = 'e' then Except.ok (emit_one rest output HOST_ESCAPE_CHAR)
    else if c = NEWLINE then
      Except.ok { result := 0, tokptr := Cursor.ptr rest, output := output }
    else Except.ok (emit_one rest output c)

/-- Modelled from the spec: the enumeration `c_string_type` is declared
outside `src/`; the specification describes encoding tags for plain, wide,
16-bit and 32-bit strings that are combined with a "char" bit flag. -/
def C_STRING : Nat := 0

/-- Modelled from the spec: the wide encoding tag of `c_string_type`. -/
def C_WIDE_STRING : Nat := 1

/-- Modelled from the spec: the 16-bit encoding tag of `c_string_type`. -/
def C_STRING_16 : Nat := 2

/-- Modelled from the spec: the 32-bit encoding tag of `c_string_type`. -/
def C_STRING_32 : Nat := 3

/-- Modelled from the spec: the "char" bit flag of `c_string_type`. -/
def C_CHAR : Nat := 4

/-- The fields `type`, `ptr` and `length` of `struct typed_stoken`: the tag
and the bytes of the literal. -/
structure typed_stoken where
  type : Nat
  bytes : List Char
deriving DecidableEq, Repr

/-- The two tokens `parse_string_or_char` returns. -/
inductive StrToken where
  | STRING
  | CHAR
deriving DecidableEq, Repr

/-- What `parse_string_or_char` returns and stores: the token, `*value`,
`*outptr` and `*host_chars`. -/
structure StringOut where
  token : StrToken
  value : typed_stoken
  outptr : List Char
  host_chars : Nat
deriving DecidableEq, Repr

/-- The loop `while (*tokptr)` of `parse_string_or_char`: the text where it
stops, the contents of `tempbuf` and `*host_chars`.  Every iteration consumes
a character, so `fuel` above the length of the text is never used up. -/
def string_loop (quote : Char) :
    Nat → List Char → List Char → Nat → Except Failure (List Char × List Char × Nat)
  | 0, _, _, _ => Except.error Failure.out_of_fuel
  | _ + 1, [], tempbuf, host_chars => Except.ok ([], tempbuf, host_chars)
  | fuel + 1, c :: rest, tempbuf, host_chars =>
    if c = NUL then Except.ok (c :: rest, tempbuf, host_chars)
    else if c = BACKSLASH then
      match c_parse_escape rest (some tempbuf) with
      | Except.error e => Except.error e
      | Except.ok out =>
        match out.tokptr with
        | Cursor.past_nul => Except.error Failure.out_of_bounds
        | Cursor.ptr rest2 =>
          string_loop quote fuel rest2 (out.output.getD tempbuf) (host_chars + out.result)
    else if c = quote then Except.ok (c :: rest, tempbuf, host_chars)
    else string_loop quote fuel rest (tempbuf ++ [c]) (host_chars + 1)

/-- The statements under "Record the string type": the encoding tag of the
letter `L`, `u` or `U` in front of the quote, and the text after it. -/
def record_string_type (tokptr : List Char) : Nat × List Char :=
  match tokptr with
  | c :: rest =>
    if c = 'L' then (C_WIDE_STRING, rest)
    else if c = 'u' then (C_STRING_16, rest)
    else if c = 'U' then (C_STRING_32, rest)
    else (C_STRING, tokptr)
  | [] => (C_STRING, tokptr)

/-- The end of `parse_string_or_char`, from `if (*tokptr != quote)`: `stop` is
the text where the loop stopped. -/
def close_string (quote : Char) (type : Nat) (stop tempbuf : List Char) (host_chars : Nat) :
    Except Failure StringOut :=
  if deref stop ≠ quote then
    if quote = DQUOTE then Except.error (Failure.error msg_unterminated)
    else Except.error (Failure.error msg_unmatched)
  else
    Except.ok { token := if quote = DQUOTE then StrToken.STRING else StrToken.CHAR,
                value := { type := type, bytes := tempbuf },
                outptr := stop.tail, host_chars := host_chars }

/-- The function `parse_string_or_char (tokptr, outptr, value, host_chars)`.
The obstack `tempbuf` is emptied at entry, so its contents at exit are the
bytes of `value`. -/
def parse_string_or_char (tokptr : List Char) : Except Failure StringOut :=
  let pre := record_string_type tokptr
  match pre.2 with
  | [] => Except.error Failure.out_of_bounds
  | quote :: body =>
    if quote = NUL then Except.error Failure.out_of_bounds
    else
      let type := if quote = SQUOTE then pre.1 ||| C_CHAR else pre.1
      match string_loop quote (body.length + 1) body [] 0 with
      | Except.error e => Except.error e
      | Except.ok r => close_string quote type r.1 r.2.1 r.2.2

/-! ## Vocabulary of the specification for string literals -/

/-- One element of the text between the quotes: an ordinary character, or a
backslash followed by a character. -/
inductive StrItem where
  | plain (c : Char)
  | escaped (c : Char)
deriving DecidableEq, Repr

/-- The control character of the simple escapes `a b f n r t v e`; any other
character stands for itself. -/
def simple_escape (c : Char) : Char :=
  if c = 'a' then Char.ofNat 7
  else if c = 'b' then Char.ofNat 8
  else if c = 'f' then Char.ofNat 12
  else if c = 'n' then Char.ofNat 10
  else if c = 'r' then Char.ofNat 13
  else if c = 't' then Char.ofNat 9
  else if c = 'v' then Char.ofNat 11
  else if c = 'e' then Char.ofNat 27
  else c

/-- The elements C9 is about, inside double quotes: an ordinary character is
neither the backslash, the double quote nor NUL; an escaped character is
neither a numeric or universal escape (`x`, `0`-`7`, `u`, `U`), nor the
backslash, nor a newline, nor NUL. -/
def StrItem.simple : StrItem → Bool
  | StrItem.plain c => decide (c ≠ BACKSLASH ∧ c ≠ DQUOTE ∧ c ≠ NUL)
  | StrItem.escaped c =>
    decide (c ≠ 'x' ∧ c ≠ 'u' ∧ c ≠ 'U' ∧ c ≠ BACKSLASH ∧ c ≠ NEWLINE ∧ c ≠ NUL) &&
      !is_octal c

/-- The source text of an element. -/
def StrItem.source : StrItem → List Char
  | StrItem.plain c => [c]
  | StrItem.escaped c => [BACKSLASH, c]

/-- The byte an element decodes to. -/
def StrItem.decoded : StrItem → Char
  | StrItem.plain c => c
  | StrItem.escaped c => simple_escape c

/-- The source text of a sequence of elements. -/
def source_text : List StrItem → List Char
  | [] => []
  | it :: items => it.source ++ source_text items

/-! ## Tokens

The members of `enum yytokentype`; a token that is a single character is the
code of that character, and 0 is the end of the input. -/

def INT : Nat := 258
def FLOAT : Nat := 259
def DECFLOAT : Nat := 260
def STRING : Nat := 261
def CHAR : Nat := 262
def NAME : Nat := 263
def UNKNOWN_CPP_NAME : Nat := 264
def COMPLETE : Nat := 265
def TYPENAME : Nat := 266
def NAME_OR_INT : Nat := 267
def OPERATOR : Nat := 268
def STRUCT : Nat := 269
def CLASS : Nat := 270
def UNION : Nat := 271
def ENUM : Nat := 272
def SIZEOF : Nat := 273
def UNSIGNED : Nat := 274
def COLONCOLON : Nat := 275
def TEMPLATE : Nat := 276
def ERROR : Nat := 277
def NEW : Nat := 278
def DELETE : Nat := 279
def REINTERPRET_CAST : Nat := 280
def DYNAMIC_CAST : Nat := 281
def STATIC_CAST : Nat := 282
def CONST_CAST : Nat := 283
def ENTRY : Nat := 284
def SIGNED_KEYWORD : Nat := 285
def LONG : Nat := 286
def SHORT : Nat := 287
def INT_KEYWORD : Nat := 288
def CONST_KEYWORD : Nat := 289
def VOLATILE_KEYWORD : Nat := 290
def DOUBLE_KEYWORD : Nat := 291
def VARIABLE : Nat := 292
def ASSIGN_MODIFY : Nat := 293
def TRUEKEYWORD : Nat := 294
def FALSEKEYWORD : Nat := 295
def ABOVE_COMMA : Nat := 296
def OROR : Nat := 297
def ANDAND : Nat := 298
def NOTEQUAL : Nat := 299
def EQUAL : Nat := 300
def GEQ : Nat := 301
def LEQ : Nat := 302
def RSH : Nat := 303
def LSH : Nat := 304
def DECREMENT : Nat := 305
def INCREMENT : Nat := 306
def UNARY : Nat := 307
def DOT_STAR : Nat := 308
def ARROW_STAR : Nat := 309
def ARROW : Nat := 310
def BLOCKNAME : Nat := 311
def FILENAME : Nat := 312

/-- Modelled from the spec: the enumeration `exp_opcode` is declared outside
`src/`; these are the members the lexer tables and the parser actions name.
Only their identity is used, never a numeric value. -/
inductive exp_opcode where
  | OP_NULL | OP_TYPE | OP_LONG | OP_DOUBLE | OP_DECFLOAT | OP_VAR_VALUE | OP_VAR_ENTRY_VALUE
  | OP_FUNCALL | OP_ADL_FUNC | OP_ARRAY | OP_SCOPE | OP_THIS | TYPE_INSTANCE
  | UNOP_IND | UNOP_ADDR | UNOP_NEG | UNOP_PLUS | UNOP_LOGICAL_NOT | UNOP_COMPLEMENT
  | UNOP_PREINCREMENT | UNOP_PREDECREMENT | UNOP_POSTINCREMENT | UNOP_POSTDECREMENT
  | UNOP_SIZEOF | UNOP_MEMVAL | UNOP_CAST | UNOP_REINTERPRET_CAST | UNOP_DYNAMIC_CAST
  | STRUCTOP_PTR | STRUCTOP_MPTR | STRUCTOP_STRUCT | STRUCTOP_MEMBER
  | BINOP_COMMA | BINOP_SUBSCRIPT | BINOP_REPEAT | BINOP_MUL | BINOP_DIV | BINOP_REM
  | BINOP_ADD | BINOP_SUB | BINOP_LSH | BINOP_RSH | BINOP_EQUAL | BINOP_NOTEQUAL
  | BINOP_LEQ | BINOP_GEQ | BINOP_LESS | BINOP_GTR | BINOP_BITWISE_AND
  | BINOP_BITWISE_XOR | BINOP_BITWISE_IOR | BINOP_LOGICAL_AND | BINOP_LOGICAL_OR
  | BINOP_ASSIGN | BINOP_ASSIGN_MODIFY | BINOP_END | TERNOP_COND
deriving DecidableEq, Repr

/-! ## Handles of the symbol tables -/

/-- A `struct block *` that is not null, by an identifying number. -/
abbrev Block := Nat

/-- A `struct type *` that is not null: one of the types of `parse_type`, or a
type of the symbol tables by an identifying number. -/
inductive TypeRef where
  | builtin (t : CType)
  | builtin_bool
  | named (id : Nat)
deriving DecidableEq, Repr

/-- Modelled from the spec: the type codes `TYPE_CODE (check_typedef (type))`
that the lexer and the parser tell apart; the enumeration is declared outside
`src/`. -/
inductive type_code where
  | TYPE_CODE_STRUCT
  | TYPE_CODE_UNION
  | TYPE_CODE_NAMESPACE
  | TYPE_CODE_OTHER
deriving DecidableEq, Repr

/-- Modelled from the spec: the address classes `SYMBOL_CLASS (sym)` that
`classify_name` and the parser tell apart; the enumeration is declared
outside `src/`. -/
inductive address_class where
  | LOC_BLOCK
  | LOC_TYPEDEF
  | LOC_OTHER
deriving DecidableEq, Repr

/-- What the parser reads of a `struct symbol`: `SYMBOL_CLASS`, `SYMBOL_TYPE`,
`SYMBOL_BLOCK_VALUE`, `SYMBOL_IS_ARGUMENT` and `symbol_read_needs_frame`. -/
structure symbol where
  id : Nat
  aclass : address_class
  type : TypeRef
  block_value : Block
  is_argument : Bool
  read_needs_frame : Bool
deriving DecidableEq, Repr

/-! ## Semantic values -/

/-- The pointer stored after the `stoken` of the members `tsym` and `ssym` of
the union `YYSTYPE`: `tsym.type` and `ssym.sym` occupy the same bytes. -/
inductive tsym_ssym where
  | null
  | type (t : TypeRef)
  | sym (s : symbol)
deriving DecidableEq, Repr

/-- The union `YYSTYPE`, one field for each member the lexers and the parser
store (`int_val` and `int_type` for `typed_val_int`, likewise the floating
members).  `stoken` stands for `sval`, `tsym.stoken` and `ssym.stoken`, which
start the union alike; `slot` for `tsym.type` and `ssym.sym`, which follow it.
A floating constant is kept as the text `parse_c_float` or
`decfloat_from_string` converted.  The default is the value after
`memset (.., 0, ..)`, with `OP_NULL` the first member of `exp_opcode`. -/
structure YYSTYPE where
  stoken : List Char := []
  slot : tsym_ssym := tsym_ssym.null
  is_a_field_of_this : Bool := false
  opcode : exp_opcode := exp_opcode.OP_NULL
  int_val : Int := 0
  int_type : Option TypeRef := none
  float_val : List Char := []
  float_type : Option TypeRef := none
  decfloat_val : List Char := []
  decfloat_type : Option TypeRef := none
  tsval : typed_stoken := { type := 0, bytes := [] }
  svec : List typed_stoken := []
  tval : Option TypeRef := none
  tvec : List (Option TypeRef) := []
  bval : Option Block := none
  lval : Int := 0
  voidval : Int := 0
deriving DecidableEq, Repr

/-- The type `token_and_value` of the entries of the FIFO. -/
structure token_and_value where
  token : Nat
  value : YYSTYPE
deriving DecidableEq, Repr

/-! ## The expression under construction and the globals of the parse -/

/-- Modelled from the spec: what the writers of `parse.c` append to the
expression (`write_exp_elt_opcode`, `write_exp_elt_type`,
`write_exp_elt_longcst`, `write_exp_elt_sym`, `write_exp_elt_block`,
`write_exp_elt_dblcst`, `write_exp_elt_decfloatcst`, `write_exp_string`,
`write_exp_string_vector`, `write_exp_msymbol`, `write_dollar_variable`), one
constructor for each call, with the argument of the call. -/
inductive Elt where
  | opcode (op : exp_opcode)
  | type (t : Option TypeRef)
  | longcst (v : Int)
  | sym (s : Option symbol)
  | block (b : Option Block)
  | dblcst (text : List Char)
  | decfloatcst (text : List Char)
  | string (s : List Char)
  | string_vector (type : Nat) (vec : List typed_stoken)
  | msymbol (m : Nat)
  | dollar_variable (s : List Char)
deriving DecidableEq, Repr

/-- Modelled from the spec: the markers `push_type`, `push_type_int` and
`push_type_address_space` of `parse.c` put on the type stack. -/
inductive type_piece where
  | tp_pointer
  | tp_reference
  | tp_array
  | tp_function
  | tp_const
  | tp_volatile
  | tp_space_identifier
  | int (n : Int)
  | address_space (name : List Char)
deriving DecidableEq, Repr

/-- The globals the lexers and the parser read and write.  The first six belong
to the inner lexer (`lexptr`, `prev_lexptr` and `paren_depth` are those of
`parse.c`), the next three to `yylex`, the rest to the parser actions
(`block_found`, `innermost_block`, `arglist_len` of `parse.c`; `funcall_chain`,
`type_stack`, `expout` and `expout_last_struct` stand for the state behind
`start_arglist`, `push_type`, the writers and `mark_struct_expression`). -/
structure State where
  lexptr : List Char
  prev_lexptr : Option (List Char) := none
  paren_depth : Int := 0
  last_was_structop : Bool := false
  saw_name_at_eof : Bool := false
  macro_original_text : Option (List Char) := none
  yylval : YYSTYPE := {}
  token_fifo : List token_and_value := []
  popping : Bool := false
  name_obstack : List Char := []
  block_found : Option Block := none
  innermost_block : Option Block := none
  arglist_len : Int := 0
  funcall_chain : List Int := []
  type_stack : List type_piece := []
  expout : List Elt := []
  expout_last_struct : Option Nat := none
deriving DecidableEq, Repr

/-- What a call of `lookup_symbol` leaves behind: the symbol or null, what it
stores through `is_a_field_of_this`, and the global `block_found`. -/
structure lookup_result where
  sym : Option symbol := none
  is_a_field_of_this : Bool := false
  block_found : Option Block := none

/-- Modelled from the spec: the settings and the collaborators of the parse,
all defined outside `src/`: the language, the
globals `in_parse_field`, `comma_terminates` and `expression_context_block`
that `parse.c` sets before the parse, and the functions the lexers and the
parser call, each as a function of its arguments.

* `macro_expand_next` takes the text at `lexptr`; on an expansion it gives the
  expanded text and the text after the invocation.
* `find_template_name_end` takes the text at the `<`; it gives how far beyond
  that `<` the returned pointer lies.
* `lookup_symtab` gives the static block of the file found.
* `type_code`, `type_name` and `type_length` are the macros `TYPE_CODE`,
  `TYPE_NAME` and `TYPE_LENGTH`.
* `follow_types` takes the base type and the type stack, which it empties.
* `c_print_type` gives the text printed for a type. -/
structure Env where
  cfg : Config
  cplus : Bool := false
  in_parse_field : Bool := false
  comma_terminates : Bool := false
  expression_context_block : Option Block := none
  macro_expand_next : List Char → Option (List Char × List Char) := fun _ => none
  find_template_name_end : List Char → Option Nat := fun _ => none
  parse_c_float_type : List Char → Option TypeRef := fun _ => none
  lookup_symbol : List Char → Option Block → lookup_result := fun _ _ => {}
  lookup_symtab : List Char → Option Block := fun _ => none
  language_lookup_primitive_type_by_name : List Char → Option TypeRef := fun _ => none
  lookup_minimal_symbol : List Char → Option Nat := fun _ => none
  have_full_symbols : Bool := false
  have_partial_symbols : Bool := false
  contained_in : Option Block → Option Block → Bool := fun _ _ => false
  check_typedef : TypeRef → TypeRef := fun t => t
  type_code : TypeRef → type_code := fun _ => type_code.TYPE_CODE_OTHER
  type_name : TypeRef → List Char := fun _ => []
  type_length : TypeRef → Int := fun _ => 0
  cp_lookup_nested_type : TypeRef → List Char → Option Block → Option TypeRef :=
    fun _ _ _ => none
  lookup_signed_typename : List Char → Option TypeRef := fun _ => none
  lookup_unsigned_typename : List Char → Option TypeRef := fun _ => none
  lookup_typename : List Char → Option TypeRef := fun _ => none
  lookup_struct : List Char → Option Block → Option TypeRef := fun _ _ => none
  lookup_union : List Char → Option Block → Option TypeRef := fun _ _ => none
  lookup_enum : List Char → Option Block → Option TypeRef := fun _ _ => none
  lookup_template_type : List Char → Option TypeRef → Option Block → Option TypeRef :=
    fun _ _ _ => none
  follow_types : Option TypeRef → List type_piece → Option TypeRef := fun t _ => t
  c_print_type : Option TypeRef → List Char := fun _ => []

/-! ## The operator and keyword tables -/

set_option linter.dupNamespace false in
/-- The type `struct token` of the entries of the tables. -/
structure token where
  operator : List Char
  token : Nat
  opcode : exp_opcode
  cxx_only : Bool
deriving DecidableEq, Repr

/-- The table `tokentab3` of the operators of three characters. -/
def tokentab3 : List token :=
  [⟨">>=".toList, ASSIGN_MODIFY, exp_opcode.BINOP_RSH, false⟩,
   ⟨"<<=".toList, ASSIGN_MODIFY, exp_opcode.BINOP_LSH, false⟩,
   ⟨"->*".toList, ARROW_STAR, exp_opcode.BINOP_END, true⟩]

/-- The table `tokentab2` of the operators of two characters. -/
def tokentab2 : List token :=
  [⟨"+=".toList, ASSIGN_MODIFY, exp_opcode.BINOP_ADD, false⟩,
   ⟨"-=".toList, ASSIGN_MODIFY, exp_opcode.BINOP_SUB, false⟩,
   ⟨"*=".toList, ASSIGN_MODIFY, exp_opcode.BINOP_MUL, false⟩,
   ⟨"/=".toList, ASSIGN_MODIFY, exp_opcode.BINOP_DIV, false⟩,
   ⟨"%=".toList, ASSIGN_MODIFY, exp_opcode.BINOP_REM, false⟩,
   ⟨"|=".toList, ASSIGN_MODIFY, exp_opcode.BINOP_BITWISE_IOR, false⟩,
   ⟨"&=".toList, ASSIGN_MODIFY, exp_opcode.BINOP_BITWISE_AND, false⟩,
   ⟨"^=".toList, ASSIGN_MODIFY, exp_opcode.BINOP_BITWISE_XOR, false⟩,
   ⟨"++".toList, INCREMENT, exp_opcode.BINOP_END, false⟩,
   ⟨"--".toList, DECREMENT, exp_opcode.BINOP_END, false⟩,
   ⟨"->".toList, ARROW, exp_opcode.BINOP_END, false⟩,
   ⟨"&&".toList, ANDAND, exp_opcode.BINOP_END, false⟩,
   ⟨"||".toList, OROR, exp_opcode.BINOP_END, false⟩,
   ⟨"::".toList, COLONCOLON, exp_opcode.BINOP_END, false⟩,
   ⟨"<<".toList, LSH, exp_opcode.BINOP_END, false⟩,
   ⟨">>".toList, RSH, exp_opcode.BINOP_END, false⟩,
   ⟨"==".toList, EQUAL, exp_opcode.BINOP_END, false⟩,
   ⟨"!=".toList, NOTEQUAL, exp_opcode.BINOP_END, false⟩,
   ⟨"<=".toList, LEQ, exp_opcode.BINOP_END, false⟩,
   ⟨">=".toList, GEQ, exp_opcode.BINOP_END, false⟩,
   ⟨".*".toList, DOT_STAR, exp_opcode.BINOP_END, true⟩]

/-- The table `ident_tokens` of the keywords. -/
def ident_tokens : List token :=
  [⟨"unsigned".toList, UNSIGNED, exp_opcode.OP_NULL, false⟩,
   ⟨"template".toList, TEMPLATE, exp_opcode.OP_NULL, true⟩,
   ⟨"volatile".toList, VOLATILE_KEYWORD, exp_opcode.OP_NULL, false⟩,
   ⟨"struct".toList, STRUCT, exp_opcode.OP_NULL, false⟩,
   ⟨"signed".toList, SIGNED_KEYWORD, exp_opcode.OP_NULL, false⟩,
   ⟨"sizeof".toList, SIZEOF, exp_opcode.OP_NULL, false⟩,
   ⟨"double".toList, DOUBLE_KEYWORD, exp_opcode.OP_NULL, false⟩,
   ⟨"false".toList, FALSEKEYWORD, exp_opcode.OP_NULL, true⟩,
   ⟨"class".toList, CLASS, exp_opcode.OP_NULL, true⟩,
   ⟨"union".toList, UNION, exp_opcode.OP_NULL, false⟩,
   ⟨"short".toList, SHORT, exp_opcode.OP_NULL, false⟩,
   ⟨"const".toList, CONST_KEYWORD, exp_opcode.OP_NULL, false⟩,
   ⟨"enum".toList, ENUM, exp_opcode.OP_NULL, false⟩,
   ⟨"long".toList, LONG, exp_opcode.OP_NULL, false⟩,
   ⟨"true".toList, TRUEKEYWORD, exp_opcode.OP_NULL, true⟩,
   ⟨"int".toList, INT_KEYWORD, exp_opcode.OP_NULL, false⟩,
   ⟨"new".toList, NEW, exp_opcode.OP_NULL, true⟩,
   ⟨"delete".toList, DELETE, exp_opcode.OP_NULL, true⟩,
   ⟨"operator".toList, OPERATOR, exp_opcode.OP_NULL, true⟩,
   ⟨"and".toList, ANDAND, exp_opcode.BINOP_END, true⟩,
   ⟨"and_eq".toList, ASSIGN_MODIFY, exp_opcode.BINOP_BITWISE_AND, true⟩,
   ⟨"bitand".toList, '&'.toNat, exp_opcode.OP_NULL, true⟩,
   ⟨"bitor".toList, '|'.toNat, exp_opcode.OP_NULL, true⟩,
   ⟨"compl".toList, '~'.toNat, exp_opcode.OP_NULL, true⟩,
   ⟨"not".toList, '!'.toNat, exp_opcode.OP_NULL, true⟩,
   ⟨"not_eq".toList, NOTEQUAL, exp_opcode.BINOP_END, true⟩,
   ⟨"or".toList, OROR, exp_opcode.BINOP_END, true⟩,
   ⟨"or_eq".toList, ASSIGN_MODIFY, exp_opcode.BINOP_BITWISE_IOR, true⟩,
   ⟨"xor".toList, '^'.toNat, exp_opcode.OP_NULL, true⟩,
   ⟨"xor_eq".toList, ASSIGN_MODIFY, exp_opcode.BINOP_BITWISE_XOR, true⟩,
   ⟨"const_cast".toList, CONST_CAST, exp_opcode.OP_NULL, true⟩,
   ⟨"dynamic_cast".toList, DYNAMIC_CAST, exp_opcode.OP_NULL, true⟩,
   ⟨"static_cast".toList, STATIC_CAST, exp_opcode.OP_NULL, true⟩,
   ⟨"reinterpret_cast".toList, REINTERPRET_CAST, exp_opcode.OP_NULL, true⟩]

/-! ## The inner lexer `lex_one_token` -/

/-- The character `s[k]` of a NUL-terminated text. -/
def nth (s : List Char) (k : Nat) : Char := s.getD k NUL

/-- The test `strncmp (s, t, n) == 0` on NUL-terminated texts. -/
def strncmp_eq : List Char → List Char → Nat → Bool
  | _, _, 0 => true
  | s, t, n + 1 =>
    if deref s ≠ deref t then false
    else if deref s = NUL then true
    else strncmp_eq s.tail t.tail n

/-- The test `strcmp (s, t) == 0` on NUL-terminated texts. -/
def strcmp_eq (s t : List Char) : Bool :=
  strncmp_eq s t (max s.length t.length + 1)

/-- The loops over a table: the first entry `hit` accepts is returned, unless
it is `cxx_only` outside C++, where the loop is left by `break`. -/
def find_token (tab : List token) (hit : token → Bool) (cplus : Bool) : Option token :=
  match tab.find? hit with
  | some e => if e.cxx_only && !cplus then none else some e
  | none => none

/-- The test `c >= '0' && c <= '9'`. -/
def is_digit_char (c : Char) : Bool :=
  decide ('0'.toNat ≤ c.toNat ∧ c.toNat ≤ '9'.toNat)

/-- The test `(c >= 'a' && c <= 'z') || (c >= 'A' && c <= 'Z')`. -/
def is_letter_char (c : Char) : Bool :=
  decide (('a'.toNat ≤ c.toNat ∧ c.toNat ≤ 'z'.toNat) ∨
          ('A'.toNat ≤ c.toNat ∧ c.toNat ≤ 'Z'.toNat))

/-- The test that starts a name: `_`, `$` or a letter. -/
def is_name_start (c : Char) : Bool :=
  c = '_' || c = '$' || is_letter_char c

/-- The library test `isspace` in the C locale. -/
def isspace (c : Char) : Bool :=
  c = ' ' || decide (9 ≤ c.toNat ∧ c.toNat ≤ 13)

/-- The library test `isalnum` in the C locale. -/
def isalnum (c : Char) : Bool :=
  is_digit_char c || is_letter_char c

/-- The message of `error (_("Invalid number \"%s\"."), err_copy)`. -/
def msg_invalid_number (text : List Char) : String :=
  "Invalid number \"" ++ String.mk text ++ "\"."

/-- The message of `error (_("Empty character constant."))`. -/
def msg_empty_char : String := "Empty character constant."

/-- The message of `error (_("Invalid character constant."))`. -/
def msg_invalid_char_constant : String := "Invalid character constant."

/-- The message of `error (_("Invalid character '%c' in expression."), c)`. -/
def msg_invalid_character (c : Char) : String :=
  "Invalid character '" ++ String.singleton c ++ "' in expression."

/-- The function `is_cast_operator (token, len)`. -/
def is_cast_operator (tok : List Char) (len : Nat) : Bool :=
  strncmp_eq tok "dynamic_cast".toList len
  || strncmp_eq tok "static_cast".toList len
  || strncmp_eq tok "reinterpret_cast".toList len
  || strncmp_eq tok "const_cast".toList len

/-- The loop `for (;; ++p)` that finds the end of a number: `p` is the text at
the pointer, `prev` the character `p[-1]`, `k` the offset `p - tokstart`.  It
gives the offset where the loop breaks, `got_dot` and `got_e`. -/
def number_scan (hex : Bool) : List Char → Char → Bool → Bool → Nat → Nat × Bool × Bool
  | [], _, got_dot, got_e, k => (k, got_dot, got_e)
  | c :: rest, prev, got_dot, got_e, k =>
    if !hex && !got_e && (c = 'e' || c = 'E') then number_scan hex rest c true true (k + 1)
    else if !got_dot && c = '.' then number_scan hex rest c true got_e (k + 1)
    else if got_e && (prev = 'e' || prev = 'E') && (c = '-' || c = '+') then
      number_scan hex rest c got_dot got_e (k + 1)
    else if !is_digit_char c && !is_letter_char c then (k, got_dot, got_e)
    else number_scan hex rest c got_dot got_e (k + 1)

/-- The loop that measures a name: `p` is the text at `tokstart + namelen`,
`k` is `namelen`.  It gives `namelen` after the loop. -/
def name_scan (env : Env) (tokstart : List Char) : List Char → Nat → Nat
  | [], k => k
  | c :: rest, k =>
    if c = '<' then
      if !is_cast_operator tokstart k then
        match env.find_template_name_end (c :: rest) with
        | some d => k + d
        | none => k
      else k
    else if c = '_' || c = '$' || is_digit_char c || is_letter_char c then
      name_scan env tokstart rest (k + 1)
    else k

/-- The code from the label `tryname` on: the token text is the `namelen`
characters at `tokstart`, and `lexptr` is already beyond it. -/
def lex_tryname (env : Env) (st : State) (tokstart : List Char) (namelen : Nat) :
    Nat × State :=
  let copy := tokstart.take namelen
  let st1 := { st with yylval := { st.yylval with stoken := copy } }
  match find_token ident_tokens (fun e => strcmp_eq copy e.operator) env.cplus with
  | some e => (e.token, { st1 with yylval := { st1.yylval with opcode := e.opcode } })
  | none =>
    if deref tokstart = '$' then (VARIABLE, st1)
    else if env.in_parse_field && deref st1.lexptr = NUL then
      (NAME, { st1 with saw_name_at_eof := true })
    else (NAME, st1)

/-- The tests that end the expression at `if` and at `thread N`, `task N`. -/
def stops_expression (st : State) (tokstart : List Char) (namelen : Nat) : Bool :=
  (namelen = 2 && nth tokstart 0 = 'i' && nth tokstart 1 = 'f'
    && st.macro_original_text.isNone)
  || (decide (namelen ≥ 1)
      && (strncmp_eq tokstart "thread".toList namelen
          || strncmp_eq tokstart "task".toList namelen)
      && (nth tokstart namelen = ' ' || nth tokstart namelen = '\t')
      && st.macro_original_text.isNone
      && is_digit_char (deref ((tokstart.drop (namelen + 1)).dropWhile
            (fun c => c = ' ' || c = '\t'))))

/-- The code after the `switch`: a name, a keyword or a bad character. -/
def lex_name (env : Env) (st : State) (tokstart : List Char) (c : Char) :
    Except Failure (Nat × State) :=
  if !is_name_start c then Except.error (Failure.error (msg_invalid_character c))
  else
    let namelen := name_scan env tokstart tokstart 0
    if stops_expression st tokstart namelen then Except.ok (0, st)
    else
      Except.ok (lex_tryname env { st with lexptr := st.lexptr.drop namelen } tokstart namelen)

/-- The number case of the `switch`. -/
def lex_number (env : Env) (st : State) (tokstart : List Char) (c : Char) :
    Except Failure (Nat × State) :=
  let p1 := nth tokstart 1
  let start : Nat × Bool :=
    if c = '0' && (p1 = 'x' || p1 = 'X') then (2, true)
    else if c = '0' && (p1 = 't' || p1 = 'T' || p1 = 'd' || p1 = 'D') then (2, false)
    else (0, decide (env.cfg.input_radix > 10))
  let r := number_scan start.2 (tokstart.drop start.1) NUL false false start.1
  let len := r.1
  match parse_number env.cfg tokstart len (r.2.1 || r.2.2) with
  | Except.error e => Except.error e
  | Except.ok NumToken.ERROR =>
    Except.error (Failure.error (msg_invalid_number (tokstart.take len)))
  | Except.ok (NumToken.INT v t) =>
    let yylval : YYSTYPE :=
      { st.yylval with int_val := v, int_type := some (TypeRef.builtin t) }
    Except.ok (INT, { st with lexptr := tokstart.drop len, yylval := yylval })
  | Except.ok NumToken.FLOAT =>
    let text := tokstart.take len
    let yylval : YYSTYPE :=
      { st.yylval with float_val := text, float_type := env.parse_c_float_type text }
    Except.ok (FLOAT, { st with lexptr := tokstart.drop len, yylval := yylval })
  | Except.ok (NumToken.DECFLOAT t) =>
    let yylval : YYSTYPE :=
      { st.yylval with decfloat_val := tokstart.take (len - 2),
                       decfloat_type := some (TypeRef.builtin t) }
    Except.ok (DECFLOAT, { st with lexptr := tokstart.drop len, yylval := yylval })

/-- The string and character case of the `switch`. -/
def lex_string (env : Env) (st : State) (tokstart : List Char) (c : Char) :
    Except Failure (Nat × State) :=
  match parse_string_or_char tokstart with
  | Except.error e => Except.error e
  | Except.ok r =>
    let st1 := { st with lexptr := r.outptr, yylval := { st.yylval with tsval := r.value } }
    match r.token with
    | StrToken.STRING => Except.ok (STRING, st1)
    | StrToken.CHAR =>
      if r.host_chars = 0 then Except.error (Failure.error msg_empty_char)
      else if r.host_chars > 2 ∧ c = SQUOTE then
        Except.ok (lex_tryname env st1 (tokstart.drop 1)
                    (tokstart.length - r.outptr.length - 2))
      else if r.host_chars > 1 then Except.error (Failure.error msg_invalid_char_constant)
      else Except.ok (CHAR, st1)

/-- The code at the label `symbol`: `lexptr++; return c;`. -/
def lex_symbol (st : State) (c : Char) : Nat × State :=
  (c.toNat, { st with lexptr := st.lexptr.drop 1 })

/-- The statements under "Check if this is a macro invocation that we need to
expand": outside an expansion the text at `lexptr` is offered to
`macro_expand_next`, and `scan_macro_expansion` saves the text after the
invocation and points `lexptr` at the expansion. -/
def expand_macro (env : Env) (st : State) : State :=
  match st.macro_original_text with
  | some _ => st
  | none =>
    match env.macro_expand_next st.lexptr with
    | some (expanded, after) =>
      { st with macro_original_text := some after, lexptr := expanded }
    | none => st

/-- The `switch (c = *tokstart)` of `lex_one_token` and the code after it;
`retry` stands for `goto retry` with the globals as they are then, and
`saw_structop` is the local variable. -/
def lex_switch (env : Env) (retry : State → Except Failure (Nat × State))
    (saw_structop : Bool) (st : State) : Except Failure (Nat × State) :=
  let tokstart := st.lexptr
  let c := deref tokstart
  if c = NUL then
    match st.macro_original_text with
    | some original => retry { st with lexptr := original, macro_original_text := none }
    | none =>
      if st.saw_name_at_eof then Except.ok (COMPLETE, { st with saw_name_at_eof := false })
      else if saw_structop then Except.ok (COMPLETE, st)
      else Except.ok (0, st)
  else if c = ' ' ∨ c = '\t' ∨ c = '\n' then retry { st with lexptr := st.lexptr.drop 1 }
  else if c = '[' ∨ c = '(' then
    Except.ok (c.toNat, { st with paren_depth := st.paren_depth + 1,
                                  lexptr := st.lexptr.drop 1 })
  else if c = ']' ∨ c = ')' then
    if st.paren_depth = 0 then Except.ok (0, st)
    else Except.ok (c.toNat, { st with paren_depth := st.paren_depth - 1,
                                       lexptr := st.lexptr.drop 1 })
  else if c = ',' then
    if env.comma_terminates && st.paren_depth = 0 && st.macro_original_text.isNone then
      Except.ok (0, st)
    else Except.ok (lex_symbol st c)
  else if c = '.' ∧ !is_digit_char (nth st.lexptr 1) then
    Except.ok (lex_symbol
      (if env.in_parse_field then { st with last_was_structop := true } else st) c)
  else if c = '.' ∨ is_digit_char c then lex_number env st tokstart c
  else if c = '@' ∧
      (let p := (tokstart.drop 1).dropWhile isspace
       strncmp_eq p "entry".toList 5 && !isalnum (nth p 5) && nth p 5 ≠ '_') then
    Except.ok (ENTRY, { st with lexptr := ((tokstart.drop 1).dropWhile isspace).drop 5 })
  else if c = '@' ∨ c = '+' ∨ c = '-' ∨ c = '*' ∨ c = '/' ∨ c = '%' ∨ c = '|' ∨ c = '&'
      ∨ c = '^' ∨ c = '~' ∨ c = '!' ∨ c = '<' ∨ c = '>' ∨ c = '?' ∨ c = ':' ∨ c = '='
      ∨ c = '{' ∨ c = '}' then
    Except.ok (lex_symbol st c)
  else if (c = 'L' ∨ c = 'u' ∨ c = 'U') ∧ nth tokstart 1 ≠ DQUOTE ∧ nth tokstart 1 ≠ SQUOTE then
    lex_name env st tokstart c
  else if c = 'L' ∨ c = 'u' ∨ c = 'U' ∨ c = SQUOTE ∨ c = DQUOTE then
    lex_string env st tokstart c
  else lex_name env st tokstart c

/-- The statements `lexptr += n; yylval.opcode = e.opcode;` at an operator of a
table. -/
def lex_operator (st : State) (e : token) (n : Nat) : State :=
  { st with lexptr := st.lexptr.drop n, yylval := { st.yylval with opcode := e.opcode } }

/-- The body of `lex_one_token` from the label `retry` on; `saw_structop` is
the local variable.  One unit of the budget is spent at every arrival at
`retry`. -/
def lex_retry (env : Env) : Nat → Bool → State → Except Failure (Nat × State)
  | 0, _, _ => Except.error Failure.out_of_fuel
  | fuel + 1, saw_structop, st0 =>
    let st1 : State := expand_macro env st0
    let st : State := { st1 with prev_lexptr := some st1.lexptr }
    let tokstart := st.lexptr
    match find_token tokentab3 (fun e => strncmp_eq tokstart e.operator 3) env.cplus with
    | some e => Except.ok (e.token, lex_operator st e 3)
    | none =>
    match find_token tokentab2 (fun e => strncmp_eq tokstart e.operator 2) env.cplus with
    | some e =>
      Except.ok (e.token,
        if env.in_parse_field && e.token = ARROW then
          { lex_operator st e 2 with last_was_structop := true }
        else lex_operator st e 2)
    | none => lex_switch env (fun s => lex_retry env fuel saw_structop s) saw_structop st

/-- The function `lex_one_token ()`, with a budget for the jumps to `retry`;
the token is returned with the globals it leaves. -/
def lex_one_token (env : Env) (fuel : Nat) (st : State) : Except Failure (Nat × State) :=
  lex_retry env fuel st.last_was_structop { st with last_was_structop := false }

/-! ## The classification of names and the outer lexer `yylex` -/

/-- The member `tsym.type` of a semantic value; the bytes may hold a symbol
instead, and the pointer read is then no type. -/
def YYSTYPE.tsym_type (v : YYSTYPE) : Except Failure (Option TypeRef) :=
  match v.slot with
  | tsym_ssym.null => Except.ok none
  | tsym_ssym.type t => Except.ok (some t)
  | tsym_ssym.sym _ => Except.error Failure.undefined_value

/-- The member `ssym.sym` of a semantic value; the bytes may hold a type
instead, and the pointer read is then no symbol. -/
def YYSTYPE.ssym_sym (v : YYSTYPE) : Except Failure (Option symbol) :=
  match v.slot with
  | tsym_ssym.null => Except.ok none
  | tsym_ssym.sym s => Except.ok (some s)
  | tsym_ssym.type _ => Except.error Failure.undefined_value

/-- The pointer `ssym.sym = sym` as stored in the union. -/
def slot_of_sym (sym : Option symbol) : tsym_ssym :=
  match sym with
  | some s => tsym_ssym.sym s
  | none => tsym_ssym.null

/-- The pointer `tsym.type = type` as stored in the union. -/
def slot_of_type (type : Option TypeRef) : tsym_ssym :=
  match type with
  | some t => tsym_ssym.type t
  | none => tsym_ssym.null

/-- The test of `classify_name` on the first character of a name that may be
a number: a letter that is a digit beyond 9 in the input radix. -/
def radix_letter_first (radix : Nat) (copy : List Char) : Bool :=
  let c := (nth copy 0).toNat
  decide (('a'.toNat ≤ c ∧ c < 'a'.toNat + radix - 10) ∨
          ('A'.toNat ≤ c ∧ c < 'A'.toNat + radix - 10))

/-- The function `classify_name (block)`: the new token with the globals,
among them `yylval`, as it leaves them. -/
def classify_name (env : Env) (block : Option Block) (st0 : State) :
    Except Failure (Nat × State) :=
  let copy := st0.yylval.stoken
  let found := env.lookup_symbol copy block
  let sym := found.sym
  let is_a_field_of_this := env.cplus && found.is_a_field_of_this
  let st : State := { st0 with block_found := found.block_found }
  let as_symbol : YYSTYPE :=
    { st.yylval with slot := slot_of_sym sym, is_a_field_of_this := is_a_field_of_this }
  let is_block := match sym with
    | some s => decide (s.aclass = address_class.LOC_BLOCK)
    | none => false
  let symtab := if sym.isNone then env.lookup_symtab copy else none
  if is_block then Except.ok (BLOCKNAME, { st with yylval := as_symbol })
  else if symtab.isSome then
    Except.ok (FILENAME, { st with yylval := { st.yylval with bval := symtab } })
  else
    let typedef_type := match sym with
      | some s => if s.aclass = address_class.LOC_TYPEDEF then some s.type else none
      | none => none
    if typedef_type.isSome then
      Except.ok (TYPENAME, { st with yylval := { st.yylval with slot := slot_of_type typedef_type } })
    else
      let primitive := env.language_lookup_primitive_type_by_name copy
      if primitive.isSome then
        Except.ok (TYPENAME, { st with yylval := { st.yylval with slot := slot_of_type primitive } })
      else
        let other : Nat × State :=
          if sym.isNone && env.cplus && !is_a_field_of_this
              && (env.lookup_minimal_symbol copy).isNone then
            (UNKNOWN_CPP_NAME, { st with yylval := as_symbol })
          else (NAME, { st with yylval := as_symbol })
        if sym.isNone && radix_letter_first env.cfg.input_radix copy then
          match parse_number env.cfg copy copy.length false with
          | Except.error e => Except.error e
          | Except.ok (NumToken.INT _ _) => Except.ok (NAME_OR_INT, { st with yylval := as_symbol })
          | Except.ok _ => Except.ok other
        else Except.ok other

/-- The function `classify_inner_name (block, first_name)`. -/
def classify_inner_name (env : Env) (block : Option Block) (first_name : Bool) (st : State) :
    Except Failure (Nat × State) :=
  if first_name then classify_name env block st
  else
    match st.yylval.tsym_type with
    | Except.error e => Except.error e
    | Except.ok none => Except.error Failure.undefined_value
    | Except.ok (some type0) =>
      let code := env.type_code (env.check_typedef type0)
      if code ≠ type_code.TYPE_CODE_STRUCT ∧ code ≠ type_code.TYPE_CODE_UNION
          ∧ code ≠ type_code.TYPE_CODE_NAMESPACE then
        Except.ok (NAME, st)
      else
        match env.cp_lookup_nested_type type0 st.yylval.stoken block with
        | none => Except.ok (NAME, st)
        | some new_type =>
          Except.ok (TYPENAME,
            { st with yylval := { st.yylval with slot := tsym_ssym.type new_type } })

/-- The locals of `yylex` when its loop is left, with the globals. -/
structure yylex_locals where
  last_was_coloncolon : Bool
  first_iter : Bool
  current : token_and_value
  st : State

/-- The loop `while (1)` of `yylex`; one unit of the budget is spent at every
iteration, and every call of the inner lexer gets the budget `lexfuel`. -/
def yylex_loop (env : Env) (lexfuel : Nat) (first_was_coloncolon : Bool) :
    Nat → Bool → Bool → token_and_value → State → Except Failure yylex_locals
  | 0, _, _, _, _ => Except.error Failure.out_of_fuel
  | fuel + 1, last_was_coloncolon, first_iter, current, st =>
    match lex_one_token env lexfuel st with
    | Except.error e => Except.error e
    | Except.ok (token, st1) =>
      let next : token_and_value := { token := token, value := st1.yylval }
      if token = NAME ∧ last_was_coloncolon = true then
        match classify_inner_name env
            (if first_was_coloncolon then none else env.expression_context_block)
            first_iter st1 with
        | Except.error e => Except.error e
        | Except.ok (classification, st2) =>
          if classification ≠ TYPENAME then
            Except.ok { last_was_coloncolon := last_was_coloncolon, first_iter := first_iter,
                        current := current,
                        st := { st2 with token_fifo := st2.token_fifo ++ [next] } }
          else
            let name := st2.name_obstack ++ (if first_iter then [] else "::".toList)
                          ++ next.value.stoken
            let yylval : YYSTYPE := { st2.yylval with stoken := name }
            yylex_loop env lexfuel first_was_coloncolon fuel false false
              { token := classification, value := yylval }
              { st2 with name_obstack := name, yylval := yylval }
      else if token = COLONCOLON ∧ last_was_coloncolon = false then
        yylex_loop env lexfuel first_was_coloncolon fuel true false current st1
      else
        Except.ok { last_was_coloncolon := last_was_coloncolon, first_iter := first_iter,
                    current := current,
                    st := { st1 with token_fifo := st1.token_fifo ++ [next] } }

/-- The function `yylex ()`: the token returned with the globals, among them
`yylval`, as it leaves them.  The budget bounds the loop of `yylex` and, apart
from it, the jumps to `retry` of every call of the inner lexer. -/
def yylex (env : Env) (fuel : Nat) (st0 : State) : Except Failure (Nat × State) :=
  match st0.popping, st0.token_fifo with
  | true, tv :: rest => Except.ok (tv.token, { st0 with token_fifo := rest, yylval := tv.value })
  | _, _ =>
    match lex_one_token env fuel { st0 with popping := false } with
    | Except.error e => Except.error e
    | Except.ok (token1, st1) =>
      match (if token1 = NAME then classify_name env env.expression_context_block st1
             else Except.ok (token1, st1)) with
      | Except.error e => Except.error e
      | Except.ok (token, st2) =>
        if !env.cplus || (token ≠ TYPENAME && token ≠ COLONCOLON) then Except.ok (token, st2)
        else
          let first_was_coloncolon : Bool := token = COLONCOLON
          let st3 : State :=
            { st2 with name_obstack := if first_was_coloncolon then [] else st2.yylval.stoken }
          match yylex_loop env fuel first_was_coloncolon fuel first_was_coloncolon true
              { token := token, value := st3.yylval } st3 with
          | Except.error e => Except.error e
          | Except.ok r =>
            let st4 : State := { r.st with popping := true }
            if r.last_was_coloncolon && first_was_coloncolon && r.first_iter then
              Except.ok (COLONCOLON, { st4 with yylval := {} })
            else
              let st5 : State :=
                if r.last_was_coloncolon then
                  { st4 with token_fifo := { token := COLONCOLON, value := {} } :: st4.token_fifo }
                else st4
              Except.ok (r.current.token, { st5 with yylval := r.current.value })

/-! ## The tables of the parser -/

/-- The state `YYFINAL` in which the parse is accepted. -/
def YYFINAL : Int := 148

/-- The last index `YYLAST` of `yytable`. -/
def YYLAST : Int := 1137

/-- The number `YYNTOKENS` of terminal symbols. -/
def YYNTOKENS : Nat := 82

/-- The symbol number `YYUNDEFTOK` of a token the grammar does not know. -/
def YYUNDEFTOK : Nat := 2

/-- The largest token number `YYMAXUTOK`. -/
def YYMAXUTOK : Nat := 312

/-- The entry `YYPACT_NINF` of `yypact` for a state with a default action only. -/
def YYPACT_NINF : Int := -178

/-- The entry `YYTABLE_NINF` of `yytable` for a syntax error. -/
def YYTABLE_NINF : Int := -101

/-- The largest depth `YYMAXDEPTH` of the stacks. -/
def YYMAXDEPTH : Nat := 10000

/-- The table `yytranslate`: the symbol number of every token number up to `YYMAXUTOK`. -/
def yytranslate : List Nat :=
  [0, 2, 2, 2, 2, 2, 2, 2, 2, 2, 2, 2, 2, 2, 2, 2, 2, 2, 2, 2, 2, 2, 2, 2, 2, 2, 2, 2, 2, 2, 2, 2,
   2, 75, 2, 2, 2, 63, 49, 2, 69, 78, 61, 59, 41, 60, 67, 62, 2, 2, 2, 2, 2, 2, 2, 2, 2, 2, 81, 2,
   52, 43, 53, 44, 58, 2, 2, 2, 2, 2, 2, 2, 2, 2, 2, 2, 2, 2, 2, 2, 2, 2, 2, 2, 2, 2, 2, 2, 2, 2,
   2, 68, 2, 77, 48, 2, 2, 2, 2, 2, 2, 2, 2, 2, 2, 2, 2, 2, 2, 2, 2, 2, 2, 2, 2, 2, 2, 2, 2, 2, 2,
   2, 2, 79, 47, 80, 76, 2, 2, 2, 2, 2, 2, 2, 2, 2, 2, 2, 2, 2, 2, 2, 2, 2, 2, 2, 2, 2, 2, 2, 2,
   2, 2, 2, 2, 2, 2, 2, 2, 2, 2, 2, 2, 2, 2, 2, 2, 2, 2, 2, 2, 2, 2, 2, 2, 2, 2, 2, 2, 2, 2, 2, 2,
   2, 2, 2, 2, 2, 2, 2, 2, 2, 2, 2, 2, 2, 2, 2, 2, 2, 2, 2, 2, 2, 2, 2, 2, 2, 2, 2, 2, 2, 2, 2, 2,
   2, 2, 2, 2, 2, 2, 2, 2, 2, 2, 2, 2, 2, 2, 2, 2, 2, 2, 2, 2, 2, 2, 2, 2, 2, 2, 2, 2, 2, 2, 2, 2,
   2, 2, 2, 2, 2, 2, 2, 2, 2, 1, 2, 3, 4, 5, 6, 7, 8, 9, 10, 11, 12, 13, 14, 15, 16, 17, 18, 19,
   20, 21, 22, 23, 24, 25, 26, 27, 28, 29, 30, 31, 32, 33, 34, 35, 36, 37, 38, 39, 40, 42, 45, 46,
   50, 51, 54, 55, 56, 57, 64, 65, 66, 70, 71, 72, 73, 74]

/-- The table `yyr1`: the symbol number of the left-hand side of every rule. -/
def yyr1 : List Nat :=
  [0, 82, 83, 83, 84, 85, 85, 86, 86, 86, 86, 86, 86, 86, 86, 86, 86, 86, 86, 86, 86, 86, 86, 86,
   86, 86, 86, 86, 86, 87, 86, 88, 86, 89, 90, 90, 90, 86, 91, 86, 86, 86, 86, 86, 86, 86, 86, 86,
   86, 86, 86, 86, 86, 86, 86, 86, 86, 86, 86, 86, 86, 86, 86, 86, 86, 86, 86, 86, 86, 86, 86, 86,
   86, 86, 86, 86, 86, 92, 92, 86, 86, 86, 93, 93, 93, 94, 94, 95, 95, 95, 94, 94, 94, 96, 97, 97,
   98, 99, 99, 100, 100, 101, 101, 101, 101, 101, 102, 102, 102, 102, 102, 103, 103, 104, 104,
   105, 106, 106, 106, 106, 106, 106, 106, 106, 106, 106, 106, 106, 106, 106, 106, 106, 106, 106,
   106, 106, 106, 106, 106, 106, 106, 106, 106, 106, 106, 106, 106, 106, 106, 106, 106, 106, 106,
   106, 106, 106, 107, 107, 107, 107, 108, 108, 109, 109, 110, 110, 111, 111, 111, 112, 112, 112,
   112, 112, 112, 112, 112, 112, 112, 112, 112, 112, 112, 112, 112, 112, 112, 112, 112, 112, 112,
   112, 112, 112, 112, 112, 112, 112, 112, 112, 112, 112, 112, 113, 113, 113, 113, 113, 113, 114,
   114, 114, 114]

/-- The table `yyr2`: the number of symbols on the right-hand side of every rule. -/
def yyr2 : List Nat :=
  [0, 2, 1, 1, 1, 1, 3, 2, 2, 2, 2, 2, 2, 2, 2, 2, 2, 2, 3, 4, 3, 3, 3, 3, 4, 3, 3, 3, 4, 0, 5, 0,
   5, 1, 0, 1, 3, 5, 1, 3, 4, 4, 3, 3, 3, 3, 3, 3, 3, 3, 3, 3, 3, 3, 3, 3, 3, 3, 3, 3, 3, 3, 5, 3,
   3, 1, 1, 1, 1, 1, 1, 1, 4, 7, 7, 7, 7, 1, 2, 1, 1, 1, 1, 1, 3, 2, 3, 3, 4, 5, 1, 2, 1, 2, 1, 0,
   3, 1, 1, 1, 0, 1, 2, 1, 2, 1, 3, 2, 1, 2, 1, 2, 3, 2, 3, 1, 1, 1, 1, 1, 2, 3, 2, 3, 3, 3, 2, 2,
   3, 4, 3, 3, 4, 3, 4, 3, 4, 2, 3, 2, 3, 2, 3, 1, 2, 2, 2, 2, 2, 2, 1, 2, 1, 5, 2, 2, 1, 1, 1, 1,
   1, 3, 1, 4, 2, 2, 1, 1, 1, 2, 2, 4, 4, 2, 2, 2, 2, 2, 2, 2, 2, 2, 2, 2, 2, 2, 2, 2, 2, 2, 2, 2,
   2, 2, 2, 2, 2, 2, 2, 2, 3, 3, 2, 1, 1, 1, 1, 1, 1, 1, 1, 1, 1]

/-- The table `yydefact`: the rule every state reduces by default, 0 for an error. -/
def yydefact : List Nat :=
  [95, 65, 68, 69, 77, 66, 209, 212, 116, 67, 95, 0, 0, 0, 0, 0, 150, 0, 0, 0, 0, 0, 0, 152, 118,
   119, 117, 167, 168, 143, 71, 80, 81, 0, 0, 0, 0, 0, 0, 95, 210, 83, 0, 0, 33, 0, 3, 2, 5, 34,
   79, 0, 70, 90, 0, 97, 95, 4, 162, 115, 166, 98, 211, 92, 31, 0, 116, 169, 170, 186, 197, 183,
   194, 193, 180, 178, 179, 190, 189, 184, 185, 192, 191, 188, 187, 173, 174, 175, 176, 177, 196,
   195, 0, 0, 198, 199, 182, 181, 202, 203, 207, 205, 206, 204, 208, 145, 146, 147, 148, 0, 95,
   17, 156, 158, 159, 157, 149, 212, 210, 91, 0, 95, 95, 95, 95, 158, 159, 151, 126, 122, 127,
   120, 144, 141, 139, 137, 164, 165, 8, 10, 9, 7, 14, 13, 0, 0, 11, 12, 1, 0, 0, 0, 0, 0, 0, 0,
   0, 0, 0, 0, 0, 0, 0, 0, 0, 0, 0, 0, 0, 0, 0, 0, 16, 15, 0, 0, 29, 0, 0, 0, 35, 0, 0, 78, 0, 0,
   95, 154, 155, 99, 0, 85, 34, 0, 87, 0, 0, 201, 200, 0, 133, 124, 140, 95, 0, 0, 0, 0, 131, 123,
   125, 121, 135, 130, 128, 142, 138, 42, 0, 6, 64, 63, 0, 61, 60, 59, 58, 57, 52, 51, 55, 56, 54,
   53, 50, 49, 43, 47, 48, 44, 45, 46, 25, 205, 26, 23, 0, 34, 160, 0, 27, 22, 20, 21, 18, 0, 38,
   39, 0, 86, 93, 96, 94, 103, 101, 0, 95, 100, 105, 108, 110, 0, 88, 0, 171, 172, 72, 134, 0, 0,
   0, 0, 0, 132, 136, 129, 41, 0, 24, 28, 0, 95, 95, 19, 36, 40, 104, 102, 0, 111, 113, 0, 0, 163,
   95, 107, 109, 32, 89, 153, 0, 0, 0, 0, 62, 30, 161, 37, 112, 106, 114, 0, 0, 0, 0, 73, 75, 74,
   76]

/-- The table `yydefgoto`: the default state after a reduction to every nonterminal. -/
def yydefgoto : List Int :=
  [-1, 45, 46, 144, 48, 247, 192, 49, 181, 257, 50, 51, 52, 53, 186, 54, 55, 56, 190, 267, 268,
   269, 270, 248, 58, 116, 302, 59, 60, 61, 62, 105, 63]

/-- The table `yypact`: where the portion of every state starts in `yytable`. -/
def yypact : List Int :=
  [373, -178, -178, -178, -178, -178, -178, -43, 22, -178, 593, 101, 101, 101, 101, 209, 148, 45,
   101, 0, 31, 34, 55, 219, 226, 48, -178, 39, 123, -178, -178, -178, -178, 450, 450, 450, 450,
   450, 450, 373, 140, -178, 450, 450, -178, 161, -178, 131, 855, 296, 158, 151, -178, -178, 118,
   -178, 554, -178, 37, 362, -178, 124, -178, 154, -178, 24, -178, 127, 155, -178, -178, -178,
   -178, -178, -178, -178, -178, -178, -178, -178, -178, -178, -178, -178, -178, -178, -178, -178,
   -178, -178, -178, -178, 111, 141, -178, -178, -178, -178, 362, -178, -178, -178, -178, -178,
   -178, -178, -178, -178, -178, 22, 373, 1065, -178, 63, 191, -178, -178, -178, -178, -178, 173,
   554, 554, 554, 554, 136, -178, -178, 193, 195, 54, -178, -178, 198, 200, -178, -178, -178,
   1065, 1065, 1065, 1065, 1065, 1065, -10, 163, 1065, 1065, -178, 450, 450, 450, 450, 450, 450,
   450, 450, 450, 450, 450, 450, 450, 450, 450, 450, 450, 450, 450, 450, 450, 450, 450, -178,
   -178, 93, 450, 656, 450, 450, 120, 855, -25, 159, -178, 101, 234, 81, 37, -178, -178, 290,
   -178, 450, 101, 224, 170, 177, -178, -178, 182, 222, -178, -178, 554, 210, 212, 213, 218, 242,
   -178, -178, -178, 243, 244, -178, -178, -178, -178, 450, 855, 855, 855, 672, 911, 937, 962,
   986, 1009, 1030, 1030, 637, 637, 637, 637, 433, 433, 1044, 1056, 1056, 1065, 1065, 1065, -178,
   22, -178, 269, 16, 450, -178, -3, 130, 130, -178, -178, 270, 450, -178, -178, 450, 261, -178,
   -178, -178, -44, 52, 11, 30, 37, 58, -178, -178, -2, -178, 101, -178, -178, 527, -178, 233,
   220, 221, 225, 237, -178, -178, -178, 1065, 450, -178, -178, 2, 554, 81, -178, 855, 1065, -178,
   -178, 214, -178, -178, 215, 7, -178, 175, -178, -178, -178, -178, -178, 450, 450, 450, 450,
   884, -178, -178, -178, -178, -178, -178, 711, 747, 783, 819, -178, -178, -178, -178]

/-- The table `yypgoto`: where the portion of every nonterminal starts in `yytable`. -/
def yypgoto : List Int :=
  [-178, -178, -178, 10, -15, -178, -178, -178, -177, 105, -178, -178, -178, -97, -178, -175,
   -178, -29, 51, -174, -178, 57, 66, 1, 263, 297, 162, 327, -178, -173, -9, -6, 323]

set_option maxHeartbeats 1000000 in
/-- The table `yytable`: a positive entry shifts to that state, a negative one reduces by that rule, 0 and `YYTABLE_NINF` are syntax errors; after a reduction the entry is the next state. -/
def yytable : List Int :=
  [111, 57, 104, 104, 104, 104, 106, 107, 108, 104, 47, 261, 120, 262, 298, 271, 255, 264, 138,
   139, 140, 141, 142, 143, 265, 266, 64, 146, 147, 188, 189, 149, 99, 100, 180, 101, 102, 10,
   291, 255, 145, 66, 65, 255, 11, 12, 13, 14, 291, 16, 182, 18, 121, 6, 117, 256, 104, 149, 10,
   194, 23, 24, 25, 26, 27, 28, 29, 133, 217, 189, 290, 27, 28, 212, 136, 292, 307, 244, 134, 263,
   315, 135, 253, 122, 213, 320, 123, 214, 299, 296, 297, 264, 301, 289, 200, -95, 201, 103, 265,
   266, 193, 99, 100, 242, 243, 102, 10, 124, 300, 99, 100, 199, 101, 102, 10, 27, 28, 317, 118,
   262, 265, 266, 204, 205, 206, 207, 265, 304, 99, 100, 252, 243, 102, 10, 219, 220, 221, 222,
   223, 224, 225, 226, 227, 228, 229, 230, 231, 232, 233, 234, 235, 236, 237, 238, 239, 240, 241,
   137, 188, 112, -82, 148, 250, 251, 183, 104, 103, 208, 245, 209, 104, 184, 149, 254, 103, 104,
   185, 180, 259, 113, 114, 115, -94, 191, 104, 246, 66, 272, 197, 11, 12, 13, 14, 103, 16, 195,
   18, 174, 175, 176, 177, 178, 179, 286, 278, 23, 24, 25, 26, 27, 28, 29, 1, 2, 3, 4, 5, 6, 7,
   198, 109, 9, 10, 196, 202, 203, 210, 15, 211, 17, 112, 215, 180, 216, 19, 20, 21, 22, 189, 256,
   294, 218, 260, 295, 273, 128, 30, 274, 31, 32, 125, 126, 115, 300, 275, 277, 129, 130, 33, 131,
   276, 286, 132, 279, 104, 280, 281, 308, 34, 35, 36, 282, 314, 37, 38, 283, 284, 285, 110, 288,
   293, -84, 40, 41, 42, 43, 309, 258, 44, 310, 311, 318, 316, 319, 312, 321, 322, 323, 324, 1, 2,
   3, 4, 5, 6, 7, 313, 8, 9, 10, 11, 12, 13, 14, 15, 16, 17, 18, 303, 187, 127, 19, 20, 21, 22,
   305, 23, 24, 25, 26, 27, 28, 29, 30, 306, 31, 32, 98, 249, 263, 119, 0, 0, 0, 0, 33, 0, 0, 0,
   0, 0, 264, 0, 0, -95, 34, 35, 36, 265, 266, 37, 38, 0, 0, 0, 39, 0, 0, 0, 40, 41, 42, 43, 0, 0,
   44, 1, 2, 3, 4, 5, 6, 7, 0, 8, 9, 10, 11, 12, 13, 14, 15, 16, 17, 18, 0, 27, 28, 19, 20, 21,
   22, 0, 23, 24, 25, 26, 27, 28, 29, 30, -100, 31, 32, 0, 0, 0, 0, 0, 0, -95, 0, 33, -100, 0, 0,
   0, 0, 0, 0, -100, -100, 34, 35, 36, 0, 0, 37, 38, 0, 0, 0, 39, 0, 0, 0, 40, 41, 42, 43, 0, 0,
   44, 1, 2, 3, 4, 5, 6, 7, 0, 109, 9, 10, 0, 0, 0, 0, 15, 0, 17, 0, 0, 0, 0, 19, 20, 21, 22, 0,
   0, 0, 0, 0, 0, 0, 0, 30, 0, 31, 32, 166, 167, 168, 169, 170, 171, 172, 173, 33, 174, 175, 176,
   177, 178, 179, 0, 0, 0, 34, 35, 36, 0, 0, 37, 38, 0, 0, 0, 39, 0, 0, 0, 40, 41, 42, 43, 0, 0,
   44, 1, 2, 3, 4, 5, 6, 7, 0, 109, 9, 10, 0, 0, 0, 0, 15, 0, 17, 0, 0, 0, 0, 19, 20, 21, 22, 0,
   0, 0, 0, 0, 0, 0, 0, 30, 66, 31, 32, 11, 12, 13, 14, 0, 16, 0, 18, 0, 0, 0, 0, 0, 0, 0, 0, 23,
   24, 25, 26, 27, 28, 29, 37, 38, 0, 0, 0, 39, 0, 0, 0, 40, 41, 42, 43, 66, 0, 44, 11, 12, 13,
   14, 0, 16, 0, 18, 0, 67, 68, 0, 0, 0, 0, 0, 23, 24, 25, 26, 27, 28, 29, 0, 69, 0, 0, 70, 0, 71,
   0, 72, 73, 74, 75, 76, 77, 78, 79, 80, 81, 82, 83, 84, 0, 85, 86, 87, 88, 89, 90, 91, 0, 0, 92,
   93, 0, 94, 95, 0, 66, 96, 97, 11, 12, 13, 14, 0, 16, 0, 18, 0, 0, 0, 0, 0, 0, 0, 0, 23, 24, 25,
   26, 27, 28, 29, 164, 165, 166, 167, 168, 169, 170, 171, 172, 173, 0, 174, 175, 176, 177, 178,
   179, 150, 0, 0, 0, -95, 151, 152, 153, 154, 155, 156, 157, 158, 159, 160, 161, 162, 163, 164,
   165, 166, 167, 168, 169, 170, 171, 172, 173, 0, 174, 175, 176, 177, 178, 179, 0, 0, 0, 0, 150,
   0, 0, 0, 287, 151, 152, 153, 154, 155, 156, 157, 158, 159, 160, 161, 162, 163, 164, 165, 166,
   167, 168, 169, 170, 171, 172, 173, 0, 174, 175, 176, 177, 178, 179, 0, 150, 0, 0, 0, 325, 151,
   152, 153, 154, 155, 156, 157, 158, 159, 160, 161, 162, 163, 164, 165, 166, 167, 168, 169, 170,
   171, 172, 173, 0, 174, 175, 176, 177, 178, 179, 0, 150, 0, 0, 0, 326, 151, 152, 153, 154, 155,
   156, 157, 158, 159, 160, 161, 162, 163, 164, 165, 166, 167, 168, 169, 170, 171, 172, 173, 0,
   174, 175, 176, 177, 178, 179, 0, 150, 0, 0, 0, 327, 151, 152, 153, 154, 155, 156, 157, 158,
   159, 160, 161, 162, 163, 164, 165, 166, 167, 168, 169, 170, 171, 172, 173, 0, 174, 175, 176,
   177, 178, 179, 0, 150, 0, 0, 0, 328, 151, 152, 153, 154, 155, 156, 157, 158, 159, 160, 161,
   162, 163, 164, 165, 166, 167, 168, 169, 170, 171, 172, 173, 0, 174, 175, 176, 177, 178, 179,
   152, 153, 154, 155, 156, 157, 158, 159, 160, 161, 162, 163, 164, 165, 166, 167, 168, 169, 170,
   171, 172, 173, 0, 174, 175, 176, 177, 178, 179, 154, 155, 156, 157, 158, 159, 160, 161, 162,
   163, 164, 165, 166, 167, 168, 169, 170, 171, 172, 173, 0, 174, 175, 176, 177, 178, 179, 155,
   156, 157, 158, 159, 160, 161, 162, 163, 164, 165, 166, 167, 168, 169, 170, 171, 172, 173, 0,
   174, 175, 176, 177, 178, 179, 156, 157, 158, 159, 160, 161, 162, 163, 164, 165, 166, 167, 168,
   169, 170, 171, 172, 173, 0, 174, 175, 176, 177, 178, 179, 157, 158, 159, 160, 161, 162, 163,
   164, 165, 166, 167, 168, 169, 170, 171, 172, 173, 0, 174, 175, 176, 177, 178, 179, 158, 159,
   160, 161, 162, 163, 164, 165, 166, 167, 168, 169, 170, 171, 172, 173, 0, 174, 175, 176, 177,
   178, 179, 160, 161, 162, 163, 164, 165, 166, 167, 168, 169, 170, 171, 172, 173, 0, 174, 175,
   176, 177, 178, 179, 167, 168, 169, 170, 171, 172, 173, 0, 174, 175, 176, 177, 178, 179, 169,
   170, 171, 172, 173, 0, 174, 175, 176, 177, 178, 179, 172, 173, 0, 174, 175, 176, 177, 178, 179]

set_option maxHeartbeats 1000000 in
/-- The table `yycheck`: the entry of `yytable` at an index counts only if the entry here is the symbol, or the state, looked up. -/
def yycheck : List Int :=
  [15, 0, 11, 12, 13, 14, 12, 13, 14, 18, 0, 186, 18, 186, 3, 192, 41, 61, 33, 34, 35, 36, 37, 38,
   68, 69, 69, 42, 43, 58, 59, 41, 8, 9, 49, 11, 12, 13, 41, 41, 39, 11, 20, 41, 14, 15, 16, 17,
   41, 19, 49, 21, 52, 8, 9, 80, 65, 41, 13, 65, 30, 31, 32, 33, 34, 35, 36, 19, 78, 98, 247, 34,
   35, 19, 35, 78, 78, 174, 30, 49, 78, 33, 179, 52, 30, 78, 52, 33, 77, 263, 264, 61, 266, 77,
   31, 58, 33, 73, 68, 69, 76, 8, 9, 10, 11, 12, 13, 52, 78, 8, 9, 110, 11, 12, 13, 34, 35, 292,
   73, 292, 68, 69, 121, 122, 123, 124, 68, 69, 8, 9, 10, 11, 12, 13, 149, 150, 151, 152, 153,
   154, 155, 156, 157, 158, 159, 160, 161, 162, 163, 164, 165, 166, 167, 168, 169, 170, 171, 34,
   187, 11, 20, 0, 177, 178, 6, 174, 73, 31, 174, 33, 179, 20, 41, 179, 73, 184, 58, 192, 184, 31,
   32, 33, 58, 29, 193, 175, 11, 193, 77, 14, 15, 16, 17, 73, 19, 68, 21, 67, 68, 69, 70, 71, 72,
   218, 203, 30, 31, 32, 33, 34, 35, 36, 3, 4, 5, 6, 7, 8, 9, 78, 11, 12, 13, 68, 33, 52, 33, 18,
   33, 20, 11, 33, 247, 33, 25, 26, 27, 28, 267, 80, 255, 78, 8, 258, 20, 19, 37, 77, 39, 40, 31,
   32, 33, 78, 77, 33, 30, 31, 49, 33, 78, 276, 36, 53, 273, 53, 53, 273, 59, 60, 61, 53, 287, 64,
   65, 33, 33, 33, 69, 10, 10, 20, 73, 74, 75, 76, 53, 182, 79, 69, 69, 77, 291, 78, 69, 310, 311,
   312, 313, 3, 4, 5, 6, 7, 8, 9, 69, 11, 12, 13, 14, 15, 16, 17, 18, 19, 20, 21, 267, 56, 23, 25,
   26, 27, 28, 268, 30, 31, 32, 33, 34, 35, 36, 37, 268, 39, 40, 10, 176, 49, 17, -1, -1, -1, -1,
   49, -1, -1, -1, -1, -1, 61, -1, -1, 58, 59, 60, 61, 68, 69, 64, 65, -1, -1, -1, 69, -1, -1, -1,
   73, 74, 75, 76, -1, -1, 79, 3, 4, 5, 6, 7, 8, 9, -1, 11, 12, 13, 14, 15, 16, 17, 18, 19, 20,
   21, -1, 34, 35, 25, 26, 27, 28, -1, 30, 31, 32, 33, 34, 35, 36, 37, 49, 39, 40, -1, -1, -1, -1,
   -1, -1, 58, -1, 49, 61, -1, -1, -1, -1, -1, -1, 68, 69, 59, 60, 61, -1, -1, 64, 65, -1, -1, -1,
   69, -1, -1, -1, 73, 74, 75, 76, -1, -1, 79, 3, 4, 5, 6, 7, 8, 9, -1, 11, 12, 13, -1, -1, -1,
   -1, 18, -1, 20, -1, -1, -1, -1, 25, 26, 27, 28, -1, -1, -1, -1, -1, -1, -1, -1, 37, -1, 39, 40,
   58, 59, 60, 61, 62, 63, 64, 65, 49, 67, 68, 69, 70, 71, 72, -1, -1, -1, 59, 60, 61, -1, -1, 64,
   65, -1, -1, -1, 69, -1, -1, -1, 73, 74, 75, 76, -1, -1, 79, 3, 4, 5, 6, 7, 8, 9, -1, 11, 12,
   13, -1, -1, -1, -1, 18, -1, 20, -1, -1, -1, -1, 25, 26, 27, 28, -1, -1, -1, -1, -1, -1, -1, -1,
   37, 11, 39, 40, 14, 15, 16, 17, -1, 19, -1, 21, -1, -1, -1, -1, -1, -1, -1, -1, 30, 31, 32, 33,
   34, 35, 36, 64, 65, -1, -1, -1, 69, -1, -1, -1, 73, 74, 75, 76, 11, -1, 79, 14, 15, 16, 17, -1,
   19, -1, 21, -1, 23, 24, -1, -1, -1, -1, -1, 30, 31, 32, 33, 34, 35, 36, -1, 38, -1, -1, 41, -1,
   43, -1, 45, 46, 47, 48, 49, 50, 51, 52, 53, 54, 55, 56, 57, -1, 59, 60, 61, 62, 63, 64, 65, -1,
   -1, 68, 69, -1, 71, 72, -1, 11, 75, 76, 14, 15, 16, 17, -1, 19, -1, 21, -1, -1, -1, -1, -1, -1,
   -1, -1, 30, 31, 32, 33, 34, 35, 36, 56, 57, 58, 59, 60, 61, 62, 63, 64, 65, -1, 67, 68, 69, 70,
   71, 72, 38, -1, -1, -1, 58, 43, 44, 45, 46, 47, 48, 49, 50, 51, 52, 53, 54, 55, 56, 57, 58, 59,
   60, 61, 62, 63, 64, 65, -1, 67, 68, 69, 70, 71, 72, -1, -1, -1, -1, 38, -1, -1, -1, 81, 43, 44,
   45, 46, 47, 48, 49, 50, 51, 52, 53, 54, 55, 56, 57, 58, 59, 60, 61, 62, 63, 64, 65, -1, 67, 68,
   69, 70, 71, 72, -1, 38, -1, -1, -1, 78, 43, 44, 45, 46, 47, 48, 49, 50, 51, 52, 53, 54, 55, 56,
   57, 58, 59, 60, 61, 62, 63, 64, 65, -1, 67, 68, 69, 70, 71, 72, -1, 38, -1, -1, -1, 78, 43, 44,
   45, 46, 47, 48, 49, 50, 51, 52, 53, 54, 55, 56, 57, 58, 59, 60, 61, 62, 63, 64, 65, -1, 67, 68,
   69, 70, 71, 72, -1, 38, -1, -1, -1, 78, 43, 44, 45, 46, 47, 48, 49, 50, 51, 52, 53, 54, 55, 56,
   57, 58, 59, 60, 61, 62, 63, 64, 65, -1, 67, 68, 69, 70, 71, 72, -1, 38, -1, -1, -1, 78, 43, 44,
   45, 46, 47, 48, 49, 50, 51, 52, 53, 54, 55, 56, 57, 58, 59, 60, 61, 62, 63, 64, 65, -1, 67, 68,
   69, 70, 71, 72, 44, 45, 46, 47, 48, 49, 50, 51, 52, 53, 54, 55, 56, 57, 58, 59, 60, 61, 62, 63,
   64, 65, -1, 67, 68, 69, 70, 71, 72, 46, 47, 48, 49, 50, 51, 52, 53, 54, 55, 56, 57, 58, 59, 60,
   61, 62, 63, 64, 65, -1, 67, 68, 69, 70, 71, 72, 47, 48, 49, 50, 51, 52, 53, 54, 55, 56, 57, 58,
   59, 60, 61, 62, 63, 64, 65, -1, 67, 68, 69, 70, 71, 72, 48, 49, 50, 51, 52, 53, 54, 55, 56, 57,
   58, 59, 60, 61, 62, 63, 64, 65, -1, 67, 68, 69, 70, 71, 72, 49, 50, 51, 52, 53, 54, 55, 56, 57,
   58, 59, 60, 61, 62, 63, 64, 65, -1, 67, 68, 69, 70, 71, 72, 50, 51, 52, 53, 54, 55, 56, 57, 58,
   59, 60, 61, 62, 63, 64, 65, -1, 67, 68, 69, 70, 71, 72, 52, 53, 54, 55, 56, 57, 58, 59, 60, 61,
   62, 63, 64, 65, -1, 67, 68, 69, 70, 71, 72, 59, 60, 61, 62, 63, 64, 65, -1, 67, 68, 69, 70, 71,
   72, 61, 62, 63, 64, 65, -1, 67, 68, 69, 70, 71, 72, 64, 65, -1, 67, 68, 69, 70, 71, 72]

/-! ## The actions of the grammar rules -/

/-- Modelled from the spec: the writers of `parse.c` append to the expression
under construction, in the order of the calls. -/
def write_exp (st : State) (elts : List Elt) : State :=
  { st with expout := st.expout ++ elts }

/-- The three elements `write_exp_elt_opcode (op); ...; write_exp_elt_opcode (op)`
around one operand. -/
def write_exp_op1 (st : State) (op : exp_opcode) (operand : Elt) : State :=
  write_exp st [Elt.opcode op, operand, Elt.opcode op]

/-- Modelled from the spec: `start_arglist ()` of `parse.c` saves the running
argument count on the chain of calls and starts a new count at 0. -/
def start_arglist (st : State) : State :=
  { st with funcall_chain := st.arglist_len :: st.funcall_chain, arglist_len := 0 }

/-- Modelled from the spec: `end_arglist ()` of `parse.c` returns the running
argument count and restores the count saved by the matching `start_arglist`. -/
def end_arglist (st : State) : Except Failure (Int × State) :=
  match st.funcall_chain with
  | [] => Except.error Failure.undefined_value
  | saved :: rest =>
    Except.ok (st.arglist_len, { st with funcall_chain := rest, arglist_len := saved })

/-- Modelled from the spec: `mark_struct_expression ()` of `parse.c` records the
position in the expression where the structure operator is about to be
written. -/
def mark_struct_expression (st : State) : State :=
  { st with expout_last_struct := some st.expout.length }

/-- Modelled from the spec: `push_type` and its variants of `parse.c` put a
marker on the type stack. -/
def push_type (st : State) (pieces : List type_piece) : State :=
  { st with type_stack := st.type_stack ++ pieces }

/-- Modelled from the spec: `follow_types (type)` of `parse.c` builds the type
from the base type and the markers of the type stack, which it empties. -/
def follow_types (env : Env) (st : State) (type : Option TypeRef) : Option TypeRef × State :=
  (env.follow_types type st.type_stack, { st with type_stack := [] })

/-- The function `operator_stoken (op)`. -/
def operator_stoken (op : List Char) : List Char :=
  "operator".toList ++ op

/-- The message of `yyerror (msg)`: `lexptr` is moved back to `prev_lexptr` when
that is set. -/
def msg_yyerror (msg : String) (st : State) : String :=
  "A " ++ msg ++ " in expression, near `"
    ++ String.mk (match st.prev_lexptr with
                  | some p => p
                  | none => st.lexptr) ++ "'."

/-- A call of `error` with a message built from one text. -/
def error_about (before : String) (text : List Char) (after : String) : Failure :=
  Failure.error (before ++ String.mk text ++ after)

/-- The opcode of the rules whose action is one call of
`write_exp_elt_opcode`. -/
def rule_opcode (yyn : Nat) : Option exp_opcode :=
  match yyn with
  | 6 => some exp_opcode.BINOP_COMMA
  | 7 => some exp_opcode.UNOP_IND
  | 8 => some exp_opcode.UNOP_ADDR
  | 9 => some exp_opcode.UNOP_NEG
  | 10 => some exp_opcode.UNOP_PLUS
  | 11 => some exp_opcode.UNOP_LOGICAL_NOT
  | 12 => some exp_opcode.UNOP_COMPLEMENT
  | 13 => some exp_opcode.UNOP_PREINCREMENT
  | 14 => some exp_opcode.UNOP_PREDECREMENT
  | 15 => some exp_opcode.UNOP_POSTINCREMENT
  | 16 => some exp_opcode.UNOP_POSTDECREMENT
  | 17 => some exp_opcode.UNOP_SIZEOF
  | 22 => some exp_opcode.STRUCTOP_MPTR
  | 27 => some exp_opcode.STRUCTOP_MEMBER
  | 28 => some exp_opcode.BINOP_SUBSCRIPT
  | 43 => some exp_opcode.BINOP_REPEAT
  | 44 => some exp_opcode.BINOP_MUL
  | 45 => some exp_opcode.BINOP_DIV
  | 46 => some exp_opcode.BINOP_REM
  | 47 => some exp_opcode.BINOP_ADD
  | 48 => some exp_opcode.BINOP_SUB
  | 49 => some exp_opcode.BINOP_LSH
  | 50 => some exp_opcode.BINOP_RSH
  | 51 => some exp_opcode.BINOP_EQUAL
  | 52 => some exp_opcode.BINOP_NOTEQUAL
  | 53 => some exp_opcode.BINOP_LEQ
  | 54 => some exp_opcode.BINOP_GEQ
  | 55 => some exp_opcode.BINOP_LESS
  | 56 => some exp_opcode.BINOP_GTR
  | 57 => some exp_opcode.BINOP_BITWISE_AND
  | 58 => some exp_opcode.BINOP_BITWISE_XOR
  | 59 => some exp_opcode.BINOP_BITWISE_IOR
  | 60 => some exp_opcode.BINOP_LOGICAL_AND
  | 61 => some exp_opcode.BINOP_LOGICAL_OR
  | 62 => some exp_opcode.TERNOP_COND
  | 63 => some exp_opcode.BINOP_ASSIGN
  | _ => none

/-- The operator text of the rules `operator: OPERATOR ...` whose action is
`operator_stoken` of a fixed text. -/
def rule_operator (yyn : Nat) : Option String :=
  match yyn with
  | 169 => some " new"
  | 170 => some " delete"
  | 171 => some " new[]"
  | 172 => some " delete[]"
  | 173 => some "+"
  | 174 => some "-"
  | 175 => some "*"
  | 176 => some "/"
  | 177 => some "%"
  | 178 => some "^"
  | 179 => some "&"
  | 180 => some "|"
  | 181 => some "~"
  | 182 => some "!"
  | 183 => some "="
  | 184 => some "<"
  | 185 => some ">"
  | 187 => some "<<"
  | 188 => some ">>"
  | 189 => some "=="
  | 190 => some "!="
  | 191 => some "<="
  | 192 => some ">="
  | 193 => some "&&"
  | 194 => some "||"
  | 195 => some "++"
  | 196 => some "--"
  | 197 => some ","
  | 198 => some "->*"
  | 199 => some "->"
  | 200 => some "()"
  | 201 => some "[]"
  | _ => none

/-- The text chosen by the `switch` of rule 186 (`OPERATOR ASSIGN_MODIFY`). -/
def assign_modify_text (op : exp_opcode) : String :=
  match op with
  | exp_opcode.BINOP_RSH => ">>="
  | exp_opcode.BINOP_LSH => "<<="
  | exp_opcode.BINOP_ADD => "+="
  | exp_opcode.BINOP_SUB => "-="
  | exp_opcode.BINOP_MUL => "*="
  | exp_opcode.BINOP_DIV => "/="
  | exp_opcode.BINOP_REM => "%="
  | exp_opcode.BINOP_BITWISE_IOR => "|="
  | exp_opcode.BINOP_BITWISE_AND => "&="
  | exp_opcode.BINOP_BITWISE_XOR => "^="
  | _ => "unknown"

/-- The type name a rule of `typebase` or `typename` looks up: the name, and
whether `lookup_unsigned_typename` is called instead of
`lookup_signed_typename`. -/
def rule_typename (yyn : Nat) : Option (String × Bool) :=
  if yyn = 117 ∨ yyn = 152 ∨ yyn = 157 then some ("int", false)
  else if yyn = 118 ∨ (120 ≤ yyn ∧ yyn ≤ 123) ∨ yyn = 158 then some ("long", false)
  else if yyn = 119 ∨ (137 ≤ yyn ∧ yyn ≤ 139) ∨ yyn = 159 then some ("short", false)
  else if 124 ≤ yyn ∧ yyn ≤ 126 then some ("long", true)
  else if 127 ≤ yyn ∧ yyn ≤ 132 then some ("long long", false)
  else if 133 ≤ yyn ∧ yyn ≤ 136 then some ("long long", true)
  else if 140 ≤ yyn ∧ yyn ≤ 142 then some ("short", true)
  else if yyn = 150 then some ("int", true)
  else none

/-- The semantic value `yyvsp[-k]`; the stack is kept with its top first. -/
def yyvsp_at (yyvsp : List YYSTYPE) (k : Nat) : YYSTYPE := yyvsp.getD k {}

/-- The loop of rule 79 over the pieces of a string: the type of the whole.
A piece of type `C_STRING` leaves the type as it is (`case C_STRING: break;`). -/
def concat_type : List typed_stoken → Nat → Except Failure Nat
  | [], type => Except.ok type
  | tok :: rest, type =>
    if tok.type = C_STRING then concat_type rest type
    else if tok.type = C_WIDE_STRING ∨ tok.type = C_STRING_16 ∨ tok.type = C_STRING_32 then
      if type ≠ C_STRING ∧ type ≠ tok.type then
        Except.error (Failure.error "Undefined string concatenation.")
      else concat_type rest tok.type
    else Except.error (Failure.error "unrecognized type in string concatenation")

/-- The actions of the rules 4 to 81, those of `type_exp`, `exp1`, `exp`,
`arglist` and `string_exp`; `yyval` comes in as `yyvsp[1 - yylen]` and goes out
as the value of the left-hand side. -/
def yyaction_exp (env : Env) (yyn : Nat) (yyvsp : List YYSTYPE) (yyval : YYSTYPE)
    (st : State) : Except Failure (YYSTYPE × State) :=
  let v := yyvsp_at yyvsp
  match yyn with
  | 4 => Except.ok (yyval, write_exp_op1 st exp_opcode.OP_TYPE (Elt.type (v 0).tval))
  | 18 => Except.ok (yyval, write_exp_op1 st exp_opcode.STRUCTOP_PTR (Elt.string (v 0).stoken))
  | 19 =>
    Except.ok (yyval, write_exp_op1 (mark_struct_expression st) exp_opcode.STRUCTOP_PTR
      (Elt.string (v 1).stoken))
  | 20 =>
    Except.ok (yyval, write_exp_op1 (mark_struct_expression st) exp_opcode.STRUCTOP_PTR
      (Elt.string []))
  | 21 =>
    Except.ok (yyval, write_exp st
      [Elt.opcode exp_opcode.UNOP_ADDR, Elt.opcode exp_opcode.STRUCTOP_MPTR])
  | 23 =>
    Except.ok (yyval, write_exp_op1 st exp_opcode.STRUCTOP_STRUCT (Elt.string (v 0).stoken))
  | 24 =>
    Except.ok (yyval, write_exp_op1 (mark_struct_expression st) exp_opcode.STRUCTOP_STRUCT
      (Elt.string (v 1).stoken))
  | 25 =>
    Except.ok (yyval, write_exp_op1 (mark_struct_expression st) exp_opcode.STRUCTOP_STRUCT
      (Elt.string []))
  | 26 =>
    Except.ok (yyval, write_exp st
      [Elt.opcode exp_opcode.UNOP_ADDR, Elt.opcode exp_opcode.STRUCTOP_MEMBER])
  | 29 => Except.ok (yyval, start_arglist st)
  | 30 =>
    match end_arglist st with
    | Except.error e => Except.error e
    | Except.ok (n, st1) =>
      Except.ok (yyval, write_exp_op1 st1 exp_opcode.OP_FUNCALL (Elt.longcst n))
  | 31 =>
    Except.ok (yyval, start_arglist (write_exp st
      [Elt.opcode exp_opcode.OP_ADL_FUNC, Elt.block env.expression_context_block,
       Elt.sym none, Elt.string (v 1).stoken, Elt.opcode exp_opcode.OP_ADL_FUNC]))
  | 32 =>
    match end_arglist st with
    | Except.error e => Except.error e
    | Except.ok (n, st1) =>
      Except.ok (yyval, write_exp_op1 st1 exp_opcode.OP_FUNCALL (Elt.longcst n))
  | 33 => Except.ok (yyval, start_arglist st)
  | 35 => Except.ok (yyval, { st with arglist_len := 1 })
  | 36 => Except.ok (yyval, { st with arglist_len := st.arglist_len + 1 })
  | 37 =>
    let tvec := (v 2).tvec
    Except.ok (yyval, write_exp st
      ([Elt.opcode exp_opcode.TYPE_INSTANCE, Elt.longcst tvec.length]
        ++ tvec.map Elt.type
        ++ [Elt.longcst tvec.length, Elt.opcode exp_opcode.TYPE_INSTANCE]))
  | 38 =>
    match end_arglist st with
    | Except.error e => Except.error e
    | Except.ok (n, st1) => Except.ok ({ yyval with lval := n - 1 }, st1)
  | 39 =>
    Except.ok (yyval, write_exp st
      [Elt.opcode exp_opcode.OP_ARRAY, Elt.longcst 0, Elt.longcst (v 0).lval,
       Elt.opcode exp_opcode.OP_ARRAY])
  | 40 => Except.ok (yyval, write_exp_op1 st exp_opcode.UNOP_MEMVAL (Elt.type (v 2).tval))
  | 41 => Except.ok (yyval, write_exp_op1 st exp_opcode.UNOP_CAST (Elt.type (v 2).tval))
  | 64 =>
    Except.ok (yyval, write_exp_op1 st exp_opcode.BINOP_ASSIGN_MODIFY (Elt.opcode (v 1).opcode))
  | 65 =>
    Except.ok (yyval, write_exp st
      [Elt.opcode exp_opcode.OP_LONG, Elt.type (v 0).int_type, Elt.longcst (v 0).int_val,
       Elt.opcode exp_opcode.OP_LONG])
  | 66 =>
    Except.ok (yyval, write_exp st [Elt.string_vector (v 0).tsval.type [(v 0).tsval]])
  | 67 =>
    match parse_number env.cfg (v 0).stoken (v 0).stoken.length false with
    | Except.error e => Except.error e
    | Except.ok (NumToken.INT val type) =>
      Except.ok (yyval, write_exp st
        [Elt.opcode exp_opcode.OP_LONG, Elt.type (some (TypeRef.builtin type)),
         Elt.longcst val, Elt.opcode exp_opcode.OP_LONG])
    | Except.ok _ => Except.error Failure.undefined_value
  | 68 =>
    Except.ok (yyval, write_exp st
      [Elt.opcode exp_opcode.OP_DOUBLE, Elt.type (v 0).float_type, Elt.dblcst (v 0).float_val,
       Elt.opcode exp_opcode.OP_DOUBLE])
  | 69 =>
    Except.ok (yyval, write_exp st
      [Elt.opcode exp_opcode.OP_DECFLOAT, Elt.type (v 0).decfloat_type,
       Elt.decfloatcst (v 0).decfloat_val, Elt.opcode exp_opcode.OP_DECFLOAT])
  | 71 => Except.ok (yyval, write_exp st [Elt.dollar_variable (v 0).stoken])
  | 72 =>
    match (v 1).tval with
    | none => Except.error Failure.undefined_value
    | some type =>
      Except.ok (yyval, write_exp st
        [Elt.opcode exp_opcode.OP_LONG, Elt.type (env.lookup_signed_typename "int".toList),
         Elt.longcst (env.type_length (env.check_typedef type)),
         Elt.opcode exp_opcode.OP_LONG])
  | 73 =>
    Except.ok (yyval, write_exp_op1 st exp_opcode.UNOP_REINTERPRET_CAST (Elt.type (v 4).tval))
  | 74 => Except.ok (yyval, write_exp_op1 st exp_opcode.UNOP_CAST (Elt.type (v 4).tval))
  | 75 => Except.ok (yyval, write_exp_op1 st exp_opcode.UNOP_DYNAMIC_CAST (Elt.type (v 4).tval))
  | 76 => Except.ok (yyval, write_exp_op1 st exp_opcode.UNOP_CAST (Elt.type (v 4).tval))
  | 77 => Except.ok ({ yyval with svec := [(v 0).tsval] }, st)
  | 78 => Except.ok ({ yyval with svec := yyval.svec ++ [(v 0).tsval] }, st)
  | 79 =>
    match concat_type (v 0).svec C_STRING with
    | Except.error e => Except.error e
    | Except.ok type => Except.ok (yyval, write_exp st [Elt.string_vector type (v 0).svec])
  | 80 =>
    Except.ok (yyval, write_exp st
      [Elt.opcode exp_opcode.OP_LONG, Elt.type (some TypeRef.builtin_bool), Elt.longcst 1,
       Elt.opcode exp_opcode.OP_LONG])
  | 81 =>
    Except.ok (yyval, write_exp st
      [Elt.opcode exp_opcode.OP_LONG, Elt.type (some TypeRef.builtin_bool), Elt.longcst 0,
       Elt.opcode exp_opcode.OP_LONG])
  | n =>
    match rule_opcode n with
    | some op => Except.ok (yyval, write_exp st [Elt.opcode op])
    | none => Except.ok (yyval, st)

/-- The end of the rules 91 and 92 when no symbol was found: the minimal
symbol, or one of two errors. -/
def write_minimal_symbol (env : Env) (name : List Char) (yyval : YYSTYPE) (st : State) :
    Except Failure (YYSTYPE × State) :=
  match env.lookup_minimal_symbol name with
  | some msymbol => Except.ok (yyval, write_exp st [Elt.msymbol msymbol])
  | none =>
    if !env.have_full_symbols && !env.have_partial_symbols then
      Except.error (Failure.error "No symbol table is loaded.  Use the \"file\" command.")
    else Except.error (error_about "No symbol \"" name "\" in current context.")

/-- The assignment `innermost_block = block_found` of rule 92 under its test. -/
def note_innermost_block (env : Env) (st : State) : State :=
  if st.innermost_block.isNone || env.contained_in st.block_found st.innermost_block then
    { st with innermost_block := st.block_found }
  else st

/-- The start of the rules 87 and 88: the type before `::` after
`CHECK_TYPEDEF`, which has to be a structure, a union or a namespace. -/
def aggregate_type (env : Env) (v : YYSTYPE) : Except Failure TypeRef :=
  match v.tsym_type with
  | Except.error e => Except.error e
  | Except.ok none => Except.error Failure.undefined_value
  | Except.ok (some type0) =>
    let type := env.check_typedef type0
    let code := env.type_code type
    if code ≠ type_code.TYPE_CODE_STRUCT ∧ code ≠ type_code.TYPE_CODE_UNION
        ∧ code ≠ type_code.TYPE_CODE_NAMESPACE then
      Except.error (error_about "`" (env.type_name type) "' is not defined as an aggregate type.")
    else Except.ok type

/-- The actions of the rules 82 to 92 and 203 to 212, those of `block`,
`variable`, `qualified_name`, `name` and `name_not_typename`. -/
def yyaction_name (env : Env) (yyn : Nat) (yyvsp : List YYSTYPE) (yyval : YYSTYPE)
    (st : State) : Except Failure (YYSTYPE × State) :=
  let v := yyvsp_at yyvsp
  match yyn with
  | 82 =>
    match (v 0).ssym_sym with
    | Except.error e => Except.error e
    | Except.ok (some sym) => Except.ok ({ yyval with bval := some sym.block_value }, st)
    | Except.ok none => Except.error (error_about "No file or function \"" (v 0).stoken "\".")
  | 83 => Except.ok ({ yyval with bval := (v 0).bval }, st)
  | 84 =>
    let found := env.lookup_symbol (v 0).stoken (v 2).bval
    let in_context : Option symbol := match found.sym with
      | some tem => if tem.aclass = address_class.LOC_BLOCK then some tem else none
      | none => none
    match in_context with
    | some tem =>
      Except.ok ({ yyval with bval := some tem.block_value },
                 { st with block_found := found.block_found })
    | none =>
      Except.error (error_about "No function \"" (v 0).stoken "\" in specified context.")
  | 85 =>
    match (v 1).ssym_sym with
    | Except.error e => Except.error e
    | Except.ok sym =>
      let usable : Bool := match sym with
        | some s => s.is_argument && s.read_needs_frame
        | none => false
      if !usable then
        Except.error (error_about
          "@entry can be used only for function parameters, not for \"" (v 1).stoken "\"")
      else Except.ok (yyval, write_exp_op1 st exp_opcode.OP_VAR_ENTRY_VALUE (Elt.sym sym))
  | 86 =>
    let found := env.lookup_symbol (v 0).stoken (v 2).bval
    match found.sym with
    | none =>
      Except.error (error_about "No symbol \"" (v 0).stoken "\" in specified context.")
    | some sym =>
      Except.ok (yyval, write_exp { st with block_found := found.block_found }
        [Elt.opcode exp_opcode.OP_VAR_VALUE, Elt.block found.block_found, Elt.sym (some sym),
         Elt.opcode exp_opcode.OP_VAR_VALUE])
  | 87 =>
    match aggregate_type env (v 2) with
    | Except.error e => Except.error e
    | Except.ok type =>
      Except.ok (yyval, write_exp st
        [Elt.opcode exp_opcode.OP_SCOPE, Elt.type (some type), Elt.string (v 0).stoken,
         Elt.opcode exp_opcode.OP_SCOPE])
  | 88 =>
    match aggregate_type env (v 3) with
    | Except.error e => Except.error e
    | Except.ok type =>
      Except.ok (yyval, write_exp st
        [Elt.opcode exp_opcode.OP_SCOPE, Elt.type (some type), Elt.string ('~' :: (v 0).stoken),
         Elt.opcode exp_opcode.OP_SCOPE])
  | 89 =>
    match (v 4).tsym_type with
    | Except.error e => Except.error e
    | Except.ok none => Except.error Failure.undefined_value
    | Except.ok (some type) =>
      Except.error (Failure.error ("No type \"" ++ String.mk (v 2).stoken
        ++ "\" within class or namespace \"" ++ String.mk (env.type_name type) ++ "\"."))
  | 91 =>
    let name := (v 0).stoken
    let found := env.lookup_symbol name none
    let st1 : State := { st with block_found := found.block_found }
    match found.sym with
    | some sym =>
      Except.ok (yyval, write_exp st1
        [Elt.opcode exp_opcode.OP_VAR_VALUE, Elt.block none, Elt.sym (some sym),
         Elt.opcode exp_opcode.OP_VAR_VALUE])
    | none => write_minimal_symbol env name yyval st1
  | 92 =>
    match (v 0).ssym_sym with
    | Except.error e => Except.error e
    | Except.ok (some sym) =>
      let st1 := if sym.read_needs_frame then note_innermost_block env st else st
      Except.ok (yyval, write_exp st1
        [Elt.opcode exp_opcode.OP_VAR_VALUE, Elt.block none, Elt.sym (some sym),
         Elt.opcode exp_opcode.OP_VAR_VALUE])
    | Except.ok none =>
      if (v 0).is_a_field_of_this then
        Except.ok (yyval, write_exp (note_innermost_block env st)
          [Elt.opcode exp_opcode.OP_THIS, Elt.opcode exp_opcode.OP_THIS,
           Elt.opcode exp_opcode.STRUCTOP_PTR, Elt.string (v 0).stoken,
           Elt.opcode exp_opcode.STRUCTOP_PTR])
      else write_minimal_symbol env (v 0).stoken yyval st
  | 211 =>
    let found := env.lookup_symbol (v 0).stoken env.expression_context_block
    Except.ok ({ yyval with stoken := (v 0).stoken, slot := slot_of_sym found.sym,
                            is_a_field_of_this := found.is_a_field_of_this },
               { st with block_found := found.block_found })
  | n =>
    if 203 ≤ n ∧ n ≤ 208 then Except.ok ({ yyval with stoken := (v 0).stoken }, st)
    else Except.ok (yyval, st)

/-- The actions of the rules 93 to 202, those of the types and of the operator
names. -/
def yyaction_type (env : Env) (yyn : Nat) (yyvsp : List YYSTYPE) (yyval : YYSTYPE)
    (st : State) : Except Failure (YYSTYPE × State) :=
  let v := yyvsp_at yyvsp
  let ctx := env.expression_context_block
  let lookup (name : String) (is_unsigned : Bool) : Option TypeRef :=
    if is_unsigned then env.lookup_unsigned_typename name.toList
    else env.lookup_signed_typename name.toList
  match yyn with
  | 93 =>
    Except.ok (yyval, push_type st
      [type_piece.address_space (v 0).stoken, type_piece.tp_space_identifier])
  | 101 => Except.ok ({ yyval with voidval := 0 }, push_type st [type_piece.tp_pointer])
  | 102 =>
    Except.ok ({ yyval with voidval := (v 0).voidval }, push_type st [type_piece.tp_pointer])
  | 103 => Except.ok ({ yyval with voidval := 0 }, push_type st [type_piece.tp_reference])
  | 104 =>
    Except.ok ({ yyval with voidval := (v 0).voidval }, push_type st [type_piece.tp_reference])
  | 106 => Except.ok ({ yyval with voidval := (v 1).voidval }, st)
  | 107 =>
    Except.ok (yyval, push_type st [type_piece.int (v 0).lval, type_piece.tp_array])
  | 108 =>
    Except.ok ({ yyval with voidval := 0 },
               push_type st [type_piece.int (v 0).lval, type_piece.tp_array])
  | 109 => Except.ok (yyval, push_type st [type_piece.tp_function])
  | 110 => Except.ok (yyval, push_type st [type_piece.tp_function])
  | 111 => Except.ok ({ yyval with lval := -1 }, st)
  | 112 => Except.ok ({ yyval with lval := (v 1).int_val }, st)
  | 113 => Except.ok ({ yyval with voidval := 0 }, st)
  | 114 => Except.ok ({ yyval with voidval := 0 }, st)
  | 116 =>
    match (v 0).tsym_type with
    | Except.error e => Except.error e
    | Except.ok type => Except.ok ({ yyval with tval := type }, st)
  | 143 => Except.ok ({ yyval with tval := env.lookup_typename "double".toList }, st)
  | 144 => Except.ok ({ yyval with tval := env.lookup_typename "long double".toList }, st)
  | 145 => Except.ok ({ yyval with tval := env.lookup_struct (v 0).stoken ctx }, st)
  | 146 => Except.ok ({ yyval with tval := env.lookup_struct (v 0).stoken ctx }, st)
  | 147 => Except.ok ({ yyval with tval := env.lookup_union (v 0).stoken ctx }, st)
  | 148 => Except.ok ({ yyval with tval := env.lookup_enum (v 0).stoken ctx }, st)
  | 149 =>
    match (v 0).tsym_type with
    | Except.ok (some type) =>
      Except.ok ({ yyval with tval := env.lookup_unsigned_typename (env.type_name type) }, st)
    | Except.ok none => Except.error Failure.undefined_value
    | Except.error e => Except.error e
  | 151 =>
    match (v 0).tsym_type with
    | Except.ok (some type) =>
      Except.ok ({ yyval with tval := env.lookup_signed_typename (env.type_name type) }, st)
    | Except.ok none => Except.error Failure.undefined_value
    | Except.error e => Except.error e
  | 153 =>
    Except.ok ({ yyval with tval := env.lookup_template_type (v 3).stoken (v 1).tval ctx }, st)
  | 154 =>
    let r := follow_types env st (v 0).tval
    Except.ok ({ yyval with tval := r.1 }, r.2)
  | 155 =>
    let r := follow_types env st (v 1).tval
    Except.ok ({ yyval with tval := r.1 }, r.2)
  | 157 =>
    Except.ok ({ yyval with stoken := "int".toList,
                            slot := slot_of_type (lookup "int" false) }, st)
  | 158 =>
    Except.ok ({ yyval with stoken := "long".toList,
                            slot := slot_of_type (lookup "long" false) }, st)
  | 159 =>
    Except.ok ({ yyval with stoken := "short".toList,
                            slot := slot_of_type (lookup "short" false) }, st)
  | 160 => Except.ok ({ yyval with tvec := [(v 0).tval] }, st)
  | 161 => Except.ok ({ yyval with tvec := (v 2).tvec ++ [(v 0).tval] }, st)
  | 163 =>
    let r := follow_types env st (v 3).tval
    Except.ok ({ yyval with tval := r.1 }, r.2)
  | 166 => Except.ok (yyval, push_type st [type_piece.tp_const, type_piece.tp_volatile])
  | 167 => Except.ok (yyval, push_type st [type_piece.tp_const])
  | 168 => Except.ok (yyval, push_type st [type_piece.tp_volatile])
  | 186 =>
    Except.ok ({ yyval with
      stoken := operator_stoken (assign_modify_text (v 0).opcode).toList }, st)
  | 202 =>
    Except.ok ({ yyval with stoken := operator_stoken (env.c_print_type (v 0).tval) }, st)
  | n =>
    match rule_typename n, rule_operator n with
    | some (name, is_unsigned), _ => Except.ok ({ yyval with tval := lookup name is_unsigned }, st)
    | none, some op => Except.ok ({ yyval with stoken := operator_stoken op.toList }, st)
    | none, none => Except.ok (yyval, st)

/-- The `switch (yyn)` of `yyreduce`: the action of rule `yyn`.  A rule without
an action keeps `yyval`. -/
def yyaction (env : Env) (yyn : Nat) (yyvsp : List YYSTYPE) (yyval : YYSTYPE) (st : State) :
    Except Failure (YYSTYPE × State) :=
  if yyn ≤ 81 then yyaction_exp env yyn yyvsp yyval st
  else if yyn ≤ 92 ∨ 203 ≤ yyn then yyaction_name env yyn yyvsp yyval st
  else yyaction_type env yyn yyvsp yyval st

/-! ## The parser `yyparse` -/

/-- An entry of a table of natural numbers; 0 beyond its end. -/
def table_nat (table : List Nat) (i : Nat) : Nat := table.getD i 0

/-- An entry of a table of integers; 0 beyond its end. -/
def table_int (table : List Int) (i : Nat) : Int := table.getD i 0

/-- The macro `YYTRANSLATE (yychar)`. -/
def YYTRANSLATE (yychar : Nat) : Nat :=
  if yychar ≤ YYMAXUTOK then table_nat yytranslate yychar else YYUNDEFTOK

/-- The state the parser enters after a reduction to the nonterminal `lhs`,
with `top` the state uncovered on the stack. -/
def yygoto (lhs top : Nat) : Nat :=
  let yystate := table_int yypgoto (lhs - YYNTOKENS) + (top : Int)
  if 0 ≤ yystate ∧ yystate ≤ YYLAST ∧ table_int yycheck yystate.toNat = (top : Int) then
    (table_int yytable yystate.toNat).toNat
  else (table_int yydefgoto (lhs - YYNTOKENS)).toNat

/-- The stacks of `yyparse`, their tops first, and the lookahead `yychar`,
which is `none` for `YYEMPTY`. -/
structure yystacks where
  yyss : List Nat
  yyvs : List YYSTYPE
  yychar : Option Nat

/-- The code at `yyreduce`: the action of rule `yyn` is run on the top
`yylen` values, which are then replaced by `yyval`, and the state is pushed
that the tables give for the left-hand side.  For an empty rule `yyval` starts
as the value above the top of the stack, which the C code leaves undefined; it
is the zero value here. -/
def yyreduce (env : Env) (yyn : Nat) (s : yystacks) (st : State) :
    Except Failure (yystacks × State) :=
  let yylen := table_nat yyr2 yyn
  let yyval : YYSTYPE := if yylen = 0 then {} else yyvsp_at s.yyvs (yylen - 1)
  match yyaction env yyn s.yyvs yyval st with
  | Except.error e => Except.error e
  | Except.ok (yyval1, st1) =>
    let yyss := s.yyss.drop yylen
    Except.ok ({ yyss := yygoto (table_nat yyr1 yyn) (yyss.headD 0) :: yyss,
                 yyvs := yyval1 :: s.yyvs.drop yylen,
                 yychar := s.yychar }, st1)

/-- The code at `yyerrlab`: no error is being recovered from, so
`yyerror ("syntax error")` is called, and `error` does not return. -/
def yyerrlab (st : State) : Failure :=
  Failure.error (msg_yyerror "syntax error" st)

/-- The code at `yydefault`. -/
def yydefault (env : Env) (s : yystacks) (st : State) : Except Failure (yystacks × State) :=
  let yyn := table_nat yydefact (s.yyss.headD 0)
  if yyn = 0 then Except.error (yyerrlab st) else yyreduce env yyn s st

/-- The loop of `yyparse` from `yysetstate` on: one unit of the budget is
spent at every state entered, and every call of `yylex` gets the budget
`lexfuel`.  The value is `yyresult` with the globals. -/
def yyparse_loop (env : Env) (lexfuel : Nat) :
    Nat → yystacks → State → Except Failure (Nat × State)
  | 0, _, _ => Except.error Failure.out_of_fuel
  | fuel + 1, s, st =>
    if YYMAXDEPTH ≤ s.yyss.length then
      Except.error (Failure.error (msg_yyerror "parser stack overflow" st))
    else
      let yystate := s.yyss.headD 0
      let yyn := table_int yypact yystate
      if yyn = YYPACT_NINF then
        match yydefault env s st with
        | Except.error e => Except.error e
        | Except.ok (s1, st1) => yyparse_loop env lexfuel fuel s1 st1
      else
        match (match s.yychar with
               | some c => Except.ok (c, st)
               | none => yylex env lexfuel st) with
        | Except.error e => Except.error e
        | Except.ok (yychar, st1) =>
          let yytoken := if yychar = 0 then 0 else YYTRANSLATE yychar
          let s1 : yystacks := { s with yychar := some yychar }
          let yyn1 := yyn + (yytoken : Int)
          if yyn1 < 0 ∨ YYLAST < yyn1 ∨ table_int yycheck yyn1.toNat ≠ (yytoken : Int) then
            match yydefault env s1 st1 with
            | Except.error e => Except.error e
            | Except.ok (s2, st2) => yyparse_loop env lexfuel fuel s2 st2
          else
            let yyn2 := table_int yytable yyn1.toNat
            if yyn2 ≤ 0 then
              if yyn2 = 0 ∨ yyn2 = YYTABLE_NINF then Except.error (yyerrlab st1)
              else
                match yyreduce env (-yyn2).toNat s1 st1 with
                | Except.error e => Except.error e
                | Except.ok (s2, st2) => yyparse_loop env lexfuel fuel s2 st2
            else if yyn2 = YYFINAL then Except.ok (0, st1)
            else
              yyparse_loop env lexfuel fuel
                { yyss := yyn2.toNat :: s.yyss, yyvs := st1.yylval :: s.yyvs,
                  yychar := if yychar = 0 then some 0 else none }
                st1

/-- The function `yyparse ()`: the parse starts in state 0 with no lookahead;
the bottom of the value stack is never initialised. -/
def yyparse (env : Env) (fuel : Nat) (st : State) : Except Failure (Nat × State) :=
  yyparse_loop env fuel fuel { yyss := [0], yyvs := [{}], yychar := none } st

/-- The function `c_parse ()`: the lexer state is reset, `yyparse` is run, and
the cleanup `scan_macro_cleanup` pops a macro expansion left open.  The
assertion `gdb_assert (! macro_original_text)` is a failure of the caller. -/
def c_parse (env : Env) (fuel : Nat) (st : State) : Except Failure (Nat × State) :=
  if st.macro_original_text.isSome then
    Except.error (Failure.error "Assertion `! macro_original_text' failed.")
  else
    match yyparse env fuel
        { st with last_was_structop := false, saw_name_at_eof := false,
                  token_fifo := [], popping := false, name_obstack := [] } with
    | Except.error e => Except.error e
    | Except.ok (result, st1) =>
      match st1.macro_original_text with
      | some original =>
        Except.ok (result, { st1 with lexptr := original, macro_original_text := none })
      | none => Except.ok (result, st1)

/-- Modelled from the spec: the caller in `parse.c` points `lexptr` at the
expression text and clears the other globals before it calls the parser. -/
def initial_state (text : List Char) : State := { lexptr := text }

/-- The expression `c_parse` builds from a text, or the failure of the
parse. -/
def parse_expout (env : Env) (fuel : Nat) (text : String) : Except Failure (List Elt) :=
  match c_parse env fuel (initial_state text.toList) with
  | Except.error e => Except.error e
  | Except.ok r => Except.ok r.2.expout

/-! ## Vocabulary of the specification for the lexers and the parser -/

/-- A parse of C text: decimal input radix, 32-bit `int`, no symbols, no
macros. -/
def env_c : Env := { cfg := cfg32 10 }

/-- The globals as `lex_one_token` leaves them when it returns the operator `e`
of a table met at `st.lexptr`, with `rest` the text beyond the operator. -/
def after_operator (env : Env) (st : State) (e : token) (rest : List Char) : State :=
  { st with lexptr := rest, prev_lexptr := some st.lexptr,
            yylval := { st.yylval with opcode := e.opcode },
            last_was_structop := env.in_parse_field && decide (e.token = ARROW) }

/-- The globals as `lex_one_token` leaves them when it returns the character
literal that `parse_string_or_char` described by `r`. -/
def after_char (st : State) (r : StringOut) : State :=
  { st with last_was_structop := false, prev_lexptr := some st.lexptr, lexptr := r.outptr,
            yylval := { st.yylval with tsval := r.value } }

/-- The symbol of a variable named by one letter. -/
def variable_symbol (c : Char) : symbol :=
  { id := c.toNat, aclass := address_class.LOC_OTHER,
    type := TypeRef.builtin CType.builtin_int, block_value := 0,
    is_argument := false, read_needs_frame := false }

/-- A scope in which every name of one letter is a variable and no other name
is known, in C or in C++. -/
def env_variables (cplus : Bool) : Env :=
  { cfg := cfg32 10, cplus := cplus,
    lookup_symbol := fun name _ =>
      match name with
      | [c] => if is_letter_char c then { sym := some (variable_symbol c) } else {}
      | _ => {} }

/-- The elements the parser writes for the variable named by the letter `c`. -/
def variable_elts (c : Char) : List Elt :=
  [Elt.opcode exp_opcode.OP_VAR_VALUE, Elt.block none, Elt.sym (some (variable_symbol c)),
   Elt.opcode exp_opcode.OP_VAR_VALUE]

/-- The elements the parser writes for an integer constant of type `int`. -/
def int_elts (n : Int) : List Elt :=
  [Elt.opcode exp_opcode.OP_LONG, Elt.type (some (TypeRef.builtin CType.builtin_int)),
   Elt.longcst n, Elt.opcode exp_opcode.OP_LONG]

/-- The symbol of the structure type `Foo`, whose type is number 1. -/
def symbol_Foo : symbol :=
  { id := 1, aclass := address_class.LOC_TYPEDEF, type := TypeRef.named 1, block_value := 0,
    is_argument := false, read_needs_frame := false }

/-- A C++ scope in which `Foo` is a structure type (number 1) with the nested
structure type `Bar` (number 2), and `Bar` has no nested type. -/
def env_nested : Env :=
  { cfg := cfg32 10, cplus := true,
    lookup_symbol := fun name _ =>
      if name = "Foo".toList then { sym := some symbol_Foo } else {},
    type_code := fun _ => type_code.TYPE_CODE_STRUCT,
    cp_lookup_nested_type := fun type name _ =>
      if type = TypeRef.named 1 ∧ name = "Bar".toList then some (TypeRef.named 2) else none }

/-- The tokens of `count` successive calls of `yylex`, each with the token
text `yylval.sval` and the pointer `yylval.tsym.type` it leaves. -/
def yylex_tokens (env : Env) (fuel : Nat) :
    Nat → State → Except Failure (List (Nat × List Char × tsym_ssym))
  | 0, _ => Except.ok []
  | count + 1, st =>
    match yylex env fuel st with
    | Except.error e => Except.error e
    | Except.ok (token, st1) =>
      match yylex_tokens env fuel count st1 with
      | Except.error e => Except.error e
      | Except.ok rest => Except.ok ((token, st1.yylval.stoken, st1.yylval.slot) :: rest)

/-! ## Vocabulary for the tokens that end an expression, names and keywords -/

/-- The globals as `lex_one_token` leaves them when it returns without moving
`lexptr`: only `prev_lexptr` and `last_was_structop` are written. -/
def after_stop (st : State) : State :=
  { st with last_was_structop := false, prev_lexptr := some st.lexptr }

/-- The symbol of a variable with the given name. -/
def word_symbol (name : List Char) : symbol :=
  { id := name.foldl (fun n c => n * 256 + c.toNat) 0, aclass := address_class.LOC_OTHER,
    type := TypeRef.builtin CType.builtin_int, block_value := 0,
    is_argument := false, read_needs_frame := false }

/-- A scope in which every name is a variable, in C or in C++, with
`comma_terminates` as given. -/
def env_words (cplus comma_terminates : Bool) : Env :=
  { cfg := cfg32 10, cplus := cplus, comma_terminates := comma_terminates,
    lookup_symbol := fun name _ => { sym := some (word_symbol name) } }

/-- The elements the parser writes for the variable `name` of `env_words`. -/
def word_elts (name : String) : List Elt :=
  [Elt.opcode exp_opcode.OP_VAR_VALUE, Elt.block none, Elt.sym (some (word_symbol name.toList)),
   Elt.opcode exp_opcode.OP_VAR_VALUE]

/-- The value `c_parse` returns, the expression it has built and the text left
at `lexptr`, or the failure of the parse. -/
def parse_prefix (env : Env) (fuel : Nat) (text : String) :
    Except Failure (Nat × List Elt × List Char) :=
  match c_parse env fuel (initial_state text.toList) with
  | Except.error e => Except.error e
  | Except.ok r => Except.ok (r.1, r.2.expout, r.2.lexptr)

/-- The test of the loop that measures a name, without the `<` of a template:
`_`, `$`, a digit or a letter. -/
def is_name_char (c : Char) : Bool :=
  c = '_' || c = '$' || is_digit_char c || is_letter_char c

/-- The text `rest` after a name lets the name end there: its first character
is neither a character of names nor `<`. -/
def ends_name (rest : List Char) : Bool :=
  !is_name_char (deref rest) && deref rest ≠ '<'

/-- The name is `thread`, `task` or a beginning of one of them, and is not
empty. -/
def begins_thread (name : List Char) : Bool :=
  name ≠ [] && (name.isPrefixOf "thread".toList || name.isPrefixOf "task".toList)

/-- The text after a name is a space or a tab, then any spaces and tabs, then a
decimal digit. -/
def digit_follows (rest : List Char) : Bool :=
  (deref rest = ' ' || deref rest = '\t')
  && is_digit_char (deref ((rest.drop 1).dropWhile (fun c => c = ' ' || c = '\t')))

/-- The tokens of `count` successive calls of `lex_one_token`. -/
def lex_tokens (env : Env) (fuel : Nat) : Nat → State → Except Failure (List Nat)
  | 0, _ => Except.ok []
  | count + 1, st =>
    match lex_one_token env fuel st with
    | Except.error e => Except.error e
    | Except.ok (token, st1) =>
      match lex_tokens env fuel count st1 with
      | Except.error e => Except.error e
      | Except.ok rest => Except.ok (token :: rest)

/-- The globals as `lex_one_token` leaves them when it returns `NAME` for the
name `name` met at `st.lexptr`, with `rest` the text beyond the name. -/
def after_name (env : Env) (st : State) (name rest : List Char) : State :=
  { st with last_was_structop := false, prev_lexptr := some st.lexptr, lexptr := rest,
            yylval := { st.yylval with stoken := name },
            saw_name_at_eof :=
              st.saw_name_at_eof || (env.in_parse_field && decide (deref rest = NUL)) }

/-- The globals as `lex_one_token` leaves them when it returns the keyword `e`
of `ident_tokens` met at `st.lexptr`, with `rest` the text beyond the keyword. -/
def after_keyword (st : State) (e : token) (rest : List Char) : State :=
  { st with last_was_structop := false, prev_lexptr := some st.lexptr, lexptr := rest,
            yylval := { st.yylval with stoken := e.operator, opcode := e.opcode } }

/-- The tokens of `count` successive calls of `yylex`, each with the semantic
value `yylval` it leaves, and the globals after the last call. -/
def yylex_values (env : Env) (fuel : Nat) :
    Nat → State → Except Failure (List token_and_value × State)
  | 0, st => Except.ok ([], st)
  | count + 1, st =>
    match yylex env fuel st with
    | Except.error e => Except.error e
    | Except.ok (token, st1) =>
      match yylex_values env fuel count st1 with
      | Except.error e => Except.error e
      | Except.ok (rest, st2) => Except.ok (⟨token, st1.yylval⟩ :: rest, st2)

/-- The semantic value of the last entry of a queue, or `yylval` as it was for
an empty queue. -/
def last_value : List token_and_value → YYSTYPE → YYSTYPE
  | [], yylval => yylval
  | tv :: rest, _ => last_value rest tv.value

/-! ## The right-hand sides of the grammar rules -/

set_option maxHeartbeats 1000000 in
/-- The table `yyrhs`: the right-hand sides of the rules, each ended by -1. -/
def yyrhs : List Int :=
  [83, 0, -1, 85, -1, 84, -1, 105, -1, 86, -1, 85, 41, 86, -1, 61, 86, -1, 49, 86, -1, 60, 86, -1,
   59, 86, -1, 75, 86, -1, 76, 86, -1, 65, 86, -1, 64, 86, -1, 86, 65, -1, 86, 64, -1, 18, 86, -1,
   86, 72, 113, -1, 86, 72, 113, 10, -1, 86, 72, 10, -1, 86, 72, 95, -1, 86, 71, 86, -1, 86, 67,
   113, -1, 86, 67, 113, 10, -1, 86, 67, 10, -1, 86, 67, 95, -1, 86, 70, 86, -1, 86, 68, 85, 77,
   -1, -1, 86, 69, 87, 90, 78, -1, -1, 9, 69, 88, 90, 78, -1, 79, -1, -1, 86, -1, 90, 41, 86, -1,
   86, 69, 108, 78, 97, -1, 80, -1, 89, 90, 91, -1, 89, 105, 91, 86, -1, 69, 105, 78, 86, -1, 69,
   85, 78, -1, 86, 58, 86, -1, 86, 61, 86, -1, 86, 62, 86, -1, 86, 63, 86, -1, 86, 59, 86, -1, 86,
   60, 86, -1, 86, 57, 86, -1, 86, 56, 86, -1, 86, 51, 86, -1, 86, 50, 86, -1, 86, 55, 86, -1, 86,
   54, 86, -1, 86, 52, 86, -1, 86, 53, 86, -1, 86, 49, 86, -1, 86, 48, 86, -1, 86, 47, 86, -1, 86,
   46, 86, -1, 86, 45, 86, -1, 86, 44, 86, 81, 86, -1, 86, 43, 86, -1, 86, 38, 86, -1, 3, -1, 7,
   -1, 12, -1, 4, -1, 5, -1, 94, -1, 37, -1, 18, 69, 105, 78, -1, 25, 52, 105, 53, 69, 86, 78, -1,
   27, 52, 105, 53, 69, 86, 78, -1, 26, 52, 105, 53, 69, 86, 78, -1, 28, 52, 105, 53, 69, 86, 78,
   -1, 6, -1, 92, 6, -1, 92, -1, 39, -1, 40, -1, 73, -1, 74, -1, 93, 20, 113, -1, 114, 29, -1, 93,
   20, 113, -1, 11, 20, 113, -1, 11, 20, 76, 113, -1, 11, 20, 113, 20, 113, -1, 95, -1, 20, 114,
   -1, 114, -1, 58, 8, -1, 111, -1, -1, 97, 96, 97, -1, 98, -1, 111, -1, 99, -1, -1, 61, -1, 61,
   101, -1, 49, -1, 49, 101, -1, 102, -1, 69, 101, 78, -1, 102, 103, -1, 103, -1, 102, 104, -1,
   104, -1, 68, 77, -1, 68, 3, 77, -1, 69, 78, -1, 69, 108, 78, -1, 109, -1, 11, -1, 33, -1, 31,
   -1, 32, -1, 31, 33, -1, 31, 30, 33, -1, 31, 30, -1, 30, 31, 33, -1, 19, 31, 33, -1, 31, 19, 33,
   -1, 31, 19, -1, 31, 31, -1, 31, 31, 33, -1, 31, 31, 30, 33, -1, 31, 31, 30, -1, 30, 31, 31, -1,
   30, 31, 31, 33, -1, 19, 31, 31, -1, 19, 31, 31, 33, -1, 31, 31, 19, -1, 31, 31, 19, 33, -1, 32,
   33, -1, 32, 30, 33, -1, 32, 30, -1, 19, 32, 33, -1, 32, 19, -1, 32, 19, 33, -1, 36, -1, 31, 36,
   -1, 14, 113, -1, 15, 113, -1, 16, 113, -1, 17, 113, -1, 19, 107, -1, 19, -1, 30, 107, -1, 30,
   -1, 21, 113, 52, 105, 53, -1, 99, 106, -1, 106, 99, -1, 11, -1, 33, -1, 31, -1, 32, -1, 105,
   -1, 108, 41, 105, -1, 106, -1, 109, 100, 101, 100, -1, 34, 35, -1, 35, 34, -1, 110, -1, 34, -1,
   35, -1, 13, 23, -1, 13, 24, -1, 13, 23, 68, 77, -1, 13, 24, 68, 77, -1, 13, 59, -1, 13, 60, -1,
   13, 61, -1, 13, 62, -1, 13, 63, -1, 13, 48, -1, 13, 49, -1, 13, 47, -1, 13, 76, -1, 13, 75, -1,
   13, 43, -1, 13, 52, -1, 13, 53, -1, 13, 38, -1, 13, 57, -1, 13, 56, -1, 13, 51, -1, 13, 50, -1,
   13, 55, -1, 13, 54, -1, 13, 46, -1, 13, 45, -1, 13, 65, -1, 13, 64, -1, 13, 41, -1, 13, 71, -1,
   13, 72, -1, 13, 69, 78, -1, 13, 68, 77, -1, 13, 109, -1, 8, -1, 73, -1, 11, -1, 12, -1, 9, -1,
   112, -1, 8, -1, 73, -1, 112, -1, 9, -1]

/-- The elements the parser writes at the end of a call with `n` arguments. -/
def funcall_elts (n : Int) : List Elt :=
  [Elt.opcode exp_opcode.OP_FUNCALL, Elt.longcst n, Elt.opcode exp_opcode.OP_FUNCALL]

/-- A run of rule actions, each with the value stack it reads; the value of
the left-hand side is dropped. -/
def run_actions (env : Env) : List (Nat × List YYSTYPE) → State → Except Failure State
  | [], st => Except.ok st
  | (yyn, yyvsp) :: rest, st =>
    match yyaction env yyn yyvsp {} st with
    | Except.error e => Except.error e
    | Except.ok (_, st1) => run_actions env rest st1

/-- The actions of an argument list in the order the parser reduces them: the
actions of each argument, then rule 35 after the first argument and rule 36
after every other one. -/
def arglist_actions :
    List (List (Nat × List YYSTYPE)) → Bool → List (Nat × List YYSTYPE)
  | [], _ => []
  | arg :: rest, first =>
    arg ++ [(if first then 35 else 36, [])] ++ arglist_actions rest false

/-- The actions of a call `f (e1, ..., en)` after those of `f`: rule 29 at the
`(`, the argument list, rule 30 at the `)`. -/
def call_actions (args : List (List (Nat × List YYSTYPE))) : List (Nat × List YYSTYPE) :=
  (29, []) :: arglist_actions args true ++ [(30, [])]

/-- The run of actions succeeds from every state and leaves the running
argument count and the chain of saved counts as they were. -/
def keeps_count (env : Env) (actions : List (Nat × List YYSTYPE)) : Prop :=
  ∀ st : State, ∃ st1 : State, run_actions env actions st = Except.ok st1 ∧
    st1.arglist_len = st.arglist_len ∧ st1.funcall_chain = st.funcall_chain

/-- The change of `paren_depth` that goes with a token: 1 at `(` and `[`, -1 at
`)` and `]`, 0 at every other token. -/
def paren_delta (token : Nat) : Int :=
  if token = '('.toNat ∨ token = '['.toNat then 1
  else if token = ')'.toNat ∨ token = ']'.toNat then -1
  else 0

/-- The token is no bracket and is not `COMPLETE`. -/
def plain_token (token : Nat) : Bool :=
  token ≠ '('.toNat && token ≠ '['.toNat && token ≠ ')'.toNat && token ≠ ']'.toNat
  && token ≠ COMPLETE

/-- The globals the inner lexer leaves alone at a token that is no bracket: the
token FIFO, `popping`, the name obstack and `paren_depth`. -/
def same_frame (st0 st1 : State) : Prop :=
  st1.token_fifo = st0.token_fifo ∧ st1.popping = st0.popping ∧
  st1.name_obstack = st0.name_obstack ∧ st1.paren_depth = st0.paren_depth

/-- What a return of the inner lexer from the label `retry` keeps: the token
FIFO, `popping` and the name obstack are as they were; `paren_depth` moves with
the brackets returned, and a closing bracket is returned at another depth than
0 only; `COMPLETE` is returned only if `saw_name_at_eof` or the local
`saw_structop` was set, and leaves `saw_name_at_eof` clear and
`last_was_structop` as it was. -/
def lex_frame (saw_structop : Bool) (st0 : State) (r : Nat × State) : Prop :=
  r.2.token_fifo = st0.token_fifo ∧ r.2.popping = st0.popping ∧
  r.2.name_obstack = st0.name_obstack ∧
  r.2.paren_depth = st0.paren_depth + paren_delta r.1 ∧
  ((r.1 = ')'.toNat ∨ r.1 = ']'.toNat) → st0.paren_depth ≠ 0) ∧
  (r.1 = COMPLETE →
    (st0.saw_name_at_eof = true ∨ saw_structop = true) ∧ r.2.saw_name_at_eof = false ∧
    r.2.last_was_structop = st0.last_was_structop)

/-- The tokens of `count` successive calls of `lex_one_token` and the globals
after the last call. -/
def lex_sequence (env : Env) (fuel : Nat) : Nat → State → Except Failure (List Nat × State)
  | 0, st => Except.ok ([], st)
  | count + 1, st =>
    match lex_one_token env fuel st with
    | Except.error e => Except.error e
    | Except.ok (token, st1) =>
      match lex_sequence env fuel count st1 with
      | Except.error e => Except.error e
      | Except.ok (rest, st2) => Except.ok (token :: rest, st2)

/-- The number of tokens `(` and `[` in a list of tokens. -/
def count_open (tokens : List Nat) : Nat :=
  tokens.countP (fun t => t = '('.toNat || t = '['.toNat)

/-- The number of tokens `)` and `]` in a list of tokens. -/
def count_close (tokens : List Nat) : Nat :=
  tokens.countP (fun t => t = ')'.toNat || t = ']'.toNat)

/-! ## The macro slot with its assertions -/

/-- The function `scanning_macro_expansion ()`. -/
def scanning_macro_expansion (st : State) : Bool :=
  st.macro_original_text.isSome

/-- The function `scan_macro_expansion (expansion)`, with its assertion
`gdb_assert (! macro_original_text)`: the position in `lexptr` is saved and
`lexptr` is pointed at the copy of the expansion. -/
def scan_macro_expansion (st : State) (expansion : List Char) : Except Failure State :=
  if st.macro_original_text.isSome then
    Except.error (Failure.error "Assertion `! macro_original_text' failed.")
  else Except.ok { st with macro_original_text := some st.lexptr, lexptr := expansion }

/-- The function `finished_macro_expansion ()`, with its assertion
`gdb_assert (macro_original_text)`. -/
def finished_macro_expansion (st : State) : Except Failure State :=
  match st.macro_original_text with
  | none => Except.error (Failure.error "Assertion `macro_original_text' failed.")
  | some original => Except.ok { st with lexptr := original, macro_original_text := none }

/-- The statements of `lex_one_token` under "Check if this is a macro
invocation that we need to expand", with the calls they make: outside an
expansion `macro_expand_next` moves `lexptr` beyond an invocation it finds and
`scan_macro_expansion` is called with the expansion. -/
def check_macro_invocation (env : Env) (st : State) : Except Failure State :=
  if scanning_macro_expansion st then Except.ok st
  else
    match env.macro_expand_next st.lexptr with
    | some (expanded, after) => scan_macro_expansion { st with lexptr := after } expanded
    | none => Except.ok st

/-- The statements of `case 0` of `lex_one_token` while a macro expansion is
scanned, with the call they make: `finished_macro_expansion ()` and
`goto retry`. -/
def pop_macro_expansion (retry : State → Except Failure (Nat × State)) (st : State) :
    Except Failure (Nat × State) :=
  match finished_macro_expansion st with
  | Except.error e => Except.error e
  | Except.ok st1 => retry st1

/-- The body of `lex_one_token` from the label `retry` on, as `lex_retry`, with
the two places that touch the saved position written as the calls the source
makes; a failed assertion of `scan_macro_expansion` or of
`finished_macro_expansion` ends the run. -/
def lex_retry_checked (env : Env) : Nat → Bool → State → Except Failure (Nat × State)
  | 0, _, _ => Except.error Failure.out_of_fuel
  | fuel + 1, saw_structop, st0 =>
    match check_macro_invocation env st0 with
    | Except.error e => Except.error e
    | Except.ok st1 =>
      let st : State := { st1 with prev_lexptr := some st1.lexptr }
      let tokstart := st.lexptr
      match find_token tokentab3 (fun e => strncmp_eq tokstart e.operator 3) env.cplus with
      | some e => Except.ok (e.token, lex_operator st e 3)
      | none =>
      match find_token tokentab2 (fun e => strncmp_eq tokstart e.operator 2) env.cplus with
      | some e =>
        Except.ok (e.token,
          if env.in_parse_field && e.token = ARROW then
            { lex_operator st e 2 with last_was_structop := true }
          else lex_operator st e 2)
      | none =>
        if deref st.lexptr = NUL ∧ scanning_macro_expansion st = true then
          pop_macro_expansion (fun s => lex_retry_checked env fuel saw_structop s) st
        else lex_switch env (fun s => lex_retry_checked env fuel saw_structop s) saw_structop st

/-! ## Error recovery, compound assignments, cast operators and string vectors -/

/-- The symbol number `YYTERROR` of the token `error`. -/
def YYTERROR : Int := 1

/-- The test of the loop at `yyerrlab1` on the state on top of the stack: the
state to enter by shifting the token `error`, if `yytable` has one. -/
def error_shift (yystate : Nat) : Option Nat :=
  let yyn := table_int yypact yystate
  if yyn ≠ YYPACT_NINF then
    let yyn1 := yyn + YYTERROR
    if 0 ≤ yyn1 ∧ yyn1 ≤ YYLAST ∧ table_int yycheck yyn1.toNat = YYTERROR then
      let yyn2 := table_int yytable yyn1.toNat
      if 0 < yyn2 then some yyn2.toNat else none
    else none
  else none

/-- The loop at `yyerrlab1` over the state stack, kept with its top first:
states are popped until one shifts the token `error`; `none` is `YYABORT` at
the bottom of the stack. -/
def yyerrlab1 : List Nat → Option Nat
  | [] => none
  | yystate :: rest =>
    match error_shift yystate with
    | some yyn => some yyn
    | none => yyerrlab1 rest

/-- The compound assignment operators of the operator tables, in the order of
the tables. -/
def assign_modify_tokens : List token :=
  (tokentab3 ++ tokentab2).filter (fun e => e.token = ASSIGN_MODIFY)

/-- A C++ scope in which `find_template_name_end` finds the end of `<int>`, 5
characters beyond the `<`, and of no other text. -/
def env_template : Env :=
  { cfg := cfg32 10, cplus := true,
    find_template_name_end := fun text =>
      if text.take 5 = "<int>".toList then some 5 else none }

/-- The four names of the cast operators. -/
def cast_operators : List (List Char) :=
  ["dynamic_cast".toList, "static_cast".toList, "reinterpret_cast".toList,
   "const_cast".toList]

/-- The encodings other than plain of a run of string literals, in the order
of the literals. -/
def wide_types (vec : List typed_stoken) : List Nat :=
  (vec.map (fun tok => tok.type)).filter (fun t => t ≠ C_STRING)

/-- The encoding of a concatenation, from the encodings other than plain of its
literals: plain if there are none, their common value if they are all the
same, and an error otherwise. -/
def concat_of (types : List Nat) : Except Failure Nat :=
  match types with
  | [] => Except.ok C_STRING
  | t :: rest =>
    if rest.all (fun u => u = t) then Except.ok t
    else Except.error (Failure.error "Undefined string concatenation.")

/-- The literal is a string in one of the four encodings. -/
def is_string_type (tok : typed_stoken) : Bool :=
  tok.type = C_STRING || tok.type = C_WIDE_STRING || tok.type = C_STRING_16
  || tok.type = C_STRING_32

/-! ## The FIFO of the outer lexer and qualified names -/

/-- The token `::` that `yylex` puts at the front of the FIFO, with the value
`memset` clears. -/
def coloncolon_token : token_and_value := { token := COLONCOLON, value := {} }

/-- What `yylex` returns once its loop is left with the locals `loc`, after the
first token `token`: `::` alone, or the aggregated token with `::` put back at
the front of the FIFO if it is pending. -/
def yylex_return (token : Nat) (loc : yylex_locals) : Nat × State :=
  if loc.last_was_coloncolon && decide (token = COLONCOLON) && loc.first_iter then
    (COLONCOLON, { loc.st with popping := true, yylval := {} })
  else if loc.last_was_coloncolon then
    (loc.current.token,
      { loc.st with popping := true, token_fifo := coloncolon_token :: loc.st.token_fifo,
                    yylval := loc.current.value })
  else (loc.current.token, { loc.st with popping := true, yylval := loc.current.value })

/-- The bound on the token FIFO between calls of `yylex`: at most 2 tokens, and
`popping` set whenever there is one. -/
def fifo_invariant (st : State) : Prop :=
  st.token_fifo.length ≤ 2 ∧ (st.token_fifo ≠ [] → st.popping = true)

/-- The components of a qualified name joined by `::`, with no `::` before the
first one. -/
def qualified_name : List (List Char) → List Char
  | [] => []
  | [name] => name
  | name :: rest => name ++ "::".toList ++ qualified_name rest

/-- The text `name` is that of a `NAME` token the inner lexer returns with the
budget `fuel`. -/
def lexed_name (env : Env) (fuel : Nat) (name : List Char) : Prop :=
  ∃ s s1 : State, lex_one_token env fuel s = Except.ok (NAME, s1) ∧ s1.yylval.stoken = name

/-! ## Vocabulary for the number case of the inner lexer -/

/-- The start of the loop of the number case: the offset of `p` past a prefix
`0x`, `0t` or `0d`, and `hex`, which a prefix sets and `input_radix > 10`
gives otherwise. -/
def number_start (radix : Nat) (tokstart : List Char) (c : Char) : Nat × Bool :=
  let p1 := nth tokstart 1
  if c = '0' && (p1 = 'x' || p1 = 'X') then (2, true)
  else if c = '0' && (p1 = 't' || p1 = 'T' || p1 = 'd' || p1 = 'D') then (2, false)
  else (0, decide (radix > 10))

/-- The length `p - tokstart` of the token the number case scans and the flag
`got_dot | got_e` it passes to `parse_number`. -/
def number_extent (radix : Nat) (tokstart : List Char) (c : Char) : Nat × Bool :=
  let start := number_start radix tokstart c
  let r := number_scan start.2 (tokstart.drop start.1) NUL false false start.1
  (r.1, r.2.1 || r.2.2)

/-- A fraction: nothing, or `.` and decimal digits. -/
def is_fraction : List Char → Bool
  | [] => true
  | c :: digits => c = '.' && digits.all is_digit_char

/-- An exponent: nothing, or `e` or `E`, then `+`, `-` or nothing, then one
decimal digit or more. -/
def is_exponent : List Char → Bool
  | [] => true
  | c :: more =>
    (c = 'e' || c = 'E') &&
      (if deref more = '+' ∨ deref more = '-' then
        more.tail ≠ [] && more.tail.all is_digit_char
       else more ≠ [] && more.all is_digit_char)

/-- The test that a text ends a number whose point or exponent marker has been
seen or not: it starts with no digit and no letter, and with no `.` unless
`got_dot` is set. -/
def ends_number (got_dot : Bool) (rest : List Char) : Bool :=
  !is_digit_char (deref rest) && !is_letter_char (deref rest)
    && (got_dot || deref rest ≠ '.')

/-- The target of `env_c` with an `input_radix` and a `parse_c_float` that
accepts every text. -/
def env_float (radix : Nat) : Env :=
  { cfg := { cfg32 radix with parse_c_float := fun _ => true } }

end Gdb

namespace Gdb

/-! ## Lemmas on the digit loop -/

theorem digit_value_lt {c d : Nat} (h : digit_value c = some d) : d < 16 := by
  unfold digit_value at h
  simp only [Char.reduceToNat] at h
  split_ifs at h <;> simp at h <;> omega

theorem valid_digit_iff {r : Nat} {ch : Char} :
    valid_digit r ch = true ↔ ∃ d, digit_value ch.toNat = some d ∧ d < r := by
  unfold valid_digit
  cases h : digit_value ch.toNat <;> simp

theorem digit_of_eq {ch : Char} {d : Nat} (h : digit_value ch.toNat = some d) :
    digit_of ch = d := by
  simp [digit_of, h]

theorem digits_from_nil (r acc : Nat) : digits_from r acc [] = acc := rfl

theorem digits_from_cons (r acc : Nat) (ch : Char) (ds : List Char) :
    digits_from r acc (ch :: ds) = digits_from r (acc * r + digit_of ch) ds := rfl

theorem digits_from_append (r acc : Nat) (xs ys : List Char) :
    digits_from r acc (xs ++ ys) = digits_from r (digits_from r acc xs) ys := by
  simp [digits_from, List.foldl_append]

theorem le_digits_from (r acc : Nat) (ds : List Char) (hr : 1 ≤ r) :
    acc ≤ digits_from r acc ds := by
  induction ds generalizing acc with
  | nil => exact Nat.le_refl _
  | cons ch ds ih =>
    rw [digits_from_cons]
    have h1 : acc ≤ acc * r := Nat.le_mul_of_pos_right acc hr
    exact Nat.le_trans (Nat.le_trans h1 (Nat.le_add_right _ _)) (ih _)

theorem digits_from_mono (r a b : Nat) (ds : List Char) (hab : a ≤ b) :
    digits_from r a ds ≤ digits_from r b ds := by
  induction ds generalizing a b with
  | nil => exact hab
  | cons ch ds ih =>
    rw [digits_from_cons, digits_from_cons]
    exact ih _ _ (Nat.add_le_add_right (Nat.mul_le_mul_right r hab) _)

theorem to_signed_of_lt {x : Nat} (h : x < 2 ^ 63) : to_signed x = (x : Int) := by
  unfold to_signed; rw [if_pos h]

theorem to_signed_of_ge {x : Nat} (h : 2 ^ 63 ≤ x) : to_signed x = (x : Int) - 2 ^ 64 := by
  have : ¬ x < 2 ^ 63 := by omega
  unfold to_signed; rw [if_neg this]

theorem scan_check_digit (base c : Nat) (st : NumState)
    (hc : c ≠ 'l'.toNat ∧ c ≠ 'u'.toNat) (hi : st.i < base)
    (hp : st.prevn < 2 ^ 63) (hlt : st.n < 2 ^ 64) (hgrow : st.n ≠ 0 → st.prevn < st.n) :
    scan_check base c st = Scan.go
      { st with unsigned_p := st.unsigned_p || decide (2 ^ 63 ≤ st.n), prevn := st.n } := by
  have hi2 : ¬ st.i ≥ base := by omega
  unfold scan_check
  rw [if_neg hi2]
  by_cases h0 : st.n = 0
  · have h63 : ¬ (2 ^ 63 ≤ st.n) := by omega
    simp [h0]
  · have hg := hgrow h0
    have hge : ¬ st.prevn ≥ st.n := by omega
    by_cases h63 : st.n < 2 ^ 63
    · have hs : ¬ (to_signed st.prevn ≥ to_signed st.n) := by
        rw [to_signed_of_lt hp, to_signed_of_lt h63]; omega
      have h63b : ¬ (9223372036854775808 ≤ st.n) := by omega
      simp [hs, hge, h63b]
    · have h63b : 2 ^ 63 ≤ st.n := by omega
      have hs : to_signed st.prevn ≥ to_signed st.n := by
        rw [to_signed_of_lt hp, to_signed_of_ge h63b]; omega
      have h63c : 9223372036854775808 ≤ st.n := by omega
      have hc1 : c ≠ 108 := by simpa using hc.1
      have hc2 : c ≠ 117 := by simpa using hc.2
      simp [hs, hge, h63c, h0, hc1, hc2]

/-- A digit valid in the base is accumulated: `n = n * base + digit`, and a
value that no longer fits the signed range turns `unsigned_p` on. -/
theorem scan_step_digit (base : Nat) (ch : Char) (st : NumState) (d a : Nat)
    (hd : digit_value ch.toNat = some d) (hdb : d < base) (hb : 2 ≤ base)
    (hn : st.n = a) (hp : st.prevn = a) (hf : st.found_suffix = false)
    (ha : a < 2 ^ 63) (hv : a * base + d < 2 ^ 64) :
    scan_step base ch.toNat st = Scan.go
      { n := a * base + d, prevn := a * base + d, i := d,
        unsigned_p := st.unsigned_p || decide (2 ^ 63 ≤ a * base + d),
        long_p := st.long_p, found_suffix := false } := by
  have hb3 : a * 2 ≤ a * base := Nat.mul_le_mul_left a hb
  have hmod : (a * base % 2 ^ 64 + d) % 2 ^ 64 = a * base + d := by omega
  obtain ⟨n, prevn, i, up, lp, fs⟩ := st
  simp only at hn hp hf
  subst hn hp hf
  generalize ch.toNat = c at hd
  unfold digit_value at hd
  simp only [Char.reduceToNat] at hd
  split_ifs at hd with h1 h2 h3
  · simp only [Option.some.injEq] at hd
    have hc : ¬ (65 ≤ c ∧ c ≤ 90) := by omega
    have hlu : c ≠ 108 ∧ c ≠ 117 := by omega
    simp only [scan_step, Char.reduceToNat, hc, if_false, h1, hlu, and_self, ne_eq,
      not_false_eq_true, if_true, hd, hmod, Bool.false_eq_true]
    rw [scan_check_digit _ _ _ (by simpa using hlu) (by simpa using hdb) (by simpa using ha)
      (by simpa using hv) (by simp; omega)]
  · simp only [Option.some.injEq] at hd
    have hc : ¬ (65 ≤ c ∧ c ≤ 90) := by omega
    have hlu : c ≠ 108 ∧ c ≠ 117 := by omega
    have h10 : base > 10 := by omega
    simp only [scan_step, Char.reduceToNat, hc, if_false, h1, h2, hlu, and_self, ne_eq,
      not_false_eq_true, if_true, hd, hmod, Bool.false_eq_true, h10]
    rw [scan_check_digit _ _ _ (by simpa using hlu) (by simpa using hdb) (by simpa using ha)
      (by simpa using hv) (by simp; omega)]
  · simp only [Option.some.injEq] at hd
    have hc : (65 ≤ c ∧ c ≤ 90) := by omega
    have hlu : c + (97 - 65) ≠ 108 ∧ c + (97 - 65) ≠ 117 := by omega
    have h10 : base > 10 := by omega
    have h09 : ¬ (48 ≤ c + (97 - 65) ∧ c + (97 - 65) ≤ 57) := by omega
    have haf : 97 ≤ c + (97 - 65) ∧ c + (97 - 65) ≤ 102 := by omega
    have hd2 : c + (97 - 65) - 97 + 10 = d := by omega
    simp only [scan_step, Char.reduceToNat, hc, h09, haf, if_false, hlu, and_self, ne_eq,
      not_false_eq_true, if_true, hd2, hmod, Bool.false_eq_true, h10]
    rw [scan_check_digit _ _ _ (by simpa using hlu) (by simpa using hdb) (by simpa using ha)
      (by simpa using hv) (by simp; omega)]

/-- A suffix letter leaves `n` alone and records the suffix. -/
theorem scan_step_suffix (base : Nat) (ch : Char) (st : NumState)
    (hs : is_suffix ch = true) (hi : st.i < base) :
    scan_step base ch.toNat st = Scan.go
      { st with prevn := st.n,
                long_p := if is_long_suffix ch then st.long_p + 1 else st.long_p,
                unsigned_p := st.unsigned_p || is_unsigned_suffix ch,
                found_suffix := true } := by
  have hi2 : ¬ st.i ≥ base := by omega
  obtain ⟨n, prevn, i, up, lp, fs⟩ := st
  simp only [is_suffix, is_long_suffix, is_unsigned_suffix, Char.reduceToNat,
    Bool.or_eq_true, decide_eq_true_eq] at hs ⊢
  generalize ch.toNat = c at hs
  simp only at hi2
  rcases hs with (h | h) | (h | h) <;> subst h <;>
    simp [scan_step, scan_check, hi2]

theorem valid_digit_false {base : Nat} {ch : Char} (hv : valid_digit base ch = false) :
    (48 ≤ ch.toNat ∧ ch.toNat ≤ 57 → base ≤ ch.toNat - 48) ∧
    (97 ≤ ch.toNat ∧ ch.toNat ≤ 102 → base ≤ ch.toNat - 97 + 10) ∧
    (65 ≤ ch.toNat ∧ ch.toNat ≤ 70 → base ≤ ch.toNat - 65 + 10) := by
  unfold valid_digit digit_value at hv
  simp only [Char.reduceToNat] at hv
  generalize ch.toNat = c at hv
  refine ⟨fun h => ?_, fun h => ?_, fun h => ?_⟩
  · rw [if_pos h] at hv
    simpa using hv
  · have h1 : ¬ (48 ≤ c ∧ c ≤ 57) := by omega
    rw [if_neg h1, if_pos h] at hv
    simpa using hv
  · have h1 : ¬ (48 ≤ c ∧ c ≤ 57) := by omega
    have h2 : ¬ (97 ≤ c ∧ c ≤ 102) := by omega
    rw [if_neg h1, if_neg h2, if_pos h] at hv
    simpa using hv

theorem scan_check_bad_digit (base c : Nat) (st : NumState) (hi : base ≤ st.i) :
    scan_check base c st = Scan.ERROR := by
  unfold scan_check
  rw [if_pos hi]

/-- A character that is neither a suffix letter nor a digit valid in the base
makes the loop return `ERROR`, whatever the locals hold. -/
theorem scan_step_invalid (base : Nat) (ch : Char) (st : NumState)
    (hs : is_suffix ch = false) (hv : valid_digit base ch = false) :
    scan_step base ch.toNat st = Scan.ERROR := by
  obtain ⟨h09, haf, hAF⟩ := valid_digit_false hv
  simp only [is_suffix, is_long_suffix, is_unsigned_suffix, Char.reduceToNat,
    Bool.or_eq_false_iff, decide_eq_false_iff_not, not_or] at hs
  generalize ch.toNat = c at hs h09 haf hAF
  unfold scan_step
  simp only [Char.reduceToNat]
  by_cases hU : 65 ≤ c ∧ c ≤ 90
  · rw [if_pos hU]
    have h1 : ¬ (48 ≤ c + (97 - 65) ∧ c + (97 - 65) ≤ 57) := by omega
    have hl : ¬ (c + (97 - 65) = 108) := by omega
    have hu : ¬ (c + (97 - 65) = 117) := by omega
    rw [if_neg h1]
    by_cases h2 : base > 10 ∧ 97 ≤ c + (97 - 65) ∧ c + (97 - 65) ≤ 102
    · rw [if_pos h2]
      split
      · rfl
      · exact scan_check_bad_digit _ _ _ (by simp only; omega)
    · rw [if_neg h2, if_neg hl, if_neg hu]
  · rw [if_neg hU]
    have hl : ¬ (c = 108) := by omega
    have hu : ¬ (c = 117) := by omega
    by_cases h1 : 48 ≤ c ∧ c ≤ 57
    · rw [if_pos h1]
      split
      · rfl
      · exact scan_check_bad_digit _ _ _ (by simp only; omega)
    · rw [if_neg h1]
      by_cases h2 : base > 10 ∧ 97 ≤ c ∧ c ≤ 102
      · rw [if_pos h2]
        split
        · rfl
        · exact scan_check_bad_digit _ _ _ (by simp only; omega)
      · rw [if_neg h2, if_neg hl, if_neg hu]

/-- Once a suffix has been seen, every character that is not a suffix letter
makes the loop return `ERROR`. -/
theorem scan_step_after_suffix (base : Nat) (ch : Char) (st : NumState)
    (hs : is_suffix ch = false) (hf : st.found_suffix = true) :
    scan_step base ch.toNat st = Scan.ERROR := by
  obtain ⟨n, prevn, i, up, lp, fs⟩ := st
  simp only at hf
  subst hf
  simp only [is_suffix, is_long_suffix, is_unsigned_suffix, Char.reduceToNat,
    Bool.or_eq_false_iff, decide_eq_false_iff_not, not_or] at hs
  generalize ch.toNat = c at hs
  unfold scan_step
  simp only [Char.reduceToNat]
  split_ifs <;> first | rfl | omega

theorem scan_loop_cons (base k : Nat) (ch : Char) (rest : List Char) (st : NumState) :
    scan_loop base (k + 1) (ch :: rest) st =
      match scan_step base ch.toNat st with
      | Scan.go st1 => scan_loop base k rest st1
      | Scan.ERROR => Scan.ERROR
      | Scan.error msg => Scan.error msg := rfl

/-- The loop over a run of valid digits whose value fits 64 bits: the value is
accumulated exactly and `unsigned_p` is turned on when it needs bit 63. -/
theorem scan_loop_digits (base : Nat) (hb : 2 ≤ base) (ds rest : List Char) (k : Nat)
    (st : NumState) (hvalid : ValidDigits base ds)
    (hp : st.prevn = st.n) (hf : st.found_suffix = false) (hi : st.i < base)
    (ha : st.n < 2 ^ 63) (hv : digits_from base st.n ds < 2 ^ 64) :
    ∃ i1, i1 < base ∧
      scan_loop base (ds.length + k) (ds ++ rest) st =
        scan_loop base k rest
          { n := digits_from base st.n ds, prevn := digits_from base st.n ds, i := i1,
            unsigned_p := st.unsigned_p || decide (2 ^ 63 ≤ digits_from base st.n ds),
            long_p := st.long_p, found_suffix := false } := by
  induction ds generalizing st with
  | nil =>
    refine ⟨st.i, hi, ?_⟩
    have h63 : ¬ (9223372036854775808 ≤ st.n) := by omega
    obtain ⟨n, prevn, i, up, lp, fs⟩ := st
    simp only at hp hf h63
    subst hp hf
    simp [digits_from_nil, h63]
  | cons ch ds ih =>
    have hch : valid_digit base ch = true := hvalid ch (List.mem_cons_self _ _)
    obtain ⟨d, hd, hdb⟩ := valid_digit_iff.mp hch
    have hds : ValidDigits base ds := fun c hc => hvalid c (List.mem_cons_of_mem _ hc)
    rw [digits_from_cons, digit_of_eq hd] at hv ⊢
    have hle := le_digits_from base (st.n * base + d) ds (by omega)
    have hstep := scan_step_digit base ch st d st.n hd hdb hb rfl hp hf ha (by omega)
    have hlen : (ch :: ds).length + k = (ds.length + k) + 1 := by simp; omega
    rw [hlen, List.cons_append, scan_loop_cons, hstep]
    simp only
    cases ds with
    | nil =>
      refine ⟨d, hdb, ?_⟩
      simp [digits_from_nil]
    | cons ch2 ds2 =>
      have h2 : (st.n * base + d) * 2 ≤ digits_from base (st.n * base + d) (ch2 :: ds2) := by
        rw [digits_from_cons]
        have h3 := le_digits_from base ((st.n * base + d) * base + digit_of ch2) ds2 (by omega)
        have h4 : (st.n * base + d) * 2 ≤ (st.n * base + d) * base := Nat.mul_le_mul_left _ hb
        omega
      have hlt : st.n * base + d < 2 ^ 63 := by omega
      have h63 : ¬ (9223372036854775808 ≤ st.n * base + d) := by omega
      obtain ⟨i1, hi1, heq⟩ := ih
        { n := st.n * base + d, prevn := st.n * base + d, i := d,
          unsigned_p := st.unsigned_p || decide (2 ^ 63 ≤ st.n * base + d),
          long_p := st.long_p, found_suffix := false }
        hds rfl rfl hdb hlt hv
      refine ⟨i1, hi1, ?_⟩
      rw [heq]
      simp [h63]

/-- The loop over a run of suffix letters: `long_p` counts the `l`s and
`unsigned_p` records a `u`; `n` is not touched. -/
theorem scan_loop_suffix (base : Nat) (sfx : List Char) (st : NumState)
    (hs : ∀ ch ∈ sfx, is_suffix ch = true) (hp : st.prevn = st.n) (hi : st.i < base) :
    scan_loop base sfx.length sfx st =
      Scan.go { st with long_p := st.long_p + long_count sfx,
                        unsigned_p := st.unsigned_p || has_unsigned sfx,
                        found_suffix := st.found_suffix || !sfx.isEmpty } := by
  induction sfx generalizing st with
  | nil =>
    obtain ⟨n, prevn, i, up, lp, fs⟩ := st
    simp [scan_loop, long_count, has_unsigned]
  | cons ch sfx ih =>
    have hch := hs ch (List.mem_cons_self _ _)
    have hrest : ∀ c ∈ sfx, is_suffix c = true := fun c hc => hs c (List.mem_cons_of_mem _ hc)
    rw [List.length_cons, scan_loop_cons, scan_step_suffix base ch st hch hi]
    simp only
    obtain ⟨n, prevn, i, up, lp, fs⟩ := st
    simp only at hp hi ⊢
    subst hp
    rw [ih { n := prevn, prevn := prevn, i := i, unsigned_p := up || is_unsigned_suffix ch,
             long_p := if is_long_suffix ch = true then lp + 1 else lp, found_suffix := true }
          hrest rfl hi]
    by_cases hl : is_long_suffix ch = true
    · simp [long_count, has_unsigned, List.countP_cons, hl, Bool.or_assoc]
      omega
    · simp [long_count, has_unsigned, List.countP_cons, hl, Bool.or_assoc]

/-- The whole loop on valid digits followed by suffix letters. -/
theorem scan_loop_literal (base : Nat) (hb : 2 ≤ base) (ds sfx : List Char)
    (hvalid : ValidDigits base ds) (hs : ∀ ch ∈ sfx, is_suffix ch = true)
    (hv : digits_value base ds < 2 ^ 64) :
    ∃ st, scan_loop base (ds ++ sfx).length (ds ++ sfx) NumState.init = Scan.go st ∧
      st.n = digits_value base ds ∧ st.long_p = long_count sfx ∧
      st.unsigned_p = (decide (2 ^ 63 ≤ digits_value base ds) || has_unsigned sfx) := by
  obtain ⟨i1, hi1, h1⟩ := scan_loop_digits base hb ds sfx sfx.length NumState.init hvalid
    rfl rfl (by show 0 < base; omega) (by show 0 < 2 ^ 63; norm_num) hv
  rw [List.length_append, h1, scan_loop_suffix base sfx _ hs rfl hi1]
  refine ⟨_, rfl, rfl, ?_, ?_⟩
  · simp [NumState.init]
  · simp [NumState.init, digits_value]

theorem valid_digit_code {r : Nat} {ch : Char} (h : valid_digit r ch = true) (hr : r ≤ 10) :
    48 ≤ ch.toNat ∧ ch.toNat < 48 + r := by
  obtain ⟨d, hd, hdr⟩ := valid_digit_iff.mp h
  unfold digit_value at hd
  simp only [Char.reduceToNat] at hd
  split_ifs at hd <;> simp at hd <;> omega

theorem suffix_code {ch : Char} (h : is_suffix ch = true) :
    ch.toNat = 108 ∨ ch.toNat = 76 ∨ ch.toNat = 117 ∨ ch.toNat = 85 := by
  simp only [is_suffix, is_long_suffix, is_unsigned_suffix, Char.reduceToNat,
    Bool.or_eq_true, decide_eq_true_eq] at h
  omega

theorem digits_value_zero_cons (r : Nat) (ds : List Char) :
    digits_value r ('0' :: ds) = digits_value r ds := by
  simp [digits_value, digits_from_cons, digit_of, digit_value]

theorem valid_digit_nonzero {r : Nat} {ch : Char} (h : valid_digit r ch = true)
    (h0 : ch.toNat ≠ 48) : 2 ≤ r := by
  obtain ⟨d, hd, hdr⟩ := valid_digit_iff.mp h
  unfold digit_value at hd
  simp only [Char.reduceToNat] at hd
  split_ifs at hd <;> simp at hd <;> omega

/-- What the prefix switch does on each spelling of `LiteralForm`: the digits
left to scan (the bare `0` stays in front of octal digits), the radix and the
length. -/
theorem radix_switch_form (radix : Nat) (pre ds sfx : List Char) (r : Nat)
    (hform : LiteralForm radix pre ds r) (hvalid : ValidDigits r ds)
    (hs : ∀ ch ∈ sfx, is_suffix ch = true) :
    ∃ zs, radix_switch radix (pre ++ ds ++ sfx) (pre ++ ds ++ sfx).length
        = (zs ++ sfx, r, (zs ++ sfx).length) ∧
      ValidDigits r zs ∧ digits_value r zs = digits_value r ds ∧ 2 ≤ r := by
  rcases hform with ⟨hpre, hr, hne⟩ | ⟨hpre, hr, hne⟩ | ⟨hpre, hr, hne⟩ | ⟨hpre, hr⟩ |
    ⟨hpre, hr, hne, h0⟩
  · refine ⟨ds, ?_, hvalid, rfl, by omega⟩
    obtain ⟨d, ds1, rfl⟩ := List.exists_cons_of_ne_nil hne
    rcases hpre with rfl | rfl <;> subst hr <;>
      simp [radix_switch, char_at]
  · refine ⟨ds, ?_, hvalid, rfl, by omega⟩
    obtain ⟨d, ds1, rfl⟩ := List.exists_cons_of_ne_nil hne
    rcases hpre with rfl | rfl <;> subst hr <;>
      simp [radix_switch, char_at]
  · refine ⟨ds, ?_, hvalid, rfl, by omega⟩
    obtain ⟨d, ds1, rfl⟩ := List.exists_cons_of_ne_nil hne
    rcases hpre with rfl | rfl | rfl | rfl <;> subst hr <;>
      simp [radix_switch, char_at]
  · subst hpre hr
    refine ⟨'0' :: ds, ?_, ?_, digits_value_zero_cons 8 ds, by omega⟩
    · have hc1 : char_at ('0' :: (ds ++ sfx)) 1 = char_at (ds ++ sfx) 0 := rfl
      have hc0 : char_at ('0' :: (ds ++ sfx)) 0 = 48 := rfl
      have hne : char_at (ds ++ sfx) 0 ≠ 120 ∧ char_at (ds ++ sfx) 0 ≠ 88 ∧
          char_at (ds ++ sfx) 0 ≠ 98 ∧ char_at (ds ++ sfx) 0 ≠ 66 ∧
          char_at (ds ++ sfx) 0 ≠ 116 ∧ char_at (ds ++ sfx) 0 ≠ 84 ∧
          char_at (ds ++ sfx) 0 ≠ 100 ∧ char_at (ds ++ sfx) 0 ≠ 68 := by
        cases ds with
        | nil =>
          cases sfx with
          | nil => simp [char_at]
          | cons c sfx1 =>
            have := suffix_code (hs c (List.mem_cons_self _ _))
            simp only [List.nil_append, char_at, List.getD_cons_zero]
            omega
        | cons c ds1 =>
          have := valid_digit_code (hvalid c (List.mem_cons_self _ _)) (by omega)
          simp only [List.cons_append, char_at, List.getD_cons_zero]
          omega
      simp only [radix_switch, Char.reduceToNat, List.singleton_append, List.append_assoc,
        List.cons_append, List.nil_append, hc0, hc1, if_true]
      simp [hne]
    · intro c hc
      rcases List.mem_cons.mp hc with rfl | hc
      · decide
      · exact hvalid c hc
  · subst hpre hr
    obtain ⟨d, ds1, rfl⟩ := List.exists_cons_of_ne_nil hne
    have hd := hvalid d (List.mem_cons_self _ _)
    have h0b : d.toNat ≠ 48 := by simpa [char_at] using h0
    refine ⟨d :: ds1, ?_, hvalid, rfl, valid_digit_nonzero hd h0b⟩
    simp [radix_switch, char_at, h0b]

/-- The result of `parse_number` on a literal of valid digits (value below
`2 ^ 64`) followed by suffix letters, in any of the spellings. -/
theorem parse_number_literal (cfg : Config) (pre ds sfx : List Char) (r : Nat)
    (hform : LiteralForm cfg.input_radix pre ds r) (hvalid : ValidDigits r ds)
    (hs : ∀ ch ∈ sfx, is_suffix ch = true) (hv : digits_value r ds < 2 ^ 64) :
    parse_number cfg (pre ++ ds ++ sfx) (pre ++ ds ++ sfx).length false =
      Except.ok (NumToken.INT (to_signed (digits_value r ds))
        (select_type cfg (digits_value r ds) (long_count sfx)
          (decide (2 ^ 63 ≤ digits_value r ds) || has_unsigned sfx))) := by
  obtain ⟨zs, hsw, hzv, hzval, hr2⟩ := radix_switch_form cfg.input_radix pre ds sfx r hform hvalid hs
  obtain ⟨st, hloop, hn, hl, hu⟩ := scan_loop_literal r hr2 zs sfx hzv hs (by rw [hzval]; exact hv)
  unfold parse_number
  simp only [Bool.false_eq_true, if_false, hsw, hloop]
  rw [hn, hl, hu, hzval]

/-! ## Lemmas on the type selection -/

theorem shift_fits (n bits : Nat) (h2 : 2 ≤ bits) :
    ((n >>> 2) >>> (bits - 2) = 0) ↔ n < 2 ^ bits := by
  rw [Nat.shiftRight_eq_div_pow, Nat.shiftRight_eq_div_pow, Nat.div_div_eq_div_mul,
    ← Nat.pow_add]
  have hb : 2 + (bits - 2) = bits := by omega
  rw [hb, Nat.div_eq_zero_iff (Nat.pos_pow_of_pos bits (by norm_num))]

theorem high_bit_clear (n k : Nat) (hn : n < 2 ^ k) :
    n &&& ((1 <<< k) % 2 ^ 64) = 0 := by
  rw [Nat.one_shiftLeft]
  by_cases hk : k < 64
  · rw [Nat.mod_eq_of_lt (Nat.pow_lt_pow_right (by norm_num) hk), Nat.and_two_pow,
      Nat.testBit_lt_two_pow hn]
    simp
  · have hdvd : (2 : Nat) ^ 64 ∣ 2 ^ k := Nat.pow_dvd_pow 2 (by omega)
    rw [Nat.mod_eq_zero_of_dvd hdvd]
    simp

theorem high_bit_set (n k : Nat) (hk : k < 64) (hlo : 2 ^ k ≤ n) (hn : n < 2 ^ (k + 1)) :
    n &&& ((1 <<< k) % 2 ^ 64) ≠ 0 := by
  rw [Nat.one_shiftLeft, Nat.mod_eq_of_lt (Nat.pow_lt_pow_right (by norm_num) hk),
    Nat.and_two_pow]
  have hm : n = 2 ^ k + (n - 2 ^ k) := by omega
  have hlt : n - 2 ^ k < 2 ^ k := by
    rw [Nat.pow_succ] at hn; omega
  have ht : n.testBit k = true := by
    rw [hm, Nat.testBit_two_pow_add_eq, Nat.testBit_lt_two_pow hlt]; rfl
  rw [ht]
  simp

theorem high_bit_iff (n k : Nat) (hk : k < 64) (hn : n < 2 ^ (k + 1)) :
    n &&& ((1 <<< k) % 2 ^ 64) ≠ 0 ↔ 2 ^ k ≤ n := by
  constructor
  · intro h
    by_contra hlt
    exact h (high_bit_clear n k (by omega))
  · intro h
    exact high_bit_set n k hk h hn

/-- The `int` pair is chosen for an unsuffixed value that fits `int_bit` bits. -/
theorem select_type_int (cfg : Config) (n : Nat) (up : Bool)
    (h2 : 2 ≤ cfg.int_bit) (h64 : cfg.int_bit ≤ 64) (hn : n < 2 ^ cfg.int_bit) :
    select_type cfg n 0 up =
      if up = true ∨ 2 ^ (cfg.int_bit - 1) ≤ n then CType.builtin_unsigned_int
      else CType.builtin_int := by
  have hfit := (shift_fits n cfg.int_bit h2).mpr hn
  have hn2 : n < 2 ^ (cfg.int_bit - 1 + 1) := by
    have : cfg.int_bit - 1 + 1 = cfg.int_bit := by omega
    rw [this]; exact hn
  have hbit := high_bit_iff n (cfg.int_bit - 1) (by omega) hn2
  unfold select_type
  simp only [hfit, and_self, if_true]
  by_cases hc : up = true ∨ 2 ^ (cfg.int_bit - 1) ≤ n
  · rw [if_pos hc, if_pos (hc.imp id hbit.mpr)]
  · rw [if_neg hc, if_neg (fun h => hc (h.imp id hbit.mp))]

/-- The `long` pair is chosen when the `int` pair is excluded and the value
fits `long_bit` bits. -/
theorem select_type_long (cfg : Config) (n lp : Nat) (up : Bool)
    (hint : lp ≠ 0 ∨ ¬ n < 2 ^ cfg.int_bit) (hlp : lp ≤ 1)
    (h2i : 2 ≤ cfg.int_bit)
    (h2 : 2 ≤ cfg.long_bit) (h64 : cfg.long_bit ≤ 64) (hn : n < 2 ^ cfg.long_bit) :
    select_type cfg n lp up =
      if up = true ∨ 2 ^ (cfg.long_bit - 1) ≤ n then CType.builtin_unsigned_long
      else CType.builtin_long := by
  have hfit := (shift_fits n cfg.long_bit h2).mpr hn
  have hnofit : ¬ (lp = 0 ∧ (n >>> 2) >>> (cfg.int_bit - 2) = 0) := by
    rintro ⟨h0, hf⟩
    rcases hint with h | h
    · exact h h0
    · exact h ((shift_fits n cfg.int_bit h2i).mp hf)
  have hn2 : n < 2 ^ (cfg.long_bit - 1 + 1) := by
    have : cfg.long_bit - 1 + 1 = cfg.long_bit := by omega
    rw [this]; exact hn
  have hbit := high_bit_iff n (cfg.long_bit - 1) (by omega) hn2
  unfold select_type
  simp only [hnofit, if_false, hfit, hlp, and_self, if_true]
  by_cases hc : up = true ∨ 2 ^ (cfg.long_bit - 1) ≤ n
  · rw [if_pos hc, if_pos (hc.imp id hbit.mpr)]
  · rw [if_neg hc, if_neg (fun h => hc (h.imp id hbit.mp))]

/-- The `long long` pair is chosen when the `int` and `long` pairs are
excluded; the sign bit tested is bit `long_long_bit - 1`, at most bit 63. -/
theorem select_type_long_long (cfg : Config) (n lp : Nat) (up : Bool)
    (hint : lp ≠ 0 ∨ ¬ n < 2 ^ cfg.int_bit) (hlong : 1 < lp ∨ ¬ n < 2 ^ cfg.long_bit)
    (h2i : 2 ≤ cfg.int_bit) (h2 : 2 ≤ cfg.long_bit) (h1 : 1 ≤ cfg.long_long_bit)
    (hn : n < 2 ^ 64) (hnl : n < 2 ^ cfg.long_long_bit) :
    select_type cfg n lp up =
      if up = true ∨ 2 ^ (min cfg.long_long_bit 64 - 1) ≤ n
      then CType.builtin_unsigned_long_long else CType.builtin_long_long := by
  have hnofit : ¬ (lp = 0 ∧ (n >>> 2) >>> (cfg.int_bit - 2) = 0) := by
    rintro ⟨h0, hf⟩
    rcases hint with h | h
    · exact h h0
    · exact h ((shift_fits n cfg.int_bit h2i).mp hf)
  have hnofit2 : ¬ (lp ≤ 1 ∧ (n >>> 2) >>> (cfg.long_bit - 2) = 0) := by
    rintro ⟨h0, hf⟩
    rcases hlong with h | h
    · omega
    · exact h ((shift_fits n cfg.long_bit h2).mp hf)
  have hshift : (if LONGEST_BIT < cfg.long_long_bit then LONGEST_BIT - 1
      else cfg.long_long_bit - 1) = min cfg.long_long_bit 64 - 1 := by
    unfold LONGEST_BIT
    split_ifs <;> omega
  have hn2 : n < 2 ^ (min cfg.long_long_bit 64 - 1 + 1) := by
    have : min cfg.long_long_bit 64 - 1 + 1 = min cfg.long_long_bit 64 := by omega
    rw [this]
    rcases Nat.le_total cfg.long_long_bit 64 with h | h
    · rw [Nat.min_eq_left h]; exact hnl
    · rw [Nat.min_eq_right h]; exact hn
  have hbit := high_bit_iff n (min cfg.long_long_bit 64 - 1) (by omega) hn2
  unfold select_type
  simp only [hnofit, if_false, hnofit2, hshift]
  by_cases hc : up = true ∨ 2 ^ (min cfg.long_long_bit 64 - 1) ≤ n
  · rw [if_pos hc, if_pos (hc.imp id hbit.mpr)]
  · rw [if_neg hc, if_neg (fun h => hc (h.imp id hbit.mp))]

/-! ## Integer literals: value and type -/

/-- C1: for a digit string valid in base `r` with value below `2 ^ 63`,
`parse_number` with `parsed_float = 0` returns `INT` and stores exactly the
base-`r` value of the digits, where `r` is 16 after `0x`/`0X`, 2 after
`0b`/`0B`, 10 after `0t`/`0d`, 8 after a bare leading `0`, and the ambient
input radix for digits that do not begin with `0`. -/
theorem parse_number_value (cfg : Config) (pre ds : List Char) (r : Nat)
    (hform : LiteralForm cfg.input_radix pre ds r) (hvalid : ValidDigits r ds)
    (hv : digits_value r ds < 2 ^ 63) :
    parse_number cfg (pre ++ ds) (pre ++ ds).length false =
      Except.ok (NumToken.INT (digits_value r ds : Int)
        (select_type cfg (digits_value r ds) 0 false)) := by
  have h := parse_number_literal cfg pre ds [] r hform hvalid (by simp) (by omega)
  have h63 : ¬ (9223372036854775808 ≤ digits_value r ds) := by omega
  simp only [List.append_nil] at h
  rw [h, to_signed_of_lt hv]
  simp [long_count, has_unsigned, h63]

/-- The examples of C1 under radix 10: `0x1F` is 31, `0b101` is 5, `017` is 15
and `10` is 10. -/
theorem parse_number_value_witness :
    (LiteralForm (cfg32 10).input_radix ['0', 'x'] ['1', 'F'] 16 ∧
      ValidDigits 16 ['1', 'F'] ∧ digits_value 16 ['1', 'F'] < 2 ^ 63) ∧
    parse_number (cfg32 10) (['0', 'x'] ++ ['1', 'F']) (['0', 'x'] ++ ['1', 'F']).length false =
      Except.ok (NumToken.INT (digits_value 16 ['1', 'F'] : Int)
        (select_type (cfg32 10) (digits_value 16 ['1', 'F']) 0 false)) ∧
    digits_value 16 ['1', 'F'] = 31 ∧
    parse_number (cfg32 10) ['0', 'b', '1', '0', '1'] 5 false
      = Except.ok (NumToken.INT 5 CType.builtin_int) ∧
    parse_number (cfg32 10) ['0', '1', '7'] 3 false
      = Except.ok (NumToken.INT 15 CType.builtin_int) ∧
    parse_number (cfg32 10) ['1', '0'] 2 false
      = Except.ok (NumToken.INT 10 CType.builtin_int) :=
  ⟨⟨by decide, by decide, by decide⟩,
   parse_number_value (cfg32 10) ['0', 'x'] ['1', 'F'] 16 (by decide) (by decide) (by decide),
   by decide, by decide, by decide, by decide⟩

theorem pow_int_le_63 {bits : Nat} (h : bits ≤ 64) : 2 ^ (bits - 1) ≤ 2 ^ 63 :=
  Nat.pow_le_pow_right (by norm_num) (by omega)

/-- C4: for a valid digit string whose value fits `int`, `parse_number` returns
`INT` with type `unsigned int` for the suffix `u`, `long` for one `l`,
`long long` for two `l`, and `unsigned long long` for `u` with two `l` in any
order; upper and lower case suffix letters behave the same. -/
theorem parse_number_suffix_type (cfg : Config) (pre ds sfx : List Char) (r : Nat)
    (ty : CType) (hw : cfg.c_widths)
    (hform : LiteralForm cfg.input_radix pre ds r) (hvalid : ValidDigits r ds)
    (hs : ∀ ch ∈ sfx, is_suffix ch = true)
    (hfit : digits_value r ds < 2 ^ (cfg.int_bit - 1))
    (hty : suffix_type sfx = some ty) :
    parse_number cfg (pre ++ ds ++ sfx) (pre ++ ds ++ sfx).length false =
      Except.ok (NumToken.INT (digits_value r ds : Int) ty) := by
  obtain ⟨h2, hil, hll, h64⟩ := hw
  have hv63 : digits_value r ds < 2 ^ 63 :=
    Nat.lt_of_lt_of_le hfit (pow_int_le_63 (by omega))
  have hint : digits_value r ds < 2 ^ cfg.int_bit :=
    Nat.lt_of_lt_of_le hfit (Nat.pow_le_pow_right (by norm_num) (by omega))
  have hlong1 : digits_value r ds < 2 ^ (cfg.long_bit - 1) :=
    Nat.lt_of_lt_of_le hfit (Nat.pow_le_pow_right (by norm_num) (by omega))
  have hlong : digits_value r ds < 2 ^ cfg.long_bit :=
    Nat.lt_of_lt_of_le hfit (Nat.pow_le_pow_right (by norm_num) (by omega))
  have hll1 : digits_value r ds < 2 ^ (min cfg.long_long_bit 64 - 1) :=
    Nat.lt_of_lt_of_le hfit (Nat.pow_le_pow_right (by norm_num) (by omega))
  have hllb : digits_value r ds < 2 ^ cfg.long_long_bit :=
    Nat.lt_of_lt_of_le hfit (Nat.pow_le_pow_right (by norm_num) (by omega))
  have h63 : ¬ (2 ^ 63 ≤ digits_value r ds) := by omega
  rw [parse_number_literal cfg pre ds sfx r hform hvalid hs (by omega), to_signed_of_lt hv63]
  simp only [h63, decide_False, Bool.false_or]
  unfold suffix_type at hty
  split at hty
  · rename_i hl hu
    simp only [Option.some.injEq] at hty
    subst hty
    rw [hl, hu, select_type_int cfg _ true h2 (by omega) hint]
    simp
  · rename_i hl hu
    simp only [Option.some.injEq] at hty
    subst hty
    rw [hl, hu, select_type_long cfg _ 1 false (Or.inl (by omega)) (by omega) h2 (by omega)
      h64 hlong]
    simp [Nat.not_le.mpr hlong1]
  · rename_i hl hu
    simp only [Option.some.injEq] at hty
    subst hty
    rw [hl, hu, select_type_long_long cfg _ 2 false (Or.inl (by omega)) (Or.inl (by omega)) h2
      (by omega) (by omega) (by omega) hllb]
    simp [Nat.not_le.mpr hll1]
  · rename_i hl hu
    simp only [Option.some.injEq] at hty
    subst hty
    rw [hl, hu, select_type_long_long cfg _ 2 true (Or.inl (by omega)) (Or.inl (by omega)) h2
      (by omega) (by omega) (by omega) hllb]
    simp
  · simp at hty

/-- C4 at `100ull` under radix 10 with 32-bit `int`: the type is
`unsigned long long`. -/
theorem parse_number_suffix_type_witness :
    ((cfg32 10).c_widths ∧ LiteralForm (cfg32 10).input_radix [] ['1', '0', '0'] 10 ∧
      ValidDigits 10 ['1', '0', '0'] ∧ (∀ ch ∈ ['u', 'l', 'l'], is_suffix ch = true) ∧
      digits_value 10 ['1', '0', '0'] < 2 ^ ((cfg32 10).int_bit - 1) ∧
      suffix_type ['u', 'l', 'l'] = some CType.builtin_unsigned_long_long) ∧
    parse_number (cfg32 10) ([] ++ ['1', '0', '0'] ++ ['u', 'l', 'l'])
        ([] ++ ['1', '0', '0'] ++ ['u', 'l', 'l']).length false =
      Except.ok (NumToken.INT (digits_value 10 ['1', '0', '0'] : Int)
        CType.builtin_unsigned_long_long) :=
  ⟨⟨by decide, by decide, by decide, by decide, by decide, by decide⟩,
   parse_number_suffix_type (cfg32 10) [] ['1', '0', '0'] ['u', 'l', 'l'] 10
     CType.builtin_unsigned_long_long (by decide) (by decide) (by decide) (by decide)
     (by decide) (by decide)⟩

/-- C2: the decimal literal `20500000000000000000` exceeds `2 ^ 64`, yet
`parse_number` raises no error on it: it returns `INT` with the value reduced
modulo `2 ^ 64`.  The unsigned overflow test misses the wrap-around because
the wrapped value is again larger than the previous one. -/
theorem parse_number_overflow_missed :
    2 ^ 64 ≤ digits_value 10 "20500000000000000000".toList ∧
    parse_number (cfg32 10) "20500000000000000000".toList 20 false =
      Except.ok (NumToken.INT 2053255926290448384 CType.builtin_long_long) ∧
    (2053255926290448384 : Nat) = digits_value 10 "20500000000000000000".toList % 2 ^ 64 := by
  refine ⟨by decide, by decide, by decide⟩

/-- C6 as stated fails when `long` is 64 bits wide: `9223372036854775808`
(`2 ^ 63`) is typed `unsigned long`, not `unsigned long long`. -/
theorem parse_number_unsigned_64_counterexample :
    (cfg64 10).long_long_bit = 64 ∧
    digits_value 10 "9223372036854775808".toList = 2 ^ 63 ∧
    parse_number (cfg64 10) "9223372036854775808".toList 19 false =
      Except.ok (NumToken.INT (-9223372036854775808) CType.builtin_unsigned_long) := by
  refine ⟨by decide, by decide, by decide⟩

/-- C6 (amended): for an unsuffixed decimal literal whose value `v` fits the
unsigned 64-bit range but not the signed one, with 64-bit `long long`,
`parse_number` raises no error and returns `INT` with the 64-bit pattern of
`v` (the signed `LONGEST` `v - 2 ^ 64`) and the unsigned type of the narrowest
of `int`, `long`, `long long` that is 64 bits wide: `unsigned long long` when
`int` and `long` are narrower. -/
theorem parse_number_unsigned_64 (cfg : Config) (pre ds : List Char)
    (hw : cfg.c_widths) (hll : cfg.long_long_bit = 64)
    (hform : LiteralForm cfg.input_radix pre ds 10) (hvalid : ValidDigits 10 ds)
    (hlo : 2 ^ 63 ≤ digits_value 10 ds) (hhi : digits_value 10 ds < 2 ^ 64) :
    parse_number cfg (pre ++ ds) (pre ++ ds).length false =
      Except.ok (NumToken.INT ((digits_value 10 ds : Int) - 2 ^ 64) (unsigned_64_type cfg)) := by
  obtain ⟨h2, hil, hlll, h64⟩ := hw
  have h := parse_number_literal cfg pre ds [] 10 hform hvalid (by simp) hhi
  simp only [List.append_nil] at h
  rw [h, to_signed_of_ge hlo]
  have hlo2 : 9223372036854775808 ≤ digits_value 10 ds := by omega
  have hup : (decide (2 ^ 63 ≤ digits_value 10 ds) || has_unsigned []) = true := by
    simp [has_unsigned, hlo2]
  have hlc : long_count [] = 0 := rfl
  rw [hup, hlc]
  unfold unsigned_64_type
  by_cases hi : cfg.int_bit = 64
  · rw [if_pos hi, select_type_int cfg _ true h2 (by omega) (by rw [hi]; exact hhi)]
    simp
  · have hnint : ¬ digits_value 10 ds < 2 ^ cfg.int_bit := by
      have : 2 ^ cfg.int_bit ≤ 2 ^ 63 := Nat.pow_le_pow_right (by norm_num) (by omega)
      omega
    rw [if_neg hi]
    by_cases hl : cfg.long_bit = 64
    · rw [if_pos hl, select_type_long cfg _ 0 true (Or.inr hnint) (by omega) h2 (by omega)
        h64 (by rw [hl]; exact hhi)]
      simp
    · have hnlong : ¬ digits_value 10 ds < 2 ^ cfg.long_bit := by
        have : 2 ^ cfg.long_bit ≤ 2 ^ 63 := Nat.pow_le_pow_right (by norm_num) (by omega)
        omega
      rw [if_neg hl, select_type_long_long cfg _ 0 true (Or.inr hnint) (Or.inr hnlong) h2
        (by omega) (by omega) hhi (by rw [hll]; exact hhi)]
      simp

/-- C6 (amended) at `9223372036854775808` with 32-bit `int` and `long`: the
type is `unsigned long long`. -/
theorem parse_number_unsigned_64_witness :
    ((cfg32 10).c_widths ∧ (cfg32 10).long_long_bit = 64 ∧
      LiteralForm (cfg32 10).input_radix [] "9223372036854775808".toList 10 ∧
      ValidDigits 10 "9223372036854775808".toList ∧
      2 ^ 63 ≤ digits_value 10 "9223372036854775808".toList ∧
      digits_value 10 "9223372036854775808".toList < 2 ^ 64) ∧
    parse_number (cfg32 10) ([] ++ "9223372036854775808".toList)
        ([] ++ "9223372036854775808".toList).length false =
      Except.ok (NumToken.INT ((digits_value 10 "9223372036854775808".toList : Int) - 2 ^ 64)
        (unsigned_64_type (cfg32 10))) ∧
    unsigned_64_type (cfg32 10) = CType.builtin_unsigned_long_long :=
  ⟨⟨by decide, by decide, by decide, by decide, by decide, by decide⟩,
   parse_number_unsigned_64 (cfg32 10) [] "9223372036854775808".toList (by decide) (by decide)
     (by decide) (by decide) (by decide) (by decide),
   by decide⟩

theorem long_suffix_is_suffix {ch : Char} (h : is_long_suffix ch = true) :
    is_suffix ch = true := by
  simp [is_suffix, h]

theorem long_suffix_not_unsigned {ch : Char} (h : is_long_suffix ch = true) :
    is_unsigned_suffix ch = false := by
  simp only [is_long_suffix, is_unsigned_suffix, Char.reduceToNat, decide_eq_true_eq,
    decide_eq_false_iff_not] at h ⊢
  omega

theorem long_count_all (sfx : List Char) (hs : ∀ ch ∈ sfx, is_long_suffix ch = true) :
    long_count sfx = sfx.length ∧ has_unsigned sfx = false := by
  induction sfx with
  | nil => exact ⟨rfl, rfl⟩
  | cons ch sfx ih =>
    have hch := hs ch (List.mem_cons_self _ _)
    obtain ⟨h1, h2⟩ := ih (fun c hc => hs c (List.mem_cons_of_mem _ hc))
    refine ⟨?_, ?_⟩
    · unfold long_count at h1 ⊢
      rw [List.countP_cons_of_pos _ _ hch, h1, List.length_cons]
    · unfold has_unsigned at h2 ⊢
      rw [List.any_cons, h2, long_suffix_not_unsigned hch]; rfl

/-- C7: for an integer literal of value `v` that did not overflow, with no
suffix or only `l` letters, `parse_number` picks the narrowest pair that holds
`v` (`int` when `v < 2 ^ int_bit`, else `long` when `v < 2 ^ long_bit`, else
`long long`), where one `l` excludes the `int` pair and two exclude `int` and
`long`; in the pair the type is signed exactly when `v < 2 ^ (width - 1)`. -/
theorem parse_number_narrowest (cfg : Config) (pre ds sfx : List Char) (r : Nat)
    (hw : cfg.c_widths)
    (hform : LiteralForm cfg.input_radix pre ds r) (hvalid : ValidDigits r ds)
    (hs : ∀ ch ∈ sfx, is_long_suffix ch = true)
    (hv : digits_value r ds < 2 ^ 63) (hll : digits_value r ds < 2 ^ cfg.long_long_bit) :
    parse_number cfg (pre ++ ds ++ sfx) (pre ++ ds ++ sfx).length false =
      Except.ok (NumToken.INT (digits_value r ds : Int)
        (narrowest_type cfg (digits_value r ds) sfx.length)) := by
  obtain ⟨h2, hil, hlll, h64⟩ := hw
  obtain ⟨hcount, hnou⟩ := long_count_all sfx hs
  have h63 : ¬ (2 ^ 63 ≤ digits_value r ds) := by omega
  rw [parse_number_literal cfg pre ds sfx r hform hvalid
    (fun c hc => long_suffix_is_suffix (hs c hc)) (by omega), to_signed_of_lt hv, hcount, hnou]
  simp only [h63, decide_False, Bool.or_false]
  unfold narrowest_type
  by_cases hc1 : sfx.length = 0 ∧ digits_value r ds < 2 ^ cfg.int_bit
  · rw [if_pos hc1, hc1.1, select_type_int cfg _ false h2 (by omega) hc1.2]
    by_cases hs1 : digits_value r ds < 2 ^ (cfg.int_bit - 1)
    · rw [if_pos hs1, if_neg (by simp; exact hs1)]
    · rw [if_neg hs1, if_pos (Or.inr (by omega))]
  · rw [if_neg hc1]
    have hint : sfx.length ≠ 0 ∨ ¬ digits_value r ds < 2 ^ cfg.int_bit := by
      by_cases h0 : sfx.length = 0
      · exact Or.inr (fun h => hc1 ⟨h0, h⟩)
      · exact Or.inl h0
    by_cases hc2 : sfx.length ≤ 1 ∧ digits_value r ds < 2 ^ cfg.long_bit
    · rw [if_pos hc2, select_type_long cfg _ _ false hint hc2.1 h2 (by omega) h64 hc2.2]
      by_cases hs1 : digits_value r ds < 2 ^ (cfg.long_bit - 1)
      · rw [if_pos hs1, if_neg (by simp; exact hs1)]
      · rw [if_neg hs1, if_pos (Or.inr (by omega))]
    · rw [if_neg hc2]
      have hlong : 1 < sfx.length ∨ ¬ digits_value r ds < 2 ^ cfg.long_bit := by
        by_cases h0 : sfx.length ≤ 1
        · exact Or.inr (fun h => hc2 ⟨h0, h⟩)
        · exact Or.inl (by omega)
      rw [select_type_long_long cfg _ _ false hint hlong h2 (by omega) (by omega) (by omega) hll]
      by_cases hle : cfg.long_long_bit ≤ 64
      · rw [Nat.min_eq_left hle]
        by_cases hs1 : digits_value r ds < 2 ^ (cfg.long_long_bit - 1)
        · rw [if_pos hs1, if_neg (by simp; exact hs1)]
        · rw [if_neg hs1, if_pos (Or.inr (by omega))]
      · have hge : 64 ≤ cfg.long_long_bit := by omega
        have hbig : (2 : Nat) ^ 63 ≤ 2 ^ (cfg.long_long_bit - 1) :=
          Nat.pow_le_pow_right (by norm_num) (by omega)
        have hcode : ¬ (false = true ∨ 2 ^ (64 - 1) ≤ digits_value r ds) := by
          simp only [Bool.false_eq_true, false_or]; omega
        have hspec : digits_value r ds < 2 ^ (cfg.long_long_bit - 1) := by omega
        rw [Nat.min_eq_right hge, if_neg hcode, if_pos hspec]

/-- C7 at `2147483648l` (`2 ^ 31`) with 32-bit `int` and `long`: the `l`
excludes `int`, the value fits 32 bits with the top bit set, so the type is
`unsigned long`. -/
theorem parse_number_narrowest_witness :
    ((cfg32 10).c_widths ∧ LiteralForm (cfg32 10).input_radix [] "2147483648".toList 10 ∧
      ValidDigits 10 "2147483648".toList ∧ (∀ ch ∈ ['l'], is_long_suffix ch = true) ∧
      digits_value 10 "2147483648".toList < 2 ^ 63 ∧
      digits_value 10 "2147483648".toList < 2 ^ (cfg32 10).long_long_bit) ∧
    parse_number (cfg32 10) ([] ++ "2147483648".toList ++ ['l'])
        ([] ++ "2147483648".toList ++ ['l']).length false =
      Except.ok (NumToken.INT (digits_value 10 "2147483648".toList : Int)
        (narrowest_type (cfg32 10) (digits_value 10 "2147483648".toList) ['l'].length)) ∧
    narrowest_type (cfg32 10) (digits_value 10 "2147483648".toList) ['l'].length
      = CType.builtin_unsigned_long :=
  ⟨⟨by decide, by decide, by decide, by decide, by decide, by decide⟩,
   parse_number_narrowest (cfg32 10) [] "2147483648".toList ['l'] 10 (by decide) (by decide)
     (by decide) (by decide) (by decide) (by decide),
   by decide⟩

/-- C8: with 32-bit `int`, an unsuffixed decimal literal whose value lies
above `INT_MAX` and at most `UINT_MAX` is typed `unsigned int`, not `long`. -/
theorem parse_number_uint_quirk (cfg : Config) (pre ds : List Char)
    (hint : cfg.int_bit = 32)
    (hform : LiteralForm cfg.input_radix pre ds 10) (hvalid : ValidDigits 10 ds)
    (hlo : 2 ^ 31 ≤ digits_value 10 ds) (hhi : digits_value 10 ds < 2 ^ 32) :
    parse_number cfg (pre ++ ds) (pre ++ ds).length false =
      Except.ok (NumToken.INT (digits_value 10 ds : Int) CType.builtin_unsigned_int) := by
  have h := parse_number_literal cfg pre ds [] 10 hform hvalid (by simp) (by omega)
  simp only [List.append_nil] at h
  have hlc : long_count [] = 0 := rfl
  rw [h, to_signed_of_lt (by omega), hlc,
    select_type_int cfg _ _ (by omega) (by omega) (by rw [hint]; exact hhi),
    if_pos (Or.inr (by rw [hint]; exact hlo))]

/-- C8 at `4294967295` (`UINT_MAX`) under radix 10 with 32-bit `int`. -/
theorem parse_number_uint_quirk_witness :
    ((cfg32 10).int_bit = 32 ∧
      LiteralForm (cfg32 10).input_radix [] "4294967295".toList 10 ∧
      ValidDigits 10 "4294967295".toList ∧
      2 ^ 31 ≤ digits_value 10 "4294967295".toList ∧
      digits_value 10 "4294967295".toList < 2 ^ 32) ∧
    parse_number (cfg32 10) ([] ++ "4294967295".toList) ([] ++ "4294967295".toList).length false =
      Except.ok (NumToken.INT (digits_value 10 "4294967295".toList : Int)
        CType.builtin_unsigned_int) :=
  ⟨⟨by decide, by decide, by decide, by decide, by decide⟩,
   parse_number_uint_quirk (cfg32 10) [] "4294967295".toList (by decide) (by decide)
     (by decide) (by decide) (by decide)⟩

/-! ## Malformed integer literals -/

theorem valid_digit_not_suffix {r : Nat} {ch : Char} (h : valid_digit r ch = true) :
    is_suffix ch = false := by
  obtain ⟨d, hd, _⟩ := valid_digit_iff.mp h
  unfold digit_value at hd
  simp only [Char.reduceToNat] at hd
  simp only [is_suffix, is_long_suffix, is_unsigned_suffix, Char.reduceToNat,
    Bool.or_eq_false_iff, decide_eq_false_iff_not]
  split_ifs at hd <;> simp at hd <;> omega

/-- After a suffix letter the loop, if it goes on, has `found_suffix` set. -/
theorem scan_step_suffix_found (base : Nat) (ch : Char) (st st1 : NumState)
    (hs : is_suffix ch = true) (h : scan_step base ch.toNat st = Scan.go st1) :
    st1.found_suffix = true := by
  by_cases hi : st.i < base
  · rw [scan_step_suffix base ch st hs hi] at h
    injection h with h
    rw [← h]
  · have hc := suffix_code hs
    have hi2 : st.i ≥ base := by omega
    exfalso
    generalize ch.toNat = c at hc h
    rcases hc with rfl | rfl | rfl | rfl <;>
      simp [scan_step, scan_check, hi2] at h

/-- The only message the loop raises is that of a too large constant. -/
theorem scan_step_error_msg (base c : Nat) (st : NumState) (msg : String)
    (h : scan_step base c st = Scan.error msg) : msg = msg_too_large := by
  have hcheck : ∀ c1 st1, scan_check base c1 st1 = Scan.error msg → msg = msg_too_large := by
    intro c1 st1 h1
    unfold scan_check at h1
    simp only at h1
    split_ifs at h1 <;> (injection h1 with h1; exact h1.symm)
  unfold scan_step at h
  simp only at h
  split_ifs at h <;> exact hcheck _ _ h

theorem scan_loop_error_msg (base : Nat) (l : List Char) (k : Nat) (st : NumState)
    (msg : String) (h : scan_loop base k l st = Scan.error msg) : msg = msg_too_large := by
  induction k generalizing l st with
  | zero => simp [scan_loop] at h
  | succ k ih =>
    unfold scan_loop at h
    split at h
    · exact ih _ _ h
    · simp at h
    · rename_i m hstep
      injection h with h
      subst h
      exact scan_step_error_msg _ _ _ _ hstep

/-- A loop that runs to its end has read digits valid in the base and suffix
letters only, and no digit after a suffix letter. -/
theorem scan_loop_go_wellformed (base : Nat) (l : List Char) (st st2 : NumState)
    (h : scan_loop base l.length l st = Scan.go st2) :
    (∀ ch ∈ l, is_suffix ch = true ∨ valid_digit base ch = true) ∧
    (st.found_suffix = true → ∀ ch ∈ l, is_suffix ch = true) ∧
    digit_after_suffix base l = false := by
  induction l generalizing st with
  | nil => simp [digit_after_suffix]
  | cons ch r ih =>
    rw [List.length_cons, scan_loop_cons] at h
    split at h
    · rename_i st1 hstep
      obtain ⟨ih1, ih2, ih3⟩ := ih st1 h
      have hch : is_suffix ch = true ∨ valid_digit base ch = true := by
        by_contra hcon
        simp only [not_or, Bool.not_eq_true] at hcon
        rw [scan_step_invalid base ch st hcon.1 hcon.2] at hstep
        exact Scan.noConfusion hstep
      have hfs : st.found_suffix = true → is_suffix ch = true := by
        intro hf
        by_contra hcon
        simp only [Bool.not_eq_true] at hcon
        rw [scan_step_after_suffix base ch st hcon hf] at hstep
        exact Scan.noConfusion hstep
      have hst1 : (st.found_suffix = true ∨ is_suffix ch = true) → st1.found_suffix = true :=
        fun hor => scan_step_suffix_found base ch st st1 (hor.elim hfs id) hstep
      refine ⟨?_, ?_, ?_⟩
      · intro c hc
        rcases List.mem_cons.mp hc with rfl | hc
        · exact hch
        · exact ih1 c hc
      · intro hf c hc
        rcases List.mem_cons.mp hc with rfl | hc
        · exact hfs hf
        · exact ih2 (hst1 (Or.inl hf)) c hc
      · unfold digit_after_suffix
        rw [ih3, Bool.or_false]
        by_cases hsuf : is_suffix ch = true
        · have hall := ih2 (hst1 (Or.inr hsuf))
          have hnone : r.any (valid_digit base) = false := by
            rw [List.any_eq_false]
            intro c hc hv
            have := valid_digit_not_suffix hv
            rw [hall c hc] at this
            exact Bool.noConfusion this
          rw [hnone, Bool.and_false]
        · simp only [Bool.not_eq_true] at hsuf
          rw [hsuf, Bool.false_and]
    · exact Scan.noConfusion h
    · exact Scan.noConfusion h

/-- Once a suffix has been read, a later character that is no suffix letter
makes the loop return `ERROR`. -/
theorem scan_loop_after_suffix (base : Nat) (l : List Char) (st : NumState)
    (hf : st.found_suffix = true) (hp : st.prevn = st.n) (hi : st.i < base)
    (hl : l.any (fun ch => !is_suffix ch) = true) :
    scan_loop base l.length l st = Scan.ERROR := by
  induction l generalizing st with
  | nil => simp at hl
  | cons ch r ih =>
    rw [List.length_cons, scan_loop_cons]
    by_cases hs : is_suffix ch = true
    · rw [scan_step_suffix base ch st hs hi]
      simp only
      refine ih _ ?_ ?_ ?_ ?_
      · rfl
      · rfl
      · exact hi
      · rw [List.any_cons, hs] at hl
        simpa using hl
    · simp only [Bool.not_eq_true] at hs
      rw [scan_step_after_suffix base ch st hs hf]

theorem any_not_suffix_of_invalid (base : Nat) (l : List Char)
    (h : has_invalid_char base l = true) : l.any (fun ch => !is_suffix ch) = true := by
  unfold has_invalid_char at h
  rw [List.any_eq_true] at h ⊢
  obtain ⟨c, hc, hbad⟩ := h
  refine ⟨c, hc, ?_⟩
  simp only [Bool.and_eq_true] at hbad
  exact hbad.1

theorem any_not_suffix_of_valid (base : Nat) (l : List Char)
    (h : l.any (valid_digit base) = true) : l.any (fun ch => !is_suffix ch) = true := by
  rw [List.any_eq_true] at h ⊢
  obtain ⟨c, hc, hv⟩ := h
  refine ⟨c, hc, ?_⟩
  rw [valid_digit_not_suffix hv]
  rfl

theorem any_valid_of_digit_after_suffix (base : Nat) (l : List Char)
    (h : digit_after_suffix base l = true) : l.any (valid_digit base) = true := by
  induction l with
  | nil => simp [digit_after_suffix] at h
  | cons ch r ih =>
    unfold digit_after_suffix at h
    rw [List.any_cons]
    rcases Bool.or_eq_true _ _ ▸ h with h1 | h1
    · simp only [Bool.and_eq_true] at h1
      rw [h1.2, Bool.or_true]
    · rw [ih h1, Bool.or_true]

/-- A malformed literal whose first character is no valid digit: `ERROR`. -/
theorem scan_loop_malformed_rest (base : Nat) (l : List Char) (st : NumState)
    (hi : st.i < base)
    (hhead : ∀ ch r, l = ch :: r → valid_digit base ch = false)
    (hbad : malformed base l = true) :
    scan_loop base l.length l st = Scan.ERROR := by
  cases l with
  | nil => simp [malformed, digit_after_suffix, has_invalid_char] at hbad
  | cons ch r =>
    have hnv := hhead ch r rfl
    rw [List.length_cons, scan_loop_cons]
    by_cases hs : is_suffix ch = true
    · rw [scan_step_suffix base ch st hs hi]
      simp only
      refine scan_loop_after_suffix base r _ ?_ ?_ ?_ ?_
      · rfl
      · rfl
      · exact hi
      unfold malformed at hbad
      rcases Bool.or_eq_true _ _ ▸ hbad with h1 | h1
      · unfold digit_after_suffix at h1
        rcases Bool.or_eq_true _ _ ▸ h1 with h2 | h2
        · simp only [Bool.and_eq_true] at h2
          exact any_not_suffix_of_valid base r h2.2
        · exact any_not_suffix_of_valid base r (any_valid_of_digit_after_suffix base r h2)
      · apply any_not_suffix_of_invalid base r
        unfold has_invalid_char at h1 ⊢
        rw [List.any_cons, hs] at h1
        simpa using h1
    · simp only [Bool.not_eq_true] at hs
      rw [scan_step_invalid base ch st hs hnv]

theorem malformed_append_digits (base : Nat) (ds l : List Char)
    (hvalid : ValidDigits base ds) : malformed base (ds ++ l) = malformed base l := by
  induction ds with
  | nil => rfl
  | cons ch ds ih =>
    have hch := hvalid ch (List.mem_cons_self _ _)
    have hns := valid_digit_not_suffix hch
    have ih2 := ih (fun c hc => hvalid c (List.mem_cons_of_mem _ hc))
    have hcons : digit_after_suffix base (ch :: (ds ++ l)) =
        ((is_suffix ch && (ds ++ l).any (valid_digit base)) ||
          digit_after_suffix base (ds ++ l)) := rfl
    unfold malformed at ih2 ⊢
    unfold has_invalid_char at ih2 ⊢
    rw [List.cons_append, hcons, List.any_cons, hns, hch]
    simp only [Bool.false_and, Bool.false_or, Bool.not_false, Bool.not_true, Bool.and_false]
    exact ih2

theorem radix_switch_length (radix : Nat) (p : List Char) :
    (radix_switch radix p p.length).2.2 = (radix_switch radix p p.length).1.length := by
  unfold radix_switch
  simp only
  split_ifs <;> simp

theorem radix_switch_base (radix : Nat) (p : List Char) (len : Nat) (h : 2 ≤ radix) :
    2 ≤ (radix_switch radix p len).2.1 := by
  unfold radix_switch
  simp only
  split_ifs <;> simp <;> omega

/-- C5 as stated fails when the digits in front of the offending character
have already overflowed: on `99999999999999999999l2` and on
`99999999999999999999z` `parse_number` does not return `ERROR` but raises
`Numeric constant too large.`. -/
theorem parse_number_malformed_counterexample :
    malformed 10 "99999999999999999999l2".toList = true ∧
    parse_number (cfg32 10) "99999999999999999999l2".toList 22 false =
      Except.error (Failure.error msg_too_large) ∧
    parse_number (cfg32 10) "99999999999999999999l2".toList 22 false ≠
      Except.ok NumToken.ERROR ∧
    parse_number (cfg32 10) "99999999999999999999z".toList 21 false =
      Except.error (Failure.error msg_too_large) := by
  refine ⟨by decide, by decide, by decide, by decide⟩

/-- C5 (amended): for a literal in which a digit follows an `l`/`u` suffix, or
which holds a character that is neither a suffix letter nor a digit valid in
the active base, `parse_number` with `parsed_float = 0` never returns a token:
it returns `ERROR`, or raises `Numeric constant too large.` when the digits
in front already overflowed; it returns `ERROR` whenever the value of the
leading run of valid digits is below `2 ^ 64`. -/
theorem parse_number_malformed (cfg : Config) (p : List Char)
    (hr : 2 ≤ cfg.input_radix)
    (hbad : malformed (radix_switch cfg.input_radix p p.length).2.1
      (radix_switch cfg.input_radix p p.length).1 = true) :
    (parse_number cfg p p.length false = Except.ok NumToken.ERROR ∨
      parse_number cfg p p.length false = Except.error (Failure.error msg_too_large)) ∧
    (digits_value (radix_switch cfg.input_radix p p.length).2.1
        ((radix_switch cfg.input_radix p p.length).1.takeWhile
          (valid_digit (radix_switch cfg.input_radix p p.length).2.1)) < 2 ^ 64 →
      parse_number cfg p p.length false = Except.ok NumToken.ERROR) := by
  have hlen := radix_switch_length cfg.input_radix p
  have hb := radix_switch_base cfg.input_radix p p.length hr
  unfold parse_number
  simp only [Bool.false_eq_true, if_false]
  generalize (radix_switch cfg.input_radix p p.length) = sw at hbad hlen hb ⊢
  obtain ⟨body, base, len⟩ := sw
  simp only at hbad hlen hb ⊢
  subst hlen
  constructor
  · cases hloop : scan_loop base body.length body NumState.init with
    | go st =>
      exfalso
      obtain ⟨h1, _, h3⟩ := scan_loop_go_wellformed base body NumState.init st hloop
      unfold malformed at hbad
      rw [h3, Bool.false_or] at hbad
      unfold has_invalid_char at hbad
      rw [List.any_eq_true] at hbad
      obtain ⟨c, hc, hcb⟩ := hbad
      simp only [Bool.and_eq_true, Bool.not_eq_true'] at hcb
      rcases h1 c hc with h | h
      · rw [hcb.1] at h; exact Bool.noConfusion h
      · rw [hcb.2] at h; exact Bool.noConfusion h
    | ERROR => exact Or.inl rfl
    | error msg =>
      rw [scan_loop_error_msg base body body.length NumState.init msg hloop]
      exact Or.inr rfl
  · intro hv
    have hsplit : body = body.takeWhile (valid_digit base) ++ body.dropWhile (valid_digit base) :=
      (List.takeWhile_append_dropWhile _ _).symm
    have hvalid : ValidDigits base (body.takeWhile (valid_digit base)) :=
      fun c hc => (List.mem_takeWhile_imp hc)
    generalize body.takeWhile (valid_digit base) = ds at hsplit hvalid hv
    have hhead : ∀ ch r, body.dropWhile (valid_digit base) = ch :: r →
        valid_digit base ch = false := by
      intro ch r he
      have hne : body.dropWhile (valid_digit base) ≠ [] := by rw [he]; simp
      have := List.head_dropWhile_not (valid_digit base) body hne
      simp only [he, List.head_cons] at this
      exact this
    generalize body.dropWhile (valid_digit base) = rest at hsplit hhead
    subst hsplit
    rw [malformed_append_digits base ds rest hvalid] at hbad
    obtain ⟨i1, hi1, hloop⟩ := scan_loop_digits base hb ds rest rest.length NumState.init hvalid
      rfl rfl (by show 0 < base; omega) (by show 0 < 2 ^ 63; norm_num) hv
    simp only [List.length_append, hloop]
    rw [scan_loop_malformed_rest base rest _ hi1 hhead hbad]

/-- C5 (amended) at `1l2` under radix 10: `ERROR`. -/
theorem parse_number_malformed_witness :
    (2 ≤ (cfg32 10).input_radix ∧
      malformed (radix_switch (cfg32 10).input_radix ['1', 'l', '2'] ['1', 'l', '2'].length).2.1
        (radix_switch (cfg32 10).input_radix ['1', 'l', '2'] ['1', 'l', '2'].length).1 = true) ∧
    parse_number (cfg32 10) ['1', 'l', '2'] ['1', 'l', '2'].length false
      = Except.ok NumToken.ERROR ∧
    parse_number (cfg32 10) ['0', '8'] 2 false = Except.ok NumToken.ERROR ∧
    parse_number (cfg32 10) ['0', 'b', '2'] 3 false = Except.ok NumToken.ERROR ∧
    parse_number (cfg32 10) ['1', '2', 'a'] 3 false = Except.ok NumToken.ERROR :=
  ⟨⟨by decide, by decide⟩,
   (parse_number_malformed (cfg32 10) ['1', 'l', '2'] (by decide) (by decide)).2 (by decide),
   by decide, by decide, by decide⟩

/-! ## The radix prefixes -/

/-- C3 as stated fails on the two-character literals: under ambient radix 16
the literal `0b` is scanned in base 16 (it is the hex digit `b`, 11), not in
base 2, and under radix 10 the same literal is an `ERROR`; `0x` under radix 10
is scanned in base 10.  The ambient radix does influence these. -/
theorem radix_switch_short_counterexample :
    (radix_switch 16 ['0', 'b'] 2).2.1 = 16 ∧
    parse_number (cfg32 16) ['0', 'b'] 2 false = Except.ok (NumToken.INT 11 CType.builtin_int) ∧
    parse_number (cfg32 10) ['0', 'b'] 2 false = Except.ok NumToken.ERROR ∧
    (radix_switch 10 ['0', 'x'] 2).2.1 = 10 := by
  refine ⟨by decide, by decide, by decide, by decide⟩

theorem radix_switch_independent (r1 r2 : Nat) (p : List Char) (len : Nat)
    (h0 : char_at p 0 = '0'.toNat)
    (h : 3 ≤ len ∨ is_radix_letter (char_at p 1) = false) :
    radix_switch r1 p len = radix_switch r2 p len := by
  unfold radix_switch
  simp only [h0, if_true]
  rcases h with h | h
  · have h3 : len ≥ 3 := h
    simp only [h3, if_true]
  · simp only [is_radix_letter, decide_eq_false_iff_not, not_or] at h
    obtain ⟨hx, hX, hb, hB, ht, hT, hd, hD⟩ := h
    simp only [hx, hX, hb, hB, ht, hT, hd, hD, or_self, if_false]

/-- C3 (amended): for every ambient input radix, `parse_number` scans a
literal of at least 3 characters that begins with `0x`/`0X` in base 16, with
`0b`/`0B` in base 2, with `0t`/`0T`/`0d`/`0D` in base 10 (the two prefix
characters are skipped); a literal that begins with `0` followed by anything
else in base 8; the two-character literals `0x`, `0b`, `0t`, `0d` and every
literal that does not begin with `0` in the ambient radix.  The ambient radix
never influences a literal that begins with `0`, the two-character literals
`0x`, `0b`, `0t`, `0d` apart. -/
theorem parse_number_radix (cfg : Config) (p : List Char) (len : Nat) :
    (char_at p 0 = '0'.toNat ∧ 3 ≤ len ∧
        (char_at p 1 = 'x'.toNat ∨ char_at p 1 = 'X'.toNat) →
      radix_switch cfg.input_radix p len = (p.drop 2, 16, len - 2)) ∧
    (char_at p 0 = '0'.toNat ∧ 3 ≤ len ∧
        (char_at p 1 = 'b'.toNat ∨ char_at p 1 = 'B'.toNat) →
      radix_switch cfg.input_radix p len = (p.drop 2, 2, len - 2)) ∧
    (char_at p 0 = '0'.toNat ∧ 3 ≤ len ∧
        (char_at p 1 = 't'.toNat ∨ char_at p 1 = 'T'.toNat ∨
          char_at p 1 = 'd'.toNat ∨ char_at p 1 = 'D'.toNat) →
      radix_switch cfg.input_radix p len = (p.drop 2, 10, len - 2)) ∧
    (char_at p 0 = '0'.toNat ∧ is_radix_letter (char_at p 1) = false →
      radix_switch cfg.input_radix p len = (p, 8, len)) ∧
    (char_at p 0 = '0'.toNat ∧ len < 3 ∧ is_radix_letter (char_at p 1) = true →
      radix_switch cfg.input_radix p len = (p, cfg.input_radix, len)) ∧
    (char_at p 0 ≠ '0'.toNat →
      radix_switch cfg.input_radix p len = (p, cfg.input_radix, len)) ∧
    (char_at p 0 = '0'.toNat ∧ (3 ≤ len ∨ is_radix_letter (char_at p 1) = false) →
      ∀ radix2 : Nat,
        parse_number { cfg with input_radix := radix2 } p len false =
          parse_number cfg p len false) := by
  refine ⟨?_, ?_, ?_, ?_, ?_, ?_, ?_⟩
  · rintro ⟨h0, h3, h1⟩
    have h3b : len ≥ 3 := h3
    simp only [Char.reduceToNat] at h0 h1
    simp only [radix_switch, Char.reduceToNat, h0, h1, h3b, if_true]
  · rintro ⟨h0, h3, h1⟩
    have h3b : len ≥ 3 := h3
    simp only [Char.reduceToNat] at h0 h1
    have hx : ¬ (char_at p 1 = 120 ∨ char_at p 1 = 88) := by omega
    simp only [radix_switch, Char.reduceToNat, h0, h1, hx, h3b, if_true, if_false]
  · rintro ⟨h0, h3, h1⟩
    have h3b : len ≥ 3 := h3
    simp only [Char.reduceToNat] at h0 h1
    have hx : ¬ (char_at p 1 = 120 ∨ char_at p 1 = 88) := by omega
    have hb : ¬ (char_at p 1 = 98 ∨ char_at p 1 = 66) := by omega
    simp only [radix_switch, Char.reduceToNat, h0, h1, hx, hb, h3b, if_true, if_false]
  · rintro ⟨h0, h1⟩
    simp only [is_radix_letter, Char.reduceToNat, decide_eq_false_iff_not] at h1
    simp only [Char.reduceToNat] at h0
    have hx : ¬ (char_at p 1 = 120 ∨ char_at p 1 = 88) := by omega
    have hb : ¬ (char_at p 1 = 98 ∨ char_at p 1 = 66) := by omega
    have ht : ¬ (char_at p 1 = 116 ∨ char_at p 1 = 84 ∨ char_at p 1 = 100 ∨
        char_at p 1 = 68) := by omega
    simp only [radix_switch, Char.reduceToNat, h0, hx, hb, ht, if_true, if_false]
  · rintro ⟨h0, h3, h1⟩
    have h3b : ¬ len ≥ 3 := by omega
    simp only [Char.reduceToNat] at h0
    simp only [radix_switch, Char.reduceToNat, h0, h3b, if_true, if_false]
    split_ifs <;> first | rfl | skip
    rename_i hx hb ht
    simp only [is_radix_letter, Char.reduceToNat, decide_eq_true_eq] at h1
    omega
  · intro h0
    simp only [radix_switch, h0, if_false]
  · rintro ⟨h0, h⟩ radix2
    unfold parse_number
    simp only [Bool.false_eq_true, if_false]
    rw [radix_switch_independent radix2 cfg.input_radix p len h0 h]
    rfl

/-- C3 (amended) at `0x1F` and at `0b101` under ambient radix 16: bases 16 and
2, and the results do not depend on the ambient radix. -/
theorem parse_number_radix_witness :
    radix_switch 16 ['0', 'x', '1', 'F'] 4 = (['1', 'F'], 16, 2) ∧
    radix_switch 16 ['0', 'b', '1', '0', '1'] 5 = (['1', '0', '1'], 2, 3) ∧
    parse_number { cfg32 16 with input_radix := 10 } ['0', 'b', '1', '0', '1'] 5 false =
      parse_number (cfg32 16) ['0', 'b', '1', '0', '1'] 5 false :=
  ⟨(parse_number_radix (cfg32 16) ['0', 'x', '1', 'F'] 4).1 (by decide),
   (parse_number_radix (cfg32 16) ['0', 'b', '1', '0', '1'] 5).2.1 (by decide),
   (parse_number_radix (cfg32 16) ['0', 'b', '1', '0', '1'] 5).2.2.2.2.2.2 (by decide) 10⟩

/-! ## The text after the token

The lexer passes `parse_number` a pointer into the expression, so that text
follows the `len` characters of the token.  It does not change the result. -/

theorem scan_loop_append_right (base k : Nat) (l rest : List Char) (st : NumState)
    (hk : k ≤ l.length) : scan_loop base k (l ++ rest) st = scan_loop base k l st := by
  induction k generalizing l st with
  | zero => rfl
  | succ k ih =>
    cases l with
    | nil => simp at hk
    | cons c l =>
      have hk2 : k ≤ l.length := by simp at hk; omega
      rw [List.cons_append, scan_loop_cons, scan_loop_cons]
      cases scan_step base c.toNat st with
      | go st1 => exact ih l st1 hk2
      | ERROR => rfl
      | error msg => rfl

theorem scan_loop_zero_digit (base : Nat) (hb : 1 ≤ base) (rest : List Char) :
    scan_loop base 1 ('0' :: rest) NumState.init = Scan.go NumState.init := by
  have hb2 : ¬ (0 ≥ base) := by omega
  rw [scan_loop_cons]
  simp [scan_step, scan_check, NumState.init, scan_loop, hb2]

theorem radix_switch_append (radix : Nat) (c d : Char) (t rest : List Char) :
    radix_switch radix (c :: d :: t ++ rest) (c :: d :: t).length =
      ((radix_switch radix (c :: d :: t) (c :: d :: t).length).1 ++ rest,
       (radix_switch radix (c :: d :: t) (c :: d :: t).length).2.1,
       (radix_switch radix (c :: d :: t) (c :: d :: t).length).2.2) := by
  have h0 : char_at (c :: d :: t ++ rest) 0 = char_at (c :: d :: t) 0 := rfl
  have h1 : char_at (c :: d :: t ++ rest) 1 = char_at (c :: d :: t) 1 := rfl
  have hd : List.drop 2 (c :: d :: t ++ rest) = List.drop 2 (c :: d :: t) ++ rest := rfl
  unfold radix_switch
  simp only [h0, h1, hd]
  split_ifs <;> rfl

/-- The characters that follow the token in the expression text do not change
the result of `parse_number` on the token. -/
theorem parse_number_trailing (cfg : Config) (tok rest : List Char) (hne : tok ≠ [])
    (hr : 1 ≤ cfg.input_radix) :
    parse_number cfg (tok ++ rest) tok.length false = parse_number cfg tok tok.length false := by
  unfold parse_number
  simp only [Bool.false_eq_true, if_false]
  cases tok with
  | nil => exact absurd rfl hne
  | cons c t =>
    cases t with
    | cons d t =>
      rw [radix_switch_append]
      have hlen := radix_switch_length cfg.input_radix (c :: d :: t)
      simp only
      rw [hlen, scan_loop_append_right _ _ _ _ _ (Nat.le_refl _)]
    | nil =>
      by_cases hc : c = '0'
      · subst hc
        have hb1 : 1 ≤ (radix_switch cfg.input_radix (['0'] ++ rest) ['0'].length).2.1 := by
          unfold radix_switch
          simp only
          split_ifs <;> simp <;> omega
        have hb2 : 1 ≤ (radix_switch cfg.input_radix ['0'] ['0'].length).2.1 := by
          unfold radix_switch
          simp only
          split_ifs <;> simp <;> omega
        have hp1 : (radix_switch cfg.input_radix (['0'] ++ rest) ['0'].length).1 = '0' :: rest := by
          unfold radix_switch
          simp only
          split_ifs <;> simp at *
        have hp2 : (radix_switch cfg.input_radix ['0'] ['0'].length).1 = ['0'] := by
          unfold radix_switch
          simp only
          split_ifs <;> simp at *
        have hl1 : (radix_switch cfg.input_radix (['0'] ++ rest) ['0'].length).2.2 = 1 := by
          unfold radix_switch
          simp only
          split_ifs <;> simp at *
        have hl2 : (radix_switch cfg.input_radix ['0'] ['0'].length).2.2 = 1 := by
          unfold radix_switch
          simp only
          split_ifs <;> simp at *
        rw [hp1, hp2, hl1, hl2, scan_loop_zero_digit _ hb1, scan_loop_zero_digit _ hb2]
      · have hc0 : c.toNat ≠ 48 := by
          intro h
          apply hc
          apply Char.ext
          apply UInt32.ext
          exact h
        have h1 : radix_switch cfg.input_radix ([c] ++ rest) [c].length
            = (c :: rest, cfg.input_radix, 1) := by
          simp [radix_switch, char_at, hc0]
        have h2 : radix_switch cfg.input_radix [c] [c].length = ([c], cfg.input_radix, 1) := by
          simp [radix_switch, char_at, hc0]
        have h3 := scan_loop_append_right cfg.input_radix 1 [c] rest NumState.init
          (Nat.le_refl _)
        rw [h1, h2]
        simp only
        rw [← List.singleton_append, h3]

/-! ## String literals -/

theorem grow_grow (output : Option (List Char)) (a b : List Char) :
    grow (grow output a) b = grow output (a ++ b) := by
  cases output <;> simp [grow]

/-- A simple escape or an escaped character that stands for itself: one byte
is written and the pointer moves by one. -/
theorem c_parse_escape_simple (c : Char) (rest : List Char) (output : Option (List Char))
    (h : (StrItem.escaped c).simple = true) :
    c_parse_escape (c :: rest) output =
      Except.ok { result := 1, tokptr := Cursor.ptr rest,
                  output := grow output [simple_escape c] } := by
  simp only [StrItem.simple, Bool.and_eq_true, decide_eq_true_eq, Bool.not_eq_true'] at h
  obtain ⟨⟨hx, hu, hU, hb, hn, h0⟩, hoct⟩ := h
  have huU : ¬ (c = 'u' ∨ c = 'U') := by
    rintro (h | h)
    · exact hu h
    · exact hU h
  unfold c_parse_escape
  simp only [h0, hx, hoct, huU, hb, if_false, Bool.false_eq_true]
  unfold simple_escape emit_one HOST_ESCAPE_CHAR
  split_ifs <;> rfl

theorem string_loop_cons (quote c : Char) (fuel : Nat) (rest tempbuf : List Char)
    (host_chars : Nat) :
    string_loop quote (fuel + 1) (c :: rest) tempbuf host_chars =
      if c = NUL then Except.ok (c :: rest, tempbuf, host_chars)
      else if c = BACKSLASH then
        match c_parse_escape rest (some tempbuf) with
        | Except.error e => Except.error e
        | Except.ok out =>
          match out.tokptr with
          | Cursor.past_nul => Except.error Failure.out_of_bounds
          | Cursor.ptr rest2 =>
            string_loop quote fuel rest2 (out.output.getD tempbuf) (host_chars + out.result)
      else if c = quote then Except.ok (c :: rest, tempbuf, host_chars)
      else string_loop quote fuel rest (tempbuf ++ [c]) (host_chars + 1) := rfl

/-- The loop of `parse_string_or_char` over simple elements up to the closing
double quote. -/
theorem string_loop_simple (items : List StrItem) (rest tempbuf : List Char)
    (host_chars fuel : Nat) (h : ∀ it ∈ items, it.simple = true)
    (hfuel : items.length < fuel) :
    string_loop DQUOTE fuel (source_text items ++ DQUOTE :: rest) tempbuf host_chars =
      Except.ok (DQUOTE :: rest, tempbuf ++ items.map StrItem.decoded,
        host_chars + items.length) := by
  induction items generalizing tempbuf host_chars fuel with
  | nil =>
    obtain ⟨f, rfl⟩ : ∃ f, fuel = f + 1 := ⟨fuel - 1, by simp at hfuel; omega⟩
    have h1 : DQUOTE ≠ NUL := by decide
    have h2 : DQUOTE ≠ BACKSLASH := by decide
    have hsrc : source_text [] ++ DQUOTE :: rest = DQUOTE :: rest := rfl
    rw [hsrc, string_loop_cons, if_neg h1, if_neg h2, if_pos rfl]
    simp
  | cons it items ih =>
    obtain ⟨f, rfl⟩ : ∃ f, fuel = f + 1 := ⟨fuel - 1, by simp at hfuel; omega⟩
    have hf : items.length < f := by simp at hfuel; omega
    have hit := h it (List.mem_cons_self _ _)
    have hrest : ∀ i ∈ items, i.simple = true := fun i hi => h i (List.mem_cons_of_mem _ hi)
    cases it with
    | plain c =>
      simp only [StrItem.simple, decide_eq_true_eq] at hit
      obtain ⟨hb, hq, h0⟩ := hit
      have hsrc : source_text (StrItem.plain c :: items) ++ DQUOTE :: rest =
          c :: (source_text items ++ DQUOTE :: rest) := rfl
      rw [hsrc, string_loop_cons, if_neg h0, if_neg hb, if_neg hq, ih _ _ _ hrest hf]
      simp [StrItem.decoded]
      omega
    | escaped c =>
      have h1 : BACKSLASH ≠ NUL := by decide
      have hsrc : source_text (StrItem.escaped c :: items) ++ DQUOTE :: rest =
          BACKSLASH :: c :: (source_text items ++ DQUOTE :: rest) := rfl
      rw [hsrc, string_loop_cons, if_neg h1, if_pos rfl,
        c_parse_escape_simple c _ (some tempbuf) hit]
      simp only [grow, Option.map_some', Option.getD_some]
      rw [ih _ _ _ hrest hf]
      simp [StrItem.decoded]
      omega

theorem length_le_source_text (items : List StrItem) :
    items.length ≤ (source_text items).length := by
  induction items with
  | nil => simp [source_text]
  | cons it items ih =>
    cases it <;> simp [source_text, StrItem.source] <;> omega

/-- C9: for a double-quoted literal made of ordinary characters, the simple
escapes `\a \b \f \n \r \t \v \e` and other escaped characters that stand
for themselves, `parse_string_or_char` returns `STRING`, tags the value as a
plain narrow string, stores exactly the decoded bytes and sets the output
cursor just past the closing quote. -/
theorem parse_string_simple (items : List StrItem) (rest : List Char)
    (h : ∀ it ∈ items, it.simple = true) :
    parse_string_or_char (DQUOTE :: (source_text items ++ DQUOTE :: rest)) =
      Except.ok { token := StrToken.STRING,
                  value := { type := C_STRING, bytes := items.map StrItem.decoded },
                  outptr := rest, host_chars := items.length } := by
  have hL : DQUOTE ≠ 'L' := by decide
  have hu : DQUOTE ≠ 'u' := by decide
  have hU : DQUOTE ≠ 'U' := by decide
  have h0 : DQUOTE ≠ NUL := by decide
  have hs : DQUOTE ≠ SQUOTE := by decide
  have hfuel : items.length < (source_text items ++ DQUOTE :: rest).length + 1 := by
    have := length_le_source_text items
    simp only [List.length_append, List.length_cons]
    omega
  have hpre : record_string_type (DQUOTE :: (source_text items ++ DQUOTE :: rest)) =
      (C_STRING, DQUOTE :: (source_text items ++ DQUOTE :: rest)) := by
    simp only [record_string_type, hL, hu, hU, if_false]
  unfold parse_string_or_char
  simp only [hpre, h0, hs, if_false]
  rw [string_loop_simple items rest [] 0 _ h hfuel]
  simp [close_string, deref]

/-- C9 at the literal `"a\tb"`: the 3 bytes `a`, 0x09, `b`, tagged as a plain
narrow string. -/
theorem parse_string_simple_witness :
    (∀ it ∈ [StrItem.plain 'a', StrItem.escaped 't', StrItem.plain 'b'], it.simple = true) ∧
    parse_string_or_char (DQUOTE ::
        (source_text [StrItem.plain 'a', StrItem.escaped 't', StrItem.plain 'b'] ++
          DQUOTE :: [])) =
      Except.ok { token := StrToken.STRING,
                  value := { type := C_STRING,
                             bytes := [StrItem.plain 'a', StrItem.escaped 't',
                               StrItem.plain 'b'].map StrItem.decoded },
                  outptr := [],
                  host_chars := [StrItem.plain 'a', StrItem.escaped 't',
                    StrItem.plain 'b'].length } ∧
    DQUOTE :: (source_text [StrItem.plain 'a', StrItem.escaped 't', StrItem.plain 'b'] ++
        DQUOTE :: []) = [DQUOTE, 'a', BACKSLASH, 't', 'b', DQUOTE] ∧
    [StrItem.plain 'a', StrItem.escaped 't', StrItem.plain 'b'].map StrItem.decoded
      = ['a', Char.ofNat 9, 'b'] :=
  ⟨by decide,
   parse_string_simple [StrItem.plain 'a', StrItem.escaped 't', StrItem.plain 'b'] []
     (by decide),
   by decide, by decide⟩

/-! ## Escapes that are passed through -/

theorem takeWhile_run (p : Char → Bool) (run rest : List Char)
    (hrun : ∀ c ∈ run, p c = true) (hrest : ∀ c ∈ rest.head?, p c = false) :
    (run ++ rest).takeWhile p = run ∧ (run ++ rest).dropWhile p = rest := by
  induction run with
  | nil =>
    cases rest with
    | nil => exact ⟨rfl, rfl⟩
    | cons c r =>
      have := hrest c (by simp)
      simp [List.takeWhile, List.dropWhile, this]
  | cons c run ih =>
    have hc := hrun c (List.mem_cons_self _ _)
    obtain ⟨h1, h2⟩ := ih (fun d hd => hrun d (List.mem_cons_of_mem _ hd))
    simp [List.takeWhile, List.dropWhile, hc, h1, h2]

theorem take_takeWhile_run (p : Char → Bool) (k : Nat) (run rest : List Char)
    (hrun : ∀ c ∈ run, p c = true) (hrest : ∀ c ∈ rest.head?, p c = false) :
    ((run ++ rest).take k).takeWhile p = run.take k := by
  induction run generalizing k with
  | nil =>
    cases k with
    | zero => rfl
    | succ k =>
      cases rest with
      | nil => rfl
      | cons c r =>
        have := hrest c (by simp)
        simp [List.takeWhile, this]
  | cons c run ih =>
    have hc := hrun c (List.mem_cons_self _ _)
    cases k with
    | zero => rfl
    | succ k =>
      have := ih k (fun d hd => hrun d (List.mem_cons_of_mem _ hd))
      simp [List.takeWhile, hc, this]

theorem drop_take_length (k : Nat) (run rest : List Char) :
    (run ++ rest).drop (run.take k).length = run.drop k ++ rest := by
  induction run generalizing k with
  | nil => simp
  | cons c run ih =>
    cases k with
    | zero => simp
    | succ k => simpa using ih k

theorem octal_code {c : Char} (h : is_octal c = true) : 48 ≤ c.toNat ∧ c.toNat ≤ 55 := by
  simp only [is_octal, Char.reduceToNat, Bool.and_eq_true, decide_eq_true_eq] at h
  obtain ⟨⟨h1, h8⟩, h9⟩ := h
  omega

theorem octal_not_special {c : Char} (h : is_octal c = true) : c ≠ NUL ∧ c ≠ 'x' := by
  have hc := octal_code h
  constructor
  · intro h0; rw [h0] at hc; revert hc; decide
  · intro h0; rw [h0] at hc; revert hc; decide

/-- C10: `c_parse_escape` copies numeric and universal escapes to the output
unchanged.  With `run` a maximal run of hex digits, `x run` is emitted as the
backslash, the `x` and all of `run`; `u run` and `U run` as the backslash, the
letter and at most 4 and 8 digits of `run`.  With `run` a maximal run of octal
digits it is emitted as the backslash and at most 3 of its digits.  An escaped
backslash is emitted as two backslashes.  The pointer ends just after the last
character copied, the return value is 1, and a NULL output stays NULL. -/
theorem c_parse_escape_verbatim (output : Option (List Char)) (run rest : List Char) :
    ((run ≠ [] ∧ (∀ c ∈ run, isxdigit c = true) ∧
        (∀ c ∈ rest.head?, isxdigit c = false)) →
      c_parse_escape ('x' :: (run ++ rest)) output =
        Except.ok { result := 1, tokptr := Cursor.ptr rest,
                    output := grow output (BACKSLASH :: 'x' :: run) } ∧
      c_parse_escape ('u' :: (run ++ rest)) output =
        Except.ok { result := 1, tokptr := Cursor.ptr (run.drop 4 ++ rest),
                    output := grow output (BACKSLASH :: 'u' :: run.take 4) } ∧
      c_parse_escape ('U' :: (run ++ rest)) output =
        Except.ok { result := 1, tokptr := Cursor.ptr (run.drop 8 ++ rest),
                    output := grow output (BACKSLASH :: 'U' :: run.take 8) }) ∧
    ((run ≠ [] ∧ (∀ c ∈ run, is_octal c = true) ∧
        (∀ c ∈ rest.head?, is_octal c = false)) →
      c_parse_escape (run ++ rest) output =
        Except.ok { result := 1, tokptr := Cursor.ptr (run.drop 3 ++ rest),
                    output := grow output (BACKSLASH :: run.take 3) }) ∧
    c_parse_escape (BACKSLASH :: rest) output =
      Except.ok { result := 1, tokptr := Cursor.ptr rest,
                  output := grow output [BACKSLASH, BACKSLASH] } := by
  refine ⟨?_, ?_, ?_⟩
  · rintro ⟨hne, hrun, hrest⟩
    obtain ⟨htw, hdw⟩ := takeWhile_run isxdigit run rest hrun hrest
    have hemp : (!isxdigit (deref (run ++ rest))) = false := by
      cases run with
      | nil => exact absurd rfl hne
      | cons c r =>
        have := hrun c (List.mem_cons_self _ _)
        simp [deref, this]
    refine ⟨?_, ?_, ?_⟩
    · have h0 : ('x' : Char) ≠ NUL := by decide
      unfold c_parse_escape
      simp only [h0, if_false, if_true, htw, hdw, hemp, Bool.false_eq_true, grow_grow]
      rfl
    · have h0 : ('u' : Char) ≠ NUL := by decide
      have hx : ('u' : Char) ≠ 'x' := by decide
      have ho : is_octal 'u' = false := by decide
      have hU : ('u' : Char) ≠ 'U' := by decide
      unfold c_parse_escape
      simp only [h0, hx, ho, hU, if_false, if_true, true_or, htw, hemp, Bool.false_eq_true,
        grow_grow, take_takeWhile_run isxdigit 4 run rest hrun hrest, drop_take_length]
      rfl
    · have h0 : ('U' : Char) ≠ NUL := by decide
      have hx : ('U' : Char) ≠ 'x' := by decide
      have ho : is_octal 'U' = false := by decide
      unfold c_parse_escape
      simp only [h0, hx, ho, if_false, if_true, or_true, htw, hemp, Bool.false_eq_true,
        grow_grow, take_takeWhile_run isxdigit 8 run rest hrun hrest, drop_take_length]
      rfl
  · rintro ⟨hne, hrun, hrest⟩
    obtain ⟨c, run1, rfl⟩ := List.exists_cons_of_ne_nil hne
    have hc := hrun c (List.mem_cons_self _ _)
    obtain ⟨h0, hx⟩ := octal_not_special hc
    have hrun3 := take_takeWhile_run is_octal 3 (c :: run1) rest hrun hrest
    have hdrop := drop_take_length 3 (c :: run1) rest
    rw [List.cons_append] at hrun3 hdrop ⊢
    unfold c_parse_escape
    simp only [h0, hx, hc, if_false, if_true, hrun3, hdrop, grow_grow]
    rfl
  · have h0 : BACKSLASH ≠ NUL := by decide
    have hx : BACKSLASH ≠ 'x' := by decide
    have ho : is_octal BACKSLASH = false := by decide
    have hu : ¬ (BACKSLASH = 'u' ∨ BACKSLASH = 'U') := by decide
    unfold c_parse_escape
    simp only [h0, hx, ho, hu, if_false, if_true, Bool.false_eq_true]

/-- C10 at the hex escape `x41` followed by `g`, with the other escapes
evaluated on examples: `12345` keeps 3 octal digits, `u12345` keeps 4 hex
digits. -/
theorem c_parse_escape_verbatim_witness :
    c_parse_escape ('x' :: (['4', '1'] ++ ['g'])) (some []) =
      Except.ok { result := 1, tokptr := Cursor.ptr ['g'],
                  output := grow (some []) (BACKSLASH :: 'x' :: ['4', '1']) } ∧
    c_parse_escape (['1', '2', '3', '4', '5'] ++ []) (some []) =
      Except.ok { result := 1, tokptr := Cursor.ptr (['1', '2', '3', '4', '5'].drop 3 ++ []),
                  output := grow (some []) (BACKSLASH :: ['1', '2', '3', '4', '5'].take 3) } ∧
    c_parse_escape ['u', '1', '2', '3', '4', '5'] (some []) =
      Except.ok { result := 1, tokptr := Cursor.ptr ['5'],
                  output := some [BACKSLASH, 'u', '1', '2', '3', '4'] } :=
  ⟨((c_parse_escape_verbatim (some []) ['4', '1'] ['g']).1
      ⟨by decide, by decide, by decide⟩).1,
   (c_parse_escape_verbatim (some []) ['1', '2', '3', '4', '5'] []).2.1
      ⟨by decide, by decide, by decide⟩,
   by decide⟩

/-! ## The iteration budget of the string loop is never used up -/

theorem length_dropWhile_le_self (p : Char → Bool) (l : List Char) :
    (l.dropWhile p).length ≤ l.length := by
  induction l with
  | nil => simp
  | cons c l ih =>
    rw [List.dropWhile_cons]
    split
    · exact Nat.le_trans ih (Nat.le_succ _)
    · exact Nat.le_refl _

theorem c_parse_escape_length (tokptr : List Char) (output : Option (List Char))
    (out : EscapeOut) (rest2 : List Char)
    (h : c_parse_escape tokptr output = Except.ok out) (hp : out.tokptr = Cursor.ptr rest2) :
    rest2.length ≤ tokptr.length := by
  unfold c_parse_escape at h
  cases tokptr with
  | nil =>
    simp only at h
    injection h with h
    rw [← h] at hp
    exact Cursor.noConfusion hp
  | cons c rest =>
    have hdw := length_dropWhile_le_self isxdigit rest
    simp only at h
    by_cases h1 : c = NUL
    · rw [if_pos h1] at h
      injection h with h
      rw [← h] at hp
      exact Cursor.noConfusion hp
    rw [if_neg h1] at h
    by_cases h2 : c = 'x'
    · rw [if_pos h2] at h
      split at h
      · exact Except.noConfusion h
      · injection h with h
        rw [← h] at hp
        injection hp with hp
        rw [← hp, List.length_cons]
        omega
    rw [if_neg h2] at h
    by_cases h3 : is_octal c = true
    · rw [if_pos h3] at h
      injection h with h
      rw [← h] at hp
      injection hp with hp
      rw [← hp, List.length_drop]
      omega
    rw [if_neg h3] at h
    by_cases h4 : c = 'u' ∨ c = 'U'
    · rw [if_pos h4] at h
      split at h
      · exact Except.noConfusion h
      · injection h with h
        rw [← h] at hp
        injection hp with hp
        rw [← hp, List.length_drop, List.length_cons]
        omega
    rw [if_neg h4] at h
    have hsimple : ∀ o : EscapeOut, o.tokptr = Cursor.ptr rest → out = o →
        rest2.length ≤ (c :: rest).length := by
      intro o ho he
      rw [he, ho] at hp
      injection hp with hp
      rw [← hp, List.length_cons]
      omega
    by_cases h5 : c = BACKSLASH
    · rw [if_pos h5] at h
      injection h with h
      exact hsimple _ rfl h.symm
    rw [if_neg h5] at h
    by_cases h6 : c = 'a'
    · rw [if_pos h6] at h
      injection h with h
      exact hsimple _ rfl h.symm
    rw [if_neg h6] at h
    by_cases h7 : c = 'b'
    · rw [if_pos h7] at h
      injection h with h
      exact hsimple _ rfl h.symm
    rw [if_neg h7] at h
    by_cases h8 : c = 'f'
    · rw [if_pos h8] at h
      injection h with h
      exact hsimple _ rfl h.symm
    rw [if_neg h8] at h
    by_cases h9 : c = 'n'
    · rw [if_pos h9] at h
      injection h with h
      exact hsimple _ rfl h.symm
    rw [if_neg h9] at h
    by_cases h10 : c = 'r'
    · rw [if_pos h10] at h
      injection h with h
      exact hsimple _ rfl h.symm
    rw [if_neg h10] at h
    by_cases h11 : c = 't'
    · rw [if_pos h11] at h
      injection h with h
      exact hsimple _ rfl h.symm
    rw [if_neg h11] at h
    by_cases h12 : c = 'v'
    · rw [if_pos h12] at h
      injection h with h
      exact hsimple _ rfl h.symm
    rw [if_neg h12] at h
    by_cases h13 : c = 'e'
    · rw [if_pos h13] at h
      injection h with h
      exact hsimple _ rfl h.symm
    rw [if_neg h13] at h
    by_cases h14 : c = NEWLINE
    · rw [if_pos h14] at h
      injection h with h
      exact hsimple _ rfl h.symm
    rw [if_neg h14] at h
    injection h with h
    exact hsimple _ rfl h.symm

theorem c_parse_escape_no_fuel (tokptr : List Char) (output : Option (List Char)) :
    c_parse_escape tokptr output ≠ Except.error Failure.out_of_fuel := by
  intro h
  unfold c_parse_escape at h
  cases tokptr with
  | nil => exact Except.noConfusion h
  | cons c rest =>
    simp only at h
    by_cases h1 : c = NUL
    · rw [if_pos h1] at h
      exact Except.noConfusion h
    rw [if_neg h1] at h
    by_cases h2 : c = 'x'
    · rw [if_pos h2] at h
      split at h
      · injection h with h
        exact Failure.noConfusion h
      · exact Except.noConfusion h
    rw [if_neg h2] at h
    by_cases h3 : is_octal c = true
    · rw [if_pos h3] at h
      exact Except.noConfusion h
    rw [if_neg h3] at h
    by_cases h4 : c = 'u' ∨ c = 'U'
    · rw [if_pos h4] at h
      split at h
      · injection h with h
        exact Failure.noConfusion h
      · exact Except.noConfusion h
    rw [if_neg h4] at h
    by_cases h5 : c = BACKSLASH
    · rw [if_pos h5] at h
      exact Except.noConfusion h
    rw [if_neg h5] at h
    by_cases h6 : c = 'a'
    · rw [if_pos h6] at h
      exact Except.noConfusion h
    rw [if_neg h6] at h
    by_cases h7 : c = 'b'
    · rw [if_pos h7] at h
      exact Except.noConfusion h
    rw [if_neg h7] at h
    by_cases h8 : c = 'f'
    · rw [if_pos h8] at h
      exact Except.noConfusion h
    rw [if_neg h8] at h
    by_cases h9 : c = 'n'
    · rw [if_pos h9] at h
      exact Except.noConfusion h
    rw [if_neg h9] at h
    by_cases h10 : c = 'r'
    · rw [if_pos h10] at h
      exact Except.noConfusion h
    rw [if_neg h10] at h
    by_cases h11 : c = 't'
    · rw [if_pos h11] at h
      exact Except.noConfusion h
    rw [if_neg h11] at h
    by_cases h12 : c = 'v'
    · rw [if_pos h12] at h
      exact Except.noConfusion h
    rw [if_neg h12] at h
    by_cases h13 : c = 'e'
    · rw [if_pos h13] at h
      exact Except.noConfusion h
    rw [if_neg h13] at h
    by_cases h14 : c = NEWLINE
    · rw [if_pos h14] at h
      exact Except.noConfusion h
    rw [if_neg h14] at h
    exact Except.noConfusion h

theorem string_loop_fuel (quote : Char) (fuel : Nat) (l tempbuf : List Char) (host_chars : Nat)
    (h : l.length < fuel) :
    string_loop quote fuel l tempbuf host_chars ≠ Except.error Failure.out_of_fuel := by
  induction fuel generalizing l tempbuf host_chars with
  | zero => omega
  | succ fuel ih =>
    cases l with
    | nil =>
      intro hcon
      exact Except.noConfusion hcon
    | cons c rest =>
      have hrest : rest.length < fuel := by simp at h; omega
      rw [string_loop_cons]
      by_cases h1 : c = NUL
      · rw [if_pos h1]
        intro hcon; exact Except.noConfusion hcon
      rw [if_neg h1]
      by_cases h2 : c = BACKSLASH
      · rw [if_pos h2]
        cases hesc : c_parse_escape rest (some tempbuf) with
        | error e =>
          simp only
          intro hcon
          injection hcon with hcon
          rw [hcon] at hesc
          exact c_parse_escape_no_fuel _ _ hesc
        | ok out =>
          simp only
          cases hptr : out.tokptr with
          | past_nul =>
            simp only
            intro hcon
            injection hcon with hcon
            exact Failure.noConfusion hcon
          | ptr rest2 =>
            simp only
            have := c_parse_escape_length rest (some tempbuf) out rest2 hesc hptr
            exact ih _ _ _ (by omega)
      rw [if_neg h2]
      by_cases h3 : c = quote
      · rw [if_pos h3]
        intro hcon; exact Except.noConfusion hcon
      rw [if_neg h3]
      exact ih _ _ _ hrest

theorem close_string_no_fuel (quote : Char) (type : Nat) (stop tempbuf : List Char)
    (host_chars : Nat) :
    close_string quote type stop tempbuf host_chars ≠ Except.error Failure.out_of_fuel := by
  unfold close_string
  split_ifs <;> intro hcon <;>
    first
      | exact Except.noConfusion hcon
      | (injection hcon with hcon; exact Failure.noConfusion hcon)

/-- The result of `parse_string_or_char` never comes from an exhausted
iteration budget: the embedding loses no run of the C loop. -/
theorem parse_string_or_char_fuel (tokptr : List Char) :
    parse_string_or_char tokptr ≠ Except.error Failure.out_of_fuel := by
  unfold parse_string_or_char
  simp only
  split
  · intro hcon
    injection hcon with hcon
    exact Failure.noConfusion hcon
  · rename_i quote body _
    have hfuel := string_loop_fuel quote (body.length + 1) body [] 0 (by omega)
    have hmain : ∀ type : Nat,
        (match string_loop quote (body.length + 1) body [] 0 with
          | Except.error e => Except.error e
          | Except.ok r => close_string quote type r.1 r.2.1 r.2.2) ≠
        Except.error Failure.out_of_fuel := by
      intro type
      cases hloop : string_loop quote (body.length + 1) body [] 0 with
      | error e =>
        simp only
        intro hcon
        injection hcon with hcon
        rw [hcon] at hloop
        exact hfuel hloop
      | ok r =>
        simp only
        exact close_string_no_fuel _ _ _ _ _
    split_ifs
    · intro hcon
      injection hcon with hcon
      exact Failure.noConfusion hcon
    · exact hmain _
    · exact hmain _

/-! ## The return value of `c_parse_escape` -/

/-- What `c_parse_escape` writes when it returns: the output grows by some
text `w` (a NULL output stays NULL), and the return value is 1 with `w`
non-empty, or 0 with `w` empty, the latter exactly at a line feed. -/
theorem c_parse_escape_written (tokptr : List Char) (output : Option (List Char))
    (out : EscapeOut) (h : c_parse_escape tokptr output = Except.ok out) :
    ∃ w : List Char, out.output = grow output w ∧
      ((out.result = 1 ∧ w ≠ [] ∧ deref tokptr ≠ NEWLINE) ∨
       (out.result = 0 ∧ w = [] ∧ deref tokptr = NEWLINE)) := by
  unfold c_parse_escape at h
  cases tokptr with
  | nil =>
    simp only at h
    injection h with h
    rw [← h]
    exact ⟨[NUL], rfl, Or.inl ⟨rfl, by simp, by decide⟩⟩
  | cons c rest =>
    simp only at h
    have hd : deref (c :: rest) = c := rfl
    rw [hd]
    by_cases h1 : c = NUL
    · rw [if_pos h1] at h
      injection h with h
      rw [← h]
      exact ⟨[NUL], rfl, Or.inl ⟨rfl, by simp, by rw [h1]; decide⟩⟩
    rw [if_neg h1] at h
    by_cases h2 : c = 'x'
    · rw [if_pos h2] at h
      split at h
      · exact Except.noConfusion h
      · injection h with h
        rw [← h]
        exact ⟨[BACKSLASH, 'x'] ++ rest.takeWhile isxdigit, grow_grow _ _ _,
          Or.inl ⟨rfl, by simp, by rw [h2]; decide⟩⟩
    rw [if_neg h2] at h
    by_cases h3 : is_octal c = true
    · rw [if_pos h3] at h
      injection h with h
      rw [← h]
      refine ⟨[BACKSLASH] ++ ((c :: rest).take 3).takeWhile is_octal, grow_grow _ _ _,
        Or.inl ⟨rfl, by simp, ?_⟩⟩
      intro hc
      rw [hc] at h3
      revert h3
      decide
    rw [if_neg h3] at h
    by_cases h4 : c = 'u' ∨ c = 'U'
    · rw [if_pos h4] at h
      split at h
      · exact Except.noConfusion h
      · injection h with h
        rw [← h]
        refine ⟨[BACKSLASH, c] ++ (rest.take (if c = 'U' then 8 else 4)).takeWhile isxdigit,
          grow_grow _ _ _, Or.inl ⟨rfl, by simp, ?_⟩⟩
        intro hc
        rw [hc] at h4
        revert h4
        decide
    rw [if_neg h4] at h
    have hone : ∀ d : Char, out = emit_one rest output d → c ≠ NEWLINE →
        ∃ w : List Char, out.output = grow output w ∧
          ((out.result = 1 ∧ w ≠ [] ∧ c ≠ NEWLINE) ∨
           (out.result = 0 ∧ w = [] ∧ c = NEWLINE)) := by
      intro d he hc
      rw [he]
      exact ⟨[d], rfl, Or.inl ⟨rfl, by simp, hc⟩⟩
    by_cases h5 : c = BACKSLASH
    · rw [if_pos h5] at h
      injection h with h
      rw [← h]
      exact ⟨[BACKSLASH, BACKSLASH], rfl, Or.inl ⟨rfl, by simp, by rw [h5]; decide⟩⟩
    rw [if_neg h5] at h
    by_cases h6 : c = 'a'
    · rw [if_pos h6] at h
      injection h with h
      exact hone _ h.symm (by rw [h6]; decide)
    rw [if_neg h6] at h
    by_cases h7 : c = 'b'
    · rw [if_pos h7] at h
      injection h with h
      exact hone _ h.symm (by rw [h7]; decide)
    rw [if_neg h7] at h
    by_cases h8 : c = 'f'
    · rw [if_pos h8] at h
      injection h with h
      exact hone _ h.symm (by rw [h8]; decide)
    rw [if_neg h8] at h
    by_cases h9 : c = 'n'
    · rw [if_pos h9] at h
      injection h with h
      exact hone _ h.symm (by rw [h9]; decide)
    rw [if_neg h9] at h
    by_cases h10 : c = 'r'
    · rw [if_pos h10] at h
      injection h with h
      exact hone _ h.symm (by rw [h10]; decide)
    rw [if_neg h10] at h
    by_cases h11 : c = 't'
    · rw [if_pos h11] at h
      injection h with h
      exact hone _ h.symm (by rw [h11]; decide)
    rw [if_neg h11] at h
    by_cases h12 : c = 'v'
    · rw [if_pos h12] at h
      injection h with h
      exact hone _ h.symm (by rw [h12]; decide)
    rw [if_neg h12] at h
    by_cases h13 : c = 'e'
    · rw [if_pos h13] at h
      injection h with h
      exact hone _ h.symm (by rw [h13]; decide)
    rw [if_neg h13] at h
    by_cases h14 : c = NEWLINE
    · rw [if_pos h14] at h
      injection h with h
      rw [← h]
      exact ⟨[], by cases output <;> simp [grow], Or.inr ⟨rfl, rfl, h14⟩⟩
    rw [if_neg h14] at h
    injection h with h
    exact hone _ h.symm h14

/-- C11: with a NULL output the escape `a` writes no character (the output
stays NULL), yet the return value is 1, not 0. -/
theorem c_parse_escape_null_output :
    c_parse_escape ['a'] none =
      Except.ok { result := 1, tokptr := Cursor.ptr [], output := none } := by
  decide

/-- When `c_parse_escape` returns, its return value is 0 or 1
and does not depend on the output argument: it is 0 exactly when the escaped
character is a line feed.  With an output buffer `buf` the buffer grows by some
text `w`, and the return value is 1 exactly when `w` is not empty (a line feed
writes nothing and returns 0); a NULL output stays NULL whatever is
returned. -/
theorem c_parse_escape_result (tokptr : List Char) (output : Option (List Char))
    (out : EscapeOut) (h : c_parse_escape tokptr output = Except.ok out) :
    (out.result = 0 ∨ out.result = 1) ∧
    (out.result = 0 ↔ deref tokptr = NEWLINE) ∧
    (∀ buf : List Char, output = some buf →
      ∃ w : List Char, out.output = some (buf ++ w) ∧ (out.result = 1 ↔ w ≠ [])) ∧
    (output = none → out.output = none) := by
  obtain ⟨w, hw, hcase⟩ := c_parse_escape_written tokptr output out h
  refine ⟨?_, ?_, ?_, ?_⟩
  · rcases hcase with ⟨h1, _, _⟩ | ⟨h0, _, _⟩
    · exact Or.inr h1
    · exact Or.inl h0
  · rcases hcase with ⟨h1, _, hn⟩ | ⟨h0, _, hn⟩
    · constructor
      · intro h0; omega
      · intro hc; exact absurd hc hn
    · exact ⟨fun _ => hn, fun _ => h0⟩
  · intro buf hb
    refine ⟨w, ?_, ?_⟩
    · rw [hw, hb]; rfl
    · rcases hcase with ⟨h1, hne, _⟩ | ⟨h0, he, _⟩
      · exact ⟨fun _ => hne, fun _ => h1⟩
      · constructor
        · intro h1; omega
        · intro hne; exact absurd he hne
  · intro hn
    rw [hw, hn]; rfl

/-- The escape `n` with the buffer `q`: the line feed is appended and 1 is
returned. -/
theorem c_parse_escape_result_witness :
    c_parse_escape ['n', 'x'] (some ['q']) =
      Except.ok { result := 1, tokptr := Cursor.ptr ['x'], output := some ['q', NEWLINE] } ∧
    ((1 = 0 ∨ 1 = 1) ∧ (1 = 0 ↔ deref ['n', 'x'] = NEWLINE) ∧
     (∀ buf : List Char, some ['q'] = some buf →
       ∃ w : List Char, some ['q', NEWLINE] = some (buf ++ w) ∧ (1 = 1 ↔ w ≠ [])) ∧
     (some ['q'] = none → some ['q', NEWLINE] = none)) :=
  ⟨by decide,
   c_parse_escape_result ['n', 'x'] (some ['q'])
     { result := 1, tokptr := Cursor.ptr ['x'], output := some ['q', NEWLINE] } (by decide)⟩

/-! ## The operator tables of the inner lexer -/

theorem expand_macro_none (env : Env) (st : State)
    (h : st.macro_original_text.isSome = true ∨ env.macro_expand_next st.lexptr = none) :
    expand_macro env st = st := by
  unfold expand_macro
  cases hm : st.macro_original_text with
  | some t => rfl
  | none =>
    rcases h with h | h
    · rw [hm] at h; exact absurd h (by decide)
    · simp only [h]

/-- The comparison of `strncmp` over the full length of a text without NUL
holds exactly when the other text starts with it. -/
theorem strncmp_eq_take (op : List Char) (hop : ∀ c ∈ op, c ≠ NUL) (s : List Char) :
    strncmp_eq s op op.length = true ↔ s.take op.length = op := by
  induction op generalizing s with
  | nil => simp [strncmp_eq]
  | cons c op ih =>
    have hc : c ≠ NUL := hop c (List.mem_cons_self _ _)
    have hop2 : ∀ d ∈ op, d ≠ NUL := fun d hd => hop d (List.mem_cons_of_mem _ hd)
    cases s with
    | nil =>
      have : deref ([] : List Char) ≠ deref (c :: op) := by
        simp only [deref]; exact fun h => hc h.symm
      simp [strncmp_eq, this]
    | cons d s =>
      by_cases hdc : d = c
      · subst hdc
        have h1 : ¬ (deref (d :: s) ≠ deref (d :: op)) := by simp [deref]
        have h2 : deref (d :: s) ≠ NUL := by simpa [deref] using hc
        simp only [List.length_cons, strncmp_eq, h1, h2, if_false, List.tail_cons, ih hop2 s,
          List.take_succ_cons, List.cons.injEq, true_and]
      · have h1 : deref (d :: s) ≠ deref (c :: op) := by simpa [deref] using hdc
        simp [strncmp_eq, h1, hdc]

theorem find_token_none (tab : List token) (hit : token → Bool) (cplus : Bool)
    (h : ∀ e ∈ tab, hit e = true → e.cxx_only = true ∧ cplus = false) :
    find_token tab hit cplus = none := by
  unfold find_token
  cases hf : tab.find? hit with
  | none => rfl
  | some e =>
    have hmem := List.mem_of_find?_eq_some hf
    have hhit := List.find?_some hf
    obtain ⟨h1, h2⟩ := h e hmem hhit
    simp [h1, h2]

theorem lex_retry_tab3 (env : Env) (fuel : Nat) (saw : Bool) (st0 : State) (e : token)
    (hexp : expand_macro env st0 = st0)
    (h3 : find_token tokentab3 (fun t => strncmp_eq st0.lexptr t.operator 3) env.cplus
      = some e) :
    lex_retry env (fuel + 1) saw st0 =
      Except.ok (e.token, lex_operator { st0 with prev_lexptr := some st0.lexptr } e 3) := by
  rw [lex_retry]
  simp only [hexp, h3]

theorem lex_retry_tab2 (env : Env) (fuel : Nat) (saw : Bool) (st0 : State) (e : token)
    (hexp : expand_macro env st0 = st0)
    (h3 : find_token tokentab3 (fun t => strncmp_eq st0.lexptr t.operator 3) env.cplus = none)
    (h2 : find_token tokentab2 (fun t => strncmp_eq st0.lexptr t.operator 2) env.cplus
      = some e) :
    lex_retry env (fuel + 1) saw st0 =
      Except.ok (e.token,
        if env.in_parse_field && e.token = ARROW then
          { lex_operator { st0 with prev_lexptr := some st0.lexptr } e 2 with
            last_was_structop := true }
        else lex_operator { st0 with prev_lexptr := some st0.lexptr } e 2) := by
  rw [lex_retry]
  simp only [hexp, h3, h2]

theorem lex_retry_switch (env : Env) (fuel : Nat) (saw : Bool) (st0 : State)
    (hexp : expand_macro env st0 = st0)
    (h3 : find_token tokentab3 (fun t => strncmp_eq st0.lexptr t.operator 3) env.cplus = none)
    (h2 : find_token tokentab2 (fun t => strncmp_eq st0.lexptr t.operator 2) env.cplus = none) :
    lex_retry env (fuel + 1) saw st0 =
      lex_switch env (fun s => lex_retry env fuel saw s) saw
        { st0 with prev_lexptr := some st0.lexptr } := by
  rw [lex_retry]
  simp only [hexp, h3, h2]

/-- C20 (amended): outside a macro expansion, and when `macro_expand_next` finds
no macro at the text, an input that starts with an operator of `tokentab3` that
the language allows (`>>=`, `<<=`, and `->*` in C++) makes `lex_one_token` return
that entry's token, store its opcode and advance `lexptr` by the 3 characters,
never by 2; an input that starts with an operator of `tokentab2` that the
language allows (every one but `.*` outside C++), and with no operator of
`tokentab3` that the language allows, makes it return that entry's token, store
its opcode and advance by exactly 2. -/
theorem lex_one_token_operator (env : Env) (st : State) (fuel : Nat) (e : token)
    (rest : List Char)
    (hquiet : st.macro_original_text.isSome = true ∨ env.macro_expand_next st.lexptr = none)
    (hlang : e.cxx_only = true → env.cplus = true)
    (htext : st.lexptr = e.operator ++ rest) :
    (e ∈ tokentab3 →
      lex_one_token env (fuel + 1) st = Except.ok (e.token, after_operator env st e rest)) ∧
    (e ∈ tokentab2 →
      (∀ e3 ∈ tokentab3, st.lexptr.take 3 = e3.operator →
        e3.cxx_only = true ∧ env.cplus = false) →
      lex_one_token env (fuel + 1) st = Except.ok (e.token, after_operator env st e rest)) := by
  have hexp : expand_macro env { st with last_was_structop := false } =
      { st with last_was_structop := false } := expand_macro_none env _ hquiet
  constructor
  · intro he
    have hfind : find_token tokentab3 (fun t => strncmp_eq st.lexptr t.operator 3) env.cplus
        = some e ∧ st.lexptr.drop 3 = rest ∧ e.token ≠ ARROW := by
      rw [htext]
      simp only [tokentab3, List.mem_cons, List.mem_singleton, List.not_mem_nil, or_false] at he
      rcases he with rfl | rfl | rfl
      · exact ⟨rfl, rfl, by decide⟩
      · exact ⟨rfl, rfl, by decide⟩
      · have hc := hlang rfl
        refine ⟨?_, rfl, by decide⟩
        unfold find_token
        rw [hc]
        rfl
    obtain ⟨hf, hdrop, hne⟩ := hfind
    unfold lex_one_token
    rw [lex_retry_tab3 env fuel _ _ e hexp hf]
    simp only [lex_operator, after_operator, hdrop, hne, decide_False, Bool.and_false]
  · intro he h3
    have hnone : find_token tokentab3 (fun t => strncmp_eq st.lexptr t.operator 3) env.cplus
        = none := by
      apply find_token_none
      intro e3 he3 hhit
      apply h3 e3 he3
      have hlen : e3.operator.length = 3 ∧ ∀ c ∈ e3.operator, c ≠ NUL := by
        simp only [tokentab3, List.mem_cons, List.mem_singleton, List.not_mem_nil, or_false] at he3
        rcases he3 with rfl | rfl | rfl <;> decide
      have := (strncmp_eq_take e3.operator hlen.2 st.lexptr).1 (by rw [hlen.1]; exact hhit)
      rw [hlen.1] at this
      exact this
    have hfind : find_token tokentab2 (fun t => strncmp_eq st.lexptr t.operator 2) env.cplus
        = some e ∧ st.lexptr.drop 2 = rest := by
      rw [htext]
      simp only [tokentab2, List.mem_cons, List.mem_singleton, List.not_mem_nil, or_false] at he
      rcases he with rfl | rfl | rfl | rfl | rfl | rfl | rfl | rfl | rfl | rfl | rfl | rfl | rfl
        | rfl | rfl | rfl | rfl | rfl | rfl | rfl | rfl
      case inr.inr.inr.inr.inr.inr.inr.inr.inr.inr.inr.inr.inr.inr.inr.inr.inr.inr.inr.inr =>
        have hc := hlang rfl
        refine ⟨?_, rfl⟩
        unfold find_token
        rw [hc]
        rfl
      all_goals exact ⟨rfl, rfl⟩
    obtain ⟨hf, hdrop⟩ := hfind
    unfold lex_one_token
    rw [lex_retry_tab2 env fuel _ _ e hexp hnone hf]
    by_cases ha : e.token = ARROW
    · cases hp : env.in_parse_field <;>
        simp [lex_operator, after_operator, hdrop, ha, hp]
    · simp [lex_operator, after_operator, hdrop, ha]

/-- C20: in C the input `.*x` starts with the operator `.*` of `tokentab2` and
with no operator of 3 characters, yet `lex_one_token` returns the token `.` and
advances by 1 only. -/
theorem lex_dot_star_counterexample :
    ⟨".*".toList, DOT_STAR, exp_opcode.BINOP_END, true⟩ ∈ tokentab2 ∧
    lex_one_token env_c 1 (initial_state ".*x".toList) =
      Except.ok ('.'.toNat, { lexptr := "*x".toList, prev_lexptr := some ".*x".toList }) := by
  decide

/-- C20 at the input `>>=1` in C: one `ASSIGN_MODIFY` token with opcode
`BINOP_RSH`, and `lexptr` left at `1`. -/
theorem lex_one_token_operator_witness :
    ((initial_state ">>=1".toList).macro_original_text.isSome = true ∨
      env_c.macro_expand_next (initial_state ">>=1".toList).lexptr = none) ∧
    (false = true → env_c.cplus = true) ∧
    lex_one_token env_c 1 (initial_state ">>=1".toList) =
      Except.ok (ASSIGN_MODIFY,
        after_operator env_c (initial_state ">>=1".toList)
          ⟨">>=".toList, ASSIGN_MODIFY, exp_opcode.BINOP_RSH, false⟩ "1".toList) ∧
    (after_operator env_c (initial_state ">>=1".toList)
        ⟨">>=".toList, ASSIGN_MODIFY, exp_opcode.BINOP_RSH, false⟩ "1".toList).yylval.opcode
      = exp_opcode.BINOP_RSH :=
  ⟨Or.inr rfl, by decide,
   (lex_one_token_operator env_c (initial_state ">>=1".toList) 0
      ⟨">>=".toList, ASSIGN_MODIFY, exp_opcode.BINOP_RSH, false⟩ "1".toList
      (Or.inr rfl) (by decide) rfl).1 (by decide),
   rfl⟩

/-! ## Character literals in the inner lexer -/

/-- The pointer `c_parse_escape` leaves is further on in the same text. -/
theorem c_parse_escape_suffix (tokptr : List Char) (output : Option (List Char))
    (out : EscapeOut) (rest2 : List Char)
    (h : c_parse_escape tokptr output = Except.ok out) (hp : out.tokptr = Cursor.ptr rest2) :
    ∃ pre : List Char, tokptr = pre ++ rest2 := by
  unfold c_parse_escape at h
  cases tokptr with
  | nil =>
    simp only at h
    injection h with h
    rw [← h] at hp
    exact Cursor.noConfusion hp
  | cons c rest =>
    simp only at h
    by_cases h1 : c = NUL
    · rw [if_pos h1] at h
      injection h with h
      rw [← h] at hp
      exact Cursor.noConfusion hp
    rw [if_neg h1] at h
    by_cases h2 : c = 'x'
    · rw [if_pos h2] at h
      split at h
      · exact Except.noConfusion h
      · injection h with h
        rw [← h] at hp
        injection hp with hp
        refine ⟨c :: rest.takeWhile isxdigit, ?_⟩
        rw [← hp, List.cons_append, List.takeWhile_append_dropWhile]
    rw [if_neg h2] at h
    by_cases h3 : is_octal c = true
    · rw [if_pos h3] at h
      injection h with h
      rw [← h] at hp
      injection hp with hp
      refine ⟨(c :: rest).take (((c :: rest).take 3).takeWhile is_octal).length, ?_⟩
      rw [← hp, List.take_append_drop]
    rw [if_neg h3] at h
    by_cases h4 : c = 'u' ∨ c = 'U'
    · rw [if_pos h4] at h
      split at h
      · exact Except.noConfusion h
      · injection h with h
        rw [← h] at hp
        injection hp with hp
        refine ⟨c :: rest.take
          ((rest.take (if c = 'U' then 8 else 4)).takeWhile isxdigit).length, ?_⟩
        rw [← hp, List.cons_append, List.take_append_drop]
    rw [if_neg h4] at h
    have hsimple : ∀ o : EscapeOut, o.tokptr = Cursor.ptr rest → out = o →
        ∃ pre : List Char, c :: rest = pre ++ rest2 := by
      intro o ho he
      rw [he, ho] at hp
      injection hp with hp
      exact ⟨[c], by rw [← hp]; rfl⟩
    by_cases h5 : c = BACKSLASH
    · rw [if_pos h5] at h
      injection h with h
      exact hsimple _ rfl h.symm
    rw [if_neg h5] at h
    by_cases h6 : c = 'a'
    · rw [if_pos h6] at h
      injection h with h
      exact hsimple _ rfl h.symm
    rw [if_neg h6] at h
    by_cases h7 : c = 'b'
    · rw [if_pos h7] at h
      injection h with h
      exact hsimple _ rfl h.symm
    rw [if_neg h7] at h
    by_cases h8 : c = 'f'
    · rw [if_pos h8] at h
      injection h with h
      exact hsimple _ rfl h.symm
    rw [if_neg h8] at h
    by_cases h9 : c = 'n'
    · rw [if_pos h9] at h
      injection h with h
      exact hsimple _ rfl h.symm
    rw [if_neg h9] at h
    by_cases h10 : c = 'r'
    · rw [if_pos h10] at h
      injection h with h
      exact hsimple _ rfl h.symm
    rw [if_neg h10] at h
    by_cases h11 : c = 't'
    · rw [if_pos h11] at h
      injection h with h
      exact hsimple _ rfl h.symm
    rw [if_neg h11] at h
    by_cases h12 : c = 'v'
    · rw [if_pos h12] at h
      injection h with h
      exact hsimple _ rfl h.symm
    rw [if_neg h12] at h
    by_cases h13 : c = 'e'
    · rw [if_pos h13] at h
      injection h with h
      exact hsimple _ rfl h.symm
    rw [if_neg h13] at h
    by_cases h14 : c = NEWLINE
    · rw [if_pos h14] at h
      injection h with h
      exact hsimple _ rfl h.symm
    rw [if_neg h14] at h
    injection h with h
    exact hsimple _ rfl h.symm

/-- The text where the loop of `parse_string_or_char` stops is further on in the
text it started at. -/
theorem string_loop_suffix (quote : Char) (fuel : Nat) (text tempbuf : List Char)
    (host_chars : Nat) (r : List Char × List Char × Nat)
    (h : string_loop quote fuel text tempbuf host_chars = Except.ok r) :
    ∃ pre : List Char, text = pre ++ r.1 := by
  induction fuel generalizing text tempbuf host_chars with
  | zero => exact Except.noConfusion h
  | succ fuel ih =>
    cases text with
    | nil =>
      have hnil : string_loop quote (fuel + 1) [] tempbuf host_chars =
          Except.ok ([], tempbuf, host_chars) := rfl
      rw [hnil] at h
      injection h with h
      exact ⟨[], by rw [← h]; rfl⟩
    | cons c rest =>
      rw [string_loop_cons] at h
      by_cases h0 : c = NUL
      · rw [if_pos h0] at h
        injection h with h
        exact ⟨[], by rw [← h]; rfl⟩
      rw [if_neg h0] at h
      by_cases hb : c = BACKSLASH
      · rw [if_pos hb] at h
        cases hesc : c_parse_escape rest (some tempbuf) with
        | error e =>
          rw [hesc] at h
          exact Except.noConfusion h
        | ok out =>
          rw [hesc] at h
          simp only at h
          cases hptr : out.tokptr with
          | past_nul =>
            rw [hptr] at h
            exact Except.noConfusion h
          | ptr rest2 =>
            rw [hptr] at h
            simp only at h
            obtain ⟨pre1, hpre1⟩ := c_parse_escape_suffix rest (some tempbuf) out rest2 hesc hptr
            obtain ⟨pre2, hpre2⟩ := ih _ _ _ h
            exact ⟨c :: pre1 ++ pre2, by rw [hpre1, hpre2]; simp⟩
      rw [if_neg hb] at h
      by_cases hq : c = quote
      · rw [if_pos hq] at h
        injection h with h
        exact ⟨[], by rw [← h]; rfl⟩
      rw [if_neg hq] at h
      obtain ⟨pre, hpre⟩ := ih _ _ _ h
      exact ⟨c :: pre, by rw [hpre]; rfl⟩

/-- A character literal that `parse_string_or_char` accepts lies between two
single quotes: the output pointer is just beyond the closing one. -/
theorem parse_char_literal_body (rest : List Char) (r : StringOut)
    (h : parse_string_or_char (SQUOTE :: rest) = Except.ok r) :
    r.token = StrToken.CHAR ∧ ∃ body : List Char, rest = body ++ SQUOTE :: r.outptr := by
  have hL : SQUOTE ≠ 'L' := by decide
  have hu : SQUOTE ≠ 'u' := by decide
  have hU : SQUOTE ≠ 'U' := by decide
  have h0 : SQUOTE ≠ NUL := by decide
  have hd : SQUOTE ≠ DQUOTE := by decide
  have hpre : record_string_type (SQUOTE :: rest) = (C_STRING, SQUOTE :: rest) := by
    simp only [record_string_type, hL, hu, hU, if_false]
  unfold parse_string_or_char at h
  simp only [hpre, h0, if_false] at h
  cases hloop : string_loop SQUOTE (rest.length + 1) rest [] 0 with
  | error e =>
    rw [hloop] at h
    exact Except.noConfusion h
  | ok res =>
    rw [hloop] at h
    simp only at h
    obtain ⟨pre, hpre⟩ := string_loop_suffix _ _ _ _ _ _ hloop
    unfold close_string at h
    by_cases hq : deref res.1 ≠ SQUOTE
    · rw [if_pos hq, if_neg hd] at h
      exact Except.noConfusion h
    · rw [if_neg hq, if_neg hd] at h
      injection h with h
      have hq2 : deref res.1 = SQUOTE := not_not.mp hq
      subst h
      refine ⟨rfl, pre, ?_⟩
      simp only
      cases hres : res.1 with
      | nil =>
        rw [hres] at hq2
        exact absurd hq2 (by decide)
      | cons d tl =>
        rw [hres] at hq2 hpre
        simp only [deref] at hq2
        rw [hpre, hq2]
        rfl

theorem strncmp_eq_head_ne (s t : List Char) (n : Nat) (h : deref s ≠ deref t) :
    strncmp_eq s t (n + 1) = false := by
  simp [strncmp_eq, h]

/-- No operator of the tables is found at a text whose first character starts
none of them. -/
theorem no_operator_at (c : Char) (rest : List Char) (cplus : Bool)
    (h3 : ∀ e ∈ tokentab3, deref e.operator ≠ c) (h2 : ∀ e ∈ tokentab2, deref e.operator ≠ c) :
    find_token tokentab3 (fun t => strncmp_eq (c :: rest) t.operator 3) cplus = none ∧
    find_token tokentab2 (fun t => strncmp_eq (c :: rest) t.operator 2) cplus = none := by
  constructor
  · apply find_token_none
    intro e he hhit
    have hne : deref (c :: rest) ≠ deref e.operator := fun hc => h3 e he hc.symm
    rw [strncmp_eq_head_ne _ _ 2 hne] at hhit
    exact Bool.noConfusion hhit
  · apply find_token_none
    intro e he hhit
    have hne : deref (c :: rest) ≠ deref e.operator := fun hc => h2 e he hc.symm
    rw [strncmp_eq_head_ne _ _ 1 hne] at hhit
    exact Bool.noConfusion hhit

theorem lex_switch_squote (env : Env) (retry : State → Except Failure (Nat × State))
    (saw : Bool) (st : State) (rest : List Char) (hq : st.lexptr = SQUOTE :: rest) :
    lex_switch env retry saw st = lex_string env st st.lexptr SQUOTE := by
  cases st
  simp only at hq
  subst hq
  rfl

/-- C12 (amended): let the text at `lexptr` start with a single quote, outside a
macro expansion or with no macro found there, and let `parse_string_or_char`
accept it with `host_chars` decoded characters.  Then the text is the quote, a
run `body`, the closing quote and the text `r.outptr`, and `lex_one_token`
fails with "Empty character constant." for 0 characters, returns `CHAR` with the
bytes of the literal for 1, fails with "Invalid character constant." for 2, and
for more than 2 hands `body` to the code at `tryname`: the token is `NAME` with
the text `body` when `body` is no keyword of `ident_tokens` allowed in the
language and does not begin with `$` (a keyword gives its own token, a `$` the
token `VARIABLE`). -/
theorem lex_one_token_char_literal (env : Env) (st : State) (fuel : Nat) (rest : List Char)
    (r : StringOut)
    (hquiet : st.macro_original_text.isSome = true ∨ env.macro_expand_next st.lexptr = none)
    (hq : st.lexptr = SQUOTE :: rest)
    (hr : parse_string_or_char st.lexptr = Except.ok r) :
    ∃ body : List Char, rest = body ++ SQUOTE :: r.outptr ∧
      (r.host_chars = 0 →
        lex_one_token env (fuel + 1) st = Except.error (Failure.error msg_empty_char)) ∧
      (r.host_chars = 1 →
        lex_one_token env (fuel + 1) st = Except.ok (CHAR, after_char st r)) ∧
      (r.host_chars = 2 →
        lex_one_token env (fuel + 1) st =
          Except.error (Failure.error msg_invalid_char_constant)) ∧
      (2 < r.host_chars →
        lex_one_token env (fuel + 1) st =
          Except.ok (lex_tryname env (after_char st r) (body ++ SQUOTE :: r.outptr) body.length) ∧
        (find_token ident_tokens (fun e => strcmp_eq body e.operator) env.cplus = none →
          body.head? ≠ some '$' →
          lex_one_token env (fuel + 1) st =
            Except.ok (NAME,
              { after_char st r with
                yylval := { st.yylval with tsval := r.value, stoken := body },
                saw_name_at_eof :=
                  if env.in_parse_field && deref r.outptr = NUL then true
                  else st.saw_name_at_eof }))) := by
  have hexp : expand_macro env { st with last_was_structop := false } =
      { st with last_was_structop := false } := expand_macro_none env _ hquiet
  have hno := no_operator_at SQUOTE rest env.cplus (by decide) (by decide)
  rw [← hq] at hno
  have hbody := parse_char_literal_body rest r (by rw [← hq]; exact hr)
  obtain ⟨htok, body, hbody⟩ := hbody
  have hlex : lex_one_token env (fuel + 1) st =
      lex_string env { st with last_was_structop := false, prev_lexptr := some st.lexptr }
        st.lexptr SQUOTE := by
    unfold lex_one_token
    rw [lex_retry_switch env fuel _ _ hexp hno.1 hno.2]
    exact lex_switch_squote env _ _ _ rest hq
  have hstr : lex_string env { st with last_was_structop := false, prev_lexptr := some st.lexptr }
        st.lexptr SQUOTE =
      (if r.host_chars = 0 then Except.error (Failure.error msg_empty_char)
       else if r.host_chars > 2 ∧ SQUOTE = SQUOTE then
         Except.ok (lex_tryname env (after_char st r) (st.lexptr.drop 1)
                      (st.lexptr.length - r.outptr.length - 2))
       else if r.host_chars > 1 then Except.error (Failure.error msg_invalid_char_constant)
       else Except.ok (CHAR, after_char st r)) := by
    unfold lex_string
    rw [hr]
    simp only [htok]
    rfl
  have hdrop : st.lexptr.drop 1 = body ++ SQUOTE :: r.outptr := by
    rw [hq, hbody]; rfl
  have hlen : st.lexptr.length - r.outptr.length - 2 = body.length := by
    rw [hq, hbody]
    simp only [List.length_cons, List.length_append]
    omega
  rw [hdrop, hlen] at hstr
  refine ⟨body, hbody, ?_, ?_, ?_, ?_⟩
  · intro h0
    rw [hlex, hstr, if_pos h0]
  · intro h1
    rw [hlex, hstr, if_neg (by omega), if_neg (by omega), if_neg (by omega)]
  · intro h2
    rw [hlex, hstr, if_neg (by omega), if_neg (by omega), if_pos (by omega)]
  · intro h3
    have hmain : lex_one_token env (fuel + 1) st =
        Except.ok (lex_tryname env (after_char st r) (body ++ SQUOTE :: r.outptr)
          body.length) := by
      rw [hlex, hstr, if_neg (by omega), if_pos ⟨by omega, rfl⟩]
    refine ⟨hmain, ?_⟩
    intro hkw hdollar
    rw [hmain]
    have hd : deref (body ++ SQUOTE :: r.outptr) ≠ '$' := by
      cases body with
      | nil =>
        intro hb
        have hb2 : SQUOTE = '$' := hb
        exact absurd hb2 (by decide)
      | cons b tl =>
        intro hb
        apply hdollar
        simp only [List.cons_append, deref] at hb
        simp [hb]
    unfold lex_tryname
    simp only [List.take_left', hkw, hd, if_false, after_char]
    split_ifs <;> rfl

/-- C12: the quoted text `'int'` has 3 decoded characters, yet `lex_one_token`
returns no name token but the keyword token `INT_KEYWORD`; `'$ab'` gives
`VARIABLE`. -/
theorem lex_char_literal_keyword_counterexample :
    (parse_string_or_char "'int'".toList).map (fun r => r.host_chars) = Except.ok 3 ∧
    (lex_one_token env_c 1 (initial_state "'int'".toList)).map
      (fun p => (p.1, p.2.lexptr, p.2.yylval.stoken)) =
      Except.ok (INT_KEYWORD, [], "int".toList) ∧
    (lex_one_token env_c 1 (initial_state "'$ab'".toList)).map
      (fun p => (p.1, p.2.lexptr, p.2.yylval.stoken)) =
      Except.ok (VARIABLE, [], "$ab".toList) := by
  decide

/-- C12 at the literal `'A'`: one decoded character, the token `CHAR` and the
one byte 0x41; and at `'abc'`: the token `NAME` with the text `abc`. -/
theorem lex_one_token_char_literal_witness :
    parse_string_or_char (initial_state "'A'".toList).lexptr =
      Except.ok { token := StrToken.CHAR, value := { type := C_CHAR, bytes := ['A'] },
                  outptr := [], host_chars := 1 } ∧
    lex_one_token env_c 1 (initial_state "'A'".toList) =
      Except.ok (CHAR, after_char (initial_state "'A'".toList)
        { token := StrToken.CHAR, value := { type := C_CHAR, bytes := ['A'] },
          outptr := [], host_chars := 1 }) ∧
    'A'.toNat = 0x41 ∧
    (lex_one_token env_c 1 (initial_state "'abc'".toList)).map
      (fun p => (p.1, p.2.lexptr, p.2.yylval.stoken)) = Except.ok (NAME, [], "abc".toList) :=
  ⟨by decide,
   Exists.elim
     (lex_one_token_char_literal env_c (initial_state "'A'".toList) 0 "A'".toList
       { token := StrToken.CHAR, value := { type := C_CHAR, bytes := ['A'] },
         outptr := [], host_chars := 1 }
       (Or.inr rfl) rfl (by decide))
     (fun _ h => h.2.2.1 rfl),
   by decide, by decide⟩

/-! ## The classification of names -/

/-- C14 (amended): `classify_name` decides in this order.  A symbol of class
block gives `BLOCKNAME` with the symbol.  Else no symbol and a source file of
that name give `FILENAME` with the static block of the file.  Else a typedef
symbol gives `TYPENAME` with its type, and a name of a primitive type of the
language gives `TYPENAME` with that type.  Else no symbol and a first character
that is a letter among the digits of the input radix hand the text to
`parse_number`: `INT` gives `NAME_OR_INT`, and an error raised there ("Numeric
constant too large.") ends the classification with that error.  Else the token
is `NAME` with the symbol (null or not) and the field-of-this flag, except that
in C++ with no symbol, no field of this and no minimal symbol it is
`UNKNOWN_CPP_NAME`.  The flag is taken from `lookup_symbol` only in C++. -/
theorem classify_name_order (env : Env) (block : Option Block) (st : State) :
    let copy := st.yylval.stoken
    let found := env.lookup_symbol copy block
    let field := env.cplus && found.is_a_field_of_this
    let st1 : State := { st with block_found := found.block_found }
    let as_symbol : State :=
      { st1 with yylval := { st.yylval with slot := slot_of_sym found.sym,
                                            is_a_field_of_this := field } }
    let as_type (t : TypeRef) : State :=
      { st1 with yylval := { st.yylval with slot := tsym_ssym.type t } }
    (∀ s, found.sym = some s → s.aclass = address_class.LOC_BLOCK →
      classify_name env block st = Except.ok (BLOCKNAME, as_symbol)) ∧
    (∀ b, found.sym = none → env.lookup_symtab copy = some b →
      classify_name env block st =
        Except.ok (FILENAME, { st1 with yylval := { st.yylval with bval := some b } })) ∧
    (∀ s, found.sym = some s → s.aclass = address_class.LOC_TYPEDEF →
      classify_name env block st = Except.ok (TYPENAME, as_type s.type)) ∧
    (∀ t, (∀ s, found.sym = some s → s.aclass = address_class.LOC_OTHER) →
      (found.sym = none → env.lookup_symtab copy = none) →
      env.language_lookup_primitive_type_by_name copy = some t →
      classify_name env block st = Except.ok (TYPENAME, as_type t)) ∧
    (found.sym = none → env.lookup_symtab copy = none →
      env.language_lookup_primitive_type_by_name copy = none →
      radix_letter_first env.cfg.input_radix copy = true →
      (∀ v t, parse_number env.cfg copy copy.length false = Except.ok (NumToken.INT v t) →
        classify_name env block st = Except.ok (NAME_OR_INT, as_symbol)) ∧
      (∀ e, parse_number env.cfg copy copy.length false = Except.error e →
        classify_name env block st = Except.error e)) ∧
    ((∀ s, found.sym = some s → s.aclass = address_class.LOC_OTHER) →
      (found.sym = none → env.lookup_symtab copy = none) →
      env.language_lookup_primitive_type_by_name copy = none →
      (found.sym = none → radix_letter_first env.cfg.input_radix copy = true →
        ∃ tok, parse_number env.cfg copy copy.length false = Except.ok tok ∧
          ∀ v t, tok ≠ NumToken.INT v t) →
      classify_name env block st =
        Except.ok (if found.sym = none ∧ env.cplus = true ∧ field = false
                      ∧ env.lookup_minimal_symbol copy = none
                   then UNKNOWN_CPP_NAME else NAME, as_symbol)) := by
  intro copy found field st1 as_symbol as_type
  refine ⟨?_, ?_, ?_, ?_, ?_, ?_⟩
  · intro s hs hb
    unfold classify_name
    simp only [show env.lookup_symbol st.yylval.stoken block = found from rfl, hs, hb]
    simp [as_symbol, st1, field, hs]
  · intro b hs hb
    unfold classify_name
    simp only [show env.lookup_symbol st.yylval.stoken block = found from rfl, hs]
    simp [hb, st1, show st.yylval.stoken = copy from rfl]
  · intro s hs hb
    unfold classify_name
    simp only [show env.lookup_symbol st.yylval.stoken block = found from rfl, hs, hb]
    simp [as_type, st1, slot_of_type]
  · intro t hother hsymtab hprim
    unfold classify_name
    cases hs : found.sym with
    | none =>
      have hst := hsymtab hs
      simp only [show env.lookup_symbol st.yylval.stoken block = found from rfl, hs]
      simp [as_type, st1, slot_of_type, hprim, show st.yylval.stoken = copy from rfl, hst]
    | some s =>
      have ho := hother s hs
      simp only [show env.lookup_symbol st.yylval.stoken block = found from rfl, hs, ho]
      simp [as_type, st1, slot_of_type, hprim, show st.yylval.stoken = copy from rfl]
  · intro hs hsymtab hprim hletter
    constructor
    · intro v t hnum
      unfold classify_name
      simp only [show env.lookup_symbol st.yylval.stoken block = found from rfl, hs]
      simp [as_symbol, st1, field, hs, hprim, show st.yylval.stoken = copy from rfl, hsymtab,
        hletter, hnum]
    · intro e hnum
      unfold classify_name
      simp only [show env.lookup_symbol st.yylval.stoken block = found from rfl, hs]
      simp [hprim, show st.yylval.stoken = copy from rfl, hsymtab, hletter, hnum]
  · intro hother hsymtab hprim hnum
    unfold classify_name
    cases hs : found.sym with
    | none =>
      have hst := hsymtab hs
      simp only [show env.lookup_symbol st.yylval.stoken block = found from rfl, hs]
      by_cases hletter : radix_letter_first env.cfg.input_radix copy = true
      · obtain ⟨tok, htok, hne⟩ := hnum hs hletter
        cases tok with
        | INT v t => exact absurd rfl (hne v t)
        | FLOAT =>
          simp [as_symbol, st1, field, hs, hprim, show st.yylval.stoken = copy from rfl, hst,
            hletter, htok]
          split_ifs <;> simp_all
        | DECFLOAT t =>
          simp [as_symbol, st1, field, hs, hprim, show st.yylval.stoken = copy from rfl, hst,
            hletter, htok]
          split_ifs <;> simp_all
        | ERROR =>
          simp [as_symbol, st1, field, hs, hprim, show st.yylval.stoken = copy from rfl, hst,
            hletter, htok]
          split_ifs <;> simp_all
      · simp [as_symbol, st1, field, hs, hprim, show st.yylval.stoken = copy from rfl, hst,
          hletter]
        split_ifs <;> simp_all
    | some s =>
      have ho := hother s hs
      simp only [show env.lookup_symbol st.yylval.stoken block = found from rfl, hs, ho]
      simp [as_symbol, st1, field, hs, hprim, show st.yylval.stoken = copy from rfl]

/-- C14: under the input radix 16 the name of 17 letters `f`, which is no
symbol, no file and no type, gets no token at all: `classify_name` fails with
"Numeric constant too large.". -/
theorem classify_name_too_large_counterexample :
    classify_name { cfg := cfg32 16 } none
        { lexptr := [], yylval := { stoken := "fffffffffffffffff".toList } } =
      Except.error (Failure.error msg_too_large) := by
  decide

/-- C14 at the name `ff` under the input radix 16, with no symbol, no file and
no type of that name: the token is `NAME_OR_INT`; the name `fg` is a `NAME`. -/
theorem classify_name_order_witness :
    (classify_name { cfg := cfg32 16 } none
        { lexptr := [], yylval := { stoken := "ff".toList } }).map (fun p => p.1) =
      Except.ok NAME_OR_INT ∧
    (classify_name { cfg := cfg32 16 } none
        { lexptr := [], yylval := { stoken := "fg".toList } }).map (fun p => p.1) =
      Except.ok NAME :=
  ⟨by
     rw [((classify_name_order { cfg := cfg32 16 } none
            { lexptr := [], yylval := { stoken := "ff".toList } }).2.2.2.2.1
          rfl rfl rfl (by decide)).1 255 CType.builtin_int (by decide)]
     rfl,
   by decide⟩

/-! ## Qualified names in the outer lexer -/

/-- C13: in a C++ scope where `Foo` is a structure type with the nested type
`Bar`, and `Bar` has no nested type `Baz`, four calls of `yylex` on
`Foo::Bar::Baz` return the token `TYPENAME` with the text `Foo::Bar` and the type
of `Bar`, then the token `::`, then the token `NAME` with the text `Baz`, then
0 for the end of the input.  (The pointer left with the `NAME` token is still
the type of `Bar`: the token was queued before it was classified.) -/
theorem yylex_nested_type :
    yylex_tokens env_nested 20 4 (initial_state "Foo::Bar::Baz".toList) =
      Except.ok [(TYPENAME, "Foo::Bar".toList, tsym_ssym.type (TypeRef.named 2)),
                 (COLONCOLON, [], tsym_ssym.null),
                 (NAME, "Baz".toList, tsym_ssym.type (TypeRef.named 2)),
                 (0, "Baz".toList, tsym_ssym.type (TypeRef.named 2))] := by
  decide

/-! ## Precedence and associativity in the parser -/

set_option maxRecDepth 100000 in
/-- C15: in C and in C++, `1 + 2 * 3` is parsed as `1 + (2 * 3)`: the three
integer constants are written in source order, then `BINOP_MUL`, then
`BINOP_ADD`; and `1 * 2 + 3` as `(1 * 2) + 3`, with `BINOP_MUL` written before
the constant 3. -/
theorem parse_mul_before_add (cplus : Bool) :
    parse_expout { env_c with cplus := cplus } 100 "1 + 2 * 3" =
      Except.ok (int_elts 1 ++ int_elts 2 ++ int_elts 3 ++
        [Elt.opcode exp_opcode.BINOP_MUL, Elt.opcode exp_opcode.BINOP_ADD]) ∧
    parse_expout { env_c with cplus := cplus } 100 "1 * 2 + 3" =
      Except.ok (int_elts 1 ++ int_elts 2 ++ [Elt.opcode exp_opcode.BINOP_MUL] ++ int_elts 3 ++
        [Elt.opcode exp_opcode.BINOP_ADD]) := by
  cases cplus <;> decide

set_option maxRecDepth 100000 in
/-- C16: with `a`, `b` and `c` variables, in C and in C++, `a = b = c` is parsed
as `a = (b = c)`: the three operands are written in source order and only then
the two `BINOP_ASSIGN`, so none is written before the operand `c`. -/
theorem parse_assign_right_assoc (cplus : Bool) :
    parse_expout (env_variables cplus) 100 "a = b = c" =
      Except.ok (variable_elts 'a' ++ variable_elts 'b' ++ variable_elts 'c' ++
        [Elt.opcode exp_opcode.BINOP_ASSIGN, Elt.opcode exp_opcode.BINOP_ASSIGN]) := by
  cases cplus <;> decide

set_option maxRecDepth 100000 in
/-- C17: `a ? b, c : d` is not accepted, in C or in C++: the parse ends with a
syntax error at the comma. -/
theorem parse_ternary_comma_counterexample :
    parse_expout (env_variables false) 100 "a ? b, c : d" =
      Except.error (Failure.error "A syntax error in expression, near `, c : d'.") ∧
    parse_expout (env_variables true) 100 "a ? b, c : d" =
      Except.error (Failure.error "A syntax error in expression, near `, c : d'.") := by
  decide

set_option maxRecDepth 100000 in
/-- C17 (amended): the ternary operator is right-associative, and its middle
clause is an expression without a comma at its top: `a ? b : c ? d : e` is
parsed as `a ? b : (c ? d : e)`, all five operands being written before the two
`TERNOP_COND`; a comma expression in the middle has to stand in parentheses,
`a ? (b, c) : d` being accepted with `BINOP_COMMA` written before
`TERNOP_COND`. -/
theorem parse_ternary_right_assoc (cplus : Bool) :
    parse_expout (env_variables cplus) 100 "a ? b : c ? d : e" =
      Except.ok (variable_elts 'a' ++ variable_elts 'b' ++ variable_elts 'c' ++
        variable_elts 'd' ++ variable_elts 'e' ++
        [Elt.opcode exp_opcode.TERNOP_COND, Elt.opcode exp_opcode.TERNOP_COND]) ∧
    parse_expout (env_variables cplus) 100 "a ? (b, c) : d" =
      Except.ok (variable_elts 'a' ++ variable_elts 'b' ++ variable_elts 'c' ++
        [Elt.opcode exp_opcode.BINOP_COMMA] ++ variable_elts 'd' ++
        [Elt.opcode exp_opcode.TERNOP_COND]) := by
  cases cplus <;> decide

set_option maxRecDepth 100000 in
/-- C18: in C++ `-a.*b` is not parsed as `(-a).*b`: `UNOP_NEG` is written after
`STRUCTOP_MEMBER`, not before it. -/
theorem parse_unary_member_counterexample :
    parse_expout (env_variables true) 100 "-a.*b" =
      Except.ok (variable_elts 'a' ++ variable_elts 'b' ++
        [Elt.opcode exp_opcode.STRUCTOP_MEMBER, Elt.opcode exp_opcode.UNOP_NEG]) := by
  decide

set_option maxRecDepth 100000 in
/-- C18 (amended): in C++ the pointer-to-member operators `.*` and `->*` bind
tighter than the unary prefix operators, which bind tighter than the
multiplicative operators: `-a->*b` is parsed as `-(a->*b)` (`STRUCTOP_MPTR` is
written before `UNOP_NEG`), `a.*b * c` as `(a.*b) * c`, and `-a * b` as
`(-a) * b`. -/
theorem parse_member_binds_tighter :
    parse_expout (env_variables true) 100 "-a->*b" =
      Except.ok (variable_elts 'a' ++ variable_elts 'b' ++
        [Elt.opcode exp_opcode.STRUCTOP_MPTR, Elt.opcode exp_opcode.UNOP_NEG]) ∧
    parse_expout (env_variables true) 100 "a.*b * c" =
      Except.ok (variable_elts 'a' ++ variable_elts 'b' ++ [Elt.opcode exp_opcode.STRUCTOP_MEMBER] ++
        variable_elts 'c' ++ [Elt.opcode exp_opcode.BINOP_MUL]) ∧
    parse_expout (env_variables true) 100 "-a * b" =
      Except.ok (variable_elts 'a' ++ [Elt.opcode exp_opcode.UNOP_NEG] ++ variable_elts 'b' ++
        [Elt.opcode exp_opcode.BINOP_MUL]) := by
  decide

set_option maxRecDepth 100000 in
/-- C19: with `comma_terminates` clear, in C and in C++, `a, b, c` is parsed as
`(a, b), c`: the parser writes `a`, `b`, `BINOP_COMMA`, `c`, `BINOP_COMMA`; and
the comma binds less than the assignment, `a = b, c` being parsed as
`(a = b), c`. -/
theorem parse_comma_left_assoc (cplus : Bool) :
    parse_expout (env_variables cplus) 100 "a, b, c" =
      Except.ok (variable_elts 'a' ++ variable_elts 'b' ++ [Elt.opcode exp_opcode.BINOP_COMMA] ++
        variable_elts 'c' ++ [Elt.opcode exp_opcode.BINOP_COMMA]) ∧
    parse_expout (env_variables cplus) 100 "a = b, c" =
      Except.ok (variable_elts 'a' ++ variable_elts 'b' ++ [Elt.opcode exp_opcode.BINOP_ASSIGN] ++
        variable_elts 'c' ++ [Elt.opcode exp_opcode.BINOP_COMMA]) := by
  cases cplus <;> decide

/-! ## Brackets and commas in the inner lexer -/

theorem lex_switch_open (env : Env) (retry : State → Except Failure (Nat × State))
    (saw : Bool) (st : State) (c : Char) (rest : List Char) (hq : st.lexptr = c :: rest)
    (hc : c = '(' ∨ c = '[') :
    lex_switch env retry saw st =
      Except.ok (c.toNat, { st with paren_depth := st.paren_depth + 1, lexptr := rest }) := by
  cases st
  simp only at hq
  subst hq
  rcases hc with rfl | rfl <;> rfl

theorem lex_switch_close (env : Env) (retry : State → Except Failure (Nat × State))
    (saw : Bool) (st : State) (c : Char) (rest : List Char) (hq : st.lexptr = c :: rest)
    (hc : c = ')' ∨ c = ']') :
    lex_switch env retry saw st =
      if st.paren_depth = 0 then Except.ok (0, st)
      else Except.ok (c.toNat, { st with paren_depth := st.paren_depth - 1, lexptr := rest }) := by
  cases st
  simp only at hq
  subst hq
  rcases hc with rfl | rfl <;> rfl

theorem lex_switch_comma (env : Env) (retry : State → Except Failure (Nat × State))
    (saw : Bool) (st : State) (rest : List Char) (hq : st.lexptr = ',' :: rest) :
    lex_switch env retry saw st =
      if env.comma_terminates && st.paren_depth = 0 && st.macro_original_text.isNone then
        Except.ok (0, st)
      else Except.ok (','.toNat, { st with lexptr := rest }) := by
  cases st
  simp only at hq
  subst hq
  rfl

/-- C25: at `(` or `[` (outside a macro expansion or with no macro found there)
`lex_one_token` adds 1 to `paren_depth`, moves `lexptr` beyond the character
and returns it; at `)` or `]` with `paren_depth` 0 it returns 0 and leaves
`lexptr` and `paren_depth` as they are; at `)` or `]` with another depth it
takes 1 from `paren_depth`, moves `lexptr` beyond the character and returns
it. -/
theorem lex_one_token_paren (env : Env) (st : State) (fuel : Nat) (c : Char)
    (rest : List Char)
    (hquiet : st.macro_original_text.isSome = true ∨ env.macro_expand_next st.lexptr = none)
    (htext : st.lexptr = c :: rest) :
    (c = '(' ∨ c = '[' →
      lex_one_token env (fuel + 1) st =
        Except.ok (c.toNat,
          { after_stop st with paren_depth := st.paren_depth + 1, lexptr := rest })) ∧
    (c = ')' ∨ c = ']' → st.paren_depth = 0 →
      lex_one_token env (fuel + 1) st = Except.ok (0, after_stop st)) ∧
    (c = ')' ∨ c = ']' → st.paren_depth ≠ 0 →
      lex_one_token env (fuel + 1) st =
        Except.ok (c.toNat,
          { after_stop st with paren_depth := st.paren_depth - 1, lexptr := rest })) := by
  have hexp : expand_macro env { st with last_was_structop := false } =
      { st with last_was_structop := false } := expand_macro_none env _ hquiet
  have hsw : c = '(' ∨ c = '[' ∨ c = ')' ∨ c = ']' →
      lex_one_token env (fuel + 1) st =
        lex_switch env (fun s => lex_retry env fuel st.last_was_structop s)
          st.last_was_structop (after_stop st) := by
    intro hc
    have hno := no_operator_at c rest env.cplus
      (by rcases hc with rfl | rfl | rfl | rfl <;> decide)
      (by rcases hc with rfl | rfl | rfl | rfl <;> decide)
    rw [← htext] at hno
    unfold lex_one_token
    rw [lex_retry_switch env fuel _ _ hexp hno.1 hno.2]
    rfl
  refine ⟨fun hc => ?_, fun hc hd => ?_, fun hc hd => ?_⟩
  · rw [hsw (by tauto), lex_switch_open env _ _ (after_stop st) c rest htext hc]
    rfl
  · rw [hsw (by tauto), lex_switch_close env _ _ (after_stop st) c rest htext hc]
    exact if_pos hd
  · rw [hsw (by tauto), lex_switch_close env _ _ (after_stop st) c rest htext hc]
    exact if_neg hd

/-- C25 at the text `)x` in C with depth 0: the lexer returns 0 and leaves
`lexptr` and `paren_depth` as they are. -/
theorem lex_one_token_paren_witness :
    ((initial_state ")x".toList).macro_original_text.isSome = true ∨
      env_c.macro_expand_next (initial_state ")x".toList).lexptr = none) ∧
    lex_one_token env_c 1 (initial_state ")x".toList) =
      Except.ok (0, after_stop (initial_state ")x".toList)) :=
  ⟨Or.inr rfl,
   (lex_one_token_paren env_c (initial_state ")x".toList) 0 ')' "x".toList (Or.inr rfl)
      rfl).2.1 (Or.inl rfl) rfl⟩

set_option maxRecDepth 100000 in
/-- C24: at a `,` (outside a macro expansion or with no macro found there)
`lex_one_token` returns 0 and leaves `lexptr` at the comma exactly when
`comma_terminates` is set, `paren_depth` is 0 and no macro expansion is being
scanned; otherwise it moves `lexptr` beyond the comma and returns `,`.  With
`comma_terminates` set, the parse of `cond, thread 2` ends at the comma with the
expression of `cond`. -/
theorem lex_one_token_comma (env : Env) (st : State) (fuel : Nat) (rest : List Char)
    (hquiet : st.macro_original_text.isSome = true ∨ env.macro_expand_next st.lexptr = none)
    (htext : st.lexptr = ',' :: rest) :
    lex_one_token env (fuel + 1) st =
      (if env.comma_terminates = true ∧ st.paren_depth = 0 ∧ st.macro_original_text = none then
        Except.ok (0, after_stop st)
      else Except.ok (','.toNat, { after_stop st with lexptr := rest })) ∧
    ∀ cplus : Bool, parse_prefix (env_words cplus true) 100 "cond, thread 2" =
      Except.ok (0, word_elts "cond", ", thread 2".toList) := by
  have hexp : expand_macro env { st with last_was_structop := false } =
      { st with last_was_structop := false } := expand_macro_none env _ hquiet
  constructor
  · have hno := no_operator_at ',' rest env.cplus (by decide) (by decide)
    rw [← htext] at hno
    unfold lex_one_token
    rw [lex_retry_switch env fuel _ _ hexp hno.1 hno.2]
    have hsw := lex_switch_comma env (fun s => lex_retry env fuel st.last_was_structop s)
      st.last_was_structop (after_stop st) rest htext
    have hst : ({ st with last_was_structop := false, prev_lexptr := some st.lexptr } : State)
        = after_stop st := rfl
    simp only [hst]
    rw [hsw]
    cases hm : st.macro_original_text <;> cases hc : env.comma_terminates <;>
      by_cases hd : st.paren_depth = 0 <;> simp [after_stop, hm, hc, hd]
  · intro cplus
    cases cplus <;> decide

/-- C24 at the text `, x` in C with `comma_terminates` set and depth 0: the
lexer returns 0 and `lexptr` stays at the comma. -/
theorem lex_one_token_comma_witness :
    ((initial_state ", x".toList).macro_original_text.isSome = true ∨
      (env_words false true).macro_expand_next (initial_state ", x".toList).lexptr = none) ∧
    lex_one_token (env_words false true) 1 (initial_state ", x".toList) =
      Except.ok (0, after_stop (initial_state ", x".toList)) :=
  ⟨Or.inr rfl,
   (lex_one_token_comma (env_words false true) (initial_state ", x".toList) 0 " x".toList
      (Or.inr rfl) rfl).1⟩

/-! ## Names in the inner lexer -/

theorem name_char_not_lt (c : Char) (h : is_name_char c = true) : c ≠ '<' := by
  intro hc
  rw [hc] at h
  exact absurd h (by decide)

theorem name_scan_run (env : Env) (tokstart run rest : List Char)
    (hrun : ∀ c ∈ run, is_name_char c = true) (hend : ends_name rest = true) :
    ∀ k : Nat, name_scan env tokstart (run ++ rest) k = k + run.length := by
  induction run with
  | nil =>
    intro k
    cases rest with
    | nil => rfl
    | cons c r =>
      simp only [ends_name, deref, Bool.and_eq_true, Bool.not_eq_true', decide_eq_true_eq] at hend
      have h1 : c ≠ '<' := hend.2
      have h2 : (c = '_' || c = '$' || is_digit_char c || is_letter_char c) = false := hend.1
      simp only [List.nil_append, name_scan, h1, if_false, h2, List.length_nil, Nat.add_zero]
      rfl
  | cons c run ih =>
    intro k
    have hc : is_name_char c = true := hrun c (List.mem_cons_self _ _)
    have h1 : c ≠ '<' := name_char_not_lt c hc
    have h2 : (c = '_' || c = '$' || is_digit_char c || is_letter_char c) = true := hc
    have ih2 := ih (fun d hd => hrun d (List.mem_cons_of_mem _ hd)) (k + 1)
    have hstep : name_scan env tokstart (c :: (run ++ rest)) k =
        name_scan env tokstart (run ++ rest) (k + 1) := by
      simp only [name_scan, h1, if_false, h2, if_true]
    rw [List.cons_append, hstep, ih2, List.length_cons]
    omega

theorem name_start_ne (c d : Char) (hc : is_name_start c = true)
    (hd : is_name_start d = false) : c ≠ d := by
  intro h
  rw [h, hd] at hc
  exact Bool.noConfusion hc

theorem name_start_not_digit (c : Char) (hc : is_name_start c = true) :
    is_digit_char c = false := by
  by_cases h1 : c = '_'
  · rw [h1]; decide
  by_cases h2 : c = '$'
  · rw [h2]; decide
  simp only [is_name_start, h1, h2, decide_False, Bool.false_or, is_letter_char,
    decide_eq_true_eq] at hc
  simp only [is_digit_char, decide_eq_false_iff_not]
  have e0 : '0'.toNat = 48 := rfl
  have e9 : '9'.toNat = 57 := rfl
  have ea : 'a'.toNat = 97 := rfl
  have ez : 'z'.toNat = 122 := rfl
  have eA : 'A'.toNat = 65 := rfl
  have eZ : 'Z'.toNat = 90 := rfl
  rw [ea, ez, eA, eZ] at hc
  rw [e0, e9]
  omega

theorem lex_switch_name (env : Env) (retry : State → Except Failure (Nat × State))
    (saw : Bool) (st : State) (c : Char) (rest : List Char) (hq : st.lexptr = c :: rest)
    (hc : is_name_start c = true)
    (hstr : (c = 'L' ∨ c = 'u' ∨ c = 'U') → deref rest ≠ DQUOTE ∧ deref rest ≠ SQUOTE) :
    lex_switch env retry saw st = lex_name env st st.lexptr c := by
  have hne := fun d hd => name_start_ne c d hc hd
  have hdig := name_start_not_digit c hc
  have hnth : nth (c :: rest) 1 = deref rest := by cases rest <;> rfl
  unfold lex_switch
  simp only [hq, deref, hnth, hdig, hne NUL (by decide), hne ' ' (by decide),
    hne '\t' (by decide), hne '\n' (by decide), hne '[' (by decide), hne '(' (by decide),
    hne ']' (by decide), hne ')' (by decide), hne ',' (by decide), hne '.' (by decide),
    hne '@' (by decide), hne '+' (by decide), hne '-' (by decide), hne '*' (by decide),
    hne '/' (by decide), hne '%' (by decide), hne '|' (by decide), hne '&' (by decide),
    hne '^' (by decide), hne '~' (by decide), hne '!' (by decide), hne '<' (by decide),
    hne '>' (by decide), hne '?' (by decide), hne ':' (by decide), hne '=' (by decide),
    hne '{' (by decide), hne '}' (by decide), hne SQUOTE (by decide), hne DQUOTE (by decide),
    false_or, or_false, false_and, if_false, Bool.false_eq_true]
  by_cases hl : c = 'L' ∨ c = 'u' ∨ c = 'U'
  · rw [if_pos ⟨hl, hstr hl⟩]
  · rw [if_neg (fun h => hl h.1), if_neg hl]

theorem name_start_name_char (c : Char) (hc : is_name_start c = true) :
    is_name_char c = true := by
  simp only [is_name_start, Bool.or_eq_true, decide_eq_true_eq] at hc
  simp only [is_name_char, Bool.or_eq_true, decide_eq_true_eq]
  tauto

theorem no_operator_at_name (c : Char) (rest : List Char) (cplus : Bool)
    (hc : is_name_start c = true) :
    find_token tokentab3 (fun t => strncmp_eq (c :: rest) t.operator 3) cplus = none ∧
    find_token tokentab2 (fun t => strncmp_eq (c :: rest) t.operator 2) cplus = none := by
  have h3 : ∀ e ∈ tokentab3, is_name_start (deref e.operator) = false := by decide
  have h2 : ∀ e ∈ tokentab2, is_name_start (deref e.operator) = false := by decide
  exact no_operator_at c rest cplus
    (fun e he => (name_start_ne c _ hc (h3 e he)).symm)
    (fun e he => (name_start_ne c _ hc (h2 e he)).symm)

/-- At a name of the characters `c :: run` that ends before `rest`, outside a
macro expansion or with no macro found there, `lex_one_token` ends the
expression when `stops_expression` says so and runs the code at `tryname`
otherwise. -/
theorem lex_one_token_name (env : Env) (st : State) (fuel : Nat) (c : Char)
    (run rest : List Char)
    (hquiet : st.macro_original_text.isSome = true ∨ env.macro_expand_next st.lexptr = none)
    (htext : st.lexptr = c :: run ++ rest)
    (hc : is_name_start c = true) (hrun : ∀ d ∈ run, is_name_char d = true)
    (hend : ends_name rest = true)
    (hstr : run = [] → (c = 'L' ∨ c = 'u' ∨ c = 'U') →
      deref rest ≠ DQUOTE ∧ deref rest ≠ SQUOTE) :
    lex_one_token env (fuel + 1) st =
      if stops_expression (after_stop st) st.lexptr (run.length + 1) then
        Except.ok (0, after_stop st)
      else
        Except.ok (lex_tryname env { after_stop st with lexptr := rest } st.lexptr
          (run.length + 1)) := by
  have hexp : expand_macro env { st with last_was_structop := false } =
      { st with last_was_structop := false } := expand_macro_none env _ hquiet
  have hno := no_operator_at_name c (run ++ rest) env.cplus hc
  rw [← List.cons_append, ← htext] at hno
  have hstr2 : (c = 'L' ∨ c = 'u' ∨ c = 'U') →
      deref (run ++ rest) ≠ DQUOTE ∧ deref (run ++ rest) ≠ SQUOTE := by
    intro hl
    cases run with
    | nil => exact hstr rfl hl
    | cons d run =>
      have hd : is_name_char d = true := hrun d (List.mem_cons_self _ _)
      constructor
      · intro h
        have h2 : d = DQUOTE := h
        rw [h2] at hd
        exact absurd hd (by decide)
      · intro h
        have h2 : d = SQUOTE := h
        rw [h2] at hd
        exact absurd hd (by decide)
  have hscan : name_scan env st.lexptr st.lexptr 0 = run.length + 1 := by
    have h := name_scan_run env st.lexptr (c :: run) rest
      (fun d hd => by
        rcases List.mem_cons.1 hd with h | h
        · rw [h]; exact name_start_name_char c hc
        · exact hrun d h) hend 0
    rw [← htext] at h
    rw [h, List.length_cons]
    omega
  have hdrop : st.lexptr.drop (run.length + 1) = rest := by
    rw [htext]
    exact List.drop_left (c :: run) rest
  unfold lex_one_token
  rw [lex_retry_switch env fuel _ _ hexp hno.1 hno.2]
  have hst : ({ st with last_was_structop := false, prev_lexptr := some st.lexptr } : State)
      = after_stop st := rfl
  simp only [hst]
  rw [lex_switch_name env _ _ (after_stop st) c (run ++ rest) htext hc hstr2]
  have hl : (after_stop st).lexptr = st.lexptr := rfl
  unfold lex_name
  simp only [hc, Bool.not_true, Bool.false_eq_true, if_false, hl, hscan, hdrop]

theorem name_char_ne_nul (c : Char) (h : is_name_char c = true) : c ≠ NUL := by
  intro hc
  rw [hc] at h
  exact absurd h (by decide)

/-- The comparison of `strncmp` over the length of a name without NUL holds
exactly when the other text starts with the name. -/
theorem strncmp_eq_isPrefixOf (name rest : List Char) (hname : ∀ c ∈ name, c ≠ NUL) :
    ∀ t : List Char, strncmp_eq (name ++ rest) t name.length = name.isPrefixOf t := by
  induction name with
  | nil => intro t; cases t <;> simp [strncmp_eq]
  | cons c name ih =>
    intro t
    have hc : c ≠ NUL := hname c (List.mem_cons_self _ _)
    have ih2 := ih (fun d hd => hname d (List.mem_cons_of_mem _ hd))
    cases t with
    | nil =>
      have h1 : deref ((c :: name) ++ rest) ≠ deref ([] : List Char) := hc
      simp only [List.length_cons, strncmp_eq, h1, if_true, ne_eq, not_false_eq_true,
        List.isPrefixOf]
    | cons d t =>
      by_cases hcd : c = d
      · subst hcd
        have h1 : ¬ (deref ((c :: name) ++ rest) ≠ deref (c :: t)) := fun h => h rfl
        have h2 : ¬ (deref ((c :: name) ++ rest) = NUL) := hc
        simp only [List.length_cons, strncmp_eq, h1, h2, if_false, List.isPrefixOf,
          beq_self_eq_true, Bool.true_and]
        exact ih2 t
      · have h1 : deref ((c :: name) ++ rest) ≠ deref (d :: t) := hcd
        have h3 : (c == d) = false := by simpa using hcd
        simp only [List.length_cons, strncmp_eq, h1, if_true, ne_eq, not_false_eq_true,
          List.isPrefixOf, h3, Bool.false_and]

theorem nth_append_length (name rest : List Char) :
    nth (name ++ rest) name.length = deref rest := by
  induction name with
  | nil => cases rest <;> rfl
  | cons c name ih => exact ih

/-- The tests of `stops_expression` at a name that ends before `rest`, outside
a macro expansion: the name is `if`, or it begins `thread` or `task` and a digit
follows after blanks. -/
theorem stops_expression_name (st : State) (name rest : List Char)
    (hout : st.macro_original_text = none) (hname : ∀ c ∈ name, is_name_char c = true) :
    stops_expression st (name ++ rest) name.length =
      (decide (name = "if".toList) || (begins_thread name && digit_follows rest)) := by
  have hnul : ∀ c ∈ name, c ≠ NUL := fun c hc => name_char_ne_nul c (hname c hc)
  have hif : (decide (name.length = 2) && decide (nth (name ++ rest) 0 = 'i')
      && decide (nth (name ++ rest) 1 = 'f')) = decide (name = "if".toList) := by
    match name with
    | [] => rfl
    | [a] => simp
    | [a, b] =>
      have h0 : nth ([a, b] ++ rest) 0 = a := rfl
      have h1 : nth ([a, b] ++ rest) 1 = b := rfl
      rw [h0, h1]
      simp
    | a :: b :: c :: l => simp
  have hpre : decide (name.length ≥ 1) = decide (name ≠ []) := by
    cases name <;> simp
  have hdrop : (name ++ rest).drop (name.length + 1) = rest.drop 1 := by
    rw [← List.drop_drop, List.drop_left]
  unfold stops_expression
  rw [hif, hpre, strncmp_eq_isPrefixOf name rest hnul, strncmp_eq_isPrefixOf name rest hnul,
    nth_append_length, hdrop, hout]
  simp only [begins_thread, digit_follows, Option.isNone_none, Bool.and_true,
    Bool.and_assoc]

/-- The code at `tryname` returns a token that is not 0 and leaves `lexptr`
where it was. -/
theorem lex_tryname_token (env : Env) (st : State) (tokstart : List Char) (namelen : Nat) :
    (lex_tryname env st tokstart namelen).1 ≠ 0 ∧
    (lex_tryname env st tokstart namelen).2.lexptr = st.lexptr := by
  have htab : ∀ e ∈ ident_tokens, e.token ≠ 0 := by decide
  unfold lex_tryname
  simp only
  cases hf : find_token ident_tokens
      (fun e => strcmp_eq (List.take namelen tokstart) e.operator) env.cplus with
  | some e =>
    have hmem : e ∈ ident_tokens := by
      unfold find_token at hf
      cases hfind : ident_tokens.find?
          (fun e => strcmp_eq (List.take namelen tokstart) e.operator) with
      | none => rw [hfind] at hf; exact Option.noConfusion hf
      | some e2 =>
        rw [hfind] at hf
        simp only at hf
        by_cases hx : (e2.cxx_only && !env.cplus) = true
        · rw [if_pos hx] at hf; exact Option.noConfusion hf
        · rw [if_neg hx] at hf
          injection hf with hf
          rw [← hf]
          exact List.mem_of_find?_eq_some hfind
    exact ⟨htab e hmem, rfl⟩
  | none =>
    simp only
    by_cases h1 : deref tokstart = '$'
    · rw [if_pos h1]; exact ⟨(by decide : VARIABLE ≠ 0), rfl⟩
    · rw [if_neg h1]
      by_cases h2 : (env.in_parse_field && decide (deref st.lexptr = NUL)) = true
      · rw [if_pos h2]; exact ⟨(by decide : NAME ≠ 0), rfl⟩
      · rw [if_neg h2]; exact ⟨(by decide : NAME ≠ 0), rfl⟩

/-! ## The names that end an expression -/

set_option maxRecDepth 100000 in
/-- C22: outside a macro expansion, with no macro found at the text, a text that
starts with the name `if` (the two letters, with no character of names and no
`<` next) makes `lex_one_token` return 0 with `lexptr` left at the `i`.  The
parse of `x if y` gives the expression of `x` alone and leaves `lexptr` at
`if y`. -/
theorem lex_one_token_if (env : Env) (st : State) (fuel : Nat) (rest : List Char)
    (hout : st.macro_original_text = none)
    (hnone : env.macro_expand_next st.lexptr = none)
    (htext : st.lexptr = 'i' :: 'f' :: rest) (hend : ends_name rest = true) :
    lex_one_token env (fuel + 1) st = Except.ok (0, after_stop st) ∧
    (after_stop st).lexptr = 'i' :: 'f' :: rest ∧
    ∀ cplus : Bool, parse_prefix (env_variables cplus) 100 "x if y" =
      Except.ok (0, variable_elts 'x', "if y".toList) := by
  refine ⟨?_, htext, fun cplus => by cases cplus <;> decide⟩
  have h := lex_one_token_name env st fuel 'i' ['f'] rest (Or.inr hnone) htext (by decide)
    (by decide) hend (fun h => List.noConfusion h)
  have hs := stops_expression_name (after_stop st) ['i', 'f'] rest hout (by decide)
  have hl : (['i', 'f'] ++ rest) = st.lexptr := htext.symm
  rw [hl] at hs
  have hs2 : stops_expression (after_stop st) st.lexptr 2 = true := by
    rw [show (2 : Nat) = ['i', 'f'].length from rfl, hs]
    rfl
  rw [h]
  exact if_pos hs2

/-- C22 at the text `if y` in C: the lexer returns 0 and `lexptr` stays at
`if y`. -/
theorem lex_one_token_if_witness :
    (initial_state "if y".toList).macro_original_text = none ∧
    env_c.macro_expand_next (initial_state "if y".toList).lexptr = none ∧
    ends_name " y".toList = true ∧
    lex_one_token env_c 1 (initial_state "if y".toList) =
      Except.ok (0, after_stop (initial_state "if y".toList)) :=
  ⟨rfl, rfl, by decide,
   (lex_one_token_if env_c (initial_state "if y".toList) 0 " y".toList rfl rfl rfl
      (by decide)).1⟩

/-- C23: the name `if` begins neither `thread` nor `task`, yet at the text
`if 1` the lexer returns 0 and leaves `lexptr` at the name instead of lexing an
ordinary token. -/
theorem lex_if_not_ordinary_counterexample :
    begins_thread "if".toList = false ∧
    lex_one_token env_c 1 (initial_state "if 1".toList) =
      Except.ok (0, after_stop (initial_state "if 1".toList)) := by
  decide

/-- C23 (amended): outside a macro expansion, with no macro found at the text,
take a name `c :: run` other than `if` that ends before `rest` (and is no prefix
of a string or character literal).  Then `lex_one_token` returns 0 with `lexptr`
left at the name exactly when the name begins `thread` or `task` and `rest` is a
space or a tab, then any spaces and tabs, then a decimal digit; in every other
case the name is lexed by the code at `tryname`, which returns a token other
than 0 and leaves `lexptr` at `rest`. -/
theorem lex_one_token_thread (env : Env) (st : State) (fuel : Nat) (c : Char)
    (run rest : List Char)
    (hout : st.macro_original_text = none)
    (hnone : env.macro_expand_next st.lexptr = none)
    (htext : st.lexptr = c :: run ++ rest)
    (hc : is_name_start c = true) (hrun : ∀ d ∈ run, is_name_char d = true)
    (hend : ends_name rest = true)
    (hstr : run = [] → (c = 'L' ∨ c = 'u' ∨ c = 'U') →
      deref rest ≠ DQUOTE ∧ deref rest ≠ SQUOTE)
    (hif : c :: run ≠ "if".toList) :
    lex_one_token env (fuel + 1) st =
      (if begins_thread (c :: run) && digit_follows rest then
        Except.ok (0, after_stop st)
      else
        Except.ok (lex_tryname env { after_stop st with lexptr := rest } st.lexptr
          (run.length + 1))) ∧
    (lex_tryname env { after_stop st with lexptr := rest } st.lexptr (run.length + 1)).1 ≠ 0 ∧
    (lex_tryname env { after_stop st with lexptr := rest } st.lexptr
      (run.length + 1)).2.lexptr = rest := by
  refine ⟨?_, lex_tryname_token env _ _ _⟩
  have h := lex_one_token_name env st fuel c run rest (Or.inr hnone) htext hc hrun hend hstr
  have hs := stops_expression_name (after_stop st) (c :: run) rest hout
    (fun d hd => by
      rcases List.mem_cons.1 hd with h | h
      · rw [h]; exact name_start_name_char c hc
      · exact hrun d h)
  rw [← htext, List.length_cons, decide_eq_false hif, Bool.false_or] at hs
  rw [h, hs]

/-- C23 at the text `thread 3` in C: the lexer returns 0 and `lexptr` stays at
the name. -/
theorem lex_one_token_thread_witness :
    (initial_state "thread 3".toList).macro_original_text = none ∧
    env_c.macro_expand_next (initial_state "thread 3".toList).lexptr = none ∧
    is_name_start 't' = true ∧ (∀ d ∈ "hread".toList, is_name_char d = true) ∧
    ends_name " 3".toList = true ∧ 't' :: "hread".toList ≠ "if".toList ∧
    lex_one_token env_c 1 (initial_state "thread 3".toList) =
      Except.ok (0, after_stop (initial_state "thread 3".toList)) :=
  ⟨rfl, rfl, by decide, by decide, by decide, by decide,
   (lex_one_token_thread env_c (initial_state "thread 3".toList) 0 't' "hread".toList
      " 3".toList rfl rfl rfl (by decide) (by decide) (by decide)
      (fun h => absurd h (by decide)) (by decide)).1⟩

/-! ## Entries of the tables restricted to C++ -/

/-- A name that is not `if` and begins neither `thread` nor `task` does not end
the expression. -/
theorem stops_expression_keyword (st : State) (name rest : List Char)
    (hname : ∀ c ∈ name, is_name_char c = true) (hif : name ≠ "if".toList)
    (hthread : begins_thread name = false) :
    stops_expression st (name ++ rest) name.length = false := by
  cases hm : st.macro_original_text with
  | none =>
    rw [stops_expression_name st name rest hm hname, decide_eq_false hif, hthread]
    rfl
  | some t =>
    unfold stops_expression
    simp only [hm, Option.isNone_some, Bool.and_false, Bool.false_and, Bool.or_self]

/-- The code at `tryname` at a keyword of `ident_tokens`: the keyword's token
when the language allows it, and `NAME` otherwise. -/
theorem lex_tryname_keyword (env : Env) (st : State) (e : token) (rest : List Char)
    (he : e ∈ ident_tokens) :
    lex_tryname env st (e.operator ++ rest) e.operator.length =
      if e.cxx_only && !env.cplus then
        (NAME, { st with yylval := { st.yylval with stoken := e.operator },
                         saw_name_at_eof := st.saw_name_at_eof ||
                           (env.in_parse_field && decide (deref st.lexptr = NUL)) })
      else
        (e.token, { st with yylval := { st.yylval with stoken := e.operator,
                                                       opcode := e.opcode } }) := by
  have hfind : ∀ t ∈ ident_tokens,
      ident_tokens.find? (fun k => strcmp_eq t.operator k.operator) = some t := by decide
  have hdollar : ∀ t ∈ ident_tokens, ∀ r : List Char, deref (t.operator ++ r) ≠ '$' := by
    intro t ht r
    have h : ∀ t ∈ ident_tokens, t.operator ≠ [] ∧ deref t.operator ≠ '$' := by decide
    obtain ⟨h1, h2⟩ := h t ht
    cases hop : t.operator with
    | nil => exact absurd hop h1
    | cons c l => rw [hop] at h2; exact h2
  unfold lex_tryname
  simp only [List.take_left, find_token, hfind e he]
  by_cases hx : (e.cxx_only && !env.cplus) = true
  · simp only [hx, if_true, hdollar e he rest, if_false]
    cases st
    cases hp : (env.in_parse_field && decide (deref _ = NUL)) <;> simp_all
  · simp only [hx, if_false, Bool.false_eq_true]

/-- At a keyword of `ident_tokens` that ends before `rest`, outside a macro
expansion or with no macro found there, `lex_one_token` returns the keyword's
token when the language allows it and `NAME` otherwise. -/
theorem lex_one_token_keyword (env : Env) (st : State) (fuel : Nat) (e : token)
    (rest : List Char)
    (hquiet : st.macro_original_text.isSome = true ∨ env.macro_expand_next st.lexptr = none)
    (he : e ∈ ident_tokens) (htext : st.lexptr = e.operator ++ rest)
    (hend : ends_name rest = true) :
    lex_one_token env (fuel + 1) st =
      Except.ok (if e.cxx_only && !env.cplus then (NAME, after_name env st e.operator rest)
                 else (e.token, after_keyword st e rest)) := by
  have htab : ∀ t ∈ ident_tokens,
      is_name_start (deref t.operator) = true ∧ 2 ≤ t.operator.length ∧
      (∀ d ∈ t.operator, is_name_char d = true) ∧ t.operator ≠ "if".toList ∧
      begins_thread t.operator = false := by decide
  obtain ⟨h1, h2, h3, h4, h5⟩ := htab e he
  cases hop : e.operator with
  | nil => rw [hop] at h2; exact absurd h2 (by decide)
  | cons c run =>
    rw [hop] at h1 h2 h3 htext
    have hrun : ∀ d ∈ run, is_name_char d = true :=
      fun d hd => h3 d (List.mem_cons_of_mem _ hd)
    have hne : run ≠ [] := by
      intro h
      rw [h] at h2
      simp at h2
    have h := lex_one_token_name env st fuel c run rest hquiet htext h1 hrun hend
      (fun h => absurd h hne)
    have hs := stops_expression_keyword (after_stop st) e.operator rest
      (by rw [hop]; exact h3) h4 h5
    have hk := lex_tryname_keyword env { after_stop st with lexptr := rest } e rest he
    rw [hop, ← htext, List.length_cons] at hs hk
    rw [h, hs, hk]
    simp only [Bool.false_eq_true, if_false]
    by_cases hx : (e.cxx_only && !env.cplus) = true
    · rw [if_pos hx, if_pos hx]
      rfl
    · rw [if_neg hx, if_neg hx]
      unfold after_keyword
      rw [hop]
      rfl

/-- An operator of `tokentab3` that the language allows is returned with its
three characters consumed. -/
theorem lex_one_token_tab3 (env : Env) (st : State) (fuel : Nat) (e : token)
    (rest : List Char)
    (hquiet : st.macro_original_text.isSome = true ∨ env.macro_expand_next st.lexptr = none)
    (hlang : e.cxx_only = true → env.cplus = true)
    (htext : st.lexptr = e.operator ++ rest) (he : e ∈ tokentab3) :
    lex_one_token env (fuel + 1) st = Except.ok (e.token, after_operator env st e rest) := by
  have hexp : expand_macro env { st with last_was_structop := false } =
      { st with last_was_structop := false } := expand_macro_none env _ hquiet
  have hfind : find_token tokentab3 (fun t => strncmp_eq st.lexptr t.operator 3) env.cplus
      = some e ∧ st.lexptr.drop 3 = rest ∧ e.token ≠ ARROW := by
    rw [htext]
    simp only [tokentab3, List.mem_cons, List.mem_singleton, List.not_mem_nil, or_false] at he
    rcases he with rfl | rfl | rfl
    · exact ⟨rfl, rfl, by decide⟩
    · exact ⟨rfl, rfl, by decide⟩
    · have hc := hlang rfl
      refine ⟨?_, rfl, by decide⟩
      unfold find_token
      rw [hc]
      rfl
  obtain ⟨hf, hdrop, hne⟩ := hfind
  unfold lex_one_token
  rw [lex_retry_tab3 env fuel _ _ e hexp hf]
  simp only [lex_operator, after_operator, hdrop, hne, decide_False, Bool.and_false]

/-- An operator of `tokentab2` that the language allows, at a text where
`tokentab3` gives nothing, is returned with its two characters consumed. -/
theorem lex_one_token_tab2 (env : Env) (st : State) (fuel : Nat) (e : token)
    (rest : List Char)
    (hquiet : st.macro_original_text.isSome = true ∨ env.macro_expand_next st.lexptr = none)
    (hlang : e.cxx_only = true → env.cplus = true)
    (htext : st.lexptr = e.operator ++ rest) (he : e ∈ tokentab2)
    (hnone : find_token tokentab3 (fun t => strncmp_eq st.lexptr t.operator 3) env.cplus
      = none) :
    lex_one_token env (fuel + 1) st = Except.ok (e.token, after_operator env st e rest) := by
  have hexp : expand_macro env { st with last_was_structop := false } =
      { st with last_was_structop := false } := expand_macro_none env _ hquiet
  have hfind : find_token tokentab2 (fun t => strncmp_eq st.lexptr t.operator 2) env.cplus
      = some e ∧ st.lexptr.drop 2 = rest := by
    rw [htext]
    simp only [tokentab2, List.mem_cons, List.mem_singleton, List.not_mem_nil, or_false] at he
    rcases he with rfl | rfl | rfl | rfl | rfl | rfl | rfl | rfl | rfl | rfl | rfl | rfl | rfl
      | rfl | rfl | rfl | rfl | rfl | rfl | rfl | rfl
    case inr.inr.inr.inr.inr.inr.inr.inr.inr.inr.inr.inr.inr.inr.inr.inr.inr.inr.inr.inr =>
      have hc := hlang rfl
      refine ⟨?_, rfl⟩
      unfold find_token
      rw [hc]
      rfl
    all_goals exact ⟨rfl, rfl⟩
  obtain ⟨hf, hdrop⟩ := hfind
  unfold lex_one_token
  rw [lex_retry_tab2 env fuel _ _ e hexp hnone hf]
  by_cases ha : e.token = ARROW
  · cases hp : env.in_parse_field <;>
      simp [lex_operator, after_operator, hdrop, ha, hp]
  · simp [lex_operator, after_operator, hdrop, ha]

/-- No operator of `tokentab3` that the language allows is found at a text
whose first three characters are none of them. -/
theorem no_tab3_at (text : List Char) (cplus : Bool)
    (h : ∀ e ∈ tokentab3, text.take 3 = e.operator → e.cxx_only = true ∧ cplus = false) :
    find_token tokentab3 (fun t => strncmp_eq text t.operator 3) cplus = none := by
  apply find_token_none
  intro e3 he3 hhit
  apply h e3 he3
  have hlen : e3.operator.length = 3 ∧ ∀ c ∈ e3.operator, c ≠ NUL := by
    simp only [tokentab3, List.mem_cons, List.mem_singleton, List.not_mem_nil, or_false] at he3
    rcases he3 with rfl | rfl | rfl <;> decide
  have := (strncmp_eq_take e3.operator hlen.2 text).1 (by rw [hlen.1]; exact hhit)
  rw [hlen.1] at this
  exact this

theorem lex_switch_dot (env : Env) (retry : State → Except Failure (Nat × State))
    (saw : Bool) (st : State) (c : Char) (rest : List Char)
    (hq : st.lexptr = '.' :: c :: rest) (hc : is_digit_char c = false) :
    lex_switch env retry saw st =
      Except.ok ('.'.toNat,
        { st with lexptr := c :: rest,
                  last_was_structop := env.in_parse_field || st.last_was_structop }) := by
  cases st
  simp only at hq
  subst hq
  have hn : nth ('.' :: c :: rest) 1 = c := rfl
  unfold lex_switch
  simp only [deref, hn, hc]
  cases hp : env.in_parse_field <;> rfl

set_option maxRecDepth 100000 in
/-- C21: outside a macro expansion or with no macro found at the text, an entry
of a table that is restricted to C++ is never returned outside C++, and the
lexer goes on with the code after the table: outside C++ the text `->*` gives
`ARROW` with `lexptr` left at the `*`, the text `.*` gives `.` with `lexptr`
left at the `*`, and a keyword restricted to C++ gives `NAME` with the keyword
as its text.  An entry that is not restricted gives the same token and globals
whatever the language: an operator of `tokentab3`, an operator of `tokentab2`
at a text that starts with no operator of `tokentab3`, and a keyword of
`ident_tokens`.  In C the texts `e->*m` and `e.*m` are lexed as a name, `->`
or `.`, `*` and a name, and `class new true and_eq static_cast` as five
names. -/
theorem lex_one_token_dialect (env : Env) (st : State) (fuel : Nat) (e : token)
    (rest : List Char)
    (hquiet : st.macro_original_text.isSome = true ∨ env.macro_expand_next st.lexptr = none) :
    (env.cplus = false → st.lexptr = "->*".toList ++ rest →
      lex_one_token env (fuel + 1) st =
        Except.ok (ARROW,
          after_operator env st ⟨"->".toList, ARROW, exp_opcode.BINOP_END, false⟩
            ('*' :: rest))) ∧
    (env.cplus = false → st.lexptr = ".*".toList ++ rest →
      lex_one_token env (fuel + 1) st =
        Except.ok ('.'.toNat,
          { after_stop st with lexptr := '*' :: rest,
                               last_was_structop := env.in_parse_field })) ∧
    (env.cplus = false → e ∈ ident_tokens → e.cxx_only = true →
      st.lexptr = e.operator ++ rest → ends_name rest = true →
      lex_one_token env (fuel + 1) st =
        Except.ok (NAME, after_name env st e.operator rest)) ∧
    (e.cxx_only = false → st.lexptr = e.operator ++ rest →
      (e ∈ tokentab3 →
        lex_one_token env (fuel + 1) st =
          Except.ok (e.token, after_operator env st e rest)) ∧
      (e ∈ tokentab2 → (∀ e3 ∈ tokentab3, st.lexptr.take 3 ≠ e3.operator) →
        lex_one_token env (fuel + 1) st =
          Except.ok (e.token, after_operator env st e rest)) ∧
      (e ∈ ident_tokens → ends_name rest = true →
        lex_one_token env (fuel + 1) st = Except.ok (e.token, after_keyword st e rest))) ∧
    lex_tokens env_c 1 4 (initial_state "e->*m".toList) =
      Except.ok [NAME, ARROW, '*'.toNat, NAME] ∧
    lex_tokens env_c 1 4 (initial_state "e.*m".toList) =
      Except.ok [NAME, '.'.toNat, '*'.toNat, NAME] ∧
    lex_tokens env_c 2 5 (initial_state "class new true and_eq static_cast".toList) =
      Except.ok [NAME, NAME, NAME, NAME, NAME] := by
  have hexp : expand_macro env { st with last_was_structop := false } =
      { st with last_was_structop := false } := expand_macro_none env _ hquiet
  refine ⟨?_, ?_, ?_, ?_, by decide, by decide, by decide⟩
  · intro hcplus htext
    apply lex_one_token_tab2 env st fuel ⟨"->".toList, ARROW, exp_opcode.BINOP_END, false⟩
      ('*' :: rest) hquiet (fun h => Bool.noConfusion h) htext (by decide)
    rw [htext, hcplus]
    rfl
  · intro hcplus htext
    have h3 : find_token tokentab3 (fun t => strncmp_eq st.lexptr t.operator 3) env.cplus
        = none := by
      rw [htext, hcplus]
      rfl
    have h2 : find_token tokentab2 (fun t => strncmp_eq st.lexptr t.operator 2) env.cplus
        = none := by
      rw [htext, hcplus]
      rfl
    unfold lex_one_token
    rw [lex_retry_switch env fuel _ _ hexp h3 h2]
    have hst : ({ st with last_was_structop := false, prev_lexptr := some st.lexptr } : State)
        = after_stop st := rfl
    simp only [hst]
    rw [lex_switch_dot env _ _ (after_stop st) '*' rest htext (by decide)]
    simp only [after_stop, Bool.or_false]
  · intro hcplus he hcxx htext hend
    rw [lex_one_token_keyword env st fuel e rest hquiet he htext hend, hcxx, hcplus]
    rfl
  · intro hcxx htext
    have hlang : e.cxx_only = true → env.cplus = true := by
      intro h
      rw [hcxx] at h
      exact Bool.noConfusion h
    refine ⟨fun he => ?_, fun he h3 => ?_, fun he hend => ?_⟩
    · exact lex_one_token_tab3 env st fuel e rest hquiet hlang htext he
    · exact lex_one_token_tab2 env st fuel e rest hquiet hlang htext he
        (no_tab3_at st.lexptr env.cplus (fun e3 he3 h => absurd h (h3 e3 he3)))
    · rw [lex_one_token_keyword env st fuel e rest hquiet he htext hend, hcxx]
      rfl

/-- C21 at the text `->*x` in C: the token is `ARROW` and `lexptr` is left at
`*x`. -/
theorem lex_one_token_dialect_witness :
    ((initial_state "->*x".toList).macro_original_text.isSome = true ∨
      env_c.macro_expand_next (initial_state "->*x".toList).lexptr = none) ∧
    lex_one_token env_c 1 (initial_state "->*x".toList) =
      Except.ok (ARROW,
        after_operator env_c (initial_state "->*x".toList)
          ⟨"->".toList, ARROW, exp_opcode.BINOP_END, false⟩ "*x".toList) :=
  ⟨Or.inr rfl,
   (lex_one_token_dialect env_c (initial_state "->*x".toList) 0
      ⟨"->".toList, ARROW, exp_opcode.BINOP_END, false⟩ "x".toList (Or.inr rfl)).1 rfl rfl⟩

/-! ## The replay of queued tokens -/

theorem yylex_pop (env : Env) (fuel : Nat) (st : State) (tv : token_and_value)
    (rest : List token_and_value) (hpop : st.popping = true)
    (hfifo : st.token_fifo = tv :: rest) :
    yylex env fuel st =
      Except.ok (tv.token, { st with token_fifo := rest, yylval := tv.value }) := by
  unfold yylex
  rw [hpop, hfifo]

theorem yylex_values_queue (env : Env) (fuel : Nat) (queue later : List token_and_value) :
    ∀ st : State, st.popping = true → st.token_fifo = queue ++ later →
    yylex_values env fuel queue.length st =
      Except.ok (queue, { st with token_fifo := later,
                                  yylval := last_value queue st.yylval }) := by
  induction queue with
  | nil =>
    intro st _ hfifo
    cases st
    simp only [List.nil_append] at hfifo
    subst hfifo
    rfl
  | cons tv rest ih =>
    intro st hpop hfifo
    have h1 := yylex_pop env fuel st tv (rest ++ later) hpop hfifo
    have h2 := ih { st with token_fifo := rest ++ later, yylval := tv.value } hpop rfl
    simp only [List.length_cons, yylex_values, h1, h2]
    rfl

/-- C26: with `popping` set and a token FIFO that is not empty, `yylex` returns
the token of the first entry, makes that entry's value `yylval` and removes that
one entry; nothing else in the globals changes (`lexptr` too), and the result
depends neither on the collaborators nor on the budget of the inner lexer.  So
as many calls as entries are queued return the queued tokens with their values
in the order of the queue. -/
theorem yylex_replay (env : Env) (fuel : Nat) (st : State) (tv : token_and_value)
    (rest : List token_and_value) (hpop : st.popping = true)
    (hfifo : st.token_fifo = tv :: rest) :
    yylex env fuel st =
      Except.ok (tv.token, { st with token_fifo := rest, yylval := tv.value }) ∧
    yylex_values env fuel (tv :: rest).length st =
      Except.ok (tv :: rest, { st with token_fifo := [],
                                       yylval := last_value (tv :: rest) st.yylval }) :=
  ⟨yylex_pop env fuel st tv rest hpop hfifo,
   yylex_values_queue env fuel (tv :: rest) [] st hpop (by rw [hfifo, List.append_nil])⟩

/-- C26 with the tokens `)` and `+` queued at the text `x`: two calls return `)`
then `+`, and `lexptr` stays at `x`. -/
theorem yylex_replay_witness :
    ({ lexptr := "x".toList, popping := true,
       token_fifo := [⟨')'.toNat, {}⟩, ⟨'+'.toNat, {}⟩] } : State).popping = true ∧
    yylex_values env_c 0 2
      { lexptr := "x".toList, popping := true,
        token_fifo := [⟨')'.toNat, {}⟩, ⟨'+'.toNat, {}⟩] } =
      Except.ok ([⟨')'.toNat, {}⟩, ⟨'+'.toNat, {}⟩],
        { lexptr := "x".toList, popping := true, token_fifo := [] }) :=
  ⟨rfl,
   (yylex_replay env_c 0
      { lexptr := "x".toList, popping := true,
        token_fifo := [⟨')'.toNat, {}⟩, ⟨'+'.toNat, {}⟩] }
      ⟨')'.toNat, {}⟩ [⟨'+'.toNat, {}⟩] rfl rfl).2⟩

/-! ## Qualified members, calls and integer types in the parser -/

theorem run_actions_append (env : Env) (a b : List (Nat × List YYSTYPE)) :
    ∀ st : State, run_actions env (a ++ b) st =
      match run_actions env a st with
      | Except.error e => Except.error e
      | Except.ok st1 => run_actions env b st1 := by
  induction a with
  | nil => intro st; rfl
  | cons x a ih =>
    intro st
    obtain ⟨yyn, yyvsp⟩ := x
    simp only [List.cons_append, run_actions]
    cases yyaction env yyn yyvsp {} st with
    | error e => rfl
    | ok r => exact ih r.2

theorem run_actions_rule (env : Env) (yyn : Nat) (st st1 : State) (yyval : YYSTYPE)
    (h : yyaction env yyn [] {} st = Except.ok (yyval, st1)) :
    run_actions env [(yyn, [])] st = Except.ok st1 := by
  simp only [run_actions, h]

/-- After the first argument the arguments of a list add 1 each to the running
count. -/
theorem arglist_actions_count (env : Env) (args : List (List (Nat × List YYSTYPE)))
    (hargs : ∀ arg ∈ args, keeps_count env arg) :
    ∀ st : State, ∃ st1 : State,
      run_actions env (arglist_actions args false) st = Except.ok st1 ∧
      st1.arglist_len = st.arglist_len + args.length ∧
      st1.funcall_chain = st.funcall_chain := by
  induction args with
  | nil => intro st; exact ⟨st, rfl, by simp, rfl⟩
  | cons arg rest ih =>
    intro st
    obtain ⟨sa, ha, hl, hc⟩ := hargs arg (List.mem_cons_self _ _) st
    have h36 : run_actions env [(36, [])] sa =
        Except.ok { sa with arglist_len := sa.arglist_len + 1 } :=
      run_actions_rule env 36 sa _ {} rfl
    obtain ⟨sr, hr, hrl, hrc⟩ := ih (fun a h => hargs a (List.mem_cons_of_mem _ h))
      { sa with arglist_len := sa.arglist_len + 1 }
    refine ⟨sr, ?_, ?_, ?_⟩
    · simp only [arglist_actions, Bool.false_eq_true, if_false]
      rw [run_actions_append, run_actions_append, ha]
      simp only [h36, hr]
    · rw [hrl]
      simp only [hl, List.length_cons, Nat.cast_add, Nat.cast_one]
      omega
    · rw [hrc]
      exact hc

/-- The arguments of a list bring the running count from any value to their
number, when there is one at least. -/
theorem arglist_actions_first (env : Env) (args : List (List (Nat × List YYSTYPE)))
    (hargs : ∀ arg ∈ args, keeps_count env arg) (st : State) (h0 : st.arglist_len = 0) :
    ∃ st1 : State,
      run_actions env (arglist_actions args true) st = Except.ok st1 ∧
      st1.arglist_len = args.length ∧ st1.funcall_chain = st.funcall_chain := by
  cases args with
  | nil => exact ⟨st, rfl, by simp [h0], rfl⟩
  | cons arg rest =>
    obtain ⟨sa, ha, _, hc⟩ := hargs arg (List.mem_cons_self _ _) st
    have h35 : run_actions env [(35, [])] sa = Except.ok { sa with arglist_len := 1 } :=
      run_actions_rule env 35 sa _ {} rfl
    obtain ⟨sr, hr, hrl, hrc⟩ := arglist_actions_count env rest
      (fun a h => hargs a (List.mem_cons_of_mem _ h)) { sa with arglist_len := 1 }
    refine ⟨sr, ?_, ?_, ?_⟩
    · simp only [arglist_actions, if_true]
      rw [run_actions_append, run_actions_append, ha]
      simp only [h35, hr]
    · rw [hrl]
      simp only [List.length_cons, Nat.cast_add, Nat.cast_one]
      omega
    · rw [hrc]
      exact hc

/-- The actions of a call write `OP_FUNCALL`, the number of arguments and
`OP_FUNCALL` last, and leave the running count and the chain as they were. -/
theorem call_actions_count (env : Env) (args : List (List (Nat × List YYSTYPE)))
    (hargs : ∀ arg ∈ args, keeps_count env arg) (st : State) :
    ∃ st2 : State, ∃ pre : List Elt,
      run_actions env (call_actions args) st = Except.ok st2 ∧
      st2.expout = pre ++ funcall_elts args.length ∧
      st2.arglist_len = st.arglist_len ∧ st2.funcall_chain = st.funcall_chain := by
  obtain ⟨s1, h1, hl, hc⟩ := arglist_actions_first env args hargs (start_arglist st) rfl
  have h29 : run_actions env [(29, [])] st = Except.ok (start_arglist st) :=
    run_actions_rule env 29 st _ {} rfl
  have hchain : s1.funcall_chain = st.arglist_len :: st.funcall_chain := hc
  have h30 : run_actions env [(30, [])] s1 =
      Except.ok (write_exp_op1
        { s1 with funcall_chain := st.funcall_chain, arglist_len := st.arglist_len }
        exp_opcode.OP_FUNCALL (Elt.longcst args.length)) := by
    apply run_actions_rule env 30 s1 _ {}
    have he : end_arglist s1 = Except.ok (s1.arglist_len,
        { s1 with funcall_chain := st.funcall_chain, arglist_len := st.arglist_len }) := by
      unfold end_arglist
      rw [hchain]
    have hy : yyaction env 30 [] {} s1 =
        match end_arglist s1 with
        | Except.error e => Except.error e
        | Except.ok (n, st1) =>
          Except.ok ({}, write_exp_op1 st1 exp_opcode.OP_FUNCALL (Elt.longcst n)) := rfl
    rw [hy, he, hl]
  refine ⟨write_exp_op1
      { s1 with funcall_chain := st.funcall_chain, arglist_len := st.arglist_len }
      exp_opcode.OP_FUNCALL (Elt.longcst args.length), s1.expout, ?_, rfl, rfl, rfl⟩
  have hsplit : call_actions args = [(29, [])] ++ (arglist_actions args true ++ [(30, [])]) :=
    rfl
  rw [hsplit, run_actions_append, h29]
  simp only
  rw [run_actions_append, h1]
  simp only
  rw [h30]

set_option maxRecDepth 100000 in
/-- C28: let the actions of every argument leave the running argument count and
the chain of saved counts as they were (with `start_arglist` and `end_arglist`
modelled as a stack).  Then the actions of a call with `n` arguments, rule 29,
the arguments with rule 35 or 36 after each, and rule 30, write `OP_FUNCALL`,
`n`, `OP_FUNCALL` last and leave the count and the chain as they were, so a
call is itself an argument that does not disturb the count of the call around
it.  In C and in C++ the parses of `f()`, `f(a)` and `f(a, b)` write the
elements of `f` and of the arguments and then `OP_FUNCALL` with 0, 1 and 2, and
the parse of `f(a, g(b, c), d)` writes 2 for the call of `g` and 3 for the call
of `f`. -/
theorem call_argument_count (env : Env) (args : List (List (Nat × List YYSTYPE)))
    (hargs : ∀ arg ∈ args, keeps_count env arg) :
    (∀ st : State, ∃ st2 : State, ∃ pre : List Elt,
      run_actions env (call_actions args) st = Except.ok st2 ∧
      st2.expout = pre ++ funcall_elts args.length ∧
      st2.arglist_len = st.arglist_len ∧ st2.funcall_chain = st.funcall_chain) ∧
    keeps_count env (call_actions args) ∧
    ∀ cplus : Bool,
      parse_expout (env_variables cplus) 100 "f()" =
        Except.ok (variable_elts 'f' ++ funcall_elts 0) ∧
      parse_expout (env_variables cplus) 100 "f(a)" =
        Except.ok (variable_elts 'f' ++ variable_elts 'a' ++ funcall_elts 1) ∧
      parse_expout (env_variables cplus) 100 "f(a, b)" =
        Except.ok (variable_elts 'f' ++ variable_elts 'a' ++ variable_elts 'b'
          ++ funcall_elts 2) ∧
      parse_expout (env_variables cplus) 100 "f(a, g(b, c), d)" =
        Except.ok (variable_elts 'f' ++ variable_elts 'a' ++ variable_elts 'g'
          ++ variable_elts 'b' ++ variable_elts 'c' ++ funcall_elts 2
          ++ variable_elts 'd' ++ funcall_elts 3) := by
  refine ⟨call_actions_count env args hargs, ?_, fun cplus => by cases cplus <;> decide⟩
  intro st
  obtain ⟨st2, _, h, _, hl, hc⟩ := call_actions_count env args hargs st
  exact ⟨st2, h, hl, hc⟩

/-- C28 for a call with two arguments whose actions are empty: the actions
write `OP_FUNCALL`, 2, `OP_FUNCALL` and restore the count. -/
theorem call_argument_count_witness :
    (∀ arg ∈ ([[], []] : List (List (Nat × List YYSTYPE))), keeps_count env_c arg) ∧
    ∃ st2 : State, ∃ pre : List Elt,
      run_actions env_c (call_actions [[], []]) (initial_state []) = Except.ok st2 ∧
      st2.expout = pre ++ funcall_elts 2 ∧
      st2.arglist_len = (initial_state []).arglist_len ∧
      st2.funcall_chain = (initial_state []).funcall_chain :=
  ⟨fun arg h st => by
      simp only [List.mem_cons, List.mem_singleton, List.not_mem_nil, or_false, or_self] at h
      subst h
      exact ⟨st, rfl, rfl, rfl⟩,
   (call_argument_count env_c [[], []] (fun arg h st => by
      simp only [List.mem_cons, List.mem_singleton, List.not_mem_nil, or_false, or_self] at h
      subst h
      exact ⟨st, rfl, rfl, rfl⟩)).1 (initial_state [])⟩

set_option maxRecDepth 100000 in
/-- C30: `c_parse` is a function of the text, the collaborators, the settings
and the globals of the caller: whatever `last_was_structop`, `saw_name_at_eof`,
the token FIFO, `popping` and the name obstack hold when it is called, as an
earlier parse or an aborted one left them, the result, the expression built and
the globals left are the same.  The parser proper does read them: with a token
queued and `popping` set `yyparse` gives another result at the same text. -/
theorem c_parse_static_state (env : Env) (fuel : Nat) (st : State)
    (last_was_structop saw_name_at_eof popping : Bool) (token_fifo : List token_and_value)
    (name_obstack : List Char) :
    c_parse env fuel
        { st with last_was_structop := last_was_structop, saw_name_at_eof := saw_name_at_eof,
                  token_fifo := token_fifo, popping := popping,
                  name_obstack := name_obstack } =
      c_parse env fuel st ∧
    yyparse (env_variables false) 100
        { initial_state "x".toList with popping := true,
                                        token_fifo := [⟨')'.toNat, {}⟩] } ≠
      yyparse (env_variables false) 100 (initial_state "x".toList) :=
  ⟨rfl, by decide⟩

/-! ## The frame of the inner lexer -/

theorem same_frame_refl (st : State) : same_frame st st := ⟨rfl, rfl, rfl, rfl⟩

theorem lex_frame_plain (saw : Bool) (st0 : State) (r : Nat × State)
    (ht : plain_token r.1 = true) (hs : same_frame st0 r.2) : lex_frame saw st0 r := by
  obtain ⟨h1, h2, h3, h4⟩ := hs
  simp only [plain_token, Bool.and_eq_true, decide_eq_true_eq] at ht
  obtain ⟨⟨⟨⟨t1, t2⟩, t3⟩, t4⟩, t5⟩ := ht
  refine ⟨h1, h2, h3, ?_, ?_, ?_⟩
  · simp only [paren_delta, t1, t2, t3, t4, or_self, if_false, add_zero, h4]
  · intro h
    rcases h with h | h
    · exact absurd h t3
    · exact absurd h t4
  · intro h
    exact absurd h t5

/-- The frame depends on the state before only through the globals it names. -/
theorem lex_frame_congr (saw : Bool) (s st : State) (r : Nat × State)
    (h1 : s.token_fifo = st.token_fifo) (h2 : s.popping = st.popping)
    (h3 : s.name_obstack = st.name_obstack) (h4 : s.paren_depth = st.paren_depth)
    (h5 : s.saw_name_at_eof = st.saw_name_at_eof)
    (h6 : s.last_was_structop = st.last_was_structop)
    (h : lex_frame saw s r) : lex_frame saw st r := by
  unfold lex_frame at h ⊢
  rw [h1, h2, h3, h4, h5, h6] at h
  exact h

theorem find_token_mem (tab : List token) (hit : token → Bool) (cplus : Bool) (e : token)
    (h : find_token tab hit cplus = some e) : e ∈ tab := by
  unfold find_token at h
  cases hf : tab.find? hit with
  | none => rw [hf] at h; exact Option.noConfusion h
  | some e2 =>
    rw [hf] at h
    simp only at h
    by_cases hx : (e2.cxx_only && !cplus) = true
    · rw [if_pos hx] at h; exact Option.noConfusion h
    · rw [if_neg hx] at h
      injection h with h
      rw [← h]
      exact List.mem_of_find?_eq_some hf

theorem lex_tryname_frame (env : Env) (st : State) (tokstart : List Char) (namelen : Nat) :
    plain_token (lex_tryname env st tokstart namelen).1 = true ∧
    same_frame st (lex_tryname env st tokstart namelen).2 := by
  have htab : ∀ e ∈ ident_tokens, plain_token e.token = true := by decide
  unfold lex_tryname
  simp only
  cases hf : find_token ident_tokens
      (fun e => strcmp_eq (List.take namelen tokstart) e.operator) env.cplus with
  | some e => exact ⟨htab e (find_token_mem _ _ _ e hf), rfl, rfl, rfl, rfl⟩
  | none =>
    simp only
    by_cases h1 : deref tokstart = '$'
    · rw [if_pos h1]; exact ⟨(by decide : plain_token VARIABLE = true), rfl, rfl, rfl, rfl⟩
    · rw [if_neg h1]
      by_cases h2 : (env.in_parse_field && decide (deref st.lexptr = NUL)) = true
      · rw [if_pos h2]; exact ⟨(by decide : plain_token NAME = true), rfl, rfl, rfl, rfl⟩
      · rw [if_neg h2]; exact ⟨(by decide : plain_token NAME = true), rfl, rfl, rfl, rfl⟩

theorem lex_name_frame (env : Env) (st : State) (tokstart : List Char) (c : Char)
    (r : Nat × State) (h : lex_name env st tokstart c = Except.ok r) :
    plain_token r.1 = true ∧ same_frame st r.2 := by
  unfold lex_name at h
  by_cases h1 : (!is_name_start c) = true
  · rw [if_pos h1] at h; exact Except.noConfusion h
  rw [if_neg h1] at h
  simp only at h
  by_cases h2 : stops_expression st tokstart (name_scan env tokstart tokstart 0) = true
  · rw [if_pos h2] at h
    injection h with h
    rw [← h]
    exact ⟨(by decide : plain_token 0 = true), same_frame_refl st⟩
  · rw [if_neg h2] at h
    injection h with h
    rw [← h]
    exact lex_tryname_frame env _ _ _

theorem lex_number_frame (env : Env) (st : State) (tokstart : List Char) (c : Char)
    (r : Nat × State) (h : lex_number env st tokstart c = Except.ok r) :
    plain_token r.1 = true ∧ same_frame st r.2 := by
  unfold lex_number at h
  simp only at h
  split at h
  · exact Except.noConfusion h
  · exact Except.noConfusion h
  · injection h with h
    rw [← h]
    exact ⟨(by decide : plain_token INT = true), rfl, rfl, rfl, rfl⟩
  · injection h with h
    rw [← h]
    exact ⟨(by decide : plain_token FLOAT = true), rfl, rfl, rfl, rfl⟩
  · injection h with h
    rw [← h]
    exact ⟨(by decide : plain_token DECFLOAT = true), rfl, rfl, rfl, rfl⟩

theorem lex_string_frame (env : Env) (st : State) (tokstart : List Char) (c : Char)
    (r : Nat × State) (h : lex_string env st tokstart c = Except.ok r) :
    plain_token r.1 = true ∧ same_frame st r.2 := by
  unfold lex_string at h
  cases hp : parse_string_or_char tokstart with
  | error e => rw [hp] at h; exact Except.noConfusion h
  | ok out =>
    rw [hp] at h
    simp only at h
    cases ht : out.token with
    | STRING =>
      rw [ht] at h
      injection h with h
      rw [← h]
      exact ⟨(by decide : plain_token STRING = true), rfl, rfl, rfl, rfl⟩
    | CHAR =>
      rw [ht] at h
      simp only at h
      by_cases h1 : out.host_chars = 0
      · rw [if_pos h1] at h; exact Except.noConfusion h
      rw [if_neg h1] at h
      by_cases h2 : out.host_chars > 2 ∧ c = SQUOTE
      · rw [if_pos h2] at h
        injection h with h
        rw [← h]
        exact lex_tryname_frame env _ _ _
      rw [if_neg h2] at h
      by_cases h3 : out.host_chars > 1
      · rw [if_pos h3] at h; exact Except.noConfusion h
      rw [if_neg h3] at h
      injection h with h
      rw [← h]
      exact ⟨(by decide : plain_token CHAR = true), rfl, rfl, rfl, rfl⟩

theorem lex_symbol_frame (saw : Bool) (st0 st : State) (c : Char)
    (ht : plain_token c.toNat = true) (hs : same_frame st0 st) :
    lex_frame saw st0 (lex_symbol st c) :=
  lex_frame_plain saw st0 _ ht hs

/-- The `switch` of the inner lexer keeps the frame, when the jumps to `retry`
do. -/
theorem lex_switch_frame (env : Env) (retry : State → Except Failure (Nat × State))
    (saw : Bool) (st : State) (r : Nat × State)
    (hretry : ∀ (s : State) (q : Nat × State), retry s = Except.ok q → lex_frame saw s q)
    (h : lex_switch env retry saw st = Except.ok r) : lex_frame saw st r := by
  unfold lex_switch at h
  simp only at h
  by_cases h0 : deref st.lexptr = NUL
  · rw [if_pos h0] at h
    cases hm : st.macro_original_text with
    | some original =>
      rw [hm] at h
      simp only at h
      exact lex_frame_congr saw { st with lexptr := original, macro_original_text := none } st r
        rfl rfl rfl rfl rfl rfl (hretry _ r h)
    | none =>
      rw [hm] at h
      simp only at h
      by_cases h1 : st.saw_name_at_eof = true
      · rw [if_pos h1] at h
        injection h with h
        rw [← h]
        exact ⟨rfl, rfl, rfl, by simp [paren_delta, COMPLETE], by simp [COMPLETE],
          fun _ => ⟨Or.inl h1, rfl, rfl⟩⟩
      rw [if_neg h1] at h
      by_cases h2 : saw = true
      · rw [if_pos h2] at h
        injection h with h
        rw [← h]
        refine ⟨rfl, rfl, rfl, by simp [paren_delta, COMPLETE], by simp [COMPLETE],
          fun _ => ⟨Or.inr h2, ?_, rfl⟩⟩
        simpa using h1
      rw [if_neg h2] at h
      injection h with h
      rw [← h]
      exact lex_frame_plain saw st _ (by decide : plain_token 0 = true) (same_frame_refl st)
  rw [if_neg h0] at h
  by_cases h1 : deref st.lexptr = ' ' ∨ deref st.lexptr = '\t' ∨ deref st.lexptr = '\n'
  · rw [if_pos h1] at h
    exact lex_frame_congr saw { st with lexptr := st.lexptr.drop 1 } st r
      rfl rfl rfl rfl rfl rfl (hretry _ r h)
  rw [if_neg h1] at h
  by_cases h2 : deref st.lexptr = '[' ∨ deref st.lexptr = '('
  · rw [if_pos h2] at h
    have ht : paren_delta (deref st.lexptr).toNat = 1 ∧
        (deref st.lexptr).toNat ≠ ')'.toNat ∧ (deref st.lexptr).toNat ≠ ']'.toNat ∧
        (deref st.lexptr).toNat ≠ COMPLETE := by
      rcases h2 with h2 | h2 <;> rw [h2] <;> decide
    injection h with h
    rw [← h]
    refine ⟨rfl, rfl, rfl, ?_, ?_, ?_⟩
    · show st.paren_depth + 1 = st.paren_depth + paren_delta _
      rw [ht.1]
    · intro hc
      rcases hc with hc | hc
      · exact absurd hc ht.2.1
      · exact absurd hc ht.2.2.1
    · intro hc
      exact absurd hc ht.2.2.2
  rw [if_neg h2] at h
  by_cases h3 : deref st.lexptr = ']' ∨ deref st.lexptr = ')'
  · rw [if_pos h3] at h
    by_cases hd : st.paren_depth = 0
    · rw [if_pos hd] at h
      injection h with h
      rw [← h]
      exact lex_frame_plain saw st _ (by decide : plain_token 0 = true) (same_frame_refl st)
    · rw [if_neg hd] at h
      have ht : paren_delta (deref st.lexptr).toNat = -1 ∧
          (deref st.lexptr).toNat ≠ COMPLETE := by
        rcases h3 with h3 | h3 <;> rw [h3] <;> decide
      injection h with h
      rw [← h]
      refine ⟨rfl, rfl, rfl, ?_, fun _ => hd, ?_⟩
      · show st.paren_depth - 1 = st.paren_depth + paren_delta _
        rw [ht.1]
        rfl
      · intro hc
        exact absurd hc ht.2
  rw [if_neg h3] at h
  by_cases h4 : deref st.lexptr = ','
  · rw [if_pos h4] at h
    by_cases hc : (env.comma_terminates && decide (st.paren_depth = 0)
        && st.macro_original_text.isNone) = true
    · rw [if_pos hc] at h
      injection h with h
      rw [← h]
      exact lex_frame_plain saw st _ (by decide : plain_token 0 = true) (same_frame_refl st)
    · rw [if_neg hc] at h
      injection h with h
      rw [← h, h4]
      exact lex_symbol_frame saw st st ',' (by decide) (same_frame_refl st)
  rw [if_neg h4] at h
  by_cases h5 : deref st.lexptr = '.' ∧ (!is_digit_char (nth st.lexptr 1)) = true
  · rw [if_pos h5] at h
    injection h with h
    rw [← h, h5.1]
    apply lex_symbol_frame saw st _ '.' (by decide)
    by_cases hp : env.in_parse_field = true
    · rw [if_pos hp]; exact ⟨rfl, rfl, rfl, rfl⟩
    · rw [if_neg hp]; exact same_frame_refl st
  rw [if_neg h5] at h
  by_cases h6 : deref st.lexptr = '.' ∨ is_digit_char (deref st.lexptr) = true
  · rw [if_pos h6] at h
    have := lex_number_frame env st _ _ r h
    exact lex_frame_plain saw st r this.1 this.2
  rw [if_neg h6] at h
  by_cases h7 : deref st.lexptr = '@' ∧
      (strncmp_eq ((st.lexptr.drop 1).dropWhile isspace) "entry".toList 5
        && !isalnum (nth ((st.lexptr.drop 1).dropWhile isspace) 5)
        && decide (nth ((st.lexptr.drop 1).dropWhile isspace) 5 ≠ '_')) = true
  · rw [if_pos h7] at h
    injection h with h
    rw [← h]
    exact lex_frame_plain saw st _ (by decide : plain_token ENTRY = true) ⟨rfl, rfl, rfl, rfl⟩
  rw [if_neg h7] at h
  by_cases h8 : deref st.lexptr = '@' ∨ deref st.lexptr = '+' ∨ deref st.lexptr = '-'
      ∨ deref st.lexptr = '*' ∨ deref st.lexptr = '/' ∨ deref st.lexptr = '%'
      ∨ deref st.lexptr = '|' ∨ deref st.lexptr = '&' ∨ deref st.lexptr = '^'
      ∨ deref st.lexptr = '~' ∨ deref st.lexptr = '!' ∨ deref st.lexptr = '<'
      ∨ deref st.lexptr = '>' ∨ deref st.lexptr = '?' ∨ deref st.lexptr = ':'
      ∨ deref st.lexptr = '=' ∨ deref st.lexptr = '{' ∨ deref st.lexptr = '}'
  · rw [if_pos h8] at h
    have ht : plain_token (deref st.lexptr).toNat = true := by
      rcases h8 with h8 | h8 | h8 | h8 | h8 | h8 | h8 | h8 | h8 | h8 | h8 | h8 | h8 | h8 | h8
        | h8 | h8 | h8 <;> rw [h8] <;> decide
    injection h with h
    rw [← h]
    exact lex_symbol_frame saw st st _ ht (same_frame_refl st)
  rw [if_neg h8] at h
  by_cases h9 : (deref st.lexptr = 'L' ∨ deref st.lexptr = 'u' ∨ deref st.lexptr = 'U')
      ∧ nth st.lexptr 1 ≠ DQUOTE ∧ nth st.lexptr 1 ≠ SQUOTE
  · rw [if_pos h9] at h
    have := lex_name_frame env st _ _ r h
    exact lex_frame_plain saw st r this.1 this.2
  rw [if_neg h9] at h
  by_cases h10 : deref st.lexptr = 'L' ∨ deref st.lexptr = 'u' ∨ deref st.lexptr = 'U'
      ∨ deref st.lexptr = SQUOTE ∨ deref st.lexptr = DQUOTE
  · rw [if_pos h10] at h
    have := lex_string_frame env st _ _ r h
    exact lex_frame_plain saw st r this.1 this.2
  rw [if_neg h10] at h
  have := lex_name_frame env st _ _ r h
  exact lex_frame_plain saw st r this.1 this.2

theorem expand_macro_fields (env : Env) (st : State) :
    ( expand_macro env st).token_fifo = st.token_fifo ∧
    ( expand_macro env st).popping = st.popping ∧
    ( expand_macro env st).name_obstack = st.name_obstack ∧
    ( expand_macro env st).paren_depth = st.paren_depth ∧
    ( expand_macro env st).saw_name_at_eof = st.saw_name_at_eof ∧
    ( expand_macro env st).last_was_structop = st.last_was_structop := by
  unfold expand_macro
  cases st.macro_original_text with
  | some t => exact ⟨rfl, rfl, rfl, rfl, rfl, rfl⟩
  | none =>
    simp only
    cases env.macro_expand_next st.lexptr with
    | none => exact ⟨rfl, rfl, rfl, rfl, rfl, rfl⟩
    | some p => exact ⟨rfl, rfl, rfl, rfl, rfl, rfl⟩

/-- Every return of the inner lexer from the label `retry` keeps the frame. -/
theorem lex_retry_frame (env : Env) (saw : Bool) :
    ∀ (fuel : Nat) (st0 : State) (r : Nat × State),
      lex_retry env fuel saw st0 = Except.ok r → lex_frame saw st0 r := by
  have htab3 : ∀ e ∈ tokentab3, plain_token e.token = true := by decide
  have htab2 : ∀ e ∈ tokentab2, plain_token e.token = true := by decide
  intro fuel
  induction fuel with
  | zero => intro st0 r h; exact Except.noConfusion h
  | succ fuel ih =>
    intro st0 r h
    rw [lex_retry] at h
    simp only at h
    obtain ⟨e1, e2, e3, e4, e5, e6⟩ := expand_macro_fields env st0
    apply lex_frame_congr saw
      { expand_macro env st0 with prev_lexptr := some ( expand_macro env st0).lexptr } st0 r
      e1 e2 e3 e4 e5 e6
    cases h3 : find_token tokentab3
        (fun e => strncmp_eq ( expand_macro env st0).lexptr e.operator 3) env.cplus with
    | some e =>
      rw [h3] at h
      injection h with h
      rw [← h]
      exact lex_frame_plain saw _ _ (htab3 e (find_token_mem _ _ _ e h3)) ⟨rfl, rfl, rfl, rfl⟩
    | none =>
      rw [h3] at h
      simp only at h
      cases h2 : find_token tokentab2
          (fun e => strncmp_eq ( expand_macro env st0).lexptr e.operator 2) env.cplus with
      | some e =>
        rw [h2] at h
        injection h with h
        rw [← h]
        apply lex_frame_plain saw _ _ (htab2 e (find_token_mem _ _ _ e h2))
        by_cases hp : (env.in_parse_field && decide (e.token = ARROW)) = true
        · rw [if_pos hp]; exact ⟨rfl, rfl, rfl, rfl⟩
        · rw [if_neg hp]; exact ⟨rfl, rfl, rfl, rfl⟩
      | none =>
        rw [h2] at h
        exact lex_switch_frame env _ saw _ r (fun s q hq => ih s q hq) h

/-- Every return of `lex_one_token` leaves the token FIFO, `popping` and the name
obstack as they were, moves `paren_depth` with the bracket returned (a closing
one only at a depth other than 0), and returns `COMPLETE` only if
`saw_name_at_eof` or `last_was_structop` was set, leaving both clear. -/
theorem lex_one_token_frame (env : Env) (fuel : Nat) (st : State) (r : Nat × State)
    (h : lex_one_token env fuel st = Except.ok r) :
    r.2.token_fifo = st.token_fifo ∧ r.2.popping = st.popping ∧
    r.2.name_obstack = st.name_obstack ∧
    r.2.paren_depth = st.paren_depth + paren_delta r.1 ∧
    ((r.1 = ')'.toNat ∨ r.1 = ']'.toNat) → st.paren_depth ≠ 0) ∧
    (r.1 = COMPLETE →
      (st.saw_name_at_eof = true ∨ st.last_was_structop = true) ∧
      r.2.saw_name_at_eof = false ∧ r.2.last_was_structop = false) :=
  lex_retry_frame env st.last_was_structop fuel { st with last_was_structop := false } r h

/-! ## The classification of names and the loop of the outer lexer -/

/-- The globals `yylex` queues tokens in: the token FIFO, `popping` and the
name obstack are not touched by `classify_name`. -/
theorem classify_name_frame (env : Env) (block : Option Block) (st0 : State)
    (r : Nat × State) (h : classify_name env block st0 = Except.ok r) :
    r.2.token_fifo = st0.token_fifo ∧ r.2.popping = st0.popping ∧
    r.2.name_obstack = st0.name_obstack := by
  unfold classify_name at h
  simp only at h
  repeat' split at h
  all_goals first
    | exact Except.noConfusion h
    | (injection h with h; rw [← h]; exact ⟨rfl, rfl, rfl⟩)

theorem classify_inner_name_frame (env : Env) (block : Option Block) (first_name : Bool)
    (st0 : State) (r : Nat × State)
    (h : classify_inner_name env block first_name st0 = Except.ok r) :
    r.2.token_fifo = st0.token_fifo ∧ r.2.popping = st0.popping ∧
    r.2.name_obstack = st0.name_obstack := by
  unfold classify_inner_name at h
  by_cases hf : first_name = true
  · rw [if_pos hf] at h
    exact classify_name_frame env block st0 r h
  · rw [if_neg hf] at h
    split at h
    · exact Except.noConfusion h
    · exact Except.noConfusion h
    · simp only at h
      split at h
      · injection h with h
        rw [← h]
        exact ⟨rfl, rfl, rfl⟩
      · split at h
        · injection h with h
          rw [← h]
          exact ⟨rfl, rfl, rfl⟩
        · injection h with h
          rw [← h]
          exact ⟨rfl, rfl, rfl⟩

/-- The loop of `yylex` ends by queueing exactly one token, the last one the
inner lexer returned, behind the tokens the FIFO held; it leaves `popping` as it
was; and the token it has aggregated is a `TYPENAME` unless it ends in its first
iteration after a leading `::`. -/
theorem yylex_loop_spec (env : Env) (lexfuel : Nat) (fwc : Bool) :
    ∀ (fuel : Nat) (lwc fi : Bool) (current : token_and_value) (st : State) (r : yylex_locals),
      yylex_loop env lexfuel fwc fuel lwc fi current st = Except.ok r →
      (current.token = TYPENAME ∨ (fi = true ∧ lwc = true ∧ fwc = true)) →
      (∃ (next : token_and_value) (s s1 : State),
        lex_one_token env lexfuel s = Except.ok (next.token, s1) ∧ next.value = s1.yylval ∧
        r.st.token_fifo = st.token_fifo ++ [next]) ∧
      r.st.popping = st.popping ∧
      (r.current.token = TYPENAME ∨
        (r.first_iter = true ∧ r.last_was_coloncolon = true ∧ fwc = true)) ∧
      (r.first_iter = true → fi = true) := by
  intro fuel
  induction fuel with
  | zero => intro lwc fi current st r h; exact Except.noConfusion h
  | succ fuel ih =>
    intro lwc fi current st r h hj
    rw [yylex_loop] at h
    cases hl : lex_one_token env lexfuel st with
    | error e => rw [hl] at h; exact Except.noConfusion h
    | ok q =>
      obtain ⟨token, st1⟩ := q
      rw [hl] at h
      simp only at h
      obtain ⟨f1, f2, _, _⟩ := lex_one_token_frame env lexfuel st _ hl
      have f1b : st1.token_fifo = st.token_fifo := f1
      have f2b : st1.popping = st.popping := f2
      by_cases hn : token = NAME ∧ lwc = true
      · rw [if_pos hn] at h
        cases hc : classify_inner_name env
            (if fwc = true then none else env.expression_context_block) fi st1 with
        | error e => rw [hc] at h; exact Except.noConfusion h
        | ok c =>
          obtain ⟨classification, st2⟩ := c
          rw [hc] at h
          simp only at h
          obtain ⟨g1, g2, _⟩ := classify_inner_name_frame env _ fi st1 _ hc
          have g1b : st2.token_fifo = st1.token_fifo := g1
          have g2b : st2.popping = st1.popping := g2
          by_cases ht : classification ≠ TYPENAME
          · rw [if_pos ht] at h
            injection h with h
            rw [← h]
            refine ⟨⟨⟨token, st1.yylval⟩, st, st1, hl, rfl, ?_⟩, ?_, hj, fun hf => hf⟩
            · show st2.token_fifo ++ _ = _
              rw [g1b, f1b]
            · show st2.popping = _
              rw [g2b, f2b]
          · rw [if_neg ht] at h
            have ht2 : classification = TYPENAME := not_not.1 ht
            obtain ⟨⟨next, s, s1, a1, a2, a3⟩, b, c, d⟩ := ih _ _ _ _ r h (Or.inl ht2)
            refine ⟨⟨next, s, s1, a1, a2, ?_⟩, ?_, ?_, fun hf => absurd (d hf) (by decide)⟩
            · rw [a3]
              show st2.token_fifo ++ _ = _
              rw [g1b, f1b]
            · rw [b]
              show st2.popping = _
              rw [g2b, f2b]
            · rcases c with c | c
              · exact Or.inl c
              · exact absurd (d c.1) (by decide)
      · rw [if_neg hn] at h
        by_cases hcc : token = COLONCOLON ∧ lwc = false
        · rw [if_pos hcc] at h
          have hj2 : current.token = TYPENAME ∨ (false = true ∧ true = true ∧ fwc = true) := by
            rcases hj with hj | hj
            · exact Or.inl hj
            · rw [hcc.2] at hj
              exact absurd hj.2.1 (by decide)
          obtain ⟨⟨next, s, s1, a1, a2, a3⟩, b, c, d⟩ := ih _ _ _ _ r h hj2
          refine ⟨⟨next, s, s1, a1, a2, ?_⟩, ?_, ?_, fun hf => absurd (d hf) (by decide)⟩
          · rw [a3, f1b]
          · rw [b, f2b]
          · rcases c with c | c
            · exact Or.inl c
            · exact absurd (d c.1) (by decide)
        · rw [if_neg hcc] at h
          injection h with h
          rw [← h]
          refine ⟨⟨⟨token, st1.yylval⟩, st, st1, hl, rfl, ?_⟩, ?_, hj, fun hf => hf⟩
          · show st1.token_fifo ++ _ = _
            rw [f1b]
          · exact f2b

/-- The steps of a call of `yylex` that finds the FIFO empty: the inner lexer,
the classification of a name, and in C++ after a type name or `::` the loop,
whose locals give the return. -/
theorem yylex_fresh (env : Env) (fuel : Nat) (st0 : State) (r : Nat × State)
    (hfifo : st0.token_fifo = []) (h : yylex env fuel st0 = Except.ok r) :
    ∃ (token1 : Nat) (st1 : State) (token : Nat) (st2 : State),
      lex_one_token env fuel { st0 with popping := false } = Except.ok (token1, st1) ∧
      (if token1 = NAME then classify_name env env.expression_context_block st1
        else Except.ok (token1, st1)) = Except.ok (token, st2) ∧
      (((env.cplus = false ∨ (token ≠ TYPENAME ∧ token ≠ COLONCOLON)) ∧ r = (token, st2)) ∨
       (env.cplus = true ∧ (token = TYPENAME ∨ token = COLONCOLON) ∧
        ∃ loc : yylex_locals,
          yylex_loop env fuel (decide (token = COLONCOLON)) fuel (decide (token = COLONCOLON))
            true { token := token, value := st2.yylval }
            { st2 with name_obstack :=
                if decide (token = COLONCOLON) = true then [] else st2.yylval.stoken }
            = Except.ok loc ∧
          r = yylex_return token loc)) := by
  have hy : yylex env fuel st0 = yylex env fuel { st0 with popping := false } := by
    unfold yylex
    rw [hfifo]
    cases st0.popping <;> rfl
  rw [hy] at h
  unfold yylex at h
  simp only at h
  cases hl : lex_one_token env fuel { st0 with popping := false } with
  | error e => rw [hl] at h; exact Except.noConfusion h
  | ok q =>
    obtain ⟨token1, st1⟩ := q
    rw [hl] at h
    simp only at h
    cases hc : (if token1 = NAME then classify_name env env.expression_context_block st1
        else Except.ok (token1, st1)) with
    | error e => rw [hc] at h; exact Except.noConfusion h
    | ok c =>
      obtain ⟨token, st2⟩ := c
      rw [hc] at h
      simp only at h
      refine ⟨token1, st1, token, st2, rfl, hc, ?_⟩
      by_cases hx : (!env.cplus || (decide (token ≠ TYPENAME) && decide (token ≠ COLONCOLON)))
          = true
      · rw [if_pos hx] at h
        injection h with h
        left
        refine ⟨?_, h.symm⟩
        simp only [Bool.or_eq_true, Bool.not_eq_true', Bool.and_eq_true, decide_eq_true_eq] at hx
        exact hx
      · rw [if_neg hx] at h
        right
        simp only [Bool.or_eq_true, Bool.not_eq_true', Bool.and_eq_true, decide_eq_true_eq,
          not_or, not_and, Bool.not_eq_false] at hx
        refine ⟨hx.1, ?_, ?_⟩
        · by_cases ht : token = TYPENAME
          · exact Or.inl ht
          · exact Or.inr (not_not.1 (hx.2 ht))
        · cases hloop : yylex_loop env fuel (decide (token = COLONCOLON)) fuel
              (decide (token = COLONCOLON)) true { token := token, value := st2.yylval }
              { st2 with name_obstack :=
                  if decide (token = COLONCOLON) = true then [] else st2.yylval.stoken } with
          | error e => rw [hloop] at h; exact Except.noConfusion h
          | ok loc =>
            rw [hloop] at h
            simp only at h
            refine ⟨loc, rfl, ?_⟩
            unfold yylex_return
            by_cases h1 : (loc.last_was_coloncolon && decide (token = COLONCOLON)
                && loc.first_iter) = true
            · rw [if_pos h1] at h
              rw [if_pos h1]
              injection h with h
              exact h.symm
            · rw [if_neg h1] at h
              rw [if_neg h1]
              injection h with h
              rw [← h]
              by_cases h2 : loc.last_was_coloncolon = true
              · rw [if_pos h2, if_pos h2]; rfl
              · rw [if_neg h2, if_neg h2]

/-! ## Cast operators and the end of a name -/

/-- The test of `is_cast_operator` on a name without NUL: the name begins one of
the four cast operators. -/
theorem is_cast_operator_isPrefixOf (name rest : List Char) (hname : ∀ c ∈ name, c ≠ NUL) :
    is_cast_operator (name ++ rest) name.length =
      cast_operators.any (fun k => name.isPrefixOf k) := by
  unfold is_cast_operator cast_operators
  rw [strncmp_eq_isPrefixOf name rest hname, strncmp_eq_isPrefixOf name rest hname,
    strncmp_eq_isPrefixOf name rest hname, strncmp_eq_isPrefixOf name rest hname]
  simp only [List.any_cons, List.any_nil, Bool.or_false, Bool.or_assoc]

set_option maxRecDepth 100000 in
/-- C31: `is_cast_operator` accepts the names `s` and `dyn`, which are none of
the four cast operators: `strncmp` compares only as many characters as the name
has, so every beginning of a cast operator passes.  At the text `s<int>` the
loop that measures the name stops at the `<` whatever `find_template_name_end`
would find, and the lexer returns the name `s`, while at `x<int>` the template
arguments become part of the name. -/
theorem is_cast_operator_accepts_prefix :
    is_cast_operator "s".toList 1 = true ∧ is_cast_operator "dyn".toList 3 = true ∧
    "s".toList ∉ cast_operators ∧ "dyn".toList ∉ cast_operators ∧
    (∀ env : Env, name_scan env "s<int>".toList "s<int>".toList 0 = 1) ∧
    (∀ env : Env, name_scan env "dyn<int>".toList "dyn<int>".toList 0 = 3) ∧
    lex_one_token env_template 1 (initial_state "s<int>".toList) =
      Except.ok (NAME,
        after_name env_template (initial_state "s<int>".toList) "s".toList "<int>".toList) ∧
    lex_one_token env_template 1 (initial_state "x<int>".toList) =
      Except.ok (NAME,
        after_name env_template (initial_state "x<int>".toList) "x<int>".toList []) := by
  refine ⟨by decide, by decide, by decide, by decide, fun env => rfl, fun env => rfl,
    by decide, by decide⟩

/-! ## The end of the input -/

theorem no_operator_at_nul (text : List Char) (cplus : Bool) (h : deref text = NUL) :
    find_token tokentab3 (fun t => strncmp_eq text t.operator 3) cplus = none ∧
    find_token tokentab2 (fun t => strncmp_eq text t.operator 2) cplus = none := by
  have h3 : ∀ e ∈ tokentab3, deref e.operator ≠ NUL := by decide
  have h2 : ∀ e ∈ tokentab2, deref e.operator ≠ NUL := by decide
  constructor
  · apply find_token_none
    intro e he hhit
    have hne : deref text ≠ deref e.operator := by rw [h]; exact fun hc => h3 e he hc.symm
    rw [strncmp_eq_head_ne _ _ 2 hne] at hhit
    exact Bool.noConfusion hhit
  · apply find_token_none
    intro e he hhit
    have hne : deref text ≠ deref e.operator := by rw [h]; exact fun hc => h2 e he hc.symm
    rw [strncmp_eq_head_ne _ _ 1 hne] at hhit
    exact Bool.noConfusion hhit

theorem lex_switch_nul (env : Env) (retry : State → Except Failure (Nat × State))
    (saw : Bool) (st : State) (h : deref st.lexptr = NUL) :
    lex_switch env retry saw st =
      match st.macro_original_text with
      | some original => retry { st with lexptr := original, macro_original_text := none }
      | none =>
        if st.saw_name_at_eof then Except.ok (COMPLETE, { st with saw_name_at_eof := false })
        else if saw then Except.ok (COMPLETE, st)
        else Except.ok (0, st) := by
  unfold lex_switch
  simp only [h, if_true]

/-- C34: at the end of the text (`*lexptr` is NUL) `lex_one_token` does this.
While a macro expansion is scanned it puts the saved position back in `lexptr`,
clears `macro_original_text` and goes on from the label `retry` at the original
text.  Otherwise, with no macro found there, it returns `COMPLETE` and clears
`saw_name_at_eof` if that was set, returns `COMPLETE` if `last_was_structop` was
set, and returns 0 in every other case.  Of two calls in a row, at the end of
the text or elsewhere, at most one returns `COMPLETE`. -/
theorem lex_one_token_end (env : Env) (st : State) (fuel : Nat)
    (hend : deref st.lexptr = NUL) :
    (∀ original : List Char, st.macro_original_text = some original →
      lex_one_token env (fuel + 1) st =
        lex_retry env fuel st.last_was_structop
          { after_stop st with lexptr := original, macro_original_text := none }) ∧
    (st.macro_original_text = none → env.macro_expand_next st.lexptr = none →
      lex_one_token env (fuel + 1) st =
        if st.saw_name_at_eof then
          Except.ok (COMPLETE, { after_stop st with saw_name_at_eof := false })
        else if st.last_was_structop then Except.ok (COMPLETE, after_stop st)
        else Except.ok (0, after_stop st)) ∧
    ∀ (fuel1 fuel2 : Nat) (s st1 : State) (r : Nat × State),
      lex_one_token env fuel1 s = Except.ok (COMPLETE, st1) →
      lex_one_token env fuel2 st1 = Except.ok r → r.1 ≠ COMPLETE := by
  have hno := no_operator_at_nul st.lexptr env.cplus hend
  have hst : ({ st with last_was_structop := false, prev_lexptr := some st.lexptr } : State)
      = after_stop st := rfl
  refine ⟨fun original hm => ?_, fun hm hnone => ?_, ?_⟩
  · have hexp : expand_macro env { st with last_was_structop := false } =
        { st with last_was_structop := false } :=
      expand_macro_none env _ (Or.inl (by rw [hm]; rfl))
    unfold lex_one_token
    rw [lex_retry_switch env fuel _ _ hexp hno.1 hno.2]
    simp only [hst]
    rw [lex_switch_nul env _ _ (after_stop st) hend]
    have hm2 : (after_stop st).macro_original_text = some original := hm
    rw [hm2]
  · have hexp : expand_macro env { st with last_was_structop := false } =
        { st with last_was_structop := false } := expand_macro_none env _ (Or.inr hnone)
    unfold lex_one_token
    rw [lex_retry_switch env fuel _ _ hexp hno.1 hno.2]
    simp only [hst]
    rw [lex_switch_nul env _ _ (after_stop st) hend]
    have hm2 : (after_stop st).macro_original_text = none := hm
    rw [hm2]
    rfl
  · intro fuel1 fuel2 s st1 r h1 h2 hc
    obtain ⟨_, _, _, _, _, f1⟩ := lex_one_token_frame env fuel1 s _ h1
    obtain ⟨_, _, _, _, _, f2⟩ := lex_one_token_frame env fuel2 st1 r h2
    obtain ⟨_, a1, a2⟩ := f1 rfl
    obtain ⟨b, _, _⟩ := f2 hc
    have a1b : st1.saw_name_at_eof = false := a1
    have a2b : st1.last_was_structop = false := a2
    rw [a1b, a2b] at b
    rcases b with b | b <;> exact Bool.noConfusion b

/-- C34 at the end of the text with `saw_name_at_eof` set, in C: the first call
returns `COMPLETE` and clears the flag. -/
theorem lex_one_token_end_witness :
    deref ({ lexptr := [], saw_name_at_eof := true } : State).lexptr = NUL ∧
    ({ lexptr := [], saw_name_at_eof := true } : State).macro_original_text = none ∧
    lex_one_token env_c 1 { lexptr := [], saw_name_at_eof := true } =
      Except.ok (COMPLETE, { lexptr := [], prev_lexptr := some [] }) :=
  ⟨rfl, rfl,
   (lex_one_token_end env_c { lexptr := [], saw_name_at_eof := true } 0 rfl).2.1 rfl rfl⟩

/-! ## The macro slot -/

theorem check_macro_invocation_ok (env : Env) (st : State) :
    check_macro_invocation env st = Except.ok ( expand_macro env st) := by
  unfold check_macro_invocation scanning_macro_expansion expand_macro
  cases hm : st.macro_original_text with
  | some t => rfl
  | none =>
    simp only [Option.isSome_none, Bool.false_eq_true, if_false]
    cases env.macro_expand_next st.lexptr with
    | none => rfl
    | some p =>
      simp only [scan_macro_expansion, hm, Option.isSome_none, Bool.false_eq_true, if_false]

theorem pop_macro_expansion_switch (env : Env) (retry : State → Except Failure (Nat × State))
    (saw : Bool) (st : State) (hend : deref st.lexptr = NUL)
    (hs : scanning_macro_expansion st = true) :
    pop_macro_expansion retry st = lex_switch env retry saw st := by
  unfold scanning_macro_expansion at hs
  cases hm : st.macro_original_text with
  | none => rw [hm] at hs; exact Bool.noConfusion hs
  | some original =>
    rw [lex_switch_nul env retry saw st hend, hm]
    unfold pop_macro_expansion finished_macro_expansion
    rw [hm]

/-- The lexer with the assertions of the macro functions runs as the lexer
without them: no assertion fails. -/
theorem lex_retry_checked_eq (env : Env) (saw : Bool) :
    ∀ (fuel : Nat) (st0 : State),
      lex_retry_checked env fuel saw st0 = lex_retry env fuel saw st0 := by
  intro fuel
  induction fuel with
  | zero => intro st0; rfl
  | succ fuel ih =>
    intro st0
    have hfun : (fun s => lex_retry_checked env fuel saw s) =
        (fun s => lex_retry env fuel saw s) := funext ih
    rw [lex_retry_checked, lex_retry, check_macro_invocation_ok]
    simp only [hfun]
    cases find_token tokentab3
        (fun e => strncmp_eq ( expand_macro env st0).lexptr e.operator 3) env.cplus with
    | some e => rfl
    | none =>
      simp only
      cases find_token tokentab2
          (fun e => strncmp_eq ( expand_macro env st0).lexptr e.operator 2) env.cplus with
      | some e => rfl
      | none =>
        simp only
        by_cases hc : deref ( expand_macro env st0).lexptr = NUL ∧
            scanning_macro_expansion
              { expand_macro env st0 with prev_lexptr := some ( expand_macro env st0).lexptr }
              = true
        · rw [if_pos hc]
          exact pop_macro_expansion_switch env _ saw _ hc.1 hc.2
        · rw [if_neg hc]

/-- C35: the saved position of a macro expansion is one slot that is never
filled twice.  The statements that look for a macro invocation, with the
assertion of `scan_macro_expansion`, never fail and give the globals
`expand_macro` gives: the call is made only while `macro_original_text` is
null, and it saves the position beyond the invocation.  The lexer written with
the assertions of both functions runs as the lexer without them.  At the end of the text
while an expansion is scanned, and only then, the `switch` calls
`finished_macro_expansion`, whose assertion holds: it puts the saved position
in `lexptr` and leaves the slot empty before the jump to `retry`. -/
theorem expansion_slot_single (env : Env) (retry : State → Except Failure (Nat × State))
    (saw : Bool) (st : State) :
    check_macro_invocation env st = Except.ok ( expand_macro env st) ∧
    (∀ fuel : Nat, lex_retry_checked env fuel saw st = lex_retry env fuel saw st) ∧
    (scanning_macro_expansion st = true →
      ( expand_macro env st = st) ∧
      ∃ st1 : State, finished_macro_expansion st = Except.ok st1 ∧
        some st1.lexptr = st.macro_original_text ∧ st1.macro_original_text = none ∧
        (deref st.lexptr = NUL →
          lex_switch env retry saw st = pop_macro_expansion retry st ∧
          lex_switch env retry saw st = retry st1)) ∧
    (scanning_macro_expansion st = false →
      (∀ expanded after : List Char,
        env.macro_expand_next st.lexptr = some (expanded, after) →
        scan_macro_expansion { st with lexptr := after } expanded =
          Except.ok ( expand_macro env st) ∧
        ( expand_macro env st).macro_original_text = some after ∧
        ( expand_macro env st).lexptr = expanded) ∧
      (deref st.lexptr = NUL →
        lex_switch env retry saw st =
          if st.saw_name_at_eof then Except.ok (COMPLETE, { st with saw_name_at_eof := false })
          else if saw then Except.ok (COMPLETE, st)
          else Except.ok (0, st))) := by
  refine ⟨check_macro_invocation_ok env st, fun fuel => lex_retry_checked_eq env saw fuel st,
    fun hs => ?_, fun hs => ?_⟩
  · unfold scanning_macro_expansion at hs
    cases hm : st.macro_original_text with
    | none => rw [hm] at hs; exact Bool.noConfusion hs
    | some original =>
      refine ⟨expand_macro_none env st (Or.inl hs),
        { st with lexptr := original, macro_original_text := none }, ?_, rfl, rfl, ?_⟩
      · unfold finished_macro_expansion
        rw [hm]
      · intro hend
        have h1 : lex_switch env retry saw st =
            retry { st with lexptr := original, macro_original_text := none } := by
          rw [lex_switch_nul env retry saw st hend, hm]
        refine ⟨?_, h1⟩
        rw [h1]
        unfold pop_macro_expansion finished_macro_expansion
        rw [hm]
  · unfold scanning_macro_expansion at hs
    have hm : st.macro_original_text = none := by
      cases h : st.macro_original_text with
      | none => rfl
      | some t => rw [h] at hs; exact Bool.noConfusion hs
    refine ⟨fun expanded after hx => ?_, fun hend => ?_⟩
    · have he : expand_macro env st =
          { st with macro_original_text := some after, lexptr := expanded } := by
        unfold expand_macro
        rw [hm]
        simp only [hx]
      rw [he]
      refine ⟨?_, rfl, rfl⟩
      simp only [scan_macro_expansion, hm, Option.isSome_none, Bool.false_eq_true, if_false]
    · rw [lex_switch_nul env retry saw st hend, hm]

/-- C35 at a state that scans the expansion `1` of a macro met before `+x`: the
end of the expansion pops back to `+x` and empties the slot. -/
theorem expansion_slot_single_witness :
    scanning_macro_expansion
      { lexptr := [], macro_original_text := some "+x".toList } = true ∧
    finished_macro_expansion { lexptr := [], macro_original_text := some "+x".toList } =
      Except.ok { lexptr := "+x".toList } :=
  ⟨rfl,
   Exists.elim
     ((expansion_slot_single env_c (fun s => Except.ok (0, s)) false
        { lexptr := [], macro_original_text := some "+x".toList }).2.2.1 rfl).2
     (fun _ _ => rfl)⟩

/-! ## No error recovery in the parser -/

theorem yyerrlab1_abort (yyss : List Nat)
    (h : ∀ yystate ∈ yyss, error_shift yystate = none) : yyerrlab1 yyss = none := by
  induction yyss with
  | nil => rfl
  | cons s rest ih =>
    rw [yyerrlab1, h s (List.mem_cons_self _ _)]
    exact ih (fun t ht => h t (List.mem_cons_of_mem _ ht))

set_option maxRecDepth 100000 in
/-- C36: the symbol `error` (number 1) stands in no right-hand side of `yyrhs`;
no state of the parser shifts the token `error`, so the loop at `yyerrlab1`
pops every stack of states down to its bottom and ends in `YYABORT`; and the
parser reports a syntax error through `yyerror`, which raises the error and
ends the parse, as at the text `a b`. -/
theorem no_error_recovery (yyss : List Nat) (h : ∀ yystate ∈ yyss, yystate < yypact.length) :
    (1 : Int) ∉ yyrhs ∧
    (∀ yystate < yypact.length, error_shift yystate = none) ∧
    yyerrlab1 yyss = none ∧
    (∀ (env : Env) (s : yystacks) (st : State), table_nat yydefact (s.yyss.headD 0) = 0 →
      yydefault env s st = Except.error (Failure.error (msg_yyerror "syntax error" st))) ∧
    ∀ cplus : Bool, parse_expout (env_variables cplus) 100 "a b" =
      Except.error (Failure.error "A syntax error in expression, near `b'.") := by
  have hshift : ∀ yystate < yypact.length, error_shift yystate = none := by decide
  refine ⟨by decide, hshift,
    yyerrlab1_abort yyss (fun s hs => hshift s (h s hs)), ?_,
    fun cplus => by cases cplus <;> decide⟩
  intro env s st h0
  unfold yydefault
  simp only [h0, if_true]
  rfl

set_option maxRecDepth 100000 in
/-- C36 at the stack of the states 0 and 1. -/
theorem no_error_recovery_witness :
    (∀ yystate ∈ [1, 0], yystate < yypact.length) ∧ yyerrlab1 [1, 0] = none :=
  ⟨by decide, (no_error_recovery [1, 0] (by decide)).2.2.1⟩

/-! ## The names of the compound assignment operators -/

set_option maxRecDepth 100000 in
/-- C37: `operator_stoken (op)` is the text `operator` with `op` directly after
it, 8 characters longer than `op`.  The compound assignment operators of the
tables are the ten spellings `>>=`, `<<=`, `+=`, `-=`, `*=`, `/=`, `%=`, `|=`,
`&=`, `^=`; for each the text rule 186 chooses for the opcode the lexer attaches
is the spelling itself, so the action gives `operator` followed by the spelling,
and the C++ parse of `operator` followed by the spelling looks up the variable
of that name. -/
theorem operator_assign_modify (op : List Char) :
    operator_stoken op = "operator".toList ++ op ∧
    (operator_stoken op).length = 8 + op.length ∧
    assign_modify_tokens.map (fun e => e.operator) =
      [">>=", "<<=", "+=", "-=", "*=", "/=", "%=", "|=", "&=", "^="].map String.toList ∧
    (∀ e ∈ assign_modify_tokens, (assign_modify_text e.opcode).toList = e.operator) ∧
    (∀ e ∈ assign_modify_tokens, ∀ (env : Env) (yyval : YYSTYPE) (st : State),
      yyaction env 186 [{ opcode := e.opcode }] yyval st =
        Except.ok ({ yyval with stoken := "operator".toList ++ e.operator }, st)) ∧
    ∀ e ∈ assign_modify_tokens,
      parse_expout (env_words true false) 100 (String.mk ("operator".toList ++ e.operator)) =
        Except.ok (word_elts (String.mk ("operator".toList ++ e.operator))) := by
  refine ⟨rfl, ?_, by decide, by decide, ?_, by decide⟩
  · show ("operator".toList ++ op).length = 8 + op.length
    rw [List.length_append]
    rfl
  · intro e he env yyval st
    have h : ∀ e ∈ assign_modify_tokens, (assign_modify_text e.opcode).toList = e.operator := by
      decide
    have hy : yyaction env 186 [{ opcode := e.opcode }] yyval st =
        Except.ok ({ yyval with
          stoken := operator_stoken (assign_modify_text e.opcode).toList }, st) := rfl
    rw [hy, h e he]
    rfl

/-! ## The depth of the brackets -/

theorem paren_delta_count (token : Nat) (rest : List Nat) :
    (count_open (token :: rest) : Int) - count_close (token :: rest) =
      paren_delta token + ((count_open rest : Int) - count_close rest) := by
  unfold count_open count_close paren_delta
  rw [List.countP_cons, List.countP_cons]
  by_cases h1 : token = '('.toNat ∨ token = '['.toNat
  · have h2 : ¬ (token = ')'.toNat ∨ token = ']'.toNat) := by
      rcases h1 with h | h <;> rw [h] <;> decide
    have e1 : (decide (token = '('.toNat) || decide (token = '['.toNat)) = true := by
      simpa using h1
    have e2 : (decide (token = ')'.toNat) || decide (token = ']'.toNat)) = false := by
      simpa using h2
    rw [if_pos h1, e1, e2]
    simp only [if_true, Bool.false_eq_true, if_false, Nat.cast_add, Nat.cast_one, add_zero]
    omega
  · have e1 : (decide (token = '('.toNat) || decide (token = '['.toNat)) = false := by
      simpa using h1
    rw [if_neg h1, e1]
    by_cases h2 : token = ')'.toNat ∨ token = ']'.toNat
    · have e2 : (decide (token = ')'.toNat) || decide (token = ']'.toNat)) = true := by
        simpa using h2
      rw [if_pos h2, e2]
      simp only [if_true, Bool.false_eq_true, if_false, Nat.cast_add, Nat.cast_one, add_zero]
      omega
    · have e2 : (decide (token = ')'.toNat) || decide (token = ']'.toNat)) = false := by
        simpa using h2
      rw [if_neg h2, e2]
      simp only [Bool.false_eq_true, if_false, add_zero, zero_add]

theorem lex_sequence_depth (env : Env) (fuel : Nat) :
    ∀ (count : Nat) (st : State) (tokens : List Nat) (st1 : State),
      0 ≤ st.paren_depth → lex_sequence env fuel count st = Except.ok (tokens, st1) →
      st1.paren_depth = st.paren_depth + ((count_open tokens : Int) - count_close tokens) ∧
      0 ≤ st1.paren_depth := by
  intro count
  induction count with
  | zero =>
    intro st tokens st1 h0 h
    injection h with h
    injection h with h1 h2
    rw [← h1, ← h2]
    exact ⟨by simp [count_open, count_close], h0⟩
  | succ count ih =>
    intro st tokens st1 h0 h
    rw [lex_sequence] at h
    cases hl : lex_one_token env fuel st with
    | error e => rw [hl] at h; exact Except.noConfusion h
    | ok r =>
      rw [hl] at h
      simp only at h
      cases hs : lex_sequence env fuel count r.2 with
      | error e => rw [hs] at h; exact Except.noConfusion h
      | ok q =>
        rw [hs] at h
        simp only at h
        injection h with h
        injection h with h1 h2
        obtain ⟨_, _, _, hd, hc, _⟩ := lex_one_token_frame env fuel st r hl
        have hr0 : 0 ≤ r.2.paren_depth := by
          rw [hd]
          unfold paren_delta
          by_cases a1 : r.1 = '('.toNat ∨ r.1 = '['.toNat
          · rw [if_pos a1]; omega
          · rw [if_neg a1]
            by_cases a2 : r.1 = ')'.toNat ∨ r.1 = ']'.toNat
            · rw [if_pos a2]
              have := hc a2
              omega
            · rw [if_neg a2]; omega
        obtain ⟨i1, i2⟩ := ih r.2 q.1 q.2 hr0 hs
        rw [← h1, ← h2]
        refine ⟨?_, i2⟩
        rw [i1, hd, paren_delta_count]
        omega

/-- C39: start from a state with `paren_depth` 0 and let any number of calls of
`lex_one_token` return.  Each call moves `paren_depth` by 1 at a token `(` or
`[`, by -1 at a token `)` or `]`, and not at all at every other token; so the
depth after the calls is the number of tokens `(` and `[` returned less the
number of tokens `)` and `]` returned, and it is not negative. -/
theorem paren_depth_balance (env : Env) (fuel count : Nat) (st : State) (tokens : List Nat)
    (st1 : State) (h0 : st.paren_depth = 0)
    (h : lex_sequence env fuel count st = Except.ok (tokens, st1)) :
    st1.paren_depth = (count_open tokens : Int) - count_close tokens ∧
    0 ≤ st1.paren_depth ∧
    ∀ (s : State) (r : Nat × State), lex_one_token env fuel s = Except.ok r →
      r.2.paren_depth = s.paren_depth + paren_delta r.1 := by
  obtain ⟨h1, h2⟩ := lex_sequence_depth env fuel count st tokens st1 (by rw [h0]) h
  refine ⟨?_, h2, fun s r hr => (lex_one_token_frame env fuel s r hr).2.2.2.1⟩
  rw [h1, h0, zero_add]

/-- C39 at the text `(a[b` in C: after four tokens the depth is 2. -/
theorem paren_depth_balance_witness :
    (initial_state "(a[b".toList).paren_depth = 0 ∧
    lex_sequence env_c 1 4 (initial_state "(a[b".toList) =
      Except.ok (['('.toNat, NAME, '['.toNat, NAME],
        { lexptr := [], prev_lexptr := some "b".toList, paren_depth := 2,
          yylval := { stoken := "b".toList } }) ∧
    (2 : Int) = (count_open ['('.toNat, NAME, '['.toNat, NAME] : Int)
      - count_close ['('.toNat, NAME, '['.toNat, NAME] :=
  ⟨rfl, by decide,
   (paren_depth_balance env_c 1 4 (initial_state "(a[b".toList)
      ['('.toNat, NAME, '['.toNat, NAME]
      { lexptr := [], prev_lexptr := some "b".toList, paren_depth := 2,
        yylval := { stoken := "b".toList } } rfl (by decide)).1⟩

/-! ## The encoding of a concatenation of strings -/

theorem concat_type_acc (vec : List typed_stoken)
    (hvalid : ∀ tok ∈ vec, is_string_type tok = true) :
    ∀ acc : Nat, concat_type vec acc =
      concat_of ((if acc = C_STRING then [] else [acc]) ++ wide_types vec) := by
  induction vec with
  | nil =>
    intro acc
    by_cases ha : acc = C_STRING
    · rw [if_pos ha, ha]; rfl
    · rw [if_neg ha]
      simp [concat_type, concat_of, wide_types]
  | cons tok rest ih =>
    intro acc
    have ih2 := ih (fun t ht => hvalid t (List.mem_cons_of_mem _ ht))
    have hv := hvalid tok (List.mem_cons_self _ _)
    by_cases hp : tok.type = C_STRING
    · have hw : wide_types (tok :: rest) = wide_types rest := by
        simp [wide_types, hp]
      rw [concat_type, if_pos hp, hw]
      exact ih2 acc
    · have hw : wide_types (tok :: rest) = tok.type :: wide_types rest := by
        simp [wide_types, hp]
      have hv2 : tok.type = C_WIDE_STRING ∨ tok.type = C_STRING_16 ∨ tok.type = C_STRING_32 := by
        simp only [is_string_type, Bool.or_eq_true, decide_eq_true_eq] at hv
        tauto
      rw [concat_type, if_neg hp, if_pos hv2, hw]
      by_cases ha : acc = C_STRING
      · have hc : ¬ (acc ≠ C_STRING ∧ acc ≠ tok.type) := fun h => h.1 ha
        rw [if_neg hc, if_pos ha, ih2 tok.type, if_neg hp]
        rfl
      · rw [if_neg ha]
        by_cases hb : acc = tok.type
        · have hc : ¬ (acc ≠ C_STRING ∧ acc ≠ tok.type) := fun h => h.2 hb
          rw [if_neg hc, ih2 tok.type, if_neg hp, hb]
          simp [concat_of]
        · rw [if_pos ⟨ha, hb⟩]
          have hne : ¬ (tok.type = acc) := fun h => hb h.symm
          simp [concat_of, hne]

theorem concat_of_error (types : List Nat) :
    concat_of types = Except.error (Failure.error "Undefined string concatenation.") ↔
      ∃ a ∈ types, ∃ b ∈ types, a ≠ b := by
  cases types with
  | nil => simp [concat_of]
  | cons t rest =>
    have hdef : concat_of (t :: rest) =
        if rest.all (fun u => decide (u = t)) = true then Except.ok t
        else Except.error (Failure.error "Undefined string concatenation.") := rfl
    rw [hdef]
    by_cases hall : rest.all (fun u => decide (u = t)) = true
    · rw [if_pos hall]
      have hall2 : ∀ u ∈ rest, u = t := by simpa using hall
      constructor
      · intro h; exact Except.noConfusion h
      · rintro ⟨a, ha, b, hb, hab⟩
        have e1 : a = t := by
          rcases List.mem_cons.1 ha with h | h
          · exact h
          · exact hall2 a h
        have e2 : b = t := by
          rcases List.mem_cons.1 hb with h | h
          · exact h
          · exact hall2 b h
        exact absurd (e1.trans e2.symm) hab
    · rw [if_neg hall]
      have hex : ∃ u ∈ rest, u ≠ t := by simpa using hall
      obtain ⟨u, hu, hut⟩ := hex
      exact ⟨fun _ => ⟨u, List.mem_cons_of_mem _ hu, t, List.mem_cons_self _ _, hut⟩,
        fun _ => rfl⟩

theorem mem_wide_types (vec : List typed_stoken) (t : Nat) :
    t ∈ wide_types vec ↔ ∃ tok ∈ vec, tok.type = t ∧ t ≠ C_STRING := by
  simp only [wide_types, List.mem_filter, List.mem_map, decide_eq_true_eq]
  constructor
  · rintro ⟨⟨tok, h1, h2⟩, h3⟩
    exact ⟨tok, h1, h2, h3⟩
  · rintro ⟨tok, h1, h2, h3⟩
    exact ⟨⟨tok, h1, h2⟩, h3⟩

theorem concat_type_wide (vec : List typed_stoken)
    (hvalid : ∀ tok ∈ vec, is_string_type tok = true) :
    concat_type vec C_STRING = concat_of (wide_types vec) := by
  rw [concat_type_acc vec hvalid C_STRING, if_pos rfl, List.nil_append]

set_option maxRecDepth 100000 in
/-- C40: for a run of string literals, each in one of the four encodings, the
loop of rule 79 gives the plain encoding when every literal is plain; the
encoding `t` when some literal has the encoding `t` other than plain and every
literal is plain or has `t`; and it fails with "Undefined string
concatenation." exactly when two literals have different encodings other than
plain.  The action writes the literals as they stand in the vector, to which
rule 78 adds each literal at the end, so in the order of the text: the parse of
`"a" L"b" "c"` writes the wide vector of `a`, `b`, `c`, and the parse of
`L"a" u"b"` fails. -/
theorem concat_encoding (vec : List typed_stoken)
    (hvalid : ∀ tok ∈ vec, is_string_type tok = true) :
    ((∀ tok ∈ vec, tok.type = C_STRING) → concat_type vec C_STRING = Except.ok C_STRING) ∧
    (∀ t : Nat, t ≠ C_STRING → (∃ tok ∈ vec, tok.type = t) →
      (∀ tok ∈ vec, tok.type = C_STRING ∨ tok.type = t) →
      concat_type vec C_STRING = Except.ok t) ∧
    (concat_type vec C_STRING =
        Except.error (Failure.error "Undefined string concatenation.") ↔
      ∃ a ∈ vec, ∃ b ∈ vec, a.type ≠ C_STRING ∧ b.type ≠ C_STRING ∧ a.type ≠ b.type) ∧
    (∀ (env : Env) (yyval : YYSTYPE) (st : State) (type : Nat),
      concat_type vec C_STRING = Except.ok type →
      yyaction env 79 [{ svec := vec }] yyval st =
        Except.ok (yyval, write_exp st [Elt.string_vector type vec])) ∧
    (∀ (env : Env) (tok : typed_stoken) (yyval : YYSTYPE) (st : State),
      yyaction env 78 [{ tsval := tok }] yyval st =
        Except.ok ({ yyval with svec := yyval.svec ++ [tok] }, st)) ∧
    parse_expout env_c 100 "\"a\" L\"b\" \"c\"" =
      Except.ok [Elt.string_vector C_WIDE_STRING
        [⟨C_STRING, "a".toList⟩, ⟨C_WIDE_STRING, "b".toList⟩, ⟨C_STRING, "c".toList⟩]] ∧
    parse_expout env_c 100 "L\"a\" u\"b\"" =
      Except.error (Failure.error "Undefined string concatenation.") := by
  have hw := concat_type_wide vec hvalid
  refine ⟨fun hall => ?_, fun t ht hex hall => ?_, ?_, ?_, fun env tok yyval st => rfl,
    by decide, by decide⟩
  · have he : wide_types vec = [] := by
      rw [List.eq_nil_iff_forall_not_mem]
      intro u hu
      obtain ⟨tok, h1, h2, h3⟩ := (mem_wide_types vec u).1 hu
      exact h3 (h2 ▸ hall tok h1)
    rw [hw, he]
    rfl
  · have hmem : ∀ u ∈ wide_types vec, u = t := by
      intro u hu
      obtain ⟨tok, h1, h2, h3⟩ := (mem_wide_types vec u).1 hu
      rcases hall tok h1 with h | h
      · exact absurd (h2 ▸ h) h3
      · exact h2 ▸ h
    obtain ⟨tok, h1, h2⟩ := hex
    have hin : t ∈ wide_types vec := (mem_wide_types vec t).2 ⟨tok, h1, h2, ht⟩
    rw [hw]
    cases hl : wide_types vec with
    | nil => rw [hl] at hin; exact absurd hin (List.not_mem_nil _)
    | cons u rest =>
      rw [hl] at hmem
      have hu : u = t := hmem u (List.mem_cons_self _ _)
      have hall2 : rest.all (fun v => decide (v = u)) = true := by
        rw [List.all_eq_true]
        intro v hv
        rw [hu]
        simpa using hmem v (List.mem_cons_of_mem _ hv)
      show (if rest.all (fun v => decide (v = u)) = true then Except.ok u
        else Except.error (Failure.error "Undefined string concatenation.")) = Except.ok t
      rw [if_pos hall2, hu]
  · rw [hw, concat_of_error]
    constructor
    · rintro ⟨a, ha, b, hb, hab⟩
      obtain ⟨ta, a1, a2, a3⟩ := (mem_wide_types vec a).1 ha
      obtain ⟨tb, b1, b2, b3⟩ := (mem_wide_types vec b).1 hb
      exact ⟨ta, a1, tb, b1, a2 ▸ a3, b2 ▸ b3, a2 ▸ b2 ▸ hab⟩
    · rintro ⟨ta, a1, tb, b1, a3, b3, hab⟩
      exact ⟨ta.type, (mem_wide_types vec _).2 ⟨ta, a1, rfl, a3⟩, tb.type,
        (mem_wide_types vec _).2 ⟨tb, b1, rfl, b3⟩, hab⟩
  · intro env yyval st type h
    have hy : yyaction env 79 [{ svec := vec }] yyval st =
        match concat_type vec C_STRING with
        | Except.error e => Except.error e
        | Except.ok type => Except.ok (yyval, write_exp st [Elt.string_vector type vec]) := rfl
    rw [hy, h]

/-- C40 for a plain literal and a wide one: the result is wide. -/
theorem concat_encoding_witness :
    (∀ tok ∈ [(⟨C_STRING, "a".toList⟩ : typed_stoken), ⟨C_WIDE_STRING, "b".toList⟩],
      is_string_type tok = true) ∧
    concat_type [⟨C_STRING, "a".toList⟩, ⟨C_WIDE_STRING, "b".toList⟩] C_STRING =
      Except.ok C_WIDE_STRING :=
  ⟨by decide,
   (concat_encoding [⟨C_STRING, "a".toList⟩, ⟨C_WIDE_STRING, "b".toList⟩] (by decide)).2.1
      C_WIDE_STRING (by decide) ⟨⟨C_WIDE_STRING, "b".toList⟩, by decide, rfl⟩ (by decide)⟩

/-! ## The bound on the token FIFO -/

theorem classified_frame (env : Env) (token1 : Nat) (st1 : State) (r : Nat × State)
    (h : (if token1 = NAME then classify_name env env.expression_context_block st1
      else Except.ok (token1, st1)) = Except.ok r) :
    r.2.token_fifo = st1.token_fifo ∧ r.2.popping = st1.popping := by
  by_cases hn : token1 = NAME
  · rw [if_pos hn] at h
    obtain ⟨h1, h2, _⟩ := classify_name_frame env _ st1 r h
    exact ⟨h1, h2⟩
  · rw [if_neg hn] at h
    injection h with h
    rw [← h]
    exact ⟨rfl, rfl⟩

/-- What a call of `yylex` that finds the FIFO empty leaves in it: nothing, or
with `popping` set the token that ended the aggregation, behind a `::` if one
is pending after an aggregated type name. -/
theorem yylex_fresh_fifo (env : Env) (fuel : Nat) (st0 : State) (r : Nat × State)
    (hfifo : st0.token_fifo = []) (h : yylex env fuel st0 = Except.ok r) :
    (r.2.token_fifo = [] ∧ r.2.popping = false) ∨
    ∃ (stopper : token_and_value) (s s1 : State),
      lex_one_token env fuel s = Except.ok (stopper.token, s1) ∧ stopper.value = s1.yylval ∧
      r.2.popping = true ∧
      ((r.1 = COLONCOLON ∧ r.2.yylval = {} ∧ r.2.token_fifo = [stopper]) ∨
       (r.1 = TYPENAME ∧ r.2.token_fifo = [coloncolon_token, stopper]) ∨
       (r.1 = TYPENAME ∧ r.2.token_fifo = [stopper])) := by
  obtain ⟨token1, st1, token, st2, h1, h2, h3⟩ := yylex_fresh env fuel st0 r hfifo h
  obtain ⟨f1, f2, _⟩ := lex_one_token_frame env fuel _ _ h1
  obtain ⟨g1, g2⟩ := classified_frame env token1 st1 _ h2
  have e1 : st2.token_fifo = [] := by
    rw [g1]
    have : st1.token_fifo = st0.token_fifo := f1
    rw [this, hfifo]
  have e2 : st2.popping = false := by
    rw [g2]
    exact f2
  rcases h3 with ⟨_, hr⟩ | ⟨_, ht, loc, hloop, hr⟩
  · left
    rw [hr]
    exact ⟨e1, e2⟩
  · right
    have hj : ({ token := token, value := st2.yylval } : token_and_value).token = TYPENAME ∨
        (true = true ∧ decide (token = COLONCOLON) = true ∧
          decide (token = COLONCOLON) = true) := by
      rcases ht with ht | ht
      · exact Or.inl ht
      · exact Or.inr ⟨rfl, decide_eq_true ht, decide_eq_true ht⟩
    obtain ⟨⟨next, s, s1, a1, a2, a3⟩, _, c, _⟩ :=
      yylex_loop_spec env fuel _ fuel _ true _ _ loc hloop hj
    have a3b : loc.st.token_fifo = [next] := by
      rw [a3]
      show st2.token_fifo ++ [next] = [next]
      rw [e1]
      rfl
    refine ⟨next, s, s1, a1, a2, ?_⟩
    rw [hr]
    unfold yylex_return
    by_cases c1 : (loc.last_was_coloncolon && decide (token = COLONCOLON) && loc.first_iter)
        = true
    · rw [if_pos c1]
      exact ⟨rfl, Or.inl ⟨rfl, rfl, a3b⟩⟩
    · rw [if_neg c1]
      have hty : loc.last_was_coloncolon = true → loc.current.token = TYPENAME := by
        intro hl
        rcases c with c | c
        · exact c
        · exfalso
          apply c1
          rw [hl, c.1, c.2.2]
          rfl
      by_cases c2 : loc.last_was_coloncolon = true
      · rw [if_pos c2]
        refine ⟨rfl, Or.inr (Or.inl ⟨hty c2, ?_⟩)⟩
        show coloncolon_token :: loc.st.token_fifo = _
        rw [a3b]
      · rw [if_neg c2]
        refine ⟨rfl, Or.inr (Or.inr ⟨?_, a3b⟩)⟩
        rcases c with c | c
        · exact c
        · exact absurd c.2.1 c2

theorem yylex_fifo_invariant (env : Env) (fuel : Nat) (st : State) (r : Nat × State)
    (hinv : fifo_invariant st) (h : yylex env fuel st = Except.ok r) :
    fifo_invariant r.2 := by
  cases hf : st.token_fifo with
  | nil =>
    rcases yylex_fresh_fifo env fuel st r hf h with ⟨a, _⟩ | ⟨stopper, _, _, _, _, hp, hq⟩
    · unfold fifo_invariant
      rw [a]
      exact ⟨by decide, fun hn => absurd rfl hn⟩
    · unfold fifo_invariant
      rcases hq with ⟨_, _, q⟩ | ⟨_, q⟩ | ⟨_, q⟩ <;> rw [q] <;>
        exact ⟨by simp only [List.length_cons, List.length_nil]; omega, fun _ => hp⟩
  | cons tv rest =>
    have hpop : st.popping = true := hinv.2 (by rw [hf]; exact List.cons_ne_nil _ _)
    rw [yylex_pop env fuel st tv rest hpop hf] at h
    injection h with h
    rw [← h]
    have hlen := hinv.1
    rw [hf] at hlen
    exact ⟨by simp only [List.length_cons] at hlen; show rest.length ≤ 2; omega,
      fun _ => hpop⟩

theorem yylex_values_invariant (env : Env) (fuel : Nat) :
    ∀ (count : Nat) (st : State) (values : List token_and_value) (st1 : State),
      fifo_invariant st → yylex_values env fuel count st = Except.ok (values, st1) →
      fifo_invariant st1 := by
  intro count
  induction count with
  | zero =>
    intro st values st1 hinv h
    injection h with h
    injection h with _ h2
    rw [← h2]
    exact hinv
  | succ count ih =>
    intro st values st1 hinv h
    rw [yylex_values] at h
    cases hy : yylex env fuel st with
    | error e => rw [hy] at h; exact Except.noConfusion h
    | ok r =>
      rw [hy] at h
      simp only at h
      cases hv : yylex_values env fuel count r.2 with
      | error e => rw [hv] at h; exact Except.noConfusion h
      | ok q =>
        rw [hv] at h
        simp only at h
        injection h with h
        injection h with _ h2
        rw [← h2]
        exact ih r.2 q.1 q.2 (yylex_fifo_invariant env fuel st r hinv hy) hv

/-- C38: the state `c_parse` sets up has an empty token FIFO.  From a state
whose FIFO holds at most 2 tokens, with `popping` set if it holds any, every
return of `yylex`, and so every run of returns, leaves such a state again.  In
such a state a queued token is the next one returned, and the inner lexer and
the aggregation of names run only when the FIFO is empty. -/
theorem token_fifo_bounded (env : Env) (fuel : Nat) (st : State) (hinv : fifo_invariant st) :
    (∀ r : Nat × State, yylex env fuel st = Except.ok r → fifo_invariant r.2) ∧
    (∀ (count : Nat) (values : List token_and_value) (st1 : State),
      yylex_values env fuel count st = Except.ok (values, st1) → fifo_invariant st1) ∧
    (∀ (tv : token_and_value) (rest : List token_and_value), st.token_fifo = tv :: rest →
      yylex env fuel st =
        Except.ok (tv.token, { st with token_fifo := rest, yylval := tv.value })) ∧
    (¬ (st.popping = true ∧ st.token_fifo ≠ []) → st.token_fifo = []) ∧
    ∀ s : State, fifo_invariant
      { s with last_was_structop := false, saw_name_at_eof := false, token_fifo := [],
               popping := false, name_obstack := [] } := by
  refine ⟨fun r h => yylex_fifo_invariant env fuel st r hinv h,
    fun count values st1 h => yylex_values_invariant env fuel count st values st1 hinv h,
    fun tv rest hf => ?_, fun hn => ?_,
    fun s => ⟨Nat.zero_le 2, fun hn => absurd rfl hn⟩⟩
  · exact yylex_pop env fuel st tv rest
      (hinv.2 (by rw [hf]; exact List.cons_ne_nil _ _)) hf
  · by_contra hne
    exact hn ⟨hinv.2 hne, hne⟩

/-- C38 in `env_nested` at the text `Foo::x`: the first call returns the type
name and leaves `::` and `x` queued with `popping` set. -/
theorem token_fifo_bounded_witness :
    fifo_invariant (initial_state "Foo::x".toList) ∧
    ∀ r : Nat × State, yylex env_nested 20 (initial_state "Foo::x".toList) = Except.ok r →
      fifo_invariant r.2 :=
  ⟨⟨by decide, fun hn => absurd rfl hn⟩,
   (token_fifo_bounded env_nested 20 (initial_state "Foo::x".toList)
      ⟨by decide, fun hn => absurd rfl hn⟩).1⟩

/-! ## A pending `::` and the text of a qualified name -/

theorem qualified_name_snoc (name : List Char) :
    ∀ comps : List (List Char), comps ≠ [] →
      qualified_name (comps ++ [name]) = qualified_name comps ++ "::".toList ++ name := by
  intro comps
  induction comps with
  | nil => intro h; exact absurd rfl h
  | cons first rest ih =>
    intro _
    cases rest with
    | nil => rfl
    | cons second rest =>
      have h1 : qualified_name ((first :: second :: rest) ++ [name]) =
          first ++ "::".toList ++ qualified_name ((second :: rest) ++ [name]) := rfl
      have h2 : qualified_name (first :: second :: rest) =
          first ++ "::".toList ++ qualified_name (second :: rest) := rfl
      rw [h1, h2, ih (List.cons_ne_nil _ _)]
      simp only [List.append_assoc]

/-- The text the loop of `yylex` aggregates: with the obstack holding the
components `comps` joined by `::`, the loop leaves in it, and in the value of
`current`, those components and the names it has added, joined by `::`. -/
theorem yylex_loop_text (env : Env) (lexfuel : Nat) (fwc : Bool) :
    ∀ (fuel : Nat) (lwc fi : Bool) (current : token_and_value) (st : State)
      (loc : yylex_locals) (comps : List (List Char)),
      yylex_loop env lexfuel fwc fuel lwc fi current st = Except.ok loc →
      st.name_obstack = qualified_name comps →
      (comps ≠ [] → current.value.stoken = qualified_name comps) →
      (comps = [] ↔ (fi = true ∧ lwc = true)) →
      ∃ more : List (List Char),
        (∀ name ∈ more, lexed_name env lexfuel name) ∧
        loc.st.name_obstack = qualified_name (comps ++ more) ∧
        (comps ++ more ≠ [] → loc.current.value.stoken = qualified_name (comps ++ more)) ∧
        (comps ++ more = [] ↔ (loc.first_iter = true ∧ loc.last_was_coloncolon = true)) ∧
        (more = [] → loc.current = current) := by
  intro fuel
  induction fuel with
  | zero => intro lwc fi current st loc comps h; exact Except.noConfusion h
  | succ fuel ih =>
    intro lwc fi current st loc comps h hob hcur hemp
    rw [yylex_loop] at h
    cases hl : lex_one_token env lexfuel st with
    | error e => rw [hl] at h; exact Except.noConfusion h
    | ok q =>
      obtain ⟨token, st1⟩ := q
      rw [hl] at h
      simp only at h
      obtain ⟨_, _, f3, _⟩ := lex_one_token_frame env lexfuel st _ hl
      have f3b : st1.name_obstack = st.name_obstack := f3
      by_cases hn : token = NAME ∧ lwc = true
      · rw [if_pos hn] at h
        cases hc : classify_inner_name env
            (if fwc = true then none else env.expression_context_block) fi st1 with
        | error e => rw [hc] at h; exact Except.noConfusion h
        | ok c =>
          obtain ⟨classification, st2⟩ := c
          rw [hc] at h
          simp only at h
          obtain ⟨_, _, g3⟩ := classify_inner_name_frame env _ fi st1 _ hc
          have g3b : st2.name_obstack = st1.name_obstack := g3
          by_cases ht : classification ≠ TYPENAME
          · rw [if_pos ht] at h
            injection h with h
            rw [← h]
            refine ⟨[], fun _ hm => absurd hm (List.not_mem_nil _), ?_, ?_, ?_, fun _ => rfl⟩
            · rw [List.append_nil]
              show st2.name_obstack = _
              rw [g3b, f3b, hob]
            · rw [List.append_nil]
              exact hcur
            · rw [List.append_nil]
              exact hemp
          · rw [if_neg ht] at h
            have hname : st2.name_obstack ++ (if fi = true then [] else "::".toList)
                ++ st1.yylval.stoken = qualified_name (comps ++ [st1.yylval.stoken]) := by
              rw [g3b, f3b, hob]
              by_cases hfi : fi = true
              · rw [if_pos hfi, hemp.2 ⟨hfi, hn.2⟩]
                rfl
              · rw [if_neg hfi]
                exact (qualified_name_snoc _ comps
                  (fun hc0 => hfi (hemp.1 hc0).1)).symm
            obtain ⟨more, m1, m2, m3, m4, _⟩ := ih false false _ _ loc
              (comps ++ [st1.yylval.stoken]) h hname (fun _ => hname)
              ⟨fun h0 => absurd h0 (List.append_ne_nil_of_right_ne_nil _ (List.cons_ne_nil _ _)),
               fun h0 => absurd h0.1 (by decide)⟩
            rw [List.append_assoc] at m2 m3 m4
            refine ⟨st1.yylval.stoken :: more, ?_, m2, m3, m4,
              fun h0 => absurd h0 (List.cons_ne_nil _ _)⟩
            intro name hmem
            rcases List.mem_cons.1 hmem with hmem | hmem
            · rw [hmem]
              refine ⟨st, st1, ?_, rfl⟩
              rw [hl, hn.1]
            · exact m1 name hmem
      · rw [if_neg hn] at h
        by_cases hcc : token = COLONCOLON ∧ lwc = false
        · rw [if_pos hcc] at h
          have hne : comps ≠ [] := by
            intro h0
            have := (hemp.1 h0).2
            rw [hcc.2] at this
            exact absurd this (by decide)
          obtain ⟨more, m1, m2, m3, m4, m5⟩ := ih true false current st1 loc comps h
            (by rw [f3b, hob]) hcur
            ⟨fun h0 => absurd h0 hne, fun h0 => absurd h0.1 (by decide)⟩
          exact ⟨more, m1, m2, m3, m4, m5⟩
        · rw [if_neg hcc] at h
          injection h with h
          rw [← h]
          refine ⟨[], fun _ hm => absurd hm (List.not_mem_nil _), ?_, ?_, ?_, fun _ => rfl⟩
          · rw [List.append_nil]
            show st1.name_obstack = _
            rw [f3b, hob]
          · rw [List.append_nil]
            exact hcur
          · rw [List.append_nil]
            exact hemp

/-- C32: a call of `yylex` in C++ that finds the FIFO empty and returns a type
name or `::` has run the loop, which ends by queueing the token `stopper` that
stopped it.  If the first token was `::` and no name was added to it, the loop
ends with `::` pending, the call returns `::` with a cleared value, and the
next call returns the stopper.  Otherwise the call returns `TYPENAME` with the
text of the components (the first type name, unless the first token was `::`,
and the names added) joined by `::` with no `::` in front; if `::` is pending
the next two calls return `::` and then the stopper, and if not the next call
returns the stopper. -/
theorem yylex_pending_coloncolon (env : Env) (fuel : Nat) (st0 : State) (r : Nat × State)
    (hfifo : st0.token_fifo = []) (hcplus : env.cplus = true)
    (h : yylex env fuel st0 = Except.ok r) (htok : r.1 = TYPENAME ∨ r.1 = COLONCOLON) :
    ∃ (token : Nat) (st2 : State) (loc : yylex_locals) (stopper : token_and_value)
      (more : List (List Char)),
      yylex_loop env fuel (decide (token = COLONCOLON)) fuel (decide (token = COLONCOLON))
        true { token := token, value := st2.yylval }
        { st2 with name_obstack :=
            if decide (token = COLONCOLON) = true then [] else st2.yylval.stoken }
        = Except.ok loc ∧
      (∀ name ∈ more, lexed_name env fuel name) ∧
      (∃ s s1 : State, lex_one_token env fuel s = Except.ok (stopper.token, s1) ∧
        stopper.value = s1.yylval) ∧
      ((token = COLONCOLON ∧ more = []) →
        loc.last_was_coloncolon = true ∧ r.1 = COLONCOLON ∧ r.2.yylval = {} ∧
        yylex_values env fuel 1 r.2 =
          Except.ok ([stopper], { r.2 with token_fifo := [], yylval := stopper.value })) ∧
      (¬ (token = COLONCOLON ∧ more = []) →
        r.1 = TYPENAME ∧
        r.2.yylval.stoken =
          qualified_name ((if token = COLONCOLON then [] else [st2.yylval.stoken]) ++ more) ∧
        (loc.last_was_coloncolon = true →
          yylex_values env fuel 2 r.2 =
            Except.ok ([coloncolon_token, stopper],
              { r.2 with token_fifo := [], yylval := stopper.value })) ∧
        (loc.last_was_coloncolon = false →
          yylex_values env fuel 1 r.2 =
            Except.ok ([stopper], { r.2 with token_fifo := [], yylval := stopper.value }))) := by
  obtain ⟨token1, st1, token, st2, h1, h2, h3⟩ := yylex_fresh env fuel st0 r hfifo h
  obtain ⟨f1, _, _⟩ := lex_one_token_frame env fuel _ _ h1
  obtain ⟨g1, _⟩ := classified_frame env token1 st1 _ h2
  have e1 : st2.token_fifo = [] := by
    rw [g1]
    have : st1.token_fifo = st0.token_fifo := f1
    rw [this, hfifo]
  rcases h3 with ⟨hno, hr⟩ | ⟨_, ht, loc, hloop, hr⟩
  · exfalso
    rw [hr] at htok
    rcases hno with hno | hno
    · rw [hcplus] at hno
      exact Bool.noConfusion hno
    · rcases htok with htok | htok
      · exact hno.1 htok
      · exact hno.2 htok
  · have hj : ({ token := token, value := st2.yylval } : token_and_value).token = TYPENAME ∨
        (true = true ∧ decide (token = COLONCOLON) = true ∧
          decide (token = COLONCOLON) = true) := by
      rcases ht with ht | ht
      · exact Or.inl ht
      · exact Or.inr ⟨rfl, decide_eq_true ht, decide_eq_true ht⟩
    obtain ⟨⟨next, s, s1, a1, a2, a3⟩, _, c, _⟩ :=
      yylex_loop_spec env fuel _ fuel _ true _ _ loc hloop hj
    have a3b : loc.st.token_fifo = [next] := by
      rw [a3]
      show st2.token_fifo ++ [next] = [next]
      rw [e1]
      rfl
    have htext : ∃ more : List (List Char),
        (∀ name ∈ more, lexed_name env fuel name) ∧
        ((if token = COLONCOLON then [] else [st2.yylval.stoken]) ++ more ≠ [] →
          loc.current.value.stoken =
            qualified_name ((if token = COLONCOLON then [] else [st2.yylval.stoken]) ++ more)) ∧
        ((if token = COLONCOLON then [] else [st2.yylval.stoken]) ++ more = [] ↔
          (loc.first_iter = true ∧ loc.last_was_coloncolon = true)) := by
      by_cases hcc : token = COLONCOLON
      · obtain ⟨more, m1, _, m3, m4, _⟩ := yylex_loop_text env fuel _ fuel _ true _ _ loc []
          hloop (by show (if decide (token = COLONCOLON) = true then [] else _) = _
                    rw [if_pos (decide_eq_true hcc)]; rfl)
          (fun h0 => absurd rfl h0)
          ⟨fun _ => ⟨rfl, decide_eq_true hcc⟩, fun _ => rfl⟩
        rw [if_pos hcc]
        exact ⟨more, m1, m3, m4⟩
      · obtain ⟨more, m1, _, m3, m4, _⟩ := yylex_loop_text env fuel _ fuel _ true _ _ loc
          [st2.yylval.stoken] hloop
          (by show (if decide (token = COLONCOLON) = true then [] else _) = _
              rw [if_neg (fun h0 => hcc (of_decide_eq_true h0))]; rfl)
          (fun _ => rfl)
          ⟨fun h0 => absurd h0 (List.cons_ne_nil _ _),
           fun h0 => absurd (of_decide_eq_true h0.2) hcc⟩
        rw [if_neg hcc]
        exact ⟨more, m1, m3, m4⟩
    obtain ⟨more, m1, m3, m4⟩ := htext
    refine ⟨token, st2, loc, next, more, hloop, m1, ⟨s, s1, a1, a2⟩, ?_, ?_⟩
    · intro hsingle
      have hemp : (if token = COLONCOLON then [] else [st2.yylval.stoken]) ++ more = [] := by
        rw [if_pos hsingle.1, hsingle.2]
        rfl
      obtain ⟨hfi, hlwc⟩ := m4.1 hemp
      have hret : r = (COLONCOLON, { loc.st with popping := true, yylval := {} }) := by
        rw [hr]
        unfold yylex_return
        rw [if_pos (by rw [hlwc, hfi, decide_eq_true hsingle.1]; rfl)]
      rw [hret]
      refine ⟨hlwc, rfl, rfl, ?_⟩
      exact yylex_values_queue env fuel [next] [] _ rfl a3b
    · intro hnot
      have hne : (if token = COLONCOLON then [] else [st2.yylval.stoken]) ++ more ≠ [] := by
        intro h0
        apply hnot
        by_cases hcc : token = COLONCOLON
        · rw [if_pos hcc] at h0
          exact ⟨hcc, h0⟩
        · rw [if_neg hcc] at h0
          exact absurd h0 (List.cons_ne_nil _ _)
      have hnfl : ¬ (loc.first_iter = true ∧ loc.last_was_coloncolon = true) :=
        fun h0 => hne (m4.2 h0)
      have hty : loc.current.token = TYPENAME := by
        rcases c with c | c
        · exact c
        · exact absurd ⟨c.1, c.2.1⟩ hnfl
      have hcond : ¬ ((loc.last_was_coloncolon && decide (token = COLONCOLON) && loc.first_iter)
          = true) := by
        intro h0
        simp only [Bool.and_eq_true] at h0
        exact hnfl ⟨h0.2, h0.1.1⟩
      by_cases hl : loc.last_was_coloncolon = true
      · have hret : r = (loc.current.token,
            { loc.st with popping := true, token_fifo := coloncolon_token :: loc.st.token_fifo,
                          yylval := loc.current.value }) := by
          rw [hr]
          unfold yylex_return
          rw [if_neg hcond, if_pos hl]
        rw [hret]
        refine ⟨hty, m3 hne, fun _ => ?_, fun h0 => ?_⟩
        · exact yylex_values_queue env fuel [coloncolon_token, next] [] _ rfl
            (by show coloncolon_token :: loc.st.token_fifo = _; rw [a3b]; rfl)
        · rw [hl] at h0
          exact Bool.noConfusion h0
      · have hret : r = (loc.current.token,
            { loc.st with popping := true, yylval := loc.current.value }) := by
          rw [hr]
          unfold yylex_return
          rw [if_neg hcond, if_neg hl]
        rw [hret]
        refine ⟨hty, m3 hne, fun h0 => absurd h0 hl, fun _ => ?_⟩
        exact yylex_values_queue env fuel [next] [] _ rfl a3b

/-- C32 in `env_nested`: at the text `::x` the first call returns `::` and the
next one the queued name `x`; at `::Foo::Bar::x` and at `Foo::Bar::x` the
calls return the type name with the text `Foo::Bar`, then `::`, then `x`. -/
theorem yylex_pending_coloncolon_witness :
    (initial_state "::x".toList).token_fifo = [] ∧ env_nested.cplus = true ∧
    yylex env_nested 20 (initial_state "::x".toList) =
      Except.ok (COLONCOLON,
        { lexptr := [], prev_lexptr := some "x".toList, popping := true,
          token_fifo := [{ token := NAME,
                           value := { stoken := "x".toList,
                                      opcode := exp_opcode.BINOP_END } }] }) ∧
    (∃ stopper : token_and_value,
      yylex_values env_nested 20 1
          { lexptr := [], prev_lexptr := some "x".toList, popping := true,
            token_fifo := [{ token := NAME,
                             value := { stoken := "x".toList,
                                        opcode := exp_opcode.BINOP_END } }] } =
        Except.ok ([stopper],
          { lexptr := [], prev_lexptr := some "x".toList, popping := true,
            token_fifo := [], yylval := stopper.value })) ∧
    yylex_tokens env_nested 20 3 (initial_state "::Foo::Bar::x".toList) =
      Except.ok [(TYPENAME, "Foo::Bar".toList, tsym_ssym.type (TypeRef.named 2)),
                 (COLONCOLON, [], tsym_ssym.null),
                 (NAME, "x".toList, tsym_ssym.type (TypeRef.named 2))] ∧
    yylex_tokens env_nested 20 3 (initial_state "Foo::Bar::x".toList) =
      Except.ok [(TYPENAME, "Foo::Bar".toList, tsym_ssym.type (TypeRef.named 2)),
                 (COLONCOLON, [], tsym_ssym.null),
                 (NAME, "x".toList, tsym_ssym.type (TypeRef.named 2))] := by
  refine ⟨rfl, rfl, by decide, ?_, by decide, by decide⟩
  obtain ⟨token, _, _, stopper, more, _, _, _, hs, hn⟩ :=
    yylex_pending_coloncolon env_nested 20 (initial_state "::x".toList)
      (COLONCOLON,
        { lexptr := [], prev_lexptr := some "x".toList, popping := true,
          token_fifo := [{ token := NAME,
                           value := { stoken := "x".toList,
                                      opcode := exp_opcode.BINOP_END } }] })
      rfl rfl (by decide) (Or.inr rfl)
  by_cases hc : token = COLONCOLON ∧ more = []
  · exact ⟨stopper, (hs hc).2.2.2⟩
  · exact absurd (hn hc).1 (by decide)

/-! ## The number case of the inner lexer -/

theorem lex_number_extent (env : Env) (st : State) (tokstart : List Char) (c : Char) :
    lex_number env st tokstart c =
      match parse_number env.cfg tokstart (number_extent env.cfg.input_radix tokstart c).1
          (number_extent env.cfg.input_radix tokstart c).2 with
      | Except.error e => Except.error e
      | Except.ok NumToken.ERROR =>
        Except.error (Failure.error (msg_invalid_number
          (tokstart.take (number_extent env.cfg.input_radix tokstart c).1)))
      | Except.ok (NumToken.INT v t) =>
        Except.ok (INT,
          { st with lexptr := tokstart.drop (number_extent env.cfg.input_radix tokstart c).1,
                    yylval := { st.yylval with int_val := v,
                                               int_type := some (TypeRef.builtin t) } })
      | Except.ok NumToken.FLOAT =>
        Except.ok (FLOAT,
          { st with lexptr := tokstart.drop (number_extent env.cfg.input_radix tokstart c).1,
                    yylval := { st.yylval with
                      float_val := tokstart.take (number_extent env.cfg.input_radix tokstart c).1,
                      float_type := env.parse_c_float_type
                        (tokstart.take (number_extent env.cfg.input_radix tokstart c).1) } })
      | Except.ok (NumToken.DECFLOAT t) =>
        Except.ok (DECFLOAT,
          { st with lexptr := tokstart.drop (number_extent env.cfg.input_radix tokstart c).1,
                    yylval := { st.yylval with
                      decfloat_val :=
                        tokstart.take ((number_extent env.cfg.input_radix tokstart c).1 - 2),
                      decfloat_type := some (TypeRef.builtin t) } }) := by
  rfl

theorem alnum_not_mark (c : Char) (h : (is_digit_char c || is_letter_char c) = true) :
    c ≠ '.' ∧ c ≠ '+' ∧ c ≠ '-' := by
  refine ⟨?_, ?_, ?_⟩ <;> intro hc <;> rw [hc] at h <;> exact absurd h (by decide)

theorem digit_not_marker (c : Char) (h : is_digit_char c = true) :
    c ≠ 'e' ∧ c ≠ 'E' := by
  refine ⟨?_, ?_⟩ <;> intro hc <;> rw [hc] at h <;> exact absurd h (by decide)

/-- A digit or a letter that is no exponent marker to be seen goes into the
number. -/
theorem number_scan_alnum (hex : Bool) (c : Char) (rest : List Char) (prev : Char)
    (got_dot got_e : Bool) (k : Nat)
    (h : (is_digit_char c || is_letter_char c) = true)
    (he : hex = true ∨ got_e = true ∨ (c ≠ 'e' ∧ c ≠ 'E')) :
    number_scan hex (c :: rest) prev got_dot got_e k =
      number_scan hex rest c got_dot got_e (k + 1) := by
  obtain ⟨h1, h2, h3⟩ := alnum_not_mark c h
  have h4 : (!is_digit_char c && !is_letter_char c) = false := by
    cases hd : is_digit_char c <;> cases hl : is_letter_char c <;> simp_all
  rw [number_scan]
  rcases he with he | he | he
  · simp [he, h1, h2, h3, h4]
  · simp [he, h1, h2, h3, h4]
  · simp [he.1, he.2, h1, h2, h3, h4]

theorem number_scan_run (hex : Bool) (rest : List Char) (got_dot got_e : Bool) :
    ∀ (run : List Char) (prev : Char) (k : Nat),
      (∀ d ∈ run, (is_digit_char d || is_letter_char d) = true ∧
        (hex = true ∨ got_e = true ∨ (d ≠ 'e' ∧ d ≠ 'E'))) →
      number_scan hex (run ++ rest) prev got_dot got_e k =
        number_scan hex rest (run.foldl (fun _ d => d) prev) got_dot got_e (k + run.length) := by
  intro run
  induction run with
  | nil => intro prev k _; rfl
  | cons c run ih =>
    intro prev k h
    have hc := h c (List.mem_cons_self _ _)
    rw [List.cons_append, number_scan_alnum hex c _ prev got_dot got_e k hc.1 hc.2,
      ih c (k + 1) (fun d hd => h d (List.mem_cons_of_mem _ hd))]
    simp only [List.foldl_cons, List.length_cons]
    rw [Nat.add_assoc, Nat.add_comm 1]

/-- The loop breaks at a text that ends the number, unless a sign stands there
right after an exponent marker. -/
theorem number_scan_end (hex : Bool) (rest : List Char) (prev : Char) (got_dot got_e : Bool)
    (k : Nat) (hend : ends_number got_dot rest = true)
    (hsign : got_e = false ∨ (prev ≠ 'e' ∧ prev ≠ 'E') ∨ (deref rest ≠ '+' ∧ deref rest ≠ '-')) :
    number_scan hex rest prev got_dot got_e k = (k, got_dot, got_e) := by
  cases rest with
  | nil => rfl
  | cons c rest =>
    simp only [ends_number, deref, Bool.and_eq_true, Bool.not_eq_true', Bool.or_eq_true,
      decide_eq_true_eq] at hend
    obtain ⟨⟨hd, hl⟩, hdot⟩ := hend
    have hne : c ≠ 'e' ∧ c ≠ 'E' := by
      constructor <;> intro hc <;> rw [hc] at hl <;> exact absurd hl (by decide)
    rw [number_scan]
    simp only [deref] at hsign
    rcases hdot with hdot | hdot <;> rcases hsign with hs | hs | hs <;>
      simp [hne.1, hne.2, hd, hl, hdot, hs]

theorem number_scan_dot (hex : Bool) (rest : List Char) (prev : Char) (got_e : Bool) (k : Nat) :
    number_scan hex ('.' :: rest) prev false got_e k =
      number_scan hex rest '.' true got_e (k + 1) := by
  rw [number_scan]
  simp

theorem number_scan_marker (c : Char) (rest : List Char) (prev : Char) (got_dot : Bool)
    (k : Nat) (hc : c = 'e' ∨ c = 'E') :
    number_scan false (c :: rest) prev got_dot false k =
      number_scan false rest c true true (k + 1) := by
  rw [number_scan]
  rcases hc with hc | hc <;> simp [hc]

theorem number_scan_sign (hex : Bool) (c : Char) (rest : List Char) (prev : Char) (k : Nat)
    (hp : prev = 'e' ∨ prev = 'E') (hc : c = '+' ∨ c = '-') :
    number_scan hex (c :: rest) prev true true k =
      number_scan hex rest c true true (k + 1) := by
  rw [number_scan]
  rcases hp with hp | hp <;> rcases hc with hc | hc <;> simp [hp, hc]

theorem last_of_digits : ∀ (run : List Char) (prev : Char), run ≠ [] →
    (∀ d ∈ run, is_digit_char d = true) →
    is_digit_char (run.foldl (fun _ d => d) prev) = true := by
  intro run
  induction run with
  | nil => intro prev h; exact absurd rfl h
  | cons c run ih =>
    intro prev _ h
    cases run with
    | nil => exact h c (List.mem_cons_self _ _)
    | cons d run =>
      exact ih c (List.cons_ne_nil _ _) (fun x hx => h x (List.mem_cons_of_mem _ hx))

theorem digits_run (hex got_e : Bool) (run : List Char)
    (h : ∀ d ∈ run, is_digit_char d = true) :
    ∀ d ∈ run, (is_digit_char d || is_letter_char d) = true ∧
      (hex = true ∨ got_e = true ∨ (d ≠ 'e' ∧ d ≠ 'E')) := by
  intro d hd
  refine ⟨?_, Or.inr (Or.inr (digit_not_marker d (h d hd)))⟩
  rw [h d hd]
  rfl

/-- The exponent of a number with `hex` clear: the marker, the sign right
after it and the digits go into the number, which ends at a text that ends a
number. -/
theorem number_scan_exponent (expo rest : List Char) (prev : Char) (got_dot : Bool) (k : Nat)
    (hx : is_exponent expo = true)
    (hend : ends_number (got_dot || decide (expo ≠ [])) rest = true) :
    number_scan false (expo ++ rest) prev got_dot false k =
      (k + expo.length, got_dot || decide (expo ≠ []), decide (expo ≠ [])) := by
  cases expo with
  | nil =>
    simp only [List.nil_append, List.length_nil, Nat.add_zero]
    have hg : (got_dot || decide (([] : List Char) ≠ [])) = got_dot := by simp
    rw [hg] at hend ⊢
    exact number_scan_end false rest prev got_dot false k hend (Or.inl rfl)
  | cons c more =>
    have hg : (got_dot || decide (c :: more ≠ [])) = true := by simp
    rw [hg] at hend ⊢
    simp only [is_exponent, Bool.and_eq_true, Bool.or_eq_true, decide_eq_true_eq] at hx
    obtain ⟨hc, hmore⟩ := hx
    rw [List.cons_append, number_scan_marker c _ prev got_dot k hc]
    have hdec : decide (c :: more ≠ []) = true := by simp
    rw [hdec]
    by_cases hs : deref more = '+' ∨ deref more = '-'
    · rw [if_pos hs] at hmore
      cases more with
      | nil => rcases hs with hs | hs <;> exact absurd hs (by decide)
      | cons s x =>
        simp only [List.tail_cons, Bool.and_eq_true, decide_eq_true_eq, List.all_eq_true] at hmore
        rw [List.cons_append, number_scan_sign false s _ c (k + 1) hc hs,
          number_scan_run false rest true true x s (k + 1 + 1) (digits_run false true x hmore.2)]
        have hlast := last_of_digits x s hmore.1 hmore.2
        have hne := digit_not_marker _ hlast
        rw [number_scan_end false rest _ true true _ hend (Or.inr (Or.inl hne))]
        simp only [List.length_cons]
        have : k + 1 + 1 + x.length = k + (x.length + 1 + 1) := by omega
        rw [this]
    · rw [if_neg hs] at hmore
      simp only [Bool.and_eq_true, decide_eq_true_eq, List.all_eq_true] at hmore
      rw [number_scan_run false rest true true more c (k + 1) (digits_run false true more hmore.2)]
      have hlast := last_of_digits more c hmore.1 hmore.2
      have hne := digit_not_marker _ hlast
      rw [number_scan_end false rest _ true true _ hend (Or.inr (Or.inl hne))]
      simp only [List.length_cons]
      have : k + 1 + more.length = k + (more.length + 1) := by omega
      rw [this]

/-- A number of decimal digits, a fraction and an exponent is scanned whole
with `hex` clear; `got_dot` is set by the point or the marker and `got_e` by
the marker. -/
theorem number_scan_float (m frac expo rest : List Char) (prev : Char) (k : Nat)
    (hm : ∀ d ∈ m, is_digit_char d = true) (hf : is_fraction frac = true)
    (hx : is_exponent expo = true)
    (hend : ends_number (decide (frac ≠ []) || decide (expo ≠ [])) rest = true) :
    number_scan false (m ++ frac ++ expo ++ rest) prev false false k =
      (k + (m ++ frac ++ expo).length, decide (frac ≠ []) || decide (expo ≠ []),
        decide (expo ≠ [])) := by
  rw [List.append_assoc, List.append_assoc,
    number_scan_run false _ false false m prev k (digits_run false false m hm)]
  cases frac with
  | nil =>
    rw [List.nil_append, number_scan_exponent expo rest _ false _ hx hend]
    refine Prod.ext ?_ rfl
    simp only [List.append_nil, List.length_append, Nat.add_assoc]
  | cons c f =>
    simp only [is_fraction, Bool.and_eq_true, decide_eq_true_eq, List.all_eq_true] at hf
    obtain ⟨hc, hfd⟩ := hf
    have hg : decide (c :: f ≠ []) = true := by simp
    rw [hg] at hend ⊢
    rw [hc, List.cons_append, number_scan_dot false _ _ false _, List.append_assoc,
      number_scan_run false _ true false f '.' _ (digits_run false false f hfd),
      number_scan_exponent expo rest _ true _ hx hend]
    refine Prod.ext ?_ rfl
    simp only [List.length_append, List.length_cons]
    omega

/-- With `hex` set the letters `e` and `E` are digits as the others: a run of
digits and letters is scanned up to a text that ends a number, no sign is taken
and neither flag is set. -/
theorem number_scan_hex (run rest : List Char) (prev : Char) (k : Nat)
    (hrun : ∀ d ∈ run, (is_digit_char d || is_letter_char d) = true)
    (hend : ends_number false rest = true) :
    number_scan true (run ++ rest) prev false false k = (k + run.length, false, false) := by
  rw [number_scan_run true rest false false run prev k
    (fun d hd => ⟨hrun d hd, Or.inl rfl⟩)]
  exact number_scan_end true rest _ false false _ hend (Or.inl rfl)

theorem digit_ne (c d : Char) (hc : is_digit_char c = true) (hd : is_digit_char d = false) :
    c ≠ d := by
  intro h
  rw [h, hd] at hc
  exact Bool.noConfusion hc

/-- No operator of the tables is found at a digit, nor at a `.` that a digit
follows. -/
theorem no_operator_at_number (c : Char) (rest : List Char) (cplus : Bool)
    (hc : is_digit_char c = true ∨ (c = '.' ∧ is_digit_char (deref rest) = true)) :
    find_token tokentab3 (fun t => strncmp_eq (c :: rest) t.operator 3) cplus = none ∧
    find_token tokentab2 (fun t => strncmp_eq (c :: rest) t.operator 2) cplus = none := by
  rcases hc with hc | ⟨hc, hd⟩
  · have h3 : ∀ e ∈ tokentab3, is_digit_char (deref e.operator) = false := by decide
    have h2 : ∀ e ∈ tokentab2, is_digit_char (deref e.operator) = false := by decide
    exact no_operator_at c rest cplus
      (fun e he => (digit_ne c _ hc (h3 e he)).symm)
      (fun e he => (digit_ne c _ hc (h2 e he)).symm)
  · constructor
    · have h3 : ∀ e ∈ tokentab3, deref e.operator ≠ '.' := by decide
      apply find_token_none
      intro e he hhit
      have hne : deref (c :: rest) ≠ deref e.operator := by
        rw [hc]
        exact fun h => h3 e he h.symm
      rw [strncmp_eq_head_ne _ _ 2 hne] at hhit
      exact Bool.noConfusion hhit
    · apply find_token_none
      intro e he hhit
      exfalso
      have hall : ∀ t ∈ tokentab2, t.operator.length = 2 ∧ (∀ x ∈ t.operator, x ≠ NUL) ∧
          is_digit_char (nth t.operator 1) = false := by decide
      have hlen := hall e he
      have htake := (strncmp_eq_take e.operator hlen.2.1 (c :: rest)).1
        (by rw [hlen.1]; exact hhit)
      rw [hlen.1] at htake
      have hn : nth e.operator 1 = deref rest := by
        rw [← htake]
        cases rest <;> rfl
      rw [hn, hd] at hlen
      exact Bool.noConfusion hlen.2.2

theorem lex_switch_number (env : Env) (retry : State → Except Failure (Nat × State))
    (saw : Bool) (st : State) (c : Char) (rest : List Char) (hq : st.lexptr = c :: rest)
    (hc : is_digit_char c = true ∨ (c = '.' ∧ is_digit_char (deref rest) = true)) :
    lex_switch env retry saw st = lex_number env st st.lexptr c := by
  have hnth : nth (c :: rest) 1 = deref rest := by cases rest <;> rfl
  rcases hc with hc | ⟨hc, hd⟩
  · have hne := fun d hd => digit_ne c d hc hd
    unfold lex_switch
    simp only [hq, deref, hc, hne NUL (by decide), hne ' ' (by decide),
      hne '\t' (by decide), hne '\n' (by decide), hne '[' (by decide), hne '(' (by decide),
      hne ']' (by decide), hne ')' (by decide), hne ',' (by decide), hne '.' (by decide),
      false_or, or_false, false_and, if_false, or_true, if_true]
  · subst hc
    cases st
    simp only at hq
    subst hq
    have hde : deref ('.' :: rest) = '.' := rfl
    unfold lex_switch
    simp only [hde, hnth, hd]
    rfl

/-- At a digit, or at a `.` that a digit follows, outside a macro expansion or
with no macro found there, `lex_one_token` runs the number case. -/
theorem lex_one_token_number_case (env : Env) (st : State) (fuel : Nat) (c : Char)
    (rest : List Char)
    (hquiet : st.macro_original_text.isSome = true ∨ env.macro_expand_next st.lexptr = none)
    (htext : st.lexptr = c :: rest)
    (hc : is_digit_char c = true ∨ (c = '.' ∧ is_digit_char (deref rest) = true)) :
    lex_one_token env (fuel + 1) st = lex_number env (after_stop st) st.lexptr c := by
  have hexp : expand_macro env { st with last_was_structop := false } =
      { st with last_was_structop := false } := expand_macro_none env _ hquiet
  have hno := no_operator_at_number c rest env.cplus hc
  rw [← htext] at hno
  unfold lex_one_token
  rw [lex_retry_switch env fuel _ _ hexp hno.1 hno.2]
  have hst : ({ st with last_was_structop := false, prev_lexptr := some st.lexptr } : State)
      = after_stop st := rfl
  simp only [hst]
  exact lex_switch_number env _ _ (after_stop st) c rest htext hc

theorem parse_number_float_token (cfg : Config) (p : List Char) (len : Nat) :
    parse_number_float cfg p len = NumToken.ERROR ∨
    parse_number_float cfg p len = NumToken.FLOAT ∨
    ∃ t, parse_number_float cfg p len = NumToken.DECFLOAT t := by
  unfold parse_number_float
  split
  · exact Or.inr (Or.inr ⟨_, rfl⟩)
  · split
    · exact Or.inr (Or.inr ⟨_, rfl⟩)
    · split
      · exact Or.inr (Or.inr ⟨_, rfl⟩)
      · split
        · exact Or.inr (Or.inl rfl)
        · exact Or.inl rfl

theorem parse_number_int_token (cfg : Config) (p : List Char) (len : Nat) (tok : NumToken)
    (h : parse_number cfg p len false = Except.ok tok) :
    tok = NumToken.ERROR ∨ ∃ v t, tok = NumToken.INT v t := by
  unfold parse_number at h
  simp only [Bool.false_eq_true, if_false] at h
  split at h
  · injection h with h
    exact Or.inl h.symm
  · exact Except.noConfusion h
  · injection h with h
    exact Or.inr ⟨_, _, h.symm⟩

/-- What the number case returns: the token ends where the scan ended, and it
is `INT` if neither flag was set and `FLOAT` or `DECFLOAT` if one was. -/
theorem lex_number_token (env : Env) (st : State) (tokstart : List Char) (c : Char)
    (r : Nat × State) (h : lex_number env st tokstart c = Except.ok r) :
    r.2.lexptr = tokstart.drop (number_extent env.cfg.input_radix tokstart c).1 ∧
    ((number_extent env.cfg.input_radix tokstart c).2 = true →
      (r.1 = FLOAT ∧ r.2.yylval.float_val =
        tokstart.take (number_extent env.cfg.input_radix tokstart c).1) ∨ r.1 = DECFLOAT) ∧
    ((number_extent env.cfg.input_radix tokstart c).2 = false → r.1 = INT) := by
  rw [lex_number_extent] at h
  cases hpf : (number_extent env.cfg.input_radix tokstart c).2 with
  | true =>
    rw [hpf] at h
    have hp : parse_number env.cfg tokstart (number_extent env.cfg.input_radix tokstart c).1 true
        = Except.ok (parse_number_float env.cfg tokstart
            (number_extent env.cfg.input_radix tokstart c).1) := rfl
    rw [hp] at h
    rcases parse_number_float_token env.cfg tokstart
        (number_extent env.cfg.input_radix tokstart c).1 with ht | ht | ⟨t, ht⟩
    · rw [ht] at h
      exact Except.noConfusion h
    · rw [ht] at h
      injection h with h
      rw [← h]
      exact ⟨rfl, fun _ => Or.inl ⟨rfl, rfl⟩, fun h0 => Bool.noConfusion h0⟩
    · rw [ht] at h
      injection h with h
      rw [← h]
      exact ⟨rfl, fun _ => Or.inr rfl, fun h0 => Bool.noConfusion h0⟩
  | false =>
    rw [hpf] at h
    cases hp : parse_number env.cfg tokstart
        (number_extent env.cfg.input_radix tokstart c).1 false with
    | error e => rw [hp] at h; exact Except.noConfusion h
    | ok tok =>
      rw [hp] at h
      rcases parse_number_int_token env.cfg tokstart _ tok hp with ht | ⟨v, t, ht⟩
      · rw [ht] at h
        exact Except.noConfusion h
      · rw [ht] at h
        injection h with h
        rw [← h]
        exact ⟨rfl, fun h0 => Bool.noConfusion h0, fun _ => rfl⟩

theorem lex_switch_point (env : Env) (retry : State → Except Failure (Nat × State))
    (saw : Bool) (st : State) (rest : List Char)
    (hq : st.lexptr = '.' :: rest) (hd : is_digit_char (deref rest) = false) :
    lex_switch env retry saw st =
      Except.ok ('.'.toNat,
        { st with lexptr := rest,
                  last_was_structop := env.in_parse_field || st.last_was_structop }) := by
  cases st
  simp only at hq
  subst hq
  have hn : nth ('.' :: rest) 1 = deref rest := by cases rest <;> rfl
  have hde : deref ('.' :: rest) = '.' := rfl
  unfold lex_switch
  simp only [hde, hn, hd]
  cases hp : env.in_parse_field <;> rfl

/-- At a `.` that neither a digit nor, in C++, a `*` follows no operator of the
tables is found. -/
theorem no_operator_at_point (rest : List Char) (cplus : Bool)
    (hstar : cplus = true → deref rest ≠ '*') :
    find_token tokentab3 (fun t => strncmp_eq ('.' :: rest) t.operator 3) cplus = none ∧
    find_token tokentab2 (fun t => strncmp_eq ('.' :: rest) t.operator 2) cplus = none := by
  constructor
  · have h3 : ∀ e ∈ tokentab3, deref e.operator ≠ '.' := by decide
    apply find_token_none
    intro e he hhit
    have hne : deref ('.' :: rest) ≠ deref e.operator := fun h => h3 e he h.symm
    rw [strncmp_eq_head_ne _ _ 2 hne] at hhit
    exact Bool.noConfusion hhit
  · apply find_token_none
    intro e he hhit
    have hall : ∀ t ∈ tokentab2, t.operator.length = 2 ∧ (∀ x ∈ t.operator, x ≠ NUL) ∧
        (deref t.operator = '.' → nth t.operator 1 = '*' ∧ t.cxx_only = true) := by decide
    obtain ⟨hlen, hnul, hdot⟩ := hall e he
    have htake := (strncmp_eq_take e.operator hnul ('.' :: rest)).1
      (by rw [hlen]; exact hhit)
    rw [hlen] at htake
    have hfirst : deref e.operator = '.' := by
      rw [← htake]
      rfl
    have hn : nth e.operator 1 = deref rest := by
      rw [← htake]
      cases rest <;> rfl
    obtain ⟨hs, hcxx⟩ := hdot hfirst
    refine ⟨hcxx, ?_⟩
    cases cplus with
    | false => rfl
    | true => exact absurd (hn.symm.trans hs) (hstar rfl)

/-- C33 (amended): outside a macro expansion or with no macro found at the
text, at a digit, or at a `.` that a digit follows, `lex_one_token` runs the
number case: the token ends where the scan ends, it is `INT` when the scan saw
neither a `.` nor an exponent marker and `FLOAT` or `DECFLOAT` when it saw one
(`parse_number` is then called with `parsed_float` set).  `hex` is set by a
prefix `0x` or `0X`, cleared by a prefix `0t`, `0T`, `0d` or `0D`, and is
`input_radix > 10` with no prefix.  With `hex` clear, decimal digits, then
nothing or `.` and digits, then nothing or `e` or `E`, an optional sign and
digits, are scanned as one token up to a text that starts with no digit, no
letter and no first `.`.  With `hex` set a run of digits and letters, `e` and
`E` among them, is scanned up to such a text, a sign included, and neither
flag is set.  A `.` that no digit follows is returned as the token `.`,
unless in C++ a `*` follows it. -/
theorem lex_one_token_number (env : Env) (st : State) (fuel : Nat) (c : Char)
    (text : List Char)
    (hquiet : st.macro_original_text.isSome = true ∨ env.macro_expand_next st.lexptr = none)
    (htext : st.lexptr = c :: text) :
    ((is_digit_char c = true ∨ (c = '.' ∧ is_digit_char (deref text) = true)) →
      lex_one_token env (fuel + 1) st = lex_number env (after_stop st) st.lexptr c ∧
      ∀ r : Nat × State, lex_one_token env (fuel + 1) st = Except.ok r →
        r.2.lexptr = st.lexptr.drop (number_extent env.cfg.input_radix st.lexptr c).1 ∧
        ((number_extent env.cfg.input_radix st.lexptr c).2 = true →
          (r.1 = FLOAT ∧ r.2.yylval.float_val =
            st.lexptr.take (number_extent env.cfg.input_radix st.lexptr c).1) ∨
          r.1 = DECFLOAT) ∧
        ((number_extent env.cfg.input_radix st.lexptr c).2 = false → r.1 = INT)) ∧
    (∀ radix : Nat,
      (c = '0' → deref text = 'x' ∨ deref text = 'X' →
        number_start radix st.lexptr c = (2, true)) ∧
      (c = '0' → deref text = 't' ∨ deref text = 'T' ∨ deref text = 'd' ∨ deref text = 'D' →
        number_start radix st.lexptr c = (2, false)) ∧
      (¬ (c = '0' ∧ (deref text = 'x' ∨ deref text = 'X' ∨ deref text = 't' ∨ deref text = 'T'
          ∨ deref text = 'd' ∨ deref text = 'D')) →
        number_start radix st.lexptr c = (0, decide (radix > 10)))) ∧
    (∀ (radix : Nat) (pre m frac expo rest : List Char),
      number_start radix st.lexptr c = (pre.length, false) →
      st.lexptr = pre ++ (m ++ frac ++ expo ++ rest) →
      (∀ d ∈ m, is_digit_char d = true) → is_fraction frac = true → is_exponent expo = true →
      ends_number (decide (frac ≠ []) || decide (expo ≠ [])) rest = true →
      number_extent radix st.lexptr c =
        (pre.length + (m ++ frac ++ expo).length, decide (frac ≠ []) || decide (expo ≠ []))) ∧
    (∀ (radix : Nat) (pre run rest : List Char),
      number_start radix st.lexptr c = (pre.length, true) →
      st.lexptr = pre ++ (run ++ rest) →
      (∀ d ∈ run, (is_digit_char d || is_letter_char d) = true) →
      ends_number false rest = true →
      number_extent radix st.lexptr c = (pre.length + run.length, false)) ∧
    (c = '.' → is_digit_char (deref text) = false → (env.cplus = true → deref text ≠ '*') →
      lex_one_token env (fuel + 1) st =
        Except.ok ('.'.toNat,
          { after_stop st with lexptr := text, last_was_structop := env.in_parse_field })) := by
  have hnth : nth st.lexptr 1 = deref text := by
    rw [htext]
    cases text <;> rfl
  refine ⟨fun hc => ?_, fun radix => ⟨fun h0 hx => ?_, fun h0 ht => ?_, fun hn => ?_⟩,
    fun radix pre m frac expo rest hstart hshape hm hf hx hend => ?_,
    fun radix pre run rest hstart hshape hrun hend => ?_, fun hc hd hstar => ?_⟩
  · have hcase := lex_one_token_number_case env st fuel c text hquiet htext hc
    refine ⟨hcase, fun r hr => ?_⟩
    rw [hcase] at hr
    exact lex_number_token env (after_stop st) st.lexptr c r hr
  · unfold number_start
    rw [hnth, h0]
    rcases hx with hx | hx <;> rw [hx] <;> rfl
  · unfold number_start
    rw [hnth, h0]
    rcases ht with ht | ht | ht | ht <;> rw [ht] <;> rfl
  · unfold number_start
    rw [hnth]
    by_cases h0 : c = '0'
    · have hx : deref text ≠ 'x' ∧ deref text ≠ 'X' ∧ deref text ≠ 't' ∧ deref text ≠ 'T'
          ∧ deref text ≠ 'd' ∧ deref text ≠ 'D' := by
        refine ⟨?_, ?_, ?_, ?_, ?_, ?_⟩ <;> intro hx <;> apply hn <;> refine ⟨h0, ?_⟩ <;>
          simp only [hx, true_or, or_true]
      simp [hx.1, hx.2.1, hx.2.2.1, hx.2.2.2.1, hx.2.2.2.2.1, hx.2.2.2.2.2]
    · simp [h0]
  · unfold number_extent
    rw [hstart]
    simp only
    rw [hshape, List.drop_left,
      number_scan_float m frac expo rest NUL pre.length hm hf hx hend]
    refine Prod.ext rfl ?_
    cases decide (frac ≠ []) <;> cases decide (expo ≠ []) <;> rfl
  · unfold number_extent
    rw [hstart]
    simp only
    rw [hshape, List.drop_left, number_scan_hex run rest NUL pre.length hrun hend]
    rfl
  · have hexp : expand_macro env { st with last_was_structop := false } =
        { st with last_was_structop := false } := expand_macro_none env _ hquiet
    have hno := no_operator_at_point text env.cplus hstar
    rw [hc] at htext
    rw [← htext] at hno
    unfold lex_one_token
    rw [lex_retry_switch env fuel _ _ hexp hno.1 hno.2]
    have hst : ({ st with last_was_structop := false, prev_lexptr := some st.lexptr } : State)
        = after_stop st := rfl
    simp only [hst]
    rw [lex_switch_point env _ _ (after_stop st) text htext hd]
    cases env.in_parse_field <;> rfl

/-- C33: with `input_radix` 16 the text `0d1e+5` is not cut before the sign:
the prefix `0d` clears `hex`, the scan takes all 6 characters as a floating
literal, and the lexer reports the whole text as an invalid number when
`parse_c_float` rejects it and returns it as one `FLOAT` token when it accepts
it, while `1e+5` with no prefix is cut after `1e`.  And in C++ the `.` of `.*x`,
which no digit follows, is not returned as the token `.`: the token is
`DOT_STAR`. -/
theorem lex_number_decimal_prefix_counterexample :
    number_extent 16 "0d1e+5".toList '0' = (6, true) ∧
    number_extent 16 "1e+5".toList '1' = (2, false) ∧
    lex_one_token { cfg := cfg32 16 } 1 (initial_state "0d1e+5".toList) =
      Except.error (Failure.error (msg_invalid_number "0d1e+5".toList)) ∧
    lex_one_token (env_float 16) 1 (initial_state "0d1e+5".toList) =
      Except.ok (FLOAT, { lexptr := [], prev_lexptr := some "0d1e+5".toList,
                          yylval := { float_val := "0d1e+5".toList } }) ∧
    lex_one_token { env_c with cplus := true } 1 (initial_state ".*x".toList) =
      Except.ok (DOT_STAR, { lexptr := "x".toList, prev_lexptr := some ".*x".toList,
                             yylval := { opcode := exp_opcode.BINOP_END } }) := by
  decide

/-- C33 at the text `1.5e-3*2` with `input_radix` 10: the 6 characters `1.5e-3`
are one `FLOAT` token and `lexptr` is left at `*2`; at `1e+5` the whole text is
one `FLOAT` token; at `0x1e+2`, and at `1e+2` with `input_radix` 16, the token
is the integer 30 and `lexptr` is left at `+2`; at `.5+x` the token is the
`FLOAT` `.5`, and at `.x` it is `.`. -/
theorem lex_one_token_number_witness :
    ((initial_state "1.5e-3*2".toList).macro_original_text.isSome = true ∨
      (env_float 10).macro_expand_next (initial_state "1.5e-3*2".toList).lexptr = none) ∧
    (initial_state "1.5e-3*2".toList).lexptr = '1' :: ".5e-3*2".toList ∧
    number_extent 10 (initial_state "1.5e-3*2".toList).lexptr '1' = (6, true) ∧
    lex_one_token (env_float 10) 1 (initial_state "1.5e-3*2".toList) =
      Except.ok (FLOAT, { lexptr := "*2".toList, prev_lexptr := some "1.5e-3*2".toList,
                          yylval := { float_val := "1.5e-3".toList } }) ∧
    lex_one_token (env_float 10) 1 (initial_state "1e+5".toList) =
      Except.ok (FLOAT, { lexptr := [], prev_lexptr := some "1e+5".toList,
                          yylval := { float_val := "1e+5".toList } }) ∧
    lex_one_token (env_float 10) 1 (initial_state "0x1e+2".toList) =
      Except.ok (INT, { lexptr := "+2".toList, prev_lexptr := some "0x1e+2".toList,
                        yylval := { int_val := 30,
                                    int_type := some (TypeRef.builtin CType.builtin_int) } }) ∧
    lex_one_token (env_float 16) 1 (initial_state "1e+2".toList) =
      Except.ok (INT, { lexptr := "+2".toList, prev_lexptr := some "1e+2".toList,
                        yylval := { int_val := 30,
                                    int_type := some (TypeRef.builtin CType.builtin_int) } }) ∧
    lex_one_token (env_float 10) 1 (initial_state ".5+x".toList) =
      Except.ok (FLOAT, { lexptr := "+x".toList, prev_lexptr := some ".5+x".toList,
                          yylval := { float_val := ".5".toList } }) ∧
    lex_one_token (env_float 10) 1 (initial_state ".x".toList) =
      Except.ok ('.'.toNat, { lexptr := "x".toList, prev_lexptr := some ".x".toList }) :=
  ⟨Or.inr rfl, rfl,
   (lex_one_token_number (env_float 10) (initial_state "1.5e-3*2".toList) 0 '1'
      ".5e-3*2".toList (Or.inr rfl) rfl).2.2.1 10 [] "1".toList ".5".toList "e-3".toList
      "*2".toList rfl rfl (by decide) rfl rfl rfl,
   by decide, by decide, by decide, by decide, by decide, by decide⟩

end Gdb
